import Mathlib

/-!
Arrow asynchronous task scheduler and dataset writer.

A shallow embedding of `arrow/util/async_util.cc` (throttle, FIFO queue, scheduler
node) and `arrow/dataset/dataset_writer.cc` (writer throttle, file queue, directory
queue, writer facade), followed by the properties established about them.

Conventions of the embedding.

* Code that runs under a node's mutex, together with the unlocked tail that the same
  thread runs before returning, is one atomic transition of the model.
* A `Future<>` is identified by a number; `none` is an invalid (empty) future.
* `int` is 32 bit two's complement (`wrapInt32`); `uint64_t` counters that the source
  lets wrap are reduced modulo `2 ^ 64`.
* Fields marked "ghost" do not exist in the source: they record what the code did
  (which tasks were started, which futures were marked) so that properties can be
  stated about it.
-/

namespace Arrow

/-! ## Status -/

/-- The `arrow::Status` values the modelled code distinguishes. -/
inductive Status where
  | OK
  | UnknownError (msg : String)
  | Cancelled (msg : String)
  | Invalid (msg : String)
  | Failure (msg : String)
deriving DecidableEq, Repr

/-- Embedding of `Status::ok()`. -/
def Status.ok : Status → Bool
  | .OK => true
  | _ => false

/-! ## `ThrottleImpl` (async_util.cc, lines 32-71) -/

/-- Two's complement reduction of an integer to the range of a 32 bit `int`. -/
def wrapInt32 (x : Int) : Int := (x + 2 ^ 31) % 2 ^ 32 - 2 ^ 31

/-- State of a `ThrottleImpl`. `backoff` is the pending "capacity freed" future
(`none` when `backoff_` is not valid); `next_future` is ghost and supplies the
identity of the next future made by `Future<>::Make()`. -/
structure ThrottleImpl where
  max_concurrent_cost : Int
  available_cost : Int
  backoff : Option Nat
  next_future : Nat
deriving DecidableEq, Repr

/-- Constructor `ThrottleImpl(max_concurrent_cost)`, reached through `MakeThrottle`. -/
def MakeThrottle (max_concurrent_cost : Int) : ThrottleImpl :=
  { max_concurrent_cost := max_concurrent_cost
    available_cost := max_concurrent_cost
    backoff := none
    next_future := 0 }

/-- Embedding of `ThrottleImpl::Capacity`. -/
def ThrottleImpl.Capacity (t : ThrottleImpl) : Int := t.max_concurrent_cost

/-- Embedding of `ThrottleImpl::TryAcquire`. The second component is the returned
`std::optional<Future<>>`: `none` means the cost was granted. -/
def ThrottleImpl.TryAcquire (t : ThrottleImpl) (amt : Int) : ThrottleImpl × Option Nat :=
  match t.backoff with
  | some f => (t, some f)
  | none =>
    if amt ≤ t.available_cost then
      ({ t with available_cost := wrapInt32 (t.available_cost - amt) }, none)
    else
      ({ t with backoff := some t.next_future, next_future := t.next_future + 1 },
        some t.next_future)

/-- Embedding of `ThrottleImpl::Release`. The second component is
`backoff_to_fulfill`: the future that the call marks finished, if any. -/
def ThrottleImpl.Release (t : ThrottleImpl) (amt : Int) : ThrottleImpl × Option Nat :=
  ({ t with available_cost := wrapInt32 (t.available_cost + amt), backoff := none },
    t.backoff)

/-! ### Call sequences on one throttle -/

/-- A call made on a throttle. -/
inductive ThrottleCall where
  | try_acquire (amt : Int)
  | release (amt : Int)
deriving DecidableEq, Repr

/-- A throttle together with the costs that were granted and not yet released
(ghost bookkeeping of the callers). -/
structure ThrottleLedger where
  throttle : ThrottleImpl
  outstanding : List Int
deriving DecidableEq, Repr

/-- A fresh throttle of the given capacity with nothing granted. -/
def ThrottleLedger.start (capacity : Int) : ThrottleLedger :=
  { throttle := MakeThrottle capacity, outstanding := [] }

/-- One call of an admissible sequence: a `try_acquire` has a cost between `0` and the
capacity (the clamping of `AddTask`), a `release` returns the cost of a granted
acquire that is still outstanding. Any other call is not admissible (`none`). -/
def ThrottleLedger.call (l : ThrottleLedger) : ThrottleCall → Option ThrottleLedger
  | .try_acquire amt =>
    if 0 ≤ amt ∧ amt ≤ l.throttle.Capacity then
      match l.throttle.TryAcquire amt with
      | (t, none) => some { throttle := t, outstanding := amt :: l.outstanding }
      | (t, some _) => some { throttle := t, outstanding := l.outstanding }
    else none
  | .release amt =>
    if amt ∈ l.outstanding then
      some { throttle := (l.throttle.Release amt).1, outstanding := l.outstanding.erase amt }
    else none

/-- Runs a sequence of calls; `none` when some call is not admissible. -/
def ThrottleLedger.run (l : ThrottleLedger) : List ThrottleCall → Option ThrottleLedger
  | [] => some l
  | c :: cs =>
    match l.call c with
    | none => none
    | some l' => l'.run cs

/-- One call on a throttle together with the list of pending signals (ghost): the
futures made by `Future<>::Make()` that no `Release` has marked finished yet. -/
def ThrottleImpl.signalsAfter (s : ThrottleImpl × List Nat) : ThrottleCall → ThrottleImpl × List Nat
  | .try_acquire amt =>
    let r := s.1.TryAcquire amt
    (r.1, if r.1.next_future = s.1.next_future then s.2 else s.2 ++ [s.1.next_future])
  | .release amt =>
    let r := s.1.Release amt
    (r.1,
      match r.2 with
      | some f => s.2.filter (· != f)
      | none => s.2)

/-- Runs a sequence of calls on a throttle, keeping the list of pending signals. -/
def ThrottleImpl.signals (s : ThrottleImpl × List Nat) : List ThrottleCall → ThrottleImpl × List Nat
  | [] => s
  | c :: cs => ThrottleImpl.signals (ThrottleImpl.signalsAfter s c) cs

/-- The accounting invariant of a throttle of capacity `C`. -/
def ThrottleLedger.Balanced (C : Int) (l : ThrottleLedger) : Prop :=
  l.throttle.max_concurrent_cost = C ∧
  0 ≤ l.throttle.available_cost ∧
  l.throttle.available_cost + l.outstanding.sum = C ∧
  ∀ a ∈ l.outstanding, 0 ≤ a


/-! ## Scheduler node (async_util.cc, lines 139-434)

The default `FifoQueue` is a list: `Push` appends, `Pop` removes the head, `Purge`
empties it. A null `queue_` is the empty list: the code consults the queue only
through `!queue_ || queue_->Empty()` or after a throttle (and with it a queue) is
known to exist. The throttle is owned by the node. -/

/-- What calling the start function of a task, `(*task)(this)`, yields: a failed
`Result` (with its error status), a future that is already finished (with its
status), or a future that is still pending and resolves later. -/
inductive SubmitResult where
  | failed (st : Status)
  | finished (st : Status)
  | pending
deriving DecidableEq, Repr

/-- An `AsyncTaskScheduler::Task`: `id` is ghost and names the task in the logs. -/
structure Task where
  id : Nat
  cost : Int
  submit : SubmitResult
deriving DecidableEq, Repr

/-- A `Result` that is not ok always carries an error status. -/
def Task.wellFormed (task : Task) : Bool :=
  match task.submit with
  | .failed st => !st.ok
  | _ => true

/-- The `State` enumeration of a scheduler node. -/
inductive State where
  | kRunning
  | kAborted
  | kEnded
deriving DecidableEq, Repr

/-- State of an `AsyncTaskSchedulerImpl`.

* `sub_schedulers` is the length of the list of owned children.
* `global_abort` is the value of the tree-wide flag `*global_abort_`.
* Ghost: `finished_marks` lists the calls of `finished_.MarkFinished`, `accepted`
  the tasks for which `AddTask` returned true, `started` the tasks whose start
  function was called, `completed` the tasks whose future resolved, `aborts` the
  statuses passed to `AbortUnlocked`, each in order of occurrence.
* `task_callbacks` holds, for every pending task future, the task and the cost
  captured by the completion callback; `backoff_callbacks` holds the backoff futures
  on which a `ContinueTasksUnlocked` callback is registered.
* Ghost: `finish_callback_calls` lists the statuses with which a `Finalizer` of this
  node invoked the finish callback of a child. -/
structure AsyncTaskSchedulerImpl where
  queue : List Task
  throttle : Option ThrottleImpl
  has_finish_callback : Bool
  running_tasks : Int
  state : State
  maybe_error : Status
  sub_schedulers : Nat
  global_abort : Bool
  finished_marks : List Status
  accepted : List Nat
  started : List Nat
  completed : List Nat
  aborts : List Status
  task_callbacks : List (Nat × Int)
  backoff_callbacks : List Nat
  finish_callback_calls : List Status := []
deriving DecidableEq, Repr

namespace AsyncTaskSchedulerImpl

/-- Constructor of a node. A root (`parent_abort = none`) owns a fresh flag; a child
shares the flag of its parent, whose current value is `parent_abort`. -/
def make (parent_abort : Option Bool) (throttle : Option ThrottleImpl)
    (has_finish_callback : Bool) : AsyncTaskSchedulerImpl :=
  { queue := []
    throttle := throttle
    has_finish_callback := has_finish_callback
    running_tasks := 0
    state := .kRunning
    maybe_error := .OK
    sub_schedulers := 0
    global_abort := parent_abort.getD false
    finished_marks := []
    accepted := []
    started := []
    completed := []
    aborts := []
    task_callbacks := []
    backoff_callbacks := [] }

/-- The call `finished_.MarkFinished(st)`. -/
def MarkFinished (s : AsyncTaskSchedulerImpl) (st : Status) : AsyncTaskSchedulerImpl :=
  { s with finished_marks := s.finished_marks ++ [st] }

/-- Embedding of `IsFullyFinished`. -/
def IsFullyFinished (s : AsyncTaskSchedulerImpl) : Bool :=
  s.state == .kEnded && s.queue.isEmpty && s.running_tasks == 0

/-- Embedding of `AbortUnlocked`. -/
def AbortUnlocked (s : AsyncTaskSchedulerImpl) (st : Status) : AsyncTaskSchedulerImpl :=
  let s := { s with aborts := s.aborts ++ [st] }
  let s :=
    match s.state with
    | .kRunning => { s with maybe_error := st, state := .kAborted, queue := [] }
    | .kEnded =>
      { s with maybe_error := if s.maybe_error.ok then st else s.maybe_error, queue := [] }
    | .kAborted => s
  if s.running_tasks = 0 ∧ s.state = .kEnded then s.MarkFinished s.maybe_error else s

mutual

/-- Embedding of `ContinueTasksUnlocked`; the first argument bounds the depth of the
calls and the iterations. `TryAddCallback` succeeds: the future it is called on was
returned by `TryAcquire` in the same atomic section and is pending. -/
def ContinueTasksUnlocked : Nat → AsyncTaskSchedulerImpl → Option AsyncTaskSchedulerImpl
  | 0, _ => none
  | fuel + 1, s =>
    match s.queue with
    | [] => some s
    | next :: rest =>
      match s.throttle with
      | none => none
      | some t =>
        let next_cost := min next.cost t.Capacity
        match t.TryAcquire next_cost with
        | (t', some f) =>
          some { s with throttle := some t', backoff_callbacks := s.backoff_callbacks ++ [f] }
        | (t', none) =>
          match SubmitTaskUnlocked fuel { s with throttle := some t', queue := rest } next with
          | none => none
          | some (s', true) => ContinueTasksUnlocked fuel s'
          | some (s', false) => some s'

/-- Embedding of `SubmitTaskUnlocked`. -/
def SubmitTaskUnlocked :
    Nat → AsyncTaskSchedulerImpl → Task → Option (AsyncTaskSchedulerImpl × Bool)
  | 0, _, _ => none
  | fuel + 1, s, task => DoSubmitTask fuel { s with running_tasks := s.running_tasks + 1 } task

/-- Embedding of `DoSubmitTask`. -/
def DoSubmitTask :
    Nat → AsyncTaskSchedulerImpl → Task → Option (AsyncTaskSchedulerImpl × Bool)
  | 0, _, _ => none
  | fuel + 1, s, task =>
    let cost :=
      match s.throttle with
      | some t => min task.cost t.Capacity
      | none => task.cost
    let s := { s with started := s.started ++ [task.id] }
    match task.submit with
    | .failed st =>
      let s := { s with global_abort := true, running_tasks := s.running_tasks - 1 }
      some (s.AbortUnlocked st, false)
    | .pending =>
      some ({ s with task_callbacks := s.task_callbacks ++ [(task.id, cost)] }, true)
    | .finished st =>
      OnTaskFinished fuel { s with completed := s.completed ++ [task.id] } st cost

/-- Embedding of `OnTaskFinished`. Marking the backoff future finished in `Release`
runs the callbacks registered on it before `Release` returns. -/
def OnTaskFinished :
    Nat → AsyncTaskSchedulerImpl → Status → Int → Option (AsyncTaskSchedulerImpl × Bool)
  | 0, _, _, _ => none
  | fuel + 1, s, st, task_cost =>
    if !st.ok then
      some (AbortUnlocked { s with running_tasks := s.running_tasks - 1 } st, false)
    else if s.global_abort then
      some (AbortUnlocked { s with running_tasks := s.running_tasks - 1 }
        (.Cancelled "Another scheduler aborted"), false)
    else
      let released :=
        match s.throttle with
        | none => some s
        | some t =>
          match t.Release task_cost with
          | (t', none) => some { s with throttle := some t' }
          | (t', some f) =>
            RunCallbacks fuel (s.backoff_callbacks.filter (· == f))
              { s with throttle := some t'
                       backoff_callbacks := s.backoff_callbacks.filter (· != f) }
      match released with
      | none => none
      | some s =>
        let s := { s with running_tasks := s.running_tasks - 1 }
        if s.IsFullyFinished then some (s.MarkFinished s.maybe_error, false)
        else some (s, true)

/-- The callbacks registered on a backoff future that was marked finished: each one
locks the node and calls `ContinueTasksUnlocked`. -/
def RunCallbacks : Nat → List Nat → AsyncTaskSchedulerImpl → Option AsyncTaskSchedulerImpl
  | _, [], s => some s
  | 0, _ :: _, _ => none
  | fuel + 1, _ :: cs, s =>
    match ContinueTasksUnlocked fuel s with
    | none => none
    | some s' => RunCallbacks fuel cs s'

end

/-- Embedding of `AddTask`. The `DCHECK` on an ended node is compiled out of release
builds and has no effect here. -/
def AddTask (fuel : Nat) (s : AsyncTaskSchedulerImpl) (task : Task) :
    Option (AsyncTaskSchedulerImpl × Bool) :=
  if s.state = .kAborted then some (s, false)
  else if s.global_abort then
    some (s.AbortUnlocked (.Cancelled "Another scheduler aborted"), false)
  else
    match s.throttle with
    | some t =>
      if !s.queue.isEmpty then some ({ s with queue := s.queue ++ [task] }, true)
      else
        let latched_cost := min task.cost t.Capacity
        match t.TryAcquire latched_cost with
        | (t', some f) =>
          some ({ s with throttle := some t', queue := s.queue ++ [task]
                         backoff_callbacks := s.backoff_callbacks ++ [f] }, true)
        | (t', none) =>
          (SubmitTaskUnlocked fuel { s with throttle := some t' } task).map
            fun r => (r.1, true)
    | none => (SubmitTaskUnlocked fuel s task).map fun r => (r.1, true)

/-- Embedding of `End(from_destructor)`. `none`: the process is aborted because
`End` was called on a sub-scheduler. Moving `maybe_error_` into `MarkFinished`
leaves an OK status behind. -/
def End (s : AsyncTaskSchedulerImpl) (from_destructor : Bool) : Option AsyncTaskSchedulerImpl :=
  if !from_destructor && s.has_finish_callback then none
  else
    let s := { s with state := .kEnded }
    if s.running_tasks = 0 ∧ s.queue.isEmpty then
      some { s.MarkFinished s.maybe_error with maybe_error := .OK }
    else some s

/-- Parent side of `MakeSubScheduler`: `false` when the parent is not running and an
`AlreadyFailedScheduler` is returned instead of a child. -/
def MakeSubScheduler (s : AsyncTaskSchedulerImpl) : AsyncTaskSchedulerImpl × Bool :=
  if s.state ≠ .kRunning then (s, false)
  else ({ s with running_tasks := s.running_tasks + 1, sub_schedulers := s.sub_schedulers + 1 },
    true)

/-- The `Finalizer` that a parent runs when the completion signal of a child fires
with `st`; `finish_st` is what the finish callback of the child returned. -/
def Finalizer (s : AsyncTaskSchedulerImpl) (st finish_st : Status) : AsyncTaskSchedulerImpl :=
  let s := { s with sub_schedulers := s.sub_schedulers - 1, running_tasks := s.running_tasks - 1
                    finish_callback_calls := s.finish_callback_calls ++ [st] }
  if !st.ok then s.AbortUnlocked st
  else if !finish_st.ok then s.AbortUnlocked finish_st
  else if s.IsFullyFinished then s.MarkFinished s.maybe_error
  else s

/-- Embedding of the destructor `~AsyncTaskSchedulerImpl` up to the wait for the
completion signal. The destructor locks `mutex_` through `lk`; `AbortUnlocked`, which
it calls on a running node only, unlocks `lk`. The second component of `r` tells whether
`lk` still owns the mutex when `End(true)` is reached. `none`: the call does not return,
because `End` locks `mutex_`, which is not recursive, while the destructor owns it. -/
def Destructor (s : AsyncTaskSchedulerImpl) : Option AsyncTaskSchedulerImpl :=
  let r : AsyncTaskSchedulerImpl × Bool :=
    if s.state = .kRunning then
      (s.AbortUnlocked (.UnknownError "AsyncTaskScheduler abandoned before completion"), false)
    else (s, true)
  if r.1.state ≠ .kEnded then
    if r.2 then none else r.1.End true
  else some r.1

/-- Fuel that suffices for every call made on the node in state `s`. -/
def fuelFor (s : AsyncTaskSchedulerImpl) : Nat :=
  s.queue.length + s.backoff_callbacks.length + 8

end AsyncTaskSchedulerImpl

/-- What can happen to one scheduler node. `TaskFinished id st`: the pending future
of the started task `id` resolves with `st`. `ChildFinished st finish_st`: the
completion signal of a child fires. `GlobalAbort`: another node of the tree stores
true into the shared flag. -/
inductive SchedulerEvent where
  | AddTask (task : Task)
  | TaskFinished (id : Nat) (st : Status)
  | MakeSubScheduler
  | ChildFinished (st finish_st : Status)
  | End (from_destructor : Bool)
  | GlobalAbort
deriving DecidableEq, Repr

namespace AsyncTaskSchedulerImpl

/-- One event on a node; `none` when the event cannot occur in this state (the task is
ill-formed, no such task is pending, no child is registered) or aborts the process. -/
def step (s : AsyncTaskSchedulerImpl) : SchedulerEvent → Option AsyncTaskSchedulerImpl
  | .AddTask task =>
    if task.wellFormed then
      match s.AddTask s.fuelFor task with
      | none => none
      | some (s', true) => some { s' with accepted := s'.accepted ++ [task.id] }
      | some (s', false) => some s'
    else none
  | .TaskFinished id st =>
    match s.task_callbacks.find? (·.1 == id) with
    | none => none
    | some cb =>
      (OnTaskFinished s.fuelFor
        { s with task_callbacks := s.task_callbacks.erase cb
                 completed := s.completed ++ [id] } st cb.2).map (·.1)
  | .MakeSubScheduler => some s.MakeSubScheduler.1
  | .ChildFinished st finish_st =>
    if 0 < s.sub_schedulers then some (s.Finalizer st finish_st) else none
  | .End from_destructor => s.End from_destructor
  | .GlobalAbort => some { s with global_abort := true }

/-- Runs a sequence of events; `none` when one of them cannot occur. -/
def run (s : AsyncTaskSchedulerImpl) : List SchedulerEvent → Option AsyncTaskSchedulerImpl
  | [] => some s
  | e :: es =>
    match s.step e with
    | none => none
    | some s' => s'.run es

end AsyncTaskSchedulerImpl

/-! ## Scheduler tree

The nodes descended from one root share the flag the root owns. The tree keeps the
flag and the nodes; before a node runs it sees the current value of the flag, and
what it stores is seen by every node afterwards. -/

/-- A tree of scheduler nodes: node `0` is the root, `parent` gives for every node
the index of the node it was created from. -/
structure SchedulerTree where
  global_abort : Bool
  nodes : List AsyncTaskSchedulerImpl
  parent : List (Option Nat)
deriving DecidableEq, Repr

/-- What can happen in a tree: an event on the node with index `i`, or the creation
of a child of the node with index `i`. -/
inductive TreeEvent where
  | node (i : Nat) (e : SchedulerEvent)
  | MakeSubScheduler (i : Nat) (throttle : Option ThrottleImpl)
deriving DecidableEq, Repr

namespace SchedulerTree

/-- Embedding of `AsyncTaskScheduler::Make`: a tree with only a root. -/
def Make (throttle : Option ThrottleImpl) : SchedulerTree :=
  { global_abort := false
    nodes := [AsyncTaskSchedulerImpl.make none throttle false]
    parent := [none] }

/-- One event in the tree; `none` when it cannot occur. The flag changes only through
the nodes, and children are created through `TreeEvent.MakeSubScheduler`. -/
def step (t : SchedulerTree) : TreeEvent → Option SchedulerTree
  | .node _ .GlobalAbort => none
  | .node _ .MakeSubScheduler => none
  | .node i e =>
    match t.nodes[i]? with
    | none => none
    | some n =>
      match ({ n with global_abort := t.global_abort }).step e with
      | none => none
      | some n' => some { t with global_abort := n'.global_abort, nodes := t.nodes.set i n' }
  | .MakeSubScheduler i throttle =>
    match t.nodes[i]? with
    | none => none
    | some n =>
      match ({ n with global_abort := t.global_abort }).MakeSubScheduler with
      | (_, false) => some t
      | (n', true) =>
        some { t with
          nodes := t.nodes.set i n' ++
            [AsyncTaskSchedulerImpl.make (some t.global_abort) throttle true]
          parent := t.parent ++ [some i] }

/-- Runs a sequence of events; `none` when one of them cannot occur. -/
def run (t : SchedulerTree) : List TreeEvent → Option SchedulerTree
  | [] => some t
  | e :: es =>
    match t.step e with
    | none => none
    | some t' => t'.run es

end SchedulerTree

/-! ## Predicates used to state and prove the properties -/

namespace AsyncTaskSchedulerImpl

/-- The tail of `OnTaskFinished` once the throttle is released. -/
def finishTail (s : AsyncTaskSchedulerImpl) : AsyncTaskSchedulerImpl × Bool :=
  let s := { s with running_tasks := s.running_tasks - 1 }
  if s.IsFullyFinished then (s.MarkFinished s.maybe_error, false) else (s, true)

/-- The cost captured by `DoSubmitTask`. -/
def latchedCost (s : AsyncTaskSchedulerImpl) (task : Task) : Int :=
  match s.throttle with
  | some t => min task.cost t.Capacity
  | none => task.cost

/-- Proof rules for the mutually recursive part of the node. -/
structure FrameSpec where
  I : Nat → AsyncTaskSchedulerImpl → Prop
  Sp : Nat → AsyncTaskSchedulerImpl → Task → Prop
  D : Nat → AsyncTaskSchedulerImpl → Task → Prop
  F : Nat → AsyncTaskSchedulerImpl → Status → Int → Prop
  G : Nat → AsyncTaskSchedulerImpl → Prop
  continue_backoff : ∀ k s next rest t t' f, I (k + 1) s → s.queue = next :: rest →
    s.throttle = some t → t.TryAcquire (min next.cost t.Capacity) = (t', some f) →
    I (k + 1) { s with throttle := some t', backoff_callbacks := s.backoff_callbacks ++ [f] }
  continue_granted : ∀ k s next rest t t', I (k + 1) s → s.queue = next :: rest →
    s.throttle = some t → t.TryAcquire (min next.cost t.Capacity) = (t', none) →
    Sp (k + 1) { s with throttle := some t', queue := rest } next
  submit : ∀ k s task, Sp k s task →
    D (k + 1) { s with running_tasks := s.running_tasks + 1 } task
  start_failed : ∀ k s task st, D (k + 1) s task → task.submit = .failed st →
    I k (AbortUnlocked { s with started := s.started ++ [task.id], global_abort := true,
                                running_tasks := s.running_tasks - 1 } st)
  start_pending : ∀ k s task, D (k + 1) s task → task.submit = .pending →
    I k { s with started := s.started ++ [task.id],
                 task_callbacks := s.task_callbacks ++ [(task.id, s.latchedCost task)] }
  start_finished : ∀ k s task st, D (k + 1) s task → task.submit = .finished st →
    F (k + 1) { s with started := s.started ++ [task.id],
                       completed := s.completed ++ [task.id] } st (s.latchedCost task)
  finished_error : ∀ k s st c, F (k + 1) s st c → st.ok = false →
    I k (AbortUnlocked { s with running_tasks := s.running_tasks - 1 } st)
  finished_cancelled : ∀ k s st c, F (k + 1) s st c → st.ok = true → s.global_abort = true →
    I k (AbortUnlocked { s with running_tasks := s.running_tasks - 1 }
      (.Cancelled "Another scheduler aborted"))
  release_none : ∀ k s st c, F (k + 1) s st c → st.ok = true → s.global_abort = false →
    s.throttle = none → G (k + 1) s
  release_quiet : ∀ k s st c t t', F (k + 1) s st c → st.ok = true → s.global_abort = false →
    s.throttle = some t → t.Release c = (t', none) → G (k + 1) { s with throttle := some t' }
  release_signal : ∀ k s st c t t' f, F (k + 1) s st c → st.ok = true →
    s.global_abort = false → s.throttle = some t → t.Release c = (t', some f) →
    I (k + 1) { s with throttle := some t'
                       backoff_callbacks := s.backoff_callbacks.filter (· != f) }
  resumed : ∀ k s, I (k + 1) s → G (k + 1) s
  finish : ∀ k s, G (k + 1) s → I k (finishTail s).1

/-- The first status passed to `AbortUnlocked`, `OK` when there was none. -/
def firstError (aborts : List Status) : Status := aborts.head?.getD .OK

/-- Bookkeeping invariant of a node while `k` calls that were counted in
`running_tasks_` are still on the stack. -/
structure Sound (k : Nat) (s : AsyncTaskSchedulerImpl) : Prop where
  count : s.running_tasks = s.task_callbacks.length + s.sub_schedulers + k
  running_clean : s.state = .kRunning → s.aborts = []
  aborted_error : s.state = .kAborted → s.aborts ≠ []
  errors : ∀ st ∈ s.aborts, st.ok = false
  recorded : s.finished_marks = [] → s.maybe_error = firstError s.aborts
  marked : s.finished_marks ≠ [] →
    s.state = .kEnded ∧ s.running_tasks = 0 ∧ s.queue = [] ∧
    s.finished_marks = [firstError s.aborts]
  queue_wf : ∀ t ∈ s.queue, t.wellFormed = true

/-- An ended node whose completion signal is marked once nothing runs and nothing is
queued. -/
def Fired (s : AsyncTaskSchedulerImpl) : Prop :=
  s.state = .kEnded ∧ (s.running_tasks = 0 → s.queue = [] → s.finished_marks ≠ [])

/-- Events that may still occur once `End` was called, when `End` is called once and
no task is added afterwards. -/
def allowedAfterEnd : SchedulerEvent → Bool
  | .AddTask _ => false
  | .End _ => false
  | _ => true

/-- The sequence calls `End` at most once and adds no task after it. -/
def endedOnce : List SchedulerEvent → Bool
  | [] => true
  | .End _ :: es => es.all allowedAfterEnd
  | _ :: es => endedOnce es

/-- The start function of the task does not fail and its future resolves with OK. -/
def TaskSucceeds (t : Task) : Prop := t.submit = .pending ∨ t.submit = .finished .OK

instance (t : Task) : Decidable (TaskSucceeds t) := by
  unfold TaskSucceeds
  exact inferInstance

/-- Events of a run without failures: tasks that succeed are added, and task futures
resolve with OK. -/
def calmEvent : SchedulerEvent → Bool
  | .AddTask t => decide (TaskSucceeds t)
  | .TaskFinished _ st => decide (st = .OK)
  | _ => false

/-- Every added task has a cost of at least one. -/
def unitCost : SchedulerEvent → Bool
  | .AddTask t => decide (1 ≤ t.cost)
  | _ => true

/-- Order invariant of a throttled node in a run without failures: the tasks started
followed by the tasks queued are `line`, and the tasks accepted are `acc`. -/
structure FifoAt (line acc : List Nat) (s : AsyncTaskSchedulerImpl) : Prop where
  quiet : s.global_abort = false
  succeed : ∀ t ∈ s.queue, TaskSucceeds t
  throttled : s.throttle ≠ none
  order : s.started ++ s.queue.map (·.id) = line
  accepted : s.accepted = acc

/-- Invariant of a node with a throttle of capacity one whose tasks cost at least one,
in a run without failures. With `held` a call on the stack holds the unit of the
throttle; otherwise the node is idle or exactly one task is running. -/
structure Serial (held : Bool) (s : AsyncTaskSchedulerImpl) : Prop where
  quiet : s.global_abort = false
  succeed : ∀ t ∈ s.queue, TaskSucceeds t ∧ 1 ≤ t.cost
  throttle : ∃ t, s.throttle = some t ∧ t.max_concurrent_cost = 1 ∧
    if held then
      t.available_cost = 0 ∧ s.task_callbacks = [] ∧ s.started = s.completed
    else
      (t.available_cost = 1 ∧ s.task_callbacks = [] ∧ s.started = s.completed) ∨
      (t.available_cost = 0 ∧ ∃ id, s.task_callbacks = [(id, 1)] ∧
        s.started = s.completed ++ [id])

/-- The counter `running_tasks_` is the number of pending task futures plus the number
of children not yet finalized, plus `k` for the calls counted in it that are still on
the stack. -/
def Counts (k : Nat) (s : AsyncTaskSchedulerImpl) : Prop :=
  s.running_tasks = s.task_callbacks.length + s.sub_schedulers + k

/-- A node that is not running any more and whose queue is empty; `started` and
`accepted` are its logs of started and of accepted tasks. -/
def Halted (started accepted : List Nat) (s : AsyncTaskSchedulerImpl) : Prop :=
  s.state ≠ .kRunning ∧ s.queue = [] ∧ s.started = started ∧ s.accepted = accepted

/-- The tasks passed to `AddTask` in a sequence of events. -/
def addedTasks : List SchedulerEvent → List Task
  | [] => []
  | .AddTask task :: es => task :: addedTasks es
  | _ :: es => addedTasks es

/-- Cost bookkeeping of a node with a throttle of capacity `C`, `tasks` being the tasks
passed to `AddTask` so far: the cost captured for every pending task future is the cost
of such a task clamped to `C`, and every queued task is one of them. -/
def Clamped (C : Int) (tasks : List Task) (s : AsyncTaskSchedulerImpl) : Prop :=
  (∃ t, s.throttle = some t ∧ t.Capacity = C) ∧
  (∀ cb ∈ s.task_callbacks, ∃ task ∈ tasks, task.id = cb.1 ∧ cb.2 = min task.cost C) ∧
  (∀ task ∈ s.queue, task ∈ tasks)

end AsyncTaskSchedulerImpl

/-! ## `AlreadyFailedScheduler` (async_util.cc, lines 101-137) -/

/-- State of an `AlreadyFailedScheduler`. Ghost: `finish_callback_calls` lists the
statuses with which the finish callback was invoked, `started` the tasks whose start
function was called. -/
structure AlreadyFailedScheduler where
  failure_reason : Status
  finish_callback_calls : List Status
  started : List Nat
deriving DecidableEq, Repr

namespace AlreadyFailedScheduler

/-- Embedding of `AlreadyFailedScheduler::Make`; the `DCHECK` on the status is compiled
out of release builds. -/
def Make (failure : Status) : AlreadyFailedScheduler :=
  { failure_reason := failure, finish_callback_calls := [], started := [] }

/-- Embedding of `AddTask`: the task is dropped. -/
def AddTask (s : AlreadyFailedScheduler) (_task : Task) : AlreadyFailedScheduler × Bool :=
  (s, false)

/-- Embedding of `MakeSubScheduler`: the scheduler that is returned. -/
def MakeSubScheduler (s : AlreadyFailedScheduler) : AlreadyFailedScheduler :=
  Make s.failure_reason

/-- Embedding of the destructor `~AlreadyFailedScheduler`. -/
def Destructor (s : AlreadyFailedScheduler) : AlreadyFailedScheduler :=
  { s with finish_callback_calls := s.finish_callback_calls ++ [s.failure_reason] }

/-- Adds the tasks one after the other; the results of the calls, in order. -/
def addTasks (s : AlreadyFailedScheduler) : List Task → AlreadyFailedScheduler × List Bool
  | [] => (s, [])
  | task :: tasks =>
    let r := s.AddTask task
    let rs := addTasks r.1 tasks
    (rs.1, r.2 :: rs.2)

end AlreadyFailedScheduler

/-- The branch of `AsyncTaskSchedulerImpl::MakeSubScheduler` taken on a parent that is
not running: the scheduler returned in place of a child (`none` on a running parent,
which gets a child). -/
def AsyncTaskSchedulerImpl.MakeSubSchedulerFailed (s : AsyncTaskSchedulerImpl) :
    Option AlreadyFailedScheduler :=
  if s.state ≠ .kRunning then some (AlreadyFailedScheduler.Make s.maybe_error) else none

/-! ## Dataset writer (dataset_writer.cc)

A record batch is the list of its rows; `Slice(0, n)` is `take n`, `Slice(n)` is
`drop n`, and combining the chunks of a table into one batch is concatenation, which
succeeds since all batches of one write share a schema. Handing a batch to the
scheduler of a file (`ScheduleBatch`) is recorded in the ghost list `scheduled`. -/

namespace Dataset

/-- A `RecordBatch`: its rows, in order. -/
abbrev RecordBatch := List Nat

/-- Addition of `uint64_t` values. -/
def addU64 (a b : Nat) : Nat := (a + b) % 2 ^ 64

/-- Subtraction of `uint64_t` values. -/
def subU64 (a b : Nat) : Nat := (a + (2 ^ 64 - b % 2 ^ 64)) % 2 ^ 64

/-! ### `Throttle` (lines 43-87) -/

/-- State of a writer `Throttle`; `backpressure_finished` tells whether the future
held in `backpressure_` is finished. -/
structure Throttle where
  max_value : Nat
  in_waiting : Nat
  current_value : Nat
  backpressure_finished : Bool
deriving DecidableEq, Repr

namespace Throttle

/-- Constructor `Throttle(max_value)`. -/
def make (max_value : Nat) : Throttle :=
  { max_value := max_value, in_waiting := 0, current_value := 0, backpressure_finished := true }

/-- Embedding of `Unthrottled`. -/
def Unthrottled (t : Throttle) : Bool := decide (t.max_value ≤ 0)

/-- Embedding of `Acquire`; the second component tells whether the returned future is
finished. -/
def Acquire (t : Throttle) (values : Nat) : Throttle × Bool :=
  if t.Unthrottled then (t, true)
  else if addU64 values t.current_value > t.max_value then
    ({ t with in_waiting := values, backpressure_finished := false }, false)
  else
    ({ t with current_value := addU64 t.current_value values }, t.backpressure_finished)

/-- Embedding of `Release`. -/
def Release (t : Throttle) (values : Nat) : Throttle :=
  if t.Unthrottled then t
  else
    let t := { t with current_value := subU64 t.current_value values }
    if t.in_waiting > 0 ∧ addU64 t.in_waiting t.current_value ≤ t.max_value then
      { t with in_waiting := 0, backpressure_finished := true }
    else t

end Throttle

/-! ### Call sequences on one writer throttle -/

/-- A call made on a writer throttle. -/
inductive WriterThrottleCall where
  | acquire (values : Nat)
  | release (values : Nat)
deriving DecidableEq, Repr

/-- A writer throttle together with the amounts that `Acquire` added to
`current_value_` and that were not released yet (ghost bookkeeping of the callers). -/
structure WriterThrottleLedger where
  throttle : Throttle
  reserved : List Nat
deriving DecidableEq, Repr

namespace WriterThrottleLedger

/-- A fresh throttle of the given limit with nothing reserved. -/
def start (max_value : Nat) : WriterThrottleLedger :=
  { throttle := Throttle.make max_value, reserved := [] }

/-- One call of an admissible sequence. An `acquire` asks for an amount that cannot
carry the `uint64_t` sum past `2 ^ 64` (amounts are row counts, `int64_t`, or `1`); the
amount is entered in `reserved` when the call takes the branch `current_value_ +=
values`. A `release` returns an amount that is entered in `reserved`. Any other call is
not admissible (`none`). -/
def call (l : WriterThrottleLedger) : WriterThrottleCall → Option WriterThrottleLedger
  | .acquire values =>
    if values + l.throttle.max_value < 2 ^ 64 then
      some
        { throttle := (l.throttle.Acquire values).1
          reserved :=
            if addU64 values l.throttle.current_value > l.throttle.max_value then l.reserved
            else values :: l.reserved }
    else none
  | .release values =>
    if values ∈ l.reserved then
      some { throttle := l.throttle.Release values, reserved := l.reserved.erase values }
    else none

/-- Runs a sequence of calls; `none` when some call is not admissible. -/
def run (l : WriterThrottleLedger) : List WriterThrottleCall → Option WriterThrottleLedger
  | [] => some l
  | c :: cs =>
    match l.call c with
    | none => none
    | some l' => l'.run cs

/-- The accounting invariant of a writer throttle of limit `max`. -/
def Balanced (max : Nat) (l : WriterThrottleLedger) : Prop :=
  l.throttle.max_value = max ∧
  l.throttle.current_value = l.reserved.sum ∧
  l.throttle.current_value ≤ max ∧
  l.throttle.in_waiting + max < 2 ^ 64

end WriterThrottleLedger

/-! ### `DatasetWriterState` (lines 89-115) -/

/-- State shared by all queues of one write. -/
structure DatasetWriterState where
  rows_in_flight_throttle : Throttle
  open_files_throttle : Throttle
  staged_rows_count : Nat
  max_rows_staged : Nat
deriving DecidableEq, Repr

/-- Constructor of `DatasetWriterState`. -/
def DatasetWriterState.make (rows_in_flight max_open_files max_rows_staged : Nat) :
    DatasetWriterState :=
  { rows_in_flight_throttle := Throttle.make rows_in_flight
    open_files_throttle := Throttle.make max_open_files
    staged_rows_count := 0
    max_rows_staged := max_rows_staged }

/-- Embedding of `StagingFull`. -/
def DatasetWriterState.StagingFull (ws : DatasetWriterState) : Bool :=
  decide (ws.staged_rows_count ≥ ws.max_rows_staged)

/-- The `ExistingDataBehavior` enumeration. -/
inductive ExistingDataBehavior where
  | kDeleteMatchingPartitions
  | kOverwriteOrIgnore
  | kError
deriving DecidableEq, Repr

/-- The fields of `FileSystemDatasetWriteOptions` that the writer reads;
`has_file_write_options` and `has_filesystem` tell whether the pointers are set. -/
structure FileSystemDatasetWriteOptions where
  base_dir : String
  basename_template : String
  has_file_write_options : Bool
  has_filesystem : Bool
  max_open_files : Nat
  max_rows_per_file : Nat
  min_rows_per_group : Nat
  max_rows_per_group : Nat
  existing_data_behavior : ExistingDataBehavior
  create_dir : Bool
deriving DecidableEq, Repr

/-! ### `DatasetWriterFileQueue` (lines 127-252) -/

/-- State of a file queue. `filename` is the name given to `Start`. Ghost:
`scheduled` lists the batches passed to `ScheduleBatch`, in order; `finished` tells
that `Finish` added the closing task and dropped the scheduler. -/
structure DatasetWriterFileQueue where
  staged_batches : List RecordBatch
  rows_currently_staged : Nat
  filename : String
  scheduled : List RecordBatch
  finished : Bool
deriving DecidableEq, Repr

namespace DatasetWriterFileQueue

/-- A file queue after `Start(scheduler, filename)`. -/
def Start (filename : String) : DatasetWriterFileQueue :=
  { staged_batches := [], rows_currently_staged := 0, filename := filename, scheduled := [],
    finished := false }

/-- The rows handed to the file queue so far: those of the scheduled groups and those
still staged. -/
def rows_held (q : DatasetWriterFileQueue) : Nat :=
  (q.scheduled ++ q.staged_batches).flatten.length

/-- The staged-row counter of the queue is the number of staged rows, as a
`uint64_t`. -/
def Counted (q : DatasetWriterFileQueue) : Prop :=
  q.rows_currently_staged = q.staged_batches.flatten.length % 2 ^ 64

/-- The loop of `PopStagedBatch`: from the staged batches, the rows collected so far
and the batches collected so far, to the batches to write and the batches that stay
staged. -/
def PopStagedBatchLoop (max_rows_per_group : Nat) :
    List RecordBatch → Nat → List RecordBatch → List RecordBatch × List RecordBatch
  | [], _, batches_to_write => (batches_to_write, [])
  | next :: staged, num_rows, batches_to_write =>
    if num_rows + next.length ≤ max_rows_per_group then
      if num_rows + next.length = max_rows_per_group then
        (batches_to_write ++ [next], staged)
      else
        PopStagedBatchLoop max_rows_per_group staged (num_rows + next.length)
          (batches_to_write ++ [next])
    else
      let remaining := max_rows_per_group - num_rows
      (batches_to_write ++ [next.take remaining], next.drop remaining :: staged)

/-- Embedding of `PopStagedBatch`. -/
def PopStagedBatch (options : FileSystemDatasetWriteOptions) (q : DatasetWriterFileQueue) :
    DatasetWriterFileQueue × RecordBatch :=
  let r := PopStagedBatchLoop options.max_rows_per_group q.staged_batches 0 []
  ({ q with staged_batches := r.2 }, r.1.flatten)

/-- Embedding of `PopAndDeliverStagedBatch`: the queue afterwards and `rows_popped`. -/
def PopAndDeliverStagedBatch (options : FileSystemDatasetWriteOptions)
    (q : DatasetWriterFileQueue) : DatasetWriterFileQueue × Nat :=
  let r := q.PopStagedBatch options
  ({ r.1 with rows_currently_staged := subU64 r.1.rows_currently_staged r.2.length
              scheduled := r.1.scheduled ++ [r.2] }, r.2.length)

/-- The loop of `Push`; the first argument bounds the iterations. -/
def PushLoop (options : FileSystemDatasetWriteOptions) (ws : DatasetWriterState) :
    Nat → DatasetWriterFileQueue → Nat → Option (DatasetWriterFileQueue × Nat)
  | 0, _, _ => none
  | fuel + 1, q, delta_staged =>
    if !q.staged_batches.isEmpty &&
        (ws.StagingFull || decide (q.rows_currently_staged ≥ options.min_rows_per_group)) then
      let r := q.PopAndDeliverStagedBatch options
      PushLoop options ws fuel r.1 (subU64 delta_staged r.2)
    else some (q, delta_staged)

/-- Iterations that suffice for the loops of `Push` and `Finish`. -/
def loopFuel (staged : List RecordBatch) : Nat := (staged.map (·.length + 1)).sum + 1

/-- Embedding of `Push`; `none` when the loop does not end within `loopFuel`. -/
def Push (options : FileSystemDatasetWriteOptions) (ws : DatasetWriterState)
    (q : DatasetWriterFileQueue) (batch : RecordBatch) :
    Option (DatasetWriterFileQueue × DatasetWriterState) :=
  let delta_staged := batch.length
  let q := { q with rows_currently_staged := addU64 q.rows_currently_staged delta_staged
                    staged_batches := q.staged_batches ++ [batch] }
  match PushLoop options ws (loopFuel q.staged_batches) q delta_staged with
  | none => none
  | some (q, delta_staged) =>
    some (q, { ws with staged_rows_count := addU64 ws.staged_rows_count delta_staged })

/-- The loop of `Finish`; the first argument bounds the iterations. -/
def FinishLoop (options : FileSystemDatasetWriteOptions) :
    Nat → DatasetWriterFileQueue → Option DatasetWriterFileQueue
  | 0, _ => none
  | fuel + 1, q =>
    if !q.staged_batches.isEmpty then
      FinishLoop options fuel (q.PopAndDeliverStagedBatch options).1
    else some q

/-- Embedding of `Finish`; `none` when the loop does not end within `loopFuel`. -/
def Finish (options : FileSystemDatasetWriteOptions) (ws : DatasetWriterState)
    (q : DatasetWriterFileQueue) : Option (DatasetWriterFileQueue × DatasetWriterState) :=
  let ws := { ws with staged_rows_count := subU64 ws.staged_rows_count q.rows_currently_staged }
  match FinishLoop options (loopFuel q.staged_batches) q with
  | none => none
  | some q => some ({ q with finished := true }, ws)

end DatasetWriterFileQueue

/-- A call on a file queue, or (`OtherQueues n`) the other file queues of the write
leaving the shared staged-row counter at `n`. -/
inductive FileQueueCall where
  | Push (batch : RecordBatch)
  | Finish
  | OtherQueues (staged_rows_count : Nat)
deriving DecidableEq, Repr

namespace DatasetWriterFileQueue

/-- One call on a file queue; `none` when a loop does not end, or for a call made
after `Finish` dropped the scheduler. -/
def call (options : FileSystemDatasetWriteOptions)
    (s : DatasetWriterFileQueue × DatasetWriterState) :
    FileQueueCall → Option (DatasetWriterFileQueue × DatasetWriterState)
  | .Push batch => if s.1.finished then none else s.1.Push options s.2 batch
  | .Finish => if s.1.finished then none else s.1.Finish options s.2
  | .OtherQueues n => some (s.1, { s.2 with staged_rows_count := n })

/-- Runs a sequence of calls on a file queue. -/
def run (options : FileSystemDatasetWriteOptions)
    (s : DatasetWriterFileQueue × DatasetWriterState) :
    List FileQueueCall → Option (DatasetWriterFileQueue × DatasetWriterState)
  | [] => some s
  | c :: cs =>
    match call options s c with
    | none => none
    | some s' => run options s' cs

/-- The batches pushed by a sequence of calls. -/
def pushed : List FileQueueCall → List RecordBatch
  | [] => []
  | .Push batch :: cs => batch :: pushed cs
  | _ :: cs => pushed cs

/-- Runs the calls and collects, for every `Push`, whether the staging ceiling was
reached when it was called, together with the groups it scheduled. -/
def pushLog (options : FileSystemDatasetWriteOptions)
    (s : DatasetWriterFileQueue × DatasetWriterState) :
    List FileQueueCall → Option (List (Bool × List RecordBatch))
  | [] => some []
  | c :: cs =>
    match call options s c with
    | none => none
    | some s' =>
      match pushLog options s' cs with
      | none => none
      | some log =>
        match c with
        | .Push _ => some ((s.2.StagingFull, s'.1.scheduled.drop s.1.scheduled.length) :: log)
        | _ => some log

end DatasetWriterFileQueue

/-! ### The file queues of one write -/

/-- A call on the file queues of one write: `Open` starts a new file queue, `Push i`
and `Finish i` are calls on the file queue with index `i`. -/
inductive FileQueuesCall where
  | Open (filename : String)
  | Push (i : Nat) (batch : RecordBatch)
  | Finish (i : Nat)
deriving DecidableEq, Repr

/-- The file queues of one write and the state they share. -/
abbrev FileQueues := List DatasetWriterFileQueue × DatasetWriterState

namespace FileQueues

/-- One call; `none` when there is no such queue, when the queue was finished before,
or when a loop does not end. -/
def call (options : FileSystemDatasetWriteOptions) (s : FileQueues) :
    FileQueuesCall → Option FileQueues
  | .Open filename => some (s.1 ++ [DatasetWriterFileQueue.Start filename], s.2)
  | .Push i batch =>
    match s.1[i]? with
    | none => none
    | some q =>
      if q.finished then none
      else
        match q.Push options s.2 batch with
        | none => none
        | some (q, ws) => some (s.1.set i q, ws)
  | .Finish i =>
    match s.1[i]? with
    | none => none
    | some q =>
      if q.finished then none
      else
        match q.Finish options s.2 with
        | none => none
        | some (q, ws) => some (s.1.set i q, ws)

/-- Runs a sequence of calls. -/
def run (options : FileSystemDatasetWriteOptions) (s : FileQueues) :
    List FileQueuesCall → Option FileQueues
  | [] => some s
  | c :: cs =>
    match call options s c with
    | none => none
    | some s' => run options s' cs

/-- Sum of the staged-row counters of the file queues. -/
def counters (qs : List DatasetWriterFileQueue) : Nat :=
  (qs.map (·.rows_currently_staged)).sum

/-- Number of rows staged in the file queues. -/
def staged (qs : List DatasetWriterFileQueue) : Nat :=
  (qs.map (·.staged_batches.flatten.length)).sum

/-- The staged-row counters agree: the counter of every file queue is the number of
rows it has staged, and the counter of the write is the sum of the counters of the
file queues, as `uint64_t` values. -/
def Consistent (s : FileQueues) : Prop :=
  (∀ q ∈ s.1, q.Counted) ∧ s.2.staged_rows_count = counters s.1 % 2 ^ 64

end FileQueues

/-! ### `DatasetWriterDirectoryQueue` (lines 254-412) -/

/-- The bookkeeping record `WriteTask`. -/
structure WriteTask where
  filename : String
  num_rows : Nat
deriving DecidableEq, Repr

/-- Position of the first occurrence of `pat` in a string, counted from `i`
(`std::string_view::find`). -/
def findSub (pat : List Char) : List Char → Nat → Option Nat
  | [], i => if pat = [] then some i else none
  | c :: cs, i => if pat.isPrefixOf (c :: cs) then some i else findSub pat cs (i + 1)

/-- The placeholder `kIntegerToken`. -/
def kIntegerToken : String := "{i}"

/-- Modelled from the spec: `arrow::internal::Replace` (arrow/util/string) is not among
the sources. Substitutes `replacement` for the first occurrence of the placeholder
`token` in `s`; there is no result when the placeholder does not occur. -/
def Replace (s token replacement : String) : Option String :=
  match findSub token.data s.data 0 with
  | none => none
  | some i =>
    some (String.mk (s.data.take i ++ replacement.data ++ s.data.drop (i + token.data.length)))

/-- Modelled from the spec: `fs::internal::ConcatAbstractPath` (arrow/filesystem/path_util)
is not among the sources. Joins a directory and a file name with one separator; an
empty directory gives the file name alone. -/
def ConcatAbstractPath (base stem : String) : String :=
  if base.data = [] then stem
  else
    String.mk ((if base.data.getLast? = some '/' then base.data else base.data ++ ['/']) ++
      stem.data.dropWhile (· == '/'))

/-- State of a directory queue. `init_future` tells whether a directory preparation
signal exists. Ghost: `tasks` lists the `WriteTask` built by every `StartWrite`, and
`closed_files` the file queues that `FinishCurrentFile` finished, in order. -/
structure DatasetWriterDirectoryQueue where
  directory : String
  prefix_ : String
  init_future : Bool
  current_filename : String
  latest_open_file : Option DatasetWriterFileQueue
  rows_written : Nat
  file_counter : Nat
  tasks : List WriteTask
  closed_files : List DatasetWriterFileQueue
deriving DecidableEq, Repr

/-- A value of type `Result<T>`. -/
abbrev Result (α : Type) := Except Status α

namespace DatasetWriterDirectoryQueue

/-- Embedding of `NextWritableChunk`: the chunk, the remainder (`none` when the out
parameter is left null) and `will_open_file`. The queue is not modified. -/
def NextWritableChunk (options : FileSystemDatasetWriteOptions)
    (q : DatasetWriterDirectoryQueue) (batch : RecordBatch) :
    RecordBatch × Option RecordBatch × Bool :=
  let will_open_file := decide (q.rows_written = 0)
  let rows_available :=
    if options.max_rows_per_file > 0 then subU64 options.max_rows_per_file q.rows_written
    else 2 ^ 64 - 1
  if rows_available < batch.length then
    (batch.take rows_available, some (batch.drop rows_available), will_open_file)
  else (batch, none, will_open_file)

/-- Embedding of `OpenFileQueue`: the file queue, started on `filename`. -/
def OpenFileQueue (filename : String) : DatasetWriterFileQueue :=
  DatasetWriterFileQueue.Start filename

/-- Embedding of `StartWrite`; `none` when the loop of `Push` does not end. -/
def StartWrite (options : FileSystemDatasetWriteOptions) (ws : DatasetWriterState)
    (q : DatasetWriterDirectoryQueue) (batch : RecordBatch) :
    Option (DatasetWriterDirectoryQueue × DatasetWriterState) :=
  let q := { q with rows_written := addU64 q.rows_written batch.length
                    tasks := q.tasks ++ [WriteTask.mk q.current_filename batch.length] }
  let file :=
    match q.latest_open_file with
    | some file => file
    | none => OpenFileQueue q.current_filename
  match file.Push options ws batch with
  | none => none
  | some (file, ws) => some ({ q with latest_open_file := some file }, ws)

/-- The file name that `GetNextFilename` builds from the value of the counter. -/
def formatFilename (options : FileSystemDatasetWriteOptions) (directory prefix_ : String)
    (counter : Nat) : Result String :=
  match Replace options.basename_template kIntegerToken (toString counter) with
  | none => .error (.Invalid "string interpolation of basename template failed")
  | some basename => .ok (ConcatAbstractPath directory (prefix_ ++ basename))

/-- Embedding of `GetNextFilename`; `file_counter_` is a `uint32_t`. -/
def GetNextFilename (options : FileSystemDatasetWriteOptions)
    (q : DatasetWriterDirectoryQueue) : DatasetWriterDirectoryQueue × Result String :=
  ({ q with file_counter := (q.file_counter + 1) % 2 ^ 32 },
    formatFilename options q.directory q.prefix_ q.file_counter)

/-- Embedding of `FinishCurrentFile`; `none` when the loop of `Finish` does not end. -/
def FinishCurrentFile (options : FileSystemDatasetWriteOptions) (ws : DatasetWriterState)
    (q : DatasetWriterDirectoryQueue) :
    Option (DatasetWriterDirectoryQueue × DatasetWriterState × Status) :=
  let closed :=
    match q.latest_open_file with
    | some file =>
      match file.Finish options ws with
      | none => none
      | some (file, ws) =>
        some ({ q with latest_open_file := none, closed_files := q.closed_files ++ [file] }, ws)
    | none => some (q, ws)
  match closed with
  | none => none
  | some (q, ws) =>
    let q := { q with rows_written := 0 }
    match q.GetNextFilename options with
    | (q, .ok filename) => some ({ q with current_filename := filename }, ws, .OK)
    | (q, .error st) => some (q, ws, st)

/-- Embedding of `Make`: `PrepareDirectory` leaves a preparation signal when the
directory is not empty and is to be created; then the first file name is generated. -/
def Make (options : FileSystemDatasetWriteOptions) (directory prefix_ : String) :
    Result DatasetWriterDirectoryQueue :=
  let q : DatasetWriterDirectoryQueue :=
    { directory := directory
      prefix_ := prefix_
      init_future := !(directory.data.isEmpty || !options.create_dir)
      current_filename := ""
      latest_open_file := none
      rows_written := 0
      file_counter := 0
      tasks := []
      closed_files := [] }
  match q.GetNextFilename options with
  | (q, .ok filename) => .ok { q with current_filename := filename }
  | (_, .error st) => .error st

/-- Embedding of `Finish`; `none` when the loop of the file queue does not end. -/
def Finish (options : FileSystemDatasetWriteOptions) (ws : DatasetWriterState)
    (q : DatasetWriterDirectoryQueue) :
    Option (DatasetWriterDirectoryQueue × DatasetWriterState) :=
  match q.latest_open_file with
  | some file =>
    match file.Finish options ws with
    | none => none
    | some (file, ws) => some ({ q with latest_open_file := some file }, ws)
  | none => some (q, ws)

end DatasetWriterDirectoryQueue

/-- Invariant of a directory queue under the per-file row limit `limit`: the rows
written to the current file do not exceed the limit and are the rows handed to the
open file queue, and no closed file was handed more rows than the limit. -/
structure DatasetWriterDirectoryQueue.WithinLimit (limit : Nat)
    (q : DatasetWriterDirectoryQueue) : Prop where
  written : q.rows_written ≤ limit
  open_file : match q.latest_open_file with
    | some file => file.rows_held = q.rows_written
    | none => q.rows_written = 0
  closed : ∀ file ∈ q.closed_files, file.rows_held ≤ limit

/-! ### Validation of the options (lines 414-471)

A `std::string_view` is the list of its characters. The searches below are for ASCII
characters, for which positions in the list of characters and in the bytes of the
UTF-8 encoding correspond. -/

/-- Modelled from the spec: the constant `fs::internal::kSep` (arrow/filesystem/path_util)
is not among the sources; the path separator is the character that the error message of
`ValidateBasenameTemplate` names. -/
def kSep : Char := '/'

/-- Embedding of `ValidateBasenameTemplate`: `find(kSep)`, `find(kIntegerToken)` and
`find(kIntegerToken, token_start + 1)`. -/
def ValidateBasenameTemplate (basename_template : String) : Status :=
  if kSep ∈ basename_template.data then .Invalid "basename_template contained '/'"
  else
    match findSub kIntegerToken.data basename_template.data 0 with
    | none => .Invalid ("basename_template did not contain '" ++ kIntegerToken ++ "'")
    | some token_start =>
      match findSub kIntegerToken.data (basename_template.data.drop (token_start + 1))
          (token_start + 1) with
      | some _ =>
        .Invalid ("basename_template contained '" ++ kIntegerToken ++ "' more than once")
      | none => .OK

/-- Embedding of `ValidateOptions`; the row counts are `uint64_t`. -/
def ValidateOptions (options : FileSystemDatasetWriteOptions) : Status :=
  if !(ValidateBasenameTemplate options.basename_template).ok then
    ValidateBasenameTemplate options.basename_template
  else if !options.has_file_write_options then .Invalid "Must provide file_write_options"
  else if !options.has_filesystem then .Invalid "Must provide filesystem"
  else if options.max_rows_per_group ≤ 0 then
    .Invalid "max_rows_per_group must be a positive number"
  else if options.max_rows_per_group < options.min_rows_per_group then
    .Invalid "min_rows_per_group must be less than or equal to max_rows_per_group"
  else if options.max_rows_per_file > 0 ∧
      options.max_rows_per_file < options.max_rows_per_group then
    .Invalid "max_rows_per_group must be less than or equal to max_rows_per_file"
  else .OK

/-- The fields of `fs::FileSelector` that `EnsureDestinationValid` sets. -/
structure FileSelector where
  base_dir : String
  recursive : Bool
deriving DecidableEq, Repr

/-- The file system as far as the writer consults it at construction: `GetFileInfo`
of a selector gives the paths found, or an error. -/
abbrev FileSystem := FileSelector → Result (List String)

/-- Embedding of `EnsureDestinationValid`. -/
def EnsureDestinationValid (filesystem : FileSystem)
    (options : FileSystemDatasetWriteOptions) : Status :=
  if options.existing_data_behavior = .kError then
    match filesystem { base_dir := options.base_dir, recursive := true } with
    | .error _ => .OK
    | .ok maybe_files =>
      if maybe_files.length > 0 then
        .Invalid ("Could not write to " ++ options.base_dir ++
          " as the directory is not empty and existing_data_behavior is to error")
      else .OK
  else .OK

/-- Number of positions of a string at which `pat` occurs. -/
def occurrences (pat : List Char) : List Char → Nat
  | [] => if pat = [] then 1 else 0
  | c :: cs => (if pat.isPrefixOf (c :: cs) then 1 else 0) + occurrences pat cs

/-- The number that a string of decimal digits denotes. -/
def decimalValue (cs : List Char) : Nat :=
  cs.foldl (fun acc c => 10 * acc + (c.toNat - 48)) 0

/-- The results of `n` successive calls of `GetNextFilename` on a directory queue. -/
def GetNextFilenames (options : FileSystemDatasetWriteOptions) :
    Nat → DatasetWriterDirectoryQueue → List (Result String)
  | 0, _ => []
  | n + 1, q =>
    (q.GetNextFilename options).2 :: GetNextFilenames options n (q.GetNextFilename options).1

/-! ### `DatasetWriterImpl` (lines 482-580) -/

/-- State of the writer. The map `directory_queues_` is a list of keys and queues, in
the order in which the map is iterated. -/
structure DatasetWriterImpl where
  write_options : FileSystemDatasetWriteOptions
  writer_state : DatasetWriterState
  directory_queues : List (String × DatasetWriterDirectoryQueue)
deriving DecidableEq, Repr

/-- Embedding of `CalculateMaxRowsStaged`. -/
def CalculateMaxRowsStaged (max_rows_queued : Nat) : Nat :=
  min (2 ^ 23) (max_rows_queued / 4)

/-- What a call of `DoWriteRecordBatch` returns: a future finished with a status, or
a pending future whose continuation calls `DoWriteRecordBatch` again with `batch`;
`undefined` when the call dereferences a null pointer. -/
inductive WriteOutcome where
  | finished (st : Status)
  | backpressure (batch : RecordBatch)
  | undefined
deriving DecidableEq, Repr

namespace DatasetWriterImpl

/-- Constructor of `DatasetWriterImpl`. -/
def make (write_options : FileSystemDatasetWriteOptions) (max_rows_queued : Nat) :
    DatasetWriterImpl :=
  { write_options := write_options
    writer_state := DatasetWriterState.make max_rows_queued write_options.max_open_files
      (CalculateMaxRowsStaged max_rows_queued)
    directory_queues := [] }

/-- Replaces the queue stored under `key`. -/
def setQueue (w : DatasetWriterImpl) (key : String) (q : DatasetWriterDirectoryQueue) :
    DatasetWriterImpl :=
  { w with directory_queues :=
      w.directory_queues.map fun kq => if kq.1 = key then (kq.1, q) else kq }

/-- The loop of `CloseLargestFile`: the key of the queue with the most rows written,
`none` while no queue has written a row. -/
def largestQueue :
    List (String × DatasetWriterDirectoryQueue) → Option String → Nat → Option String
  | [], largest, _ => largest
  | kq :: rest, largest, largest_num_rows =>
    if kq.2.rows_written > largest_num_rows then
      largestQueue rest (some kq.1) kq.2.rows_written
    else largestQueue rest largest largest_num_rows

/-- Embedding of `CloseLargestFile`; the outer `none` when a loop does not end, the
inner `none` when `largest` is null and is dereferenced. -/
def CloseLargestFile (w : DatasetWriterImpl) : Option (Option (DatasetWriterImpl × Status)) :=
  match largestQueue w.directory_queues none 0 with
  | none => some none
  | some key =>
    match w.directory_queues.lookup key with
    | none => some none
    | some q =>
      match q.FinishCurrentFile w.write_options w.writer_state with
      | none => none
      | some (q, ws, st) => some (some (setQueue { w with writer_state := ws } key q, st))

/-- The loop of `DoWriteRecordBatch` on the queue stored under `key`; the first
argument bounds the iterations. -/
def WriteLoop (key : String) :
    Nat → DatasetWriterImpl → RecordBatch → Option (DatasetWriterImpl × WriteOutcome)
  | 0, _, _ => none
  | fuel + 1, w, batch =>
    match w.directory_queues.lookup key with
    | none => some (w, .undefined)
    | some dir_queue =>
      let next := dir_queue.NextWritableChunk w.write_options batch
      let next_chunk := next.1
      let remainder := next.2.1
      let will_open_file := next.2.2
      let rows := w.writer_state.rows_in_flight_throttle.Acquire next_chunk.length
      let w := { w with writer_state :=
        { w.writer_state with rows_in_flight_throttle := rows.1 } }
      if !rows.2 then some (w, .backpressure batch)
      else
        let files :=
          if will_open_file then w.writer_state.open_files_throttle.Acquire 1
          else (w.writer_state.open_files_throttle, true)
        let w := { w with writer_state := { w.writer_state with open_files_throttle := files.1 } }
        if !files.2 then
          match w.CloseLargestFile with
          | none => none
          | some none => some (w, .undefined)
          | some (some (w, st)) =>
            if st.ok then some (w, .backpressure batch) else some (w, .finished st)
        else
          match dir_queue.StartWrite w.write_options w.writer_state next_chunk with
          | none => none
          | some (dir_queue, ws) =>
            let w := setQueue { w with writer_state := ws } key dir_queue
            match remainder with
            | none => some (w, .finished .OK)
            | some batch =>
              match dir_queue.FinishCurrentFile w.write_options w.writer_state with
              | none => none
              | some (dir_queue, ws, st) =>
                let w := setQueue { w with writer_state := ws } key dir_queue
                if st.ok then WriteLoop key fuel w batch else some (w, .finished st)

/-- Embedding of `DoWriteRecordBatch`; `none` when a loop does not end. -/
def DoWriteRecordBatch (w : DatasetWriterImpl) (batch : RecordBatch)
    (directory prefix_ : String) : Option (DatasetWriterImpl × WriteOutcome) :=
  let key := directory ++ prefix_
  let created : Result DatasetWriterImpl :=
    match w.directory_queues.lookup key with
    | some _ => .ok w
    | none =>
      match DatasetWriterDirectoryQueue.Make w.write_options directory prefix_ with
      | .ok q => .ok { w with directory_queues := w.directory_queues ++ [(key, q)] }
      | .error st => .error st
  match created with
  | .error st => some (w, .finished st)
  | .ok w => WriteLoop key (2 * batch.length + 2) w batch

/-- Embedding of `WriteRecordBatch`. -/
def WriteRecordBatch (w : DatasetWriterImpl) (batch : RecordBatch)
    (directory prefix_ : String) : Option (DatasetWriterImpl × WriteOutcome) :=
  if batch.length = 0 then some (w, .finished .OK)
  else if !directory.data.isEmpty then
    w.DoWriteRecordBatch batch (ConcatAbstractPath w.write_options.base_dir directory) prefix_
  else w.DoWriteRecordBatch batch w.write_options.base_dir prefix_

/-- The loop of `Finish` over the directory queues. -/
def FinishQueues (options : FileSystemDatasetWriteOptions) :
    List (String × DatasetWriterDirectoryQueue) → DatasetWriterState →
      Option (List (String × DatasetWriterDirectoryQueue) × DatasetWriterState)
  | [], ws => some ([], ws)
  | kq :: rest, ws =>
    match kq.2.Finish options ws with
    | none => none
    | some (q, ws) =>
      match FinishQueues options rest ws with
      | none => none
      | some (rest, ws) => some ((kq.1, q) :: rest, ws)

/-- Embedding of `Finish`. -/
def Finish (w : DatasetWriterImpl) : Option DatasetWriterImpl :=
  match FinishQueues w.write_options w.directory_queues w.writer_state with
  | none => none
  | some (queues, ws) => some { w with directory_queues := queues, writer_state := ws }

end DatasetWriterImpl

/-- Invariant of a writer with options `options`: every directory queue is within
the per-file row limit. -/
def DatasetWriterImpl.WithinLimit (options : FileSystemDatasetWriteOptions)
    (w : DatasetWriterImpl) : Prop :=
  w.write_options = options ∧
  ∀ kq ∈ w.directory_queues, kq.2.WithinLimit options.max_rows_per_file

/-- The write tasks recorded by the directory queue stored under `key`, if there is
one. -/
def DatasetWriterImpl.tasksUnder (w : DatasetWriterImpl) (key : String) :
    Option (List WriteTask) :=
  (w.directory_queues.lookup key).map (·.tasks)

/-- Neither throttle of the writer denies a request. -/
def DatasetWriterImpl.Unthrottled (w : DatasetWriterImpl) : Prop :=
  w.writer_state.rows_in_flight_throttle.Unthrottled = true ∧
  w.writer_state.open_files_throttle.Unthrottled = true

/-- What can happen to a writer: a call of `WriteRecordBatch`, the continuation of a
pending write calling `DoWriteRecordBatch`, a finished write releasing rows, a
finished file releasing its permit, and `Finish`. -/
inductive WriterEvent where
  | WriteRecordBatch (batch : RecordBatch) (directory prefix_ : String)
  | DoWriteRecordBatch (batch : RecordBatch) (directory prefix_ : String)
  | ReleaseRows (rows : Nat)
  | ReleaseFile
  | Finish
deriving DecidableEq, Repr

namespace DatasetWriterImpl

/-- One event on a writer; `none` when a loop does not end, when the continuation is
called with an empty batch, or when the call has undefined behaviour. -/
def step (w : DatasetWriterImpl) : WriterEvent → Option DatasetWriterImpl
  | .WriteRecordBatch batch directory prefix_ =>
    match w.WriteRecordBatch batch directory prefix_ with
    | some (_, .undefined) => none
    | some (w, _) => some w
    | none => none
  | .DoWriteRecordBatch batch directory prefix_ =>
    if batch.length = 0 then none
    else
      match w.DoWriteRecordBatch batch directory prefix_ with
      | some (_, .undefined) => none
      | some (w, _) => some w
      | none => none
  | .ReleaseRows rows =>
    some { w with writer_state :=
      { w.writer_state with
        rows_in_flight_throttle := w.writer_state.rows_in_flight_throttle.Release rows } }
  | .ReleaseFile =>
    some { w with writer_state :=
      { w.writer_state with
        open_files_throttle := w.writer_state.open_files_throttle.Release 1 } }
  | .Finish => w.Finish

/-- Runs a sequence of events. -/
def run (w : DatasetWriterImpl) : List WriterEvent → Option DatasetWriterImpl
  | [] => some w
  | e :: es =>
    match w.step e with
    | none => none
    | some w' => w'.run es

end DatasetWriterImpl

/-! ### `DatasetWriter` (lines 582-608) -/

/-- Embedding of `DatasetWriter::Make`: the writer, or the error that is returned
instead of one. -/
def DatasetWriter.Make (filesystem : FileSystem) (write_options : FileSystemDatasetWriteOptions)
    (max_rows_queued : Nat) : Result DatasetWriterImpl :=
  if !(ValidateOptions write_options).ok then .error (ValidateOptions write_options)
  else if !(EnsureDestinationValid filesystem write_options).ok then
    .error (EnsureDestinationValid filesystem write_options)
  else .ok (DatasetWriterImpl.make write_options max_rows_queued)

/-- An example state inside `DoWriteRecordBatch`: at most one file may be open and at
most 100 rows may be in flight; two rows were written to the directory `out/a`, whose
file is open, and the directory queue of `out/b` has just been created. -/
def DatasetWriterImpl.oneFileOpen : DatasetWriterImpl :=
  { write_options :=
      { base_dir := "out", basename_template := "part-{i}.arrow",
        has_file_write_options := true, has_filesystem := true, max_open_files := 1,
        max_rows_per_file := 0, min_rows_per_group := 1, max_rows_per_group := 10,
        existing_data_behavior := .kOverwriteOrIgnore, create_dir := true }
    writer_state :=
      { rows_in_flight_throttle :=
          { max_value := 100, in_waiting := 0, current_value := 2,
            backpressure_finished := true }
        open_files_throttle :=
          { max_value := 1, in_waiting := 0, current_value := 1,
            backpressure_finished := true }
        staged_rows_count := 0
        max_rows_staged := 25 }
    directory_queues :=
      [("out/a",
          { directory := "out/a"
            prefix_ := ""
            init_future := true
            current_filename := "out/a/part-0.arrow"
            latest_open_file := some
              { staged_batches := [], rows_currently_staged := 0,
                filename := "out/a/part-0.arrow", scheduled := [[1, 2]], finished := false }
            rows_written := 2
            file_counter := 1
            tasks := [⟨"out/a/part-0.arrow", 2⟩]
            closed_files := [] }),
        ("out/b",
          { directory := "out/b"
            prefix_ := ""
            init_future := true
            current_filename := "out/b/part-0.arrow"
            latest_open_file := none
            rows_written := 0
            file_counter := 1
            tasks := []
            closed_files := [] })] }

end Dataset

end Arrow

namespace Arrow

/-! ## Properties of `ThrottleImpl` -/

theorem wrapInt32_eq_self {x : Int} (h₁ : -(2 ^ 31) ≤ x) (h₂ : x < 2 ^ 31) :
    wrapInt32 x = x := by
  unfold wrapInt32
  omega

theorem ThrottleLedger.sum_nonneg {xs : List Int} (h : ∀ a ∈ xs, 0 ≤ a) : 0 ≤ xs.sum := by
  induction xs with
  | nil => simp
  | cons x xs ih =>
    simp only [List.sum_cons]
    have := h x (by simp)
    have := ih (fun a ha => h a (by simp [ha]))
    omega

theorem ThrottleLedger.sum_erase {xs : List Int} {a : Int} (h : a ∈ xs) :
    (xs.erase a).sum + a = xs.sum := by
  induction xs with
  | nil => simp at h
  | cons x xs ih =>
    by_cases hx : x = a
    · subst hx
      simp [add_comm]
    · have hmem : a ∈ xs := by
        rcases List.mem_cons.mp h with h | h
        · exact absurd h.symm hx
        · exact h
      rw [List.erase_cons_tail (by simpa using hx)]
      simp only [List.sum_cons]
      have := ih hmem
      omega

theorem ThrottleLedger.balanced_start (C : Int) (hC : 0 ≤ C) :
    (ThrottleLedger.start C).Balanced C := by
  simp [ThrottleLedger.Balanced, ThrottleLedger.start, MakeThrottle, hC]

theorem ThrottleLedger.balanced_call {C : Int} (hC : C < 2 ^ 31) {l l' : ThrottleLedger}
    {c : ThrottleCall} (hl : l.Balanced C) (h : l.call c = some l') : l'.Balanced C := by
  obtain ⟨hmax, havail, hsum, hpos⟩ := hl
  have hs := ThrottleLedger.sum_nonneg hpos
  cases c with
  | try_acquire amt =>
    simp only [ThrottleLedger.call, ThrottleImpl.Capacity] at h
    split at h
    · rename_i hamt
      unfold ThrottleImpl.TryAcquire at h
      cases hb : l.throttle.backoff with
      | some f =>
        simp only [hb, Option.some.injEq] at h
        subst h
        exact ⟨hmax, havail, hsum, hpos⟩
      | none =>
        simp only [hb] at h
        by_cases hle : amt ≤ l.throttle.available_cost
        · simp only [hle, if_true, Option.some.injEq] at h
          subst h
          have hw : wrapInt32 (l.throttle.available_cost - amt)
              = l.throttle.available_cost - amt :=
            wrapInt32_eq_self (by omega) (by omega)
          refine ⟨hmax, ?_, ?_, ?_⟩
          · simp only [hw]; omega
          · simp only [hw, List.sum_cons]; omega
          · intro a ha
            rcases List.mem_cons.mp ha with ha | ha
            · omega
            · exact hpos a ha
        · simp only [hle, if_false, Option.some.injEq] at h
          subst h
          exact ⟨hmax, havail, hsum, hpos⟩
    · simp at h
  | release amt =>
    simp only [ThrottleLedger.call] at h
    split at h
    · rename_i hmem
      simp only [Option.some.injEq] at h
      subst h
      have he := ThrottleLedger.sum_erase hmem
      have hamt := hpos amt hmem
      have hpos' : ∀ a ∈ l.outstanding.erase amt, 0 ≤ a :=
        fun a ha => hpos a (List.mem_of_mem_erase ha)
      have hs' := ThrottleLedger.sum_nonneg hpos'
      have hw : wrapInt32 (l.throttle.available_cost + amt)
          = l.throttle.available_cost + amt :=
        wrapInt32_eq_self (by omega) (by omega)
      refine ⟨hmax, ?_, ?_, hpos'⟩
      · simp only [ThrottleImpl.Release, hw]; omega
      · simp only [ThrottleImpl.Release, hw]; omega
    · simp at h

theorem ThrottleLedger.balanced_run {C : Int} (hC : C < 2 ^ 31) (calls : List ThrottleCall) :
    ∀ {l l' : ThrottleLedger}, l.Balanced C → l.run calls = some l' → l'.Balanced C := by
  induction calls with
  | nil =>
    intro l l' hl h
    simp only [ThrottleLedger.run, Option.some.injEq] at h
    exact h ▸ hl
  | cons c cs ih =>
    intro l l' hl h
    simp only [ThrottleLedger.run] at h
    cases hc : l.call c with
    | none => simp [hc] at h
    | some l₁ =>
      simp only [hc] at h
      exact ih (ThrottleLedger.balanced_call hC hl hc) h

/-- C1. For a throttle of capacity `0 ≤ C` (an `int`, so `C < 2 ^ 31`) and every
admissible sequence of `try_acquire` / `release` calls (costs between `0` and `C`,
each release returning the cost of a granted, still outstanding acquire), the state
after the sequence, hence after every call of it since every prefix is again such a
sequence, satisfies `0 ≤ available ≤ C`, `C - available` is the sum of the granted
and unreleased costs, and that sum does not exceed `C`. -/
theorem throttle_admitted_cost_within_capacity (C : Int) (hC : 0 ≤ C) (hC32 : C < 2 ^ 31)
    (calls : List ThrottleCall) (l : ThrottleLedger)
    (h : (ThrottleLedger.start C).run calls = some l) :
    0 ≤ l.throttle.available_cost ∧ l.throttle.available_cost ≤ C ∧
    C - l.throttle.available_cost = l.outstanding.sum ∧ l.outstanding.sum ≤ C := by
  obtain ⟨_, havail, hsum, hpos⟩ :=
    ThrottleLedger.balanced_run hC32 calls (ThrottleLedger.balanced_start C hC) h
  have := ThrottleLedger.sum_nonneg hpos
  refine ⟨havail, ?_, ?_, ?_⟩ <;> omega

/-- Witness for C1: capacity 3, acquire 2, acquire 2 (denied), release 2, acquire 3. -/
theorem throttle_admitted_cost_within_capacity_witness :
    (0 : Int) ≤ 3 ∧ (3 : Int) < 2 ^ 31 ∧
    (ThrottleLedger.start 3).run
        [.try_acquire 2, .try_acquire 2, .release 2, .try_acquire 3]
      = some { throttle := { max_concurrent_cost := 3, available_cost := 0,
                             backoff := none, next_future := 1 },
               outstanding := [3] } ∧
    ((0 : Int) ≤ 0 ∧ (0 : Int) ≤ 3 ∧ (3 : Int) - 0 = [(3 : Int)].sum ∧ [(3 : Int)].sum ≤ 3) :=
  have hrun : (ThrottleLedger.start 3).run
        [.try_acquire 2, .try_acquire 2, .release 2, .try_acquire 3]
      = some { throttle := { max_concurrent_cost := 3, available_cost := 0,
                             backoff := none, next_future := 1 },
               outstanding := [3] } := by decide
  ⟨by decide, by decide, hrun,
    throttle_admitted_cost_within_capacity 3 (by decide) (by decide) _ _ hrun⟩


namespace AsyncTaskSchedulerImpl

theorem FrameSpec.sound (P : FrameSpec) : ∀ fuel : Nat,
    (∀ k s s', ContinueTasksUnlocked fuel s = some s' → P.I (k + 1) s → P.I (k + 1) s') ∧
    (∀ k s task r, SubmitTaskUnlocked fuel s task = some r → P.Sp k s task → P.I k r.1) ∧
    (∀ k s task r, DoSubmitTask fuel s task = some r → P.D (k + 1) s task → P.I k r.1) ∧
    (∀ k s st c r, OnTaskFinished fuel s st c = some r → P.F (k + 1) s st c → P.I k r.1) ∧
    (∀ k cs s s', RunCallbacks fuel cs s = some s' → P.I (k + 1) s → P.I (k + 1) s') := by
  intro fuel
  induction fuel with
  | zero =>
    refine ⟨?_, ?_, ?_, ?_, ?_⟩
    · intro k s s' h; simp [ContinueTasksUnlocked] at h
    · intro k s task r h; simp [SubmitTaskUnlocked] at h
    · intro k s task r h; simp [DoSubmitTask] at h
    · intro k s st c r h; simp [OnTaskFinished] at h
    · intro k cs s s' h hI
      cases cs with
      | nil => simp only [RunCallbacks, Option.some.injEq] at h; exact h ▸ hI
      | cons c cs => simp [RunCallbacks] at h
  | succ fuel ih =>
    obtain ⟨ihC, ihS, ihD, ihF, ihR⟩ := ih
    refine ⟨?_, ?_, ?_, ?_, ?_⟩
    · intro k s s' h hI
      rw [ContinueTasksUnlocked] at h
      cases hq : s.queue with
      | nil => simp only [hq, Option.some.injEq] at h; exact h ▸ hI
      | cons next rest =>
        cases ht : s.throttle with
        | none => simp [hq, ht] at h
        | some t =>
          rcases hacq : t.TryAcquire (min next.cost t.Capacity) with ⟨t', _ | f⟩
          · have hSp := P.continue_granted k s next rest t t' hI hq ht hacq
            simp only [hq, ht, hacq] at h hSp
            split at h
            · simp at h
            · rename_i s₁ hsub
              exact ihC k _ _ h (ihS (k + 1) _ _ _ hsub hSp)
            · rename_i s₁ hsub
              simp only [Option.some.injEq] at h
              exact h ▸ ihS (k + 1) _ _ _ hsub hSp
          · have key := P.continue_backoff k s next rest t t' f hI hq ht hacq
            simp only [hq, ht, hacq, Option.some.injEq] at h key
            exact h ▸ key
    · intro k s task r h hSp
      rw [SubmitTaskUnlocked] at h
      exact ihD k _ _ _ h (P.submit k s task hSp)
    · intro k s task r h hD
      rw [DoSubmitTask] at h
      cases hsub : task.submit with
      | failed st =>
        simp only [hsub, Option.some.injEq] at h
        exact h ▸ P.start_failed k s task st hD hsub
      | pending =>
        simp only [hsub, Option.some.injEq] at h
        exact h ▸ P.start_pending k s task hD hsub
      | finished st =>
        simp only [hsub] at h
        exact ihF k _ _ _ _ h (P.start_finished k s task st hD hsub)
    · intro k s st c r h hF
      rw [OnTaskFinished] at h
      cases hok : st.ok with
      | false =>
        simp only [hok, Bool.not_false, if_true, Option.some.injEq] at h
        exact h ▸ P.finished_error k s st c hF hok
      | true =>
        simp only [hok, Bool.not_true, Bool.false_eq_true, if_false] at h
        by_cases hga : s.global_abort = true
        · rw [if_pos hga] at h
          simp only [Option.some.injEq] at h
          exact h ▸ P.finished_cancelled k s st c hF hok hga
        · rw [if_neg hga] at h
          have hga' : s.global_abort = false := by simpa using hga
          have hG : ∀ s₁, (match s.throttle with
              | none => some s
              | some t =>
                match t.Release c with
                | (t', none) => some { s with throttle := some t' }
                | (t', some f) =>
                  RunCallbacks fuel (s.backoff_callbacks.filter (· == f))
                    { s with throttle := some t'
                             backoff_callbacks := s.backoff_callbacks.filter (· != f) })
              = some s₁ → P.G (k + 1) s₁ := by
            intro s₁ hrel
            cases ht : s.throttle with
            | none =>
              rw [ht] at hrel
              simp only [Option.some.injEq] at hrel
              exact hrel ▸ P.release_none k s st c hF hok hga' ht
            | some t =>
              rcases hr : t.Release c with ⟨t', _ | f⟩
              · have key := P.release_quiet k s st c t t' hF hok hga' ht hr
                simp only [ht, hr, Option.some.injEq] at hrel key
                exact hrel ▸ key
              · have key := P.release_signal k s st c t t' f hF hok hga' ht hr
                simp only [ht, hr] at hrel key
                exact P.resumed k _ (ihR k _ _ _ hrel key)
          split at h
          · simp at h
          · rename_i s₁ hrel
            have := P.finish k s₁ (hG s₁ hrel)
            simp only [finishTail] at this
            split at h
            · rename_i hff
              simp only [Option.some.injEq] at h
              simp only [hff, if_true] at this
              exact h ▸ this
            · rename_i hff
              simp only [Option.some.injEq] at h
              simp only [hff, if_false] at this
              exact h ▸ this
    · intro k cs s s' h hI
      cases cs with
      | nil => simp only [RunCallbacks, Option.some.injEq] at h; exact h ▸ hI
      | cons c cs =>
        rw [RunCallbacks] at h
        cases hc : ContinueTasksUnlocked fuel s with
        | none => simp [hc] at h
        | some s₁ =>
          simp only [hc] at h
          exact ihR k cs s₁ s' h (ihC k s s₁ hc hI)


theorem Sound.unmarked {k : Nat} {s : AsyncTaskSchedulerImpl} (h : Sound (k + 1) s) :
    s.finished_marks = [] := by
  by_contra hne
  have := (h.marked hne).2.1
  have := h.count
  omega

theorem Sound.pred {k : Nat} {s : AsyncTaskSchedulerImpl} (h : Sound (k + 1) s) :
    Sound k { s with running_tasks := s.running_tasks - 1 } := by
  have hm := h.unmarked
  obtain ⟨h1, h2, h3, h4, h5, h6, h7⟩ := h
  refine ⟨?_, h2, h3, h4, h5, ?_, h7⟩
  · show s.running_tasks - 1 = _
    rw [h1]; push_cast; ring
  · intro hne; exact absurd hm hne

theorem AddTask_cases {fuel : Nat} {s : AsyncTaskSchedulerImpl} {task : Task}
    {r : AsyncTaskSchedulerImpl × Bool} (h : s.AddTask fuel task = some r) :
    (s.state = .kAborted ∧ r = (s, false)) ∨
    (s.state ≠ .kAborted ∧ s.global_abort = true ∧
      r = (s.AbortUnlocked (.Cancelled "Another scheduler aborted"), false)) ∨
    (s.state ≠ .kAborted ∧ s.global_abort = false ∧ s.throttle ≠ none ∧ s.queue ≠ [] ∧
      r = ({ s with queue := s.queue ++ [task] }, true)) ∨
    (s.state ≠ .kAborted ∧ s.global_abort = false ∧ s.queue = [] ∧
      ∃ t t' f, s.throttle = some t ∧
        t.TryAcquire (min task.cost t.Capacity) = (t', some f) ∧
        r = ({ s with throttle := some t', queue := s.queue ++ [task]
                      backoff_callbacks := s.backoff_callbacks ++ [f] }, true)) ∨
    (s.state ≠ .kAborted ∧ s.global_abort = false ∧ s.queue = [] ∧
      ∃ t t' r', s.throttle = some t ∧
        t.TryAcquire (min task.cost t.Capacity) = (t', none) ∧
        SubmitTaskUnlocked fuel { s with throttle := some t' } task = some r' ∧
        r = (r'.1, true)) ∨
    (s.state ≠ .kAborted ∧ s.global_abort = false ∧ s.throttle = none ∧
      ∃ r', SubmitTaskUnlocked fuel s task = some r' ∧ r = (r'.1, true)) := by
  unfold AsyncTaskSchedulerImpl.AddTask at h
  by_cases hst : s.state = .kAborted
  · rw [if_pos hst] at h
    simp only [Option.some.injEq] at h
    exact Or.inl ⟨hst, h.symm⟩
  · rw [if_neg hst] at h
    by_cases hga : s.global_abort = true
    · rw [if_pos hga] at h
      simp only [Option.some.injEq] at h
      exact Or.inr (Or.inl ⟨hst, hga, h.symm⟩)
    · rw [if_neg hga] at h
      have hga' : s.global_abort = false := by simpa using hga
      split at h
      · rename_i t ht
        by_cases hqb : (!s.queue.isEmpty) = true
        · rw [if_pos hqb] at h
          simp only [Option.some.injEq] at h
          have hq : s.queue ≠ [] := by
            intro hq; simp [hq] at hqb
          exact Or.inr (Or.inr (Or.inl ⟨hst, hga', by simp [ht], hq, h.symm⟩))
        · rw [if_neg hqb] at h
          have hq : s.queue = [] := by
            cases hq' : s.queue with
            | nil => rfl
            | cons x xs => simp [hq'] at hqb
          dsimp only at h
          split at h
          · rename_i t' f hacq
            simp only [Option.some.injEq] at h
            exact Or.inr (Or.inr (Or.inr (Or.inl ⟨hst, hga', hq, t, t', f, ht, hacq, h.symm⟩)))
          · rename_i t' hacq
            cases hsub : SubmitTaskUnlocked fuel { s with throttle := some t' } task with
            | none => rw [hsub] at h; simp at h
            | some r' =>
              rw [hsub] at h
              simp only [Option.map_some', Option.some.injEq] at h
              exact Or.inr (Or.inr (Or.inr (Or.inr (Or.inl
                ⟨hst, hga', hq, t, t', r', ht, hacq, hsub, h.symm⟩))))
      · rename_i ht
        cases hsub : SubmitTaskUnlocked fuel s task with
        | none => rw [hsub] at h; simp at h
        | some r' =>
          rw [hsub] at h
          simp only [Option.map_some', Option.some.injEq] at h
          exact Or.inr (Or.inr (Or.inr (Or.inr (Or.inr ⟨hst, hga', ht, r', rfl, h.symm⟩))))

theorem End_cases {s s' : AsyncTaskSchedulerImpl} {fd : Bool} (h : s.End fd = some s') :
    (s.running_tasks = 0 ∧ s.queue = [] ∧
      s' = { s with state := .kEnded, finished_marks := s.finished_marks ++ [s.maybe_error],
                    maybe_error := .OK }) ∨
    (¬(s.running_tasks = 0 ∧ s.queue = []) ∧ s' = { s with state := .kEnded }) := by
  unfold AsyncTaskSchedulerImpl.End at h
  split at h
  · simp at h
  · dsimp only at h
    by_cases hidle : s.running_tasks = 0 ∧ s.queue.isEmpty = true
    · rw [if_pos hidle] at h
      simp only [Option.some.injEq, MarkFinished] at h
      exact Or.inl ⟨hidle.1, by simpa using hidle.2, h.symm⟩
    · rw [if_neg hidle] at h
      simp only [Option.some.injEq] at h
      exact Or.inr ⟨by simpa using hidle, h.symm⟩

theorem step_AddTask_cases {s s' : AsyncTaskSchedulerImpl} {task : Task}
    (h : s.step (.AddTask task) = some s') :
    task.wellFormed = true ∧ ∃ r, s.AddTask s.fuelFor task = some r ∧
      ((r.2 = true ∧ s' = { r.1 with accepted := r.1.accepted ++ [task.id] }) ∨
       (r.2 = false ∧ s' = r.1)) := by
  simp only [AsyncTaskSchedulerImpl.step] at h
  split at h
  · rename_i hwf
    refine ⟨hwf, ?_⟩
    split at h
    · simp at h
    · rename_i s₁ hr
      simp only [Option.some.injEq] at h
      exact ⟨_, hr, Or.inl ⟨rfl, h.symm⟩⟩
    · rename_i s₁ hr
      simp only [Option.some.injEq] at h
      exact ⟨_, hr, Or.inr ⟨rfl, h.symm⟩⟩
  · simp at h

theorem step_TaskFinished_cases {s s' : AsyncTaskSchedulerImpl} {id : Nat} {st : Status}
    (h : s.step (.TaskFinished id st) = some s') :
    ∃ cb r, cb ∈ s.task_callbacks ∧ cb.1 = id ∧
      OnTaskFinished s.fuelFor
        { s with task_callbacks := s.task_callbacks.erase cb
                 completed := s.completed ++ [id] } st cb.2 = some r ∧ s' = r.1 := by
  simp only [AsyncTaskSchedulerImpl.step] at h
  split at h
  · simp at h
  · rename_i cb hfind
    have hmem : cb ∈ s.task_callbacks := List.mem_of_find?_eq_some hfind
    have hid : cb.1 = id := by simpa using List.find?_some hfind
    cases hfin : OnTaskFinished s.fuelFor
        { s with task_callbacks := s.task_callbacks.erase cb
                 completed := s.completed ++ [id] } st cb.2 with
    | none => simp [hfin] at h
    | some r =>
      simp only [hfin, Option.map_some', Option.some.injEq] at h
      exact ⟨cb, r, hmem, hid, hfin, h.symm⟩

theorem firstError_append (xs : List Status) (st : Status) (h : xs ≠ []) :
    firstError (xs ++ [st]) = firstError xs := by
  cases xs with
  | nil => exact absurd rfl h
  | cons x xs => rfl

theorem Sound.abort {k : Nat} {s : AsyncTaskSchedulerImpl} (h : Sound k s)
    (hm : s.finished_marks = []) (st : Status) (hst : st.ok = false) :
    Sound k (s.AbortUnlocked st) := by
  obtain ⟨hcount, hrun, habt, herr, hrec, hmark, hq⟩ := h
  have herr' : ∀ x ∈ s.aborts ++ [st], x.ok = false := by
    intro x hx
    rcases List.mem_append.mp hx with hx | hx
    · exact herr x hx
    · simp only [List.mem_singleton] at hx; exact hx ▸ hst
  have hrec' := hrec hm
  unfold AbortUnlocked
  cases hs : s.state with
  | kRunning =>
    have := hrun hs
    constructor <;> simp_all [firstError, MarkFinished]
  | kAborted =>
    have hne := habt hs
    have hf := firstError_append s.aborts st hne
    constructor <;> simp_all [MarkFinished]
  | kEnded =>
    by_cases hok : s.maybe_error.ok = true
    · have hnil : s.aborts = [] := by
        cases ha : s.aborts with
        | nil => rfl
        | cons e es =>
          have he := herr e (by simp [ha])
          rw [ha] at hrec'
          have : s.maybe_error = e := hrec'
          rw [this, he] at hok
          exact absurd hok (by decide)
      by_cases hr : s.running_tasks = 0
      · constructor <;> simp_all [firstError, MarkFinished]
      · constructor <;> simp_all [firstError, MarkFinished]
    · have hne : s.aborts ≠ [] := by
        intro ha
        simp [ha, firstError] at hrec'
        simp [hrec', Status.ok] at hok
      have hf := firstError_append s.aborts st hne
      by_cases hr : s.running_tasks = 0
      · constructor <;> simp_all [MarkFinished]
      · constructor <;> simp_all [MarkFinished]


theorem Sound.sound_frames (fuel : Nat) :
    (∀ k s s', ContinueTasksUnlocked fuel s = some s' → Sound (k + 1) s → Sound (k + 1) s') ∧
    (∀ k s task r, SubmitTaskUnlocked fuel s task = some r →
      Sound k s ∧ s.finished_marks = [] ∧ task.wellFormed = true → Sound k r.1) ∧
    (∀ k s task r, DoSubmitTask fuel s task = some r →
      Sound (k + 1) s ∧ task.wellFormed = true → Sound k r.1) ∧
    (∀ k s st c r, OnTaskFinished fuel s st c = some r → Sound (k + 1) s → Sound k r.1) ∧
    (∀ k cs s s', RunCallbacks fuel cs s = some s' → Sound (k + 1) s → Sound (k + 1) s') :=
  FrameSpec.sound
    { I := fun k s => Sound k s
      Sp := fun k s task => Sound k s ∧ s.finished_marks = [] ∧ task.wellFormed = true
      D := fun k s task => Sound k s ∧ task.wellFormed = true
      F := fun k s _ _ => Sound k s
      G := fun k s => Sound k s
      continue_backoff := by
        intro k s next rest t t' f h _ _ _
        obtain ⟨h1, h2, h3, h4, h5, h6, h7⟩ := h
        exact ⟨h1, h2, h3, h4, h5, h6, h7⟩
      continue_granted := by
        intro k s next rest t t' h hq _ _
        have hm := h.unmarked
        obtain ⟨h1, h2, h3, h4, h5, h6, h7⟩ := h
        refine ⟨⟨h1, h2, h3, h4, h5, ?_, ?_⟩, hm, ?_⟩
        · intro hne; exact absurd hm hne
        · intro x hx; exact h7 x (by simp [hq, hx])
        · exact h7 next (by simp [hq])
      submit := by
        intro k s task h
        obtain ⟨⟨h1, h2, h3, h4, h5, h6, h7⟩, hm, hwf⟩ := h
        refine ⟨⟨?_, h2, h3, h4, h5, ?_, h7⟩, hwf⟩
        · show s.running_tasks + 1 = _
          rw [h1]; push_cast; ring
        · intro hne; exact absurd hm hne
      start_failed := by
        intro k s task st h hsub
        obtain ⟨h, hwf⟩ := h
        have hm := h.unmarked
        have hst : st.ok = false := by
          simpa [Task.wellFormed, hsub] using hwf
        obtain ⟨h1, h2, h3, h4, h5, h6, h7⟩ := h
        have key : Sound k { s with started := s.started ++ [task.id], global_abort := true,
                                    running_tasks := s.running_tasks - 1 } := by
          refine ⟨?_, h2, h3, h4, h5, ?_, h7⟩
          · show s.running_tasks - 1 = _
            rw [h1]; push_cast; ring
          · intro hne; exact absurd hm hne
        exact Sound.abort key hm st hst
      start_pending := by
        intro k s task h _
        obtain ⟨h, _⟩ := h
        have hm := h.unmarked
        obtain ⟨h1, h2, h3, h4, h5, h6, h7⟩ := h
        refine ⟨?_, h2, h3, h4, h5, ?_, h7⟩
        · show s.running_tasks = ((s.task_callbacks ++ [_]).length : Int) + _ + _
          rw [h1]; simp; ring
        · intro hne; exact absurd hm hne
      start_finished := by
        intro k s task st h _
        obtain ⟨⟨h1, h2, h3, h4, h5, h6, h7⟩, _⟩ := h
        exact ⟨h1, h2, h3, h4, h5, h6, h7⟩
      finished_error := by
        intro k s st c h hst
        have hm := h.unmarked
        exact Sound.abort h.pred hm st hst
      finished_cancelled := by
        intro k s st c h _ _
        have hm := h.unmarked
        exact Sound.abort h.pred hm _ rfl
      release_none := by
        intro k s st c h _ _ _
        exact h
      release_quiet := by
        intro k s st c t t' h _ _ _ _
        obtain ⟨h1, h2, h3, h4, h5, h6, h7⟩ := h
        exact ⟨h1, h2, h3, h4, h5, h6, h7⟩
      release_signal := by
        intro k s st c t t' f h _ _ _ _
        obtain ⟨h1, h2, h3, h4, h5, h6, h7⟩ := h
        exact ⟨h1, h2, h3, h4, h5, h6, h7⟩
      resumed := fun _ _ h => h
      finish := by
        intro k s h
        have hm := h.unmarked
        obtain ⟨h1, h2, h3, h4, h5, h6, h7⟩ := h
        have hc : s.running_tasks - 1 = s.task_callbacks.length + s.sub_schedulers + k := by
          rw [h1]; push_cast; ring
        unfold finishTail
        by_cases hff : IsFullyFinished { s with running_tasks := s.running_tasks - 1 } = true
        · simp only [hff, if_true]
          have hff' := hff
          simp only [IsFullyFinished, Bool.and_eq_true, beq_iff_eq, List.isEmpty_iff] at hff'
          obtain ⟨⟨hst, hqe⟩, hr0⟩ := hff'
          refine ⟨hc, h2, h3, h4, ?_, ?_, h7⟩
          · intro hne; simp [MarkFinished] at hne
          · intro _
            refine ⟨hst, hr0, hqe, ?_⟩
            simp [MarkFinished, hm, h5 hm]
        · simp only [hff, if_false]
          refine ⟨hc, h2, h3, h4, h5, ?_, h7⟩
          intro hne; exact absurd hm hne }
    fuel


theorem Sound.marked_idle {s : AsyncTaskSchedulerImpl} (h : Sound 0 s)
    (hbusy : 0 < s.task_callbacks.length + s.sub_schedulers) : s.finished_marks = [] := by
  by_contra hne
  have := (h.marked hne).2.1
  have := h.count
  omega

theorem Sound.of_unmarked {k k' : Nat} {s s' : AsyncTaskSchedulerImpl} (h : Sound k s)
    (hm : s.finished_marks = [])
    (h1 : s'.running_tasks = s'.task_callbacks.length + s'.sub_schedulers + k')
    (h2 : s'.state = s.state) (h3 : s'.aborts = s.aborts) (h4 : s'.maybe_error = s.maybe_error)
    (h5 : s'.finished_marks = s.finished_marks) (h6 : ∀ t ∈ s'.queue, t.wellFormed = true) :
    Sound k' s' := by
  refine ⟨h1, ?_, ?_, ?_, ?_, ?_, h6⟩
  · rw [h2, h3]; exact h.running_clean
  · rw [h2, h3]; exact h.aborted_error
  · rw [h3]; exact h.errors
  · rw [h3, h4]; intro _; exact h.recorded hm
  · rw [h5]; intro hne; exact absurd hm hne

theorem Sound.of_accepted {k : Nat} {s : AsyncTaskSchedulerImpl} (xs : List Nat)
    (h : Sound k s) : Sound k { s with accepted := xs } := by
  obtain ⟨h1, h2, h3, h4, h5, h6, h7⟩ := h
  exact ⟨h1, h2, h3, h4, h5, h6, h7⟩

theorem Sound.mark {s : AsyncTaskSchedulerImpl} (h : Sound 0 s) (hm : s.finished_marks = [])
    (hff : s.IsFullyFinished = true) : Sound 0 (s.MarkFinished s.maybe_error) := by
  simp only [IsFullyFinished, Bool.and_eq_true, beq_iff_eq, List.isEmpty_iff] at hff
  obtain ⟨⟨hst, hqe⟩, hr0⟩ := hff
  obtain ⟨h1, h2, h3, h4, h5, h6, h7⟩ := h
  refine ⟨h1, h2, h3, h4, ?_, ?_, h7⟩
  · intro hne; simp [MarkFinished] at hne
  · intro _
    refine ⟨hst, hr0, hqe, ?_⟩
    simp [MarkFinished, hm, h5 hm]

theorem Sound.sound_step {s s' : AsyncTaskSchedulerImpl} {e : SchedulerEvent} (h : Sound 0 s)
    (hp : s.state = .kEnded → allowedAfterEnd e = true) (hs : s.step e = some s') :
    Sound 0 s' := by
  have hnotEnded : s.state ≠ .kEnded → s.finished_marks = [] := by
    intro hne
    by_contra hm
    exact hne (h.marked hm).1
  cases e with
  | AddTask task =>
    have hst : s.state ≠ .kEnded := fun he => by simpa [allowedAfterEnd] using hp he
    have hm := hnotEnded hst
    obtain ⟨hwf, r, hr, hres⟩ := step_AddTask_cases hs
    have hwf' : ∀ x ∈ s.queue ++ [task], x.wellFormed = true := by
      intro x hx
      rcases List.mem_append.mp hx with hx | hx
      · exact h.queue_wf x hx
      · simp only [List.mem_singleton] at hx; exact hx ▸ hwf
    have key : Sound 0 r.1 := by
      rcases AddTask_cases hr with ⟨_, rfl⟩ | ⟨_, _, rfl⟩ | ⟨_, _, _, _, rfl⟩ |
        ⟨_, _, _, t, t', f, _, _, rfl⟩ | ⟨_, _, _, t, t', r', _, _, hsub, rfl⟩ |
        ⟨_, _, _, r', hsub, rfl⟩
      · exact h
      · exact Sound.abort h hm _ rfl
      · exact Sound.of_unmarked h hm h.count rfl rfl rfl rfl hwf'
      · exact Sound.of_unmarked h hm h.count rfl rfl rfl rfl hwf'
      · exact (Sound.sound_frames _).2.1 0 _ _ r' hsub
          ⟨Sound.of_unmarked h hm h.count rfl rfl rfl rfl h.queue_wf, hm, hwf⟩
      · exact (Sound.sound_frames _).2.1 0 _ _ r' hsub ⟨h, hm, hwf⟩
    rcases hres with ⟨_, rfl⟩ | ⟨_, rfl⟩
    · exact Sound.of_accepted _ key
    · exact key
  | TaskFinished id st =>
    obtain ⟨cb, r, hmem, _, hfin, rfl⟩ := step_TaskFinished_cases hs
    have hlen := List.length_erase_of_mem hmem
    have hpos : 0 < s.task_callbacks.length := List.length_pos_of_mem hmem
    have hm := h.marked_idle (by omega)
    refine (Sound.sound_frames _).2.2.2.1 0 _ _ _ _ hfin ?_
    refine Sound.of_unmarked h hm ?_ rfl rfl rfl rfl h.queue_wf
    show s.running_tasks = ((s.task_callbacks.erase cb).length : Int) + s.sub_schedulers + _
    rw [h.count, hlen]
    have : (s.task_callbacks.length - 1 : Nat) + 1 = s.task_callbacks.length := by omega
    omega
  | MakeSubScheduler =>
    simp only [AsyncTaskSchedulerImpl.step, Option.some.injEq] at hs
    subst hs
    unfold AsyncTaskSchedulerImpl.MakeSubScheduler
    split
    · exact h
    · rename_i hrun
      have hrun' : s.state = .kRunning := by simpa using hrun
      have hm := hnotEnded (by rw [hrun']; decide)
      refine Sound.of_unmarked h hm ?_ rfl rfl rfl rfl h.queue_wf
      show s.running_tasks + 1 = s.task_callbacks.length + ((s.sub_schedulers + 1 : Nat) : Int) + _
      rw [h.count]; push_cast; ring
  | ChildFinished st finish_st =>
    simp only [AsyncTaskSchedulerImpl.step] at hs
    split at hs
    · rename_i hsub
      simp only [Option.some.injEq] at hs
      subst hs
      have hm := h.marked_idle (by omega)
      have h₀ : Sound 0 { s with sub_schedulers := s.sub_schedulers - 1,
                                 running_tasks := s.running_tasks - 1,
                                 finish_callback_calls := s.finish_callback_calls ++ [st] } := by
        refine Sound.of_unmarked h hm ?_ rfl rfl rfl rfl h.queue_wf
        show s.running_tasks - 1
          = s.task_callbacks.length + ((s.sub_schedulers - 1 : Nat) : Int) + (0 : Nat)
        rw [h.count]
        have : (s.sub_schedulers - 1 : Nat) + 1 = s.sub_schedulers := by omega
        omega
      unfold AsyncTaskSchedulerImpl.Finalizer
      by_cases hok : st.ok = true
      · by_cases hok2 : finish_st.ok = true
        · simp only [hok, hok2, Bool.not_true, Bool.false_eq_true, if_false]
          split
          · rename_i hff
            exact Sound.mark h₀ hm hff
          · exact h₀
        · simp only [hok, Bool.not_true, Bool.false_eq_true, if_false]
          have hok2' : finish_st.ok = false := by simpa using hok2
          simp only [hok2', Bool.not_false, if_true]
          exact Sound.abort h₀ hm _ hok2'
      · have hok' : st.ok = false := by simpa using hok
        simp only [hok', Bool.not_false, if_true]
        exact Sound.abort h₀ hm _ hok'
    · simp at hs
  | End fd =>
    have hst : s.state ≠ .kEnded := fun he => by simpa [allowedAfterEnd] using hp he
    have hm := hnotEnded hst
    simp only [AsyncTaskSchedulerImpl.step] at hs
    obtain ⟨h1, h2, h3, h4, h5, h6, h7⟩ := h
    rcases End_cases hs with ⟨hr0, hq, rfl⟩ | ⟨_, rfl⟩
    · refine ⟨h1, ?_, ?_, h4, ?_, ?_, h7⟩
      · intro hc; simp at hc
      · intro hc; simp at hc
      · intro hne; simp at hne
      · intro _
        exact ⟨rfl, hr0, hq, by simp [hm, h5 hm]⟩
    · refine ⟨h1, ?_, ?_, h4, h5, ?_, h7⟩
      · intro hc; simp at hc
      · intro hc; simp at hc
      · intro hne; exact absurd hm hne
  | GlobalAbort =>
    simp only [AsyncTaskSchedulerImpl.step, Option.some.injEq] at hs
    subst hs
    obtain ⟨h1, h2, h3, h4, h5, h6, h7⟩ := h
    exact ⟨h1, h2, h3, h4, h5, h6, h7⟩


theorem finishTail_state (s : AsyncTaskSchedulerImpl) :
    (finishTail s).1.state = s.state ∧ (finishTail s).1.maybe_error = s.maybe_error := by
  unfold finishTail
  dsimp only
  split <;> exact ⟨rfl, rfl⟩

/-- A property of the state and the recorded error that `AbortUnlocked` preserves is
preserved by the mutually recursive part of the node. -/
theorem frames_preserve (Q : AsyncTaskSchedulerImpl → Prop)
    (hf : ∀ s s' : AsyncTaskSchedulerImpl, s'.state = s.state →
      s'.maybe_error = s.maybe_error → Q s → Q s')
    (ha : ∀ s st, Q s → Q (s.AbortUnlocked st)) (fuel : Nat) :
    (∀ s s', ContinueTasksUnlocked fuel s = some s' → Q s → Q s') ∧
    (∀ s task r, SubmitTaskUnlocked fuel s task = some r → Q s → Q r.1) ∧
    (∀ s task r, DoSubmitTask fuel s task = some r → Q s → Q r.1) ∧
    (∀ s st c r, OnTaskFinished fuel s st c = some r → Q s → Q r.1) ∧
    (∀ cs s s', RunCallbacks fuel cs s = some s' → Q s → Q s') := by
  have key := FrameSpec.sound
    { I := fun _ s => Q s
      Sp := fun _ s _ => Q s
      D := fun _ s _ => Q s
      F := fun _ s _ _ => Q s
      G := fun _ s => Q s
      continue_backoff := fun _ s _ _ _ _ _ h _ _ _ => hf s _ rfl rfl h
      continue_granted := fun _ s _ _ _ _ h _ _ _ => hf s _ rfl rfl h
      submit := fun _ s _ h => hf s _ rfl rfl h
      start_failed := fun _ s _ st h _ => ha _ st (hf s _ rfl rfl h)
      start_pending := fun _ s _ h _ => hf s _ rfl rfl h
      start_finished := fun _ s _ _ h _ => hf s _ rfl rfl h
      finished_error := fun _ s st _ h _ => ha _ st (hf s _ rfl rfl h)
      finished_cancelled := fun _ s _ _ h _ _ => ha _ _ (hf s _ rfl rfl h)
      release_none := fun _ _ _ _ h _ _ _ => h
      release_quiet := fun _ s _ _ _ _ h _ _ _ _ => hf s _ rfl rfl h
      release_signal := fun _ s _ _ _ _ _ h _ _ _ _ => hf s _ rfl rfl h
      resumed := fun _ _ h => h
      finish := fun _ s h => hf s _ (finishTail_state s).1 (finishTail_state s).2 h }
    fuel
  exact ⟨key.1 0, key.2.1 0, key.2.2.1 0, key.2.2.2.1 0, key.2.2.2.2 0⟩

theorem step_preserve (Q : AsyncTaskSchedulerImpl → Prop)
    (hf : ∀ s s' : AsyncTaskSchedulerImpl, s'.state = s.state →
      s'.maybe_error = s.maybe_error → Q s → Q s')
    (ha : ∀ s st, Q s → Q (s.AbortUnlocked st))
    {s s' : AsyncTaskSchedulerImpl} {e : SchedulerEvent} (hne : ∀ fd, e ≠ .End fd)
    (hs : s.step e = some s') (hQ : Q s) : Q s' := by
  cases e with
  | AddTask task =>
    obtain ⟨_, r, hr, hres⟩ := step_AddTask_cases hs
    have key : Q r.1 := by
      rcases AddTask_cases hr with ⟨_, rfl⟩ | ⟨_, _, rfl⟩ | ⟨_, _, _, _, rfl⟩ |
        ⟨_, _, _, t, t', f, _, _, rfl⟩ | ⟨_, _, _, t, t', r', _, _, hsub, rfl⟩ |
        ⟨_, _, _, r', hsub, rfl⟩
      · exact hQ
      · exact ha _ _ hQ
      · exact hf s _ rfl rfl hQ
      · exact hf s _ rfl rfl hQ
      · exact (frames_preserve Q hf ha _).2.1 _ _ r' hsub (hf s _ rfl rfl hQ)
      · exact (frames_preserve Q hf ha _).2.1 _ _ r' hsub hQ
    rcases hres with ⟨_, rfl⟩ | ⟨_, rfl⟩
    · exact hf r.1 _ rfl rfl key
    · exact key
  | TaskFinished id st =>
    obtain ⟨cb, r, _, _, hfin, rfl⟩ := step_TaskFinished_cases hs
    exact (frames_preserve Q hf ha _).2.2.2.1 _ _ _ _ hfin (hf s _ rfl rfl hQ)
  | MakeSubScheduler =>
    simp only [AsyncTaskSchedulerImpl.step, Option.some.injEq] at hs
    subst hs
    unfold AsyncTaskSchedulerImpl.MakeSubScheduler
    split
    · exact hQ
    · exact hf s _ rfl rfl hQ
  | ChildFinished st finish_st =>
    simp only [AsyncTaskSchedulerImpl.step] at hs
    split at hs
    · simp only [Option.some.injEq] at hs
      subst hs
      have h₀ : Q { s with sub_schedulers := s.sub_schedulers - 1,
                           running_tasks := s.running_tasks - 1,
                           finish_callback_calls := s.finish_callback_calls ++ [st] } :=
        hf s _ rfl rfl hQ
      unfold AsyncTaskSchedulerImpl.Finalizer
      dsimp only
      split
      · exact ha _ _ h₀
      · split
        · exact ha _ _ h₀
        · split
          · exact hf { s with sub_schedulers := s.sub_schedulers - 1,
                              running_tasks := s.running_tasks - 1,
                              finish_callback_calls := s.finish_callback_calls ++ [st] }
              _ rfl rfl h₀
          · exact h₀
    · simp at hs
  | End fd => exact absurd rfl (hne fd)
  | GlobalAbort =>
    simp only [AsyncTaskSchedulerImpl.step, Option.some.injEq] at hs
    subst hs
    exact hf s _ rfl rfl hQ

theorem AbortUnlocked_state (s : AsyncTaskSchedulerImpl) (st : Status) :
    (s.AbortUnlocked st).state = (if s.state = .kRunning then .kAborted else s.state) := by
  unfold AbortUnlocked
  cases hs : s.state <;> simp [hs, MarkFinished]
  all_goals split <;> simp [hs]

theorem AbortUnlocked_maybe_error (s : AsyncTaskSchedulerImpl) (st : Status) :
    (s.AbortUnlocked st).maybe_error =
      match s.state with
      | .kRunning => st
      | .kAborted => s.maybe_error
      | .kEnded => if s.maybe_error.ok then st else s.maybe_error := by
  unfold AbortUnlocked
  cases hs : s.state <;> simp [hs, MarkFinished]
  all_goals split <;> simp [hs]

theorem step_not_ended {s s' : AsyncTaskSchedulerImpl} {e : SchedulerEvent}
    (hne : ∀ fd, e ≠ .End fd) (hs : s.step e = some s') (h : s.state ≠ .kEnded) :
    s'.state ≠ .kEnded := by
  refine step_preserve (fun s => s.state ≠ .kEnded) ?_ ?_ hne hs h
  · intro s s' h1 _ h; rw [h1]; exact h
  · intro s st h
    rw [AbortUnlocked_state]
    split
    · decide
    · exact h

theorem endedOnce_of_all (es : List SchedulerEvent) (h : es.all allowedAfterEnd = true) :
    endedOnce es = true := by
  induction es with
  | nil => rfl
  | cons e es ih =>
    simp only [List.all_cons, Bool.and_eq_true] at h
    cases e <;> simp_all [endedOnce, allowedAfterEnd]

theorem Sound.run (es : List SchedulerEvent) :
    ∀ {s s' : AsyncTaskSchedulerImpl}, Sound 0 s →
      (if s.state = .kEnded then es.all allowedAfterEnd = true else endedOnce es = true) →
      s.run es = some s' → Sound 0 s' := by
  induction es with
  | nil =>
    intro s s' h _ hr
    simp only [AsyncTaskSchedulerImpl.run, Option.some.injEq] at hr
    exact hr ▸ h
  | cons e es ih =>
    intro s s' h hp hr
    simp only [AsyncTaskSchedulerImpl.run] at hr
    cases hstep : s.step e with
    | none => simp [hstep] at hr
    | some s₁ =>
      simp only [hstep] at hr
      by_cases hst : s.state = .kEnded
      · rw [if_pos hst] at hp
        simp only [List.all_cons, Bool.and_eq_true] at hp
        refine ih (Sound.sound_step h (fun _ => hp.1) hstep) ?_ hr
        split
        · exact hp.2
        · exact endedOnce_of_all es hp.2
      · rw [if_neg hst] at hp
        have h₁ := Sound.sound_step h (fun he => absurd he hst) hstep
        refine ih h₁ ?_ hr
        cases e with
        | End fd =>
          simp only [endedOnce] at hp
          split
          · exact hp
          · exact endedOnce_of_all es hp
        | AddTask task =>
          rw [if_neg (step_not_ended (by intro fd; simp) hstep hst)]
          simpa [endedOnce] using hp
        | TaskFinished id st =>
          rw [if_neg (step_not_ended (by intro fd; simp) hstep hst)]
          simpa [endedOnce] using hp
        | MakeSubScheduler =>
          rw [if_neg (step_not_ended (by intro fd; simp) hstep hst)]
          simpa [endedOnce] using hp
        | ChildFinished st fst =>
          rw [if_neg (step_not_ended (by intro fd; simp) hstep hst)]
          simpa [endedOnce] using hp
        | GlobalAbort =>
          rw [if_neg (step_not_ended (by intro fd; simp) hstep hst)]
          simpa [endedOnce] using hp

theorem Sound.make (parent_abort : Option Bool) (throttle : Option ThrottleImpl)
    (hfc : Bool) : Sound 0 (make parent_abort throttle hfc) := by
  constructor <;> simp [AsyncTaskSchedulerImpl.make, firstError]

/-- C4. On a root node, for every sequence of events (tasks added, task futures
resolving, children created and finalized, the shared flag being set, `End`) in
which `End` is called at most once and no task is added after it: the completion
signal is marked finished at most once; when it is marked the node is ended, nothing
is running (no task, no child), the queue is empty, and the status it carries is the
first status ever passed to `AbortUnlocked`, or `OK` when there was none. -/
theorem completion_signal_marked_once (throttle : Option ThrottleImpl)
    (events : List SchedulerEvent) (s : AsyncTaskSchedulerImpl)
    (hproto : endedOnce events = true)
    (hrun : (AsyncTaskSchedulerImpl.make none throttle false).run events = some s) :
    s.finished_marks.length ≤ 1 ∧
    ∀ st ∈ s.finished_marks,
      s.state = .kEnded ∧ s.running_tasks = 0 ∧ s.task_callbacks = [] ∧
      s.sub_schedulers = 0 ∧ s.queue = [] ∧ st = firstError s.aborts := by
  have h := Sound.run events (Sound.make none throttle false)
    (by rw [if_neg (by simp [AsyncTaskSchedulerImpl.make])]; exact hproto) hrun
  by_cases hm : s.finished_marks = []
  · simp [hm]
  · obtain ⟨hst, hr, hq, hmarks⟩ := h.marked hm
    have hc := h.count
    have hlen : s.task_callbacks.length = 0 := by omega
    refine ⟨by simp [hmarks], ?_⟩
    intro st hmem
    rw [hmarks] at hmem
    simp only [List.mem_singleton] at hmem
    exact ⟨hst, hr, List.length_eq_zero.mp hlen, by omega, hq, hmem⟩

/-- C5. In every state a node reaches, whatever the events: an abort leaves a
recorded error that is not OK unchanged (the node being running, aborted or ended),
and an abort on an ended node with no recorded error records its status. -/
theorem first_error_wins (parent_abort : Option Bool) (throttle : Option ThrottleImpl)
    (has_finish_callback : Bool) (events : List SchedulerEvent) (s : AsyncTaskSchedulerImpl)
    (hrun : (AsyncTaskSchedulerImpl.make parent_abort throttle has_finish_callback).run events
      = some s) (st : Status) :
    (s.maybe_error.ok = false → (s.AbortUnlocked st).maybe_error = s.maybe_error) ∧
    (s.state = .kEnded → s.maybe_error.ok = true → (s.AbortUnlocked st).maybe_error = st) := by
  have hB : s.state = .kRunning → s.maybe_error = .OK := by
    have hgen : ∀ (es : List SchedulerEvent) (s s' : AsyncTaskSchedulerImpl),
        (s.state = .kRunning → s.maybe_error = .OK) → s.run es = some s' →
        (s'.state = .kRunning → s'.maybe_error = .OK) := by
      intro es
      induction es with
      | nil =>
        intro s s' h hr
        simp only [AsyncTaskSchedulerImpl.run, Option.some.injEq] at hr
        exact hr ▸ h
      | cons e es ih =>
        intro s s' h hr
        simp only [AsyncTaskSchedulerImpl.run] at hr
        cases hstep : s.step e with
        | none => simp [hstep] at hr
        | some s₁ =>
          simp only [hstep] at hr
          refine ih s₁ s' ?_ hr
          by_cases hend : ∃ fd, e = .End fd
          · obtain ⟨fd, rfl⟩ := hend
            simp only [AsyncTaskSchedulerImpl.step] at hstep
            rcases End_cases hstep with ⟨_, _, rfl⟩ | ⟨_, rfl⟩
            · intro hc; simp at hc
            · intro hc; simp at hc
          · refine step_preserve (fun s => s.state = .kRunning → s.maybe_error = .OK)
              ?_ ?_ (fun fd he => hend ⟨fd, he⟩) hstep h
            · intro s s' h1 h2 h; rw [h1, h2]; exact h
            · intro s st _
              rw [AbortUnlocked_state]
              split
              · intro hc; simp at hc
              · rename_i hnr; intro hc; exact absurd hc hnr
    exact hgen events _ s (fun _ => rfl) hrun
  rw [AbortUnlocked_maybe_error]
  constructor
  · intro hok
    cases hs : s.state with
    | kRunning => rw [hB hs] at hok; simp [Status.ok] at hok
    | kAborted => rfl
    | kEnded => simp [hok]
  · intro hs hok
    simp [hs, hok]


theorem TryAcquire_denied {t t' : ThrottleImpl} {amt : Int} {f : Nat}
    (h : t.TryAcquire amt = (t', some f)) :
    t'.available_cost = t.available_cost ∧ t'.max_concurrent_cost = t.max_concurrent_cost := by
  unfold ThrottleImpl.TryAcquire at h
  split at h
  · simp only [Prod.mk.injEq] at h
    rw [← h.1]; exact ⟨rfl, rfl⟩
  · split at h
    · simp at h
    · simp only [Prod.mk.injEq] at h
      rw [← h.1]; exact ⟨rfl, rfl⟩

theorem TryAcquire_granted {t t' : ThrottleImpl} {amt : Int}
    (h : t.TryAcquire amt = (t', none)) :
    t.backoff = none ∧ amt ≤ t.available_cost ∧
    t' = { t with available_cost := wrapInt32 (t.available_cost - amt) } := by
  unfold ThrottleImpl.TryAcquire at h
  split at h
  · simp at h
  · rename_i hb
    split at h
    · rename_i hle
      simp only [Prod.mk.injEq, and_true] at h
      exact ⟨hb, hle, h.symm⟩
    · simp at h

theorem finishTail_eq (s : AsyncTaskSchedulerImpl) :
    ∃ marks, (finishTail s).1 =
      { s with running_tasks := s.running_tasks - 1, finished_marks := marks } := by
  unfold finishTail
  dsimp only
  split
  · exact ⟨_, rfl⟩
  · exact ⟨_, rfl⟩

/-! ### The fuel of `fuelFor` suffices -/

theorem AbortUnlocked_frame (s : AsyncTaskSchedulerImpl) (st : Status) :
    (s.AbortUnlocked st).throttle = s.throttle ∧
    (s.AbortUnlocked st).queue.length ≤ s.queue.length ∧
    (s.AbortUnlocked st).backoff_callbacks = s.backoff_callbacks := by
  unfold AbortUnlocked
  cases hs : s.state <;> simp [hs, MarkFinished]
  all_goals split <;> simp [hs]

theorem finishTail_frame (s : AsyncTaskSchedulerImpl) :
    (finishTail s).1.throttle = s.throttle ∧ (finishTail s).1.queue = s.queue := by
  obtain ⟨marks, hm⟩ := finishTail_eq s
  rw [hm]
  exact ⟨rfl, rfl⟩

theorem OnTaskFinished_eq_finishTail {fuel : Nat} {s : AsyncTaskSchedulerImpl}
    (s₁ : AsyncTaskSchedulerImpl) {st : Status} {c : Int} (hok : st.ok = true) (hga : s.global_abort = false)
    (hrel : (match s.throttle with
      | none => some s
      | some t =>
        match t.Release c with
        | (t', none) => some { s with throttle := some t' }
        | (t', some f) =>
          RunCallbacks fuel (s.backoff_callbacks.filter (· == f))
            { s with throttle := some t'
                     backoff_callbacks := s.backoff_callbacks.filter (· != f) }) = some s₁) :
    OnTaskFinished (fuel + 1) s st c = some (finishTail s₁) := by
  rw [OnTaskFinished]
  simp only [hok, Bool.not_true, Bool.false_eq_true, if_false]
  rw [if_neg (by simp [hga]), hrel]
  unfold finishTail
  dsimp only
  split <;> rfl

theorem OnTaskFinished_error {fuel : Nat} {s : AsyncTaskSchedulerImpl} {st : Status} {c : Int}
    (hok : st.ok = false) :
    OnTaskFinished (fuel + 1) s st c =
      some (AbortUnlocked { s with running_tasks := s.running_tasks - 1 } st, false) := by
  rw [OnTaskFinished]
  simp only [hok, Bool.not_false, if_true]

theorem OnTaskFinished_cancelled {fuel : Nat} {s : AsyncTaskSchedulerImpl} {st : Status}
    {c : Int} (hok : st.ok = true) (hga : s.global_abort = true) :
    OnTaskFinished (fuel + 1) s st c =
      some (AbortUnlocked { s with running_tasks := s.running_tasks - 1 }
        (.Cancelled "Another scheduler aborted"), false) := by
  rw [OnTaskFinished]
  simp only [hok, Bool.not_true, Bool.false_eq_true, if_false]
  rw [if_pos hga]

theorem OnTaskFinished_quiet (fuel : Nat) (s : AsyncTaskSchedulerImpl) (st : Status) (c : Int)
    (hq : ∀ t, s.throttle = some t → t.backoff = none) :
    ∃ r, OnTaskFinished (fuel + 1) s st c = some r ∧ r.1.queue.length ≤ s.queue.length ∧
      r.1.throttle.isSome = s.throttle.isSome := by
  by_cases hok : st.ok = true
  · by_cases hga : s.global_abort = true
    · refine ⟨_, OnTaskFinished_cancelled hok hga, ?_, ?_⟩
      · exact (AbortUnlocked_frame _ _).2.1
      · rw [(AbortUnlocked_frame _ _).1]
    · have hga' : s.global_abort = false := by simpa using hga
      cases ht : s.throttle with
      | none =>
        refine ⟨_, OnTaskFinished_eq_finishTail s hok hga' (by rw [ht]), ?_, ?_⟩
        · rw [(finishTail_frame s).2]
        · rw [(finishTail_frame s).1, ht]
      | some t =>
        have hb := hq t ht
        refine ⟨_, OnTaskFinished_eq_finishTail
          { s with throttle := some (t.Release c).1 }
          hok hga' (by rw [ht]; simp only [ThrottleImpl.Release, hb]), ?_, ?_⟩
        · rw [(finishTail_frame _).2]
        · rw [(finishTail_frame _).1]; rfl
  · have hok' : st.ok = false := by simpa using hok
    refine ⟨_, OnTaskFinished_error hok', ?_, ?_⟩
    · exact (AbortUnlocked_frame _ _).2.1
    · rw [(AbortUnlocked_frame _ _).1]

theorem DoSubmitTask_quiet (fuel : Nat) (s : AsyncTaskSchedulerImpl) (task : Task)
    (hq : ∀ t, s.throttle = some t → t.backoff = none) :
    ∃ r, DoSubmitTask (fuel + 2) s task = some r ∧ r.1.queue.length ≤ s.queue.length ∧
      r.1.throttle.isSome = s.throttle.isSome := by
  rw [DoSubmitTask]
  cases hsub : task.submit with
  | failed st =>
    refine ⟨_, rfl, ?_, ?_⟩
    · exact (AbortUnlocked_frame _ _).2.1
    · rw [(AbortUnlocked_frame _ _).1]
  | pending => exact ⟨_, rfl, le_refl _, rfl⟩
  | finished st =>
    exact OnTaskFinished_quiet fuel _ st _ hq

theorem SubmitTaskUnlocked_quiet (fuel : Nat) (s : AsyncTaskSchedulerImpl) (task : Task)
    (hq : ∀ t, s.throttle = some t → t.backoff = none) :
    ∃ r, SubmitTaskUnlocked (fuel + 3) s task = some r ∧ r.1.queue.length ≤ s.queue.length ∧
      r.1.throttle.isSome = s.throttle.isSome := by
  rw [SubmitTaskUnlocked]
  exact DoSubmitTask_quiet fuel _ task hq

theorem ContinueTasksUnlocked_total (fuel : Nat) :
    ∀ s : AsyncTaskSchedulerImpl, s.throttle.isSome = true → s.queue.length + 4 ≤ fuel →
      ∃ s', ContinueTasksUnlocked fuel s = some s' ∧ s'.queue.length ≤ s.queue.length ∧
        s'.throttle.isSome = true := by
  induction fuel with
  | zero => intro s _ h; omega
  | succ fuel ih =>
    intro s hthr hfuel
    rw [ContinueTasksUnlocked]
    cases hq : s.queue with
    | nil => exact ⟨s, rfl, by simp [hq], hthr⟩
    | cons next rest =>
      cases ht : s.throttle with
      | none => simp [ht] at hthr
      | some t =>
        dsimp only
        rcases hacq : t.TryAcquire (min next.cost t.Capacity) with ⟨t', _ | f⟩
        · have hb : t'.backoff = none := by
            obtain ⟨hb, _, rfl⟩ := TryAcquire_granted hacq
            exact hb
          have hlen : rest.length + 4 ≤ fuel := by
            rw [hq] at hfuel
            simp only [List.length_cons] at hfuel
            omega
          obtain ⟨fuel', rfl⟩ : ∃ n, fuel = n + 3 := ⟨fuel - 3, by omega⟩
          obtain ⟨r, hr, hrq, hrt⟩ := SubmitTaskUnlocked_quiet fuel'
            { s with throttle := some t', queue := rest } next
            (by intro t₁ ht₁; simp only [Option.some.injEq] at ht₁; exact ht₁ ▸ hb)
          obtain ⟨s₁, b⟩ := r
          simp only [hr]
          cases b with
          | true =>
            obtain ⟨s₂, h₂, hq₂, ht₂⟩ := ih s₁ (by simpa using hrt)
              (by simp only at hrq; omega)
            refine ⟨s₂, h₂, ?_, ht₂⟩
            simp only [List.length_cons]
            simp only at hrq
            omega
          | false =>
            refine ⟨s₁, rfl, ?_, by simpa using hrt⟩
            simp only [List.length_cons]
            simp only at hrq
            omega
        · exact ⟨_, rfl, by simp [hq], rfl⟩

theorem RunCallbacks_total (fuel : Nat) :
    ∀ (cs : List Nat) (s : AsyncTaskSchedulerImpl), s.throttle.isSome = true →
      cs.length + s.queue.length + 4 ≤ fuel →
      ∃ s', RunCallbacks fuel cs s = some s' ∧ s'.queue.length ≤ s.queue.length ∧
        s'.throttle.isSome = true := by
  induction fuel with
  | zero => intro cs s _ h; omega
  | succ fuel ih =>
    intro cs s hthr hfuel
    cases cs with
    | nil => exact ⟨s, by rw [RunCallbacks], le_refl _, hthr⟩
    | cons c cs =>
      rw [RunCallbacks]
      simp only [List.length_cons] at hfuel
      obtain ⟨s₁, h₁, hq₁, ht₁⟩ := ContinueTasksUnlocked_total fuel s hthr (by omega)
      obtain ⟨s₂, h₂, hq₂, ht₂⟩ := ih cs s₁ ht₁ (by omega)
      simp only [h₁]
      exact ⟨s₂, h₂, by omega, ht₂⟩

theorem OnTaskFinished_total (fuel : Nat) (s : AsyncTaskSchedulerImpl) (st : Status) (c : Int)
    (hfuel : s.backoff_callbacks.length + s.queue.length + 5 ≤ fuel) :
    ∃ r, OnTaskFinished fuel s st c = some r := by
  obtain ⟨fuel, rfl⟩ : ∃ n, fuel = n + 1 := ⟨fuel - 1, by omega⟩
  by_cases hok : st.ok = true
  · by_cases hga : s.global_abort = true
    · exact ⟨_, OnTaskFinished_cancelled hok hga⟩
    · have hga' : s.global_abort = false := by simpa using hga
      cases ht : s.throttle with
      | none => exact ⟨_, OnTaskFinished_eq_finishTail s hok hga' (by rw [ht])⟩
      | some t =>
        cases hb : t.backoff with
        | none =>
          exact ⟨_, OnTaskFinished_eq_finishTail
            { s with throttle := some (t.Release c).1 }
            hok hga' (by rw [ht]; simp only [ThrottleImpl.Release, hb])⟩
        | some f =>
          have hlen := List.length_filter_le (· == f) s.backoff_callbacks
          obtain ⟨s₁, h₁, _, _⟩ := RunCallbacks_total fuel
            (s.backoff_callbacks.filter (· == f))
            { s with throttle := some
                       { t with available_cost := wrapInt32 (t.available_cost + c),
                                backoff := none }
                     backoff_callbacks := s.backoff_callbacks.filter (· != f) }
            rfl (by simp only; omega)
          exact ⟨_, OnTaskFinished_eq_finishTail s₁ hok hga'
            (by rw [ht]; simp only [ThrottleImpl.Release, hb]; exact h₁)⟩
  · have hok' : st.ok = false := by simpa using hok
    exact ⟨_, OnTaskFinished_error hok'⟩

/-- The model never stops for lack of fuel: adding a well-formed task and resolving
the future of a started task always yield a next state. -/
theorem step_total (s : AsyncTaskSchedulerImpl) :
    (∀ task : Task, task.wellFormed = true → ∃ s', s.step (.AddTask task) = some s') ∧
    (∀ cb ∈ s.task_callbacks, ∀ st, ∃ s', s.step (.TaskFinished cb.1 st) = some s') := by
  constructor
  · intro task hwf
    have key : ∃ r, s.AddTask s.fuelFor task = some r := by
      unfold AsyncTaskSchedulerImpl.AddTask
      by_cases hst : s.state = .kAborted
      · exact ⟨_, by rw [if_pos hst]⟩
      · rw [if_neg hst]
        by_cases hga : s.global_abort = true
        · exact ⟨_, by rw [if_pos hga]⟩
        · rw [if_neg hga]
          have hfuel : ∃ n, s.fuelFor = n + 3 := ⟨s.fuelFor - 3, by unfold fuelFor; omega⟩
          obtain ⟨n, hn⟩ := hfuel
          cases ht : s.throttle with
          | none =>
            obtain ⟨r, hr, _⟩ := SubmitTaskUnlocked_quiet n s task (by simp [ht])
            exact ⟨(r.1, true), by simp only [hn, hr, Option.map_some']⟩
          | some t =>
            dsimp only
            by_cases hqb : (!s.queue.isEmpty) = true
            · exact ⟨_, by rw [if_pos hqb]⟩
            · rw [if_neg hqb]
              rcases hacq : t.TryAcquire (min task.cost t.Capacity) with ⟨t', _ | f⟩
              · have hb : t'.backoff = none := by
                  obtain ⟨hb, _, rfl⟩ := TryAcquire_granted hacq
                  exact hb
                obtain ⟨r, hr, _⟩ := SubmitTaskUnlocked_quiet n { s with throttle := some t' }
                  task (by intro t₁ ht₁; simp only [Option.some.injEq] at ht₁; exact ht₁ ▸ hb)
                exact ⟨(r.1, true), by simp only [hn, hr, Option.map_some']⟩
              · exact ⟨_, rfl⟩
    obtain ⟨⟨s₁, b⟩, hr⟩ := key
    simp only [AsyncTaskSchedulerImpl.step, hwf, if_true, hr]
    cases b <;> exact ⟨_, rfl⟩
  · intro cb hmem st
    simp only [AsyncTaskSchedulerImpl.step]
    cases hfind : s.task_callbacks.find? (·.1 == cb.1) with
    | none =>
      have := List.find?_eq_none.mp hfind cb hmem
      simp at this
    | some cb' =>
      obtain ⟨r, hr⟩ := OnTaskFinished_total s.fuelFor
        { s with task_callbacks := s.task_callbacks.erase cb'
                 completed := s.completed ++ [cb.1] } st cb'.2
        (by unfold fuelFor; simp only; omega)
      exact ⟨r.1, by simp only [hr, Option.map_some']⟩

/-! ### Start order -/

theorem FifoAt.fifo_frames (line acc : List Nat) (fuel : Nat) :
    (∀ s s', ContinueTasksUnlocked fuel s = some s' → FifoAt line acc s → FifoAt line acc s') ∧
    (∀ s task r, SubmitTaskUnlocked fuel s task = some r →
      FifoAt (s.started ++ s.queue.map (·.id)) acc s ∧ TaskSucceeds task ∧
        s.started ++ task.id :: s.queue.map (·.id) = line → FifoAt line acc r.1) ∧
    (∀ s st c r, OnTaskFinished fuel s st c = some r → st = .OK ∧ FifoAt line acc s →
      FifoAt line acc r.1) := by
  have key := FrameSpec.sound
    { I := fun _ s => FifoAt line acc s
      Sp := fun _ s task => FifoAt (s.started ++ s.queue.map (·.id)) acc s ∧ TaskSucceeds task ∧
        s.started ++ task.id :: s.queue.map (·.id) = line
      D := fun _ s task => FifoAt (s.started ++ s.queue.map (·.id)) acc s ∧ TaskSucceeds task ∧
        s.started ++ task.id :: s.queue.map (·.id) = line
      F := fun _ s st _ => st = .OK ∧ FifoAt line acc s
      G := fun _ s => FifoAt line acc s
      continue_backoff := by
        intro _ s _ _ _ _ _ h _ _ _
        exact ⟨h.quiet, h.succeed, by simp, h.order, h.accepted⟩
      continue_granted := by
        intro _ s next rest _ _ h hq _ _
        refine ⟨⟨h.quiet, ?_, by simp, rfl, h.accepted⟩, h.succeed next (by simp [hq]), ?_⟩
        · intro x hx; exact h.succeed x (by simp [hq, hx])
        · have := h.order
          rw [hq] at this
          simpa using this
      submit := by
        intro _ s task h
        obtain ⟨h, hs, hl⟩ := h
        exact ⟨⟨h.quiet, h.succeed, h.throttled, rfl, h.accepted⟩, hs, hl⟩
      start_failed := by
        intro _ s task st h hsub
        rcases h.2.1 with h' | h' <;> rw [hsub] at h' <;> simp at h'
      start_pending := by
        intro _ s task h _
        obtain ⟨h, _, hl⟩ := h
        refine ⟨h.quiet, h.succeed, h.throttled, ?_, h.accepted⟩
        show (s.started ++ [task.id]) ++ s.queue.map (·.id) = line
        simpa using hl
      start_finished := by
        intro _ s task st h hsub
        obtain ⟨h, hs, hl⟩ := h
        refine ⟨?_, h.quiet, h.succeed, h.throttled, ?_, h.accepted⟩
        · rcases hs with h' | h' <;> rw [hsub] at h' <;> simp at h'
          exact h'
        · show (s.started ++ [task.id]) ++ s.queue.map (·.id) = line
          simpa using hl
      finished_error := by
        intro _ s st _ h hok
        rw [h.1] at hok
        simp [Status.ok] at hok
      finished_cancelled := by
        intro _ s st _ h _ hga
        rw [h.2.quiet] at hga
        simp at hga
      release_none := fun _ _ _ _ h _ _ _ => h.2
      release_quiet := by
        intro _ s _ _ _ _ h _ _ _ _
        exact ⟨h.2.quiet, h.2.succeed, by simp, h.2.order, h.2.accepted⟩
      release_signal := by
        intro _ s _ _ _ _ _ h _ _ _ _
        exact ⟨h.2.quiet, h.2.succeed, by simp, h.2.order, h.2.accepted⟩
      resumed := fun _ _ h => h
      finish := by
        intro _ s h
        obtain ⟨marks, hm⟩ := finishTail_eq s
        rw [hm]
        exact ⟨h.quiet, h.succeed, h.throttled, h.order, h.accepted⟩ }
    fuel
  exact ⟨key.1 0, key.2.1 0, key.2.2.2.1 0⟩

theorem FifoAt.fifo_step {s s' : AsyncTaskSchedulerImpl} {e : SchedulerEvent}
    (h : FifoAt s.accepted s.accepted s) (hcalm : calmEvent e = true)
    (hs : s.step e = some s') : FifoAt s'.accepted s'.accepted s' := by
  cases e with
  | AddTask task =>
    have hsucc : TaskSucceeds task := by simpa [calmEvent] using hcalm
    obtain ⟨_, r, hr, hres⟩ := step_AddTask_cases hs
    have hq' : ∀ x ∈ s.queue ++ [task], TaskSucceeds x := by
      intro x hx
      rcases List.mem_append.mp hx with hx | hx
      · exact h.succeed x hx
      · simp only [List.mem_singleton] at hx; exact hx ▸ hsucc
    rcases AddTask_cases hr with ⟨_, rfl⟩ | ⟨_, hga, rfl⟩ | ⟨_, _, _, _, rfl⟩ |
      ⟨_, _, _, t, t', f, _, _, rfl⟩ | ⟨_, _, hq, t, t', r', _, _, hsub, rfl⟩ |
      ⟨_, _, hnone, _⟩
    · rcases hres with ⟨hc, _⟩ | ⟨_, rfl⟩
      · simp at hc
      · exact h
    · rw [h.quiet] at hga; simp at hga
    · rcases hres with ⟨_, rfl⟩ | ⟨hc, _⟩
      · refine ⟨h.quiet, hq', h.throttled, ?_, rfl⟩
        show s.started ++ (s.queue ++ [task]).map (·.id) = s.accepted ++ [task.id]
        rw [← h.order]; simp
      · simp at hc
    · rcases hres with ⟨_, rfl⟩ | ⟨hc, _⟩
      · refine ⟨h.quiet, hq', by simp, ?_, rfl⟩
        show s.started ++ (s.queue ++ [task]).map (·.id) = s.accepted ++ [task.id]
        rw [← h.order]; simp
      · simp at hc
    · have hline : s.started ++ [task.id] = s.accepted ++ [task.id] := by
        rw [← h.order, hq]; simp
      have := (FifoAt.fifo_frames (s.accepted ++ [task.id]) s.accepted _).2.1 _ _ r' hsub
        ⟨⟨h.quiet, h.succeed, by simp, rfl, rfl⟩, hsucc, by
          show s.started ++ task.id :: s.queue.map (·.id) = _
          rw [hq]; simpa using hline⟩
      rcases hres with ⟨_, rfl⟩ | ⟨hc, _⟩
      · refine ⟨this.quiet, this.succeed, this.throttled, ?_, rfl⟩
        show r'.1.started ++ r'.1.queue.map (·.id) = r'.1.accepted ++ [task.id]
        rw [this.order, this.accepted]
      · simp at hc
    · exact absurd hnone h.throttled
  | TaskFinished id st =>
    have hst : st = .OK := by simpa [calmEvent] using hcalm
    obtain ⟨cb, r, _, _, hfin, rfl⟩ := step_TaskFinished_cases hs
    have := (FifoAt.fifo_frames s.accepted s.accepted _).2.2 _ _ _ _ hfin
      ⟨hst, h.quiet, h.succeed, h.throttled, h.order, h.accepted⟩
    exact ⟨this.quiet, this.succeed, this.throttled, by rw [this.order, this.accepted], rfl⟩
  | MakeSubScheduler => simp [calmEvent] at hcalm
  | ChildFinished _ _ => simp [calmEvent] at hcalm
  | End _ => simp [calmEvent] at hcalm
  | GlobalAbort => simp [calmEvent] at hcalm


/-! ### One task at a time under a throttle of capacity one -/

theorem Serial.idle_of_granted {s : AsyncTaskSchedulerImpl} {t t' : ThrottleImpl}
    (h : Serial false s) (ht : s.throttle = some t)
    (hacq : t.TryAcquire 1 = (t', none)) :
    t'.max_concurrent_cost = 1 ∧ t'.available_cost = 0 ∧ s.task_callbacks = [] ∧
    s.started = s.completed := by
  obtain ⟨t₀, ht₀, hmax, hmode⟩ := h.throttle
  rw [ht] at ht₀
  cases ht₀
  obtain ⟨_, hle, rfl⟩ := TryAcquire_granted hacq
  simp only [Bool.false_eq_true, if_false] at hmode
  rcases hmode with ⟨hav, hcb, hst⟩ | ⟨hav, _⟩
  · refine ⟨hmax, ?_, hcb, hst⟩
    show wrapInt32 (t.available_cost - 1) = 0
    rw [hav]; decide
  · omega

theorem Serial.serial_frames (fuel : Nat) :
    (∀ s s', ContinueTasksUnlocked fuel s = some s' → Serial false s → Serial false s') ∧
    (∀ s task r, SubmitTaskUnlocked fuel s task = some r →
      Serial true s ∧ TaskSucceeds task ∧ 1 ≤ task.cost → Serial false r.1) ∧
    (∀ s st c r, OnTaskFinished fuel s st c = some r → st = .OK ∧ c = 1 ∧ Serial true s →
      Serial false r.1) := by
  have key := FrameSpec.sound
    { I := fun _ s => Serial false s
      Sp := fun _ s task => Serial true s ∧ TaskSucceeds task ∧ 1 ≤ task.cost
      D := fun _ s task => Serial true s ∧ TaskSucceeds task ∧ 1 ≤ task.cost
      F := fun _ s st c => st = .OK ∧ c = 1 ∧ Serial true s
      G := fun _ s => Serial false s
      continue_backoff := by
        intro _ s _ _ t t' f h _ ht hacq
        obtain ⟨t₀, ht₀, hmax, hmode⟩ := h.throttle
        rw [ht] at ht₀
        cases ht₀
        obtain ⟨hav, hmx⟩ := TryAcquire_denied hacq
        exact ⟨h.quiet, h.succeed, t', rfl, by rw [hmx]; exact hmax, by rw [hav]; exact hmode⟩
      continue_granted := by
        intro _ s next rest t t' h hq ht hacq
        have hnext := h.succeed next (by simp [hq])
        obtain ⟨t₀, ht₀, hmax, _⟩ := h.throttle
        have htt : t₀ = t := by rw [ht] at ht₀; exact (Option.some.inj ht₀).symm
        subst htt
        have hamt : min next.cost t₀.Capacity = 1 := by
          simp only [ThrottleImpl.Capacity, hmax]
          omega
        rw [hamt] at hacq
        obtain ⟨h1, h2, h3, h4⟩ := h.idle_of_granted ht hacq
        refine ⟨⟨h.quiet, ?_, t', rfl, h1, ?_⟩, hnext.1, hnext.2⟩
        · intro x hx; exact h.succeed x (by simp [hq, hx])
        · simp only [if_true]; exact ⟨h2, h3, h4⟩
      submit := by
        intro _ s task h
        obtain ⟨h, hs, hc⟩ := h
        exact ⟨⟨h.quiet, h.succeed, h.throttle⟩, hs, hc⟩
      start_failed := by
        intro _ s task st h hsub
        rcases h.2.1 with h' | h' <;> rw [hsub] at h' <;> simp at h'
      start_pending := by
        intro _ s task h _
        obtain ⟨h, _, hc⟩ := h
        obtain ⟨t, ht, hmax, hmode⟩ := h.throttle
        simp only [if_true] at hmode
        obtain ⟨hav, hcb, hst⟩ := hmode
        refine ⟨h.quiet, h.succeed, t, ht, hmax, ?_⟩
        simp only [Bool.false_eq_true, if_false]
        refine Or.inr ⟨hav, task.id, ?_, ?_⟩
        · show s.task_callbacks ++ [(task.id, s.latchedCost task)] = _
          have : s.latchedCost task = 1 := by
            simp only [latchedCost, ht, ThrottleImpl.Capacity, hmax]
            omega
          rw [hcb, this]; rfl
        · show s.started ++ [task.id] = s.completed ++ [task.id]
          rw [hst]
      start_finished := by
        intro _ s task st h hsub
        obtain ⟨h, hs, hc⟩ := h
        obtain ⟨t, ht, hmax, hmode⟩ := h.throttle
        simp only [if_true] at hmode
        obtain ⟨hav, hcb, hst⟩ := hmode
        refine ⟨?_, ?_, h.quiet, h.succeed, t, ht, hmax, ?_⟩
        · rcases hs with h' | h' <;> rw [hsub] at h' <;> simp at h'
          exact h'
        · simp only [latchedCost, ht, ThrottleImpl.Capacity, hmax]
          omega
        · simp only [if_true]
          exact ⟨hav, hcb, by rw [hst]⟩
      finished_error := by
        intro _ s st _ h hok
        rw [h.1] at hok
        simp [Status.ok] at hok
      finished_cancelled := by
        intro _ s st _ h _ hga
        rw [h.2.2.quiet] at hga
        simp at hga
      release_none := by
        intro _ s _ _ h _ _ hnone
        obtain ⟨t, ht, _⟩ := h.2.2.throttle
        rw [hnone] at ht
        simp at ht
      release_quiet := by
        intro _ s _ c t t' h _ _ ht hrel
        obtain ⟨_, hc, h⟩ := h
        obtain ⟨t₀, ht₀, hmax, hmode⟩ := h.throttle
        rw [ht] at ht₀
        cases ht₀
        simp only [if_true] at hmode
        obtain ⟨hav, hcb, hst⟩ := hmode
        simp only [ThrottleImpl.Release, Prod.mk.injEq] at hrel
        refine ⟨h.quiet, h.succeed, t', rfl, by rw [← hrel.1]; exact hmax, ?_⟩
        simp only [Bool.false_eq_true, if_false]
        refine Or.inl ⟨?_, hcb, hst⟩
        rw [← hrel.1, hc]
        show wrapInt32 (t.available_cost + 1) = 1
        rw [hav]; decide
      release_signal := by
        intro _ s _ c t t' f h _ _ ht hrel
        obtain ⟨_, hc, h⟩ := h
        obtain ⟨t₀, ht₀, hmax, hmode⟩ := h.throttle
        rw [ht] at ht₀
        cases ht₀
        simp only [if_true] at hmode
        obtain ⟨hav, hcb, hst⟩ := hmode
        simp only [ThrottleImpl.Release, Prod.mk.injEq] at hrel
        refine ⟨h.quiet, h.succeed, t', rfl, by rw [← hrel.1]; exact hmax, ?_⟩
        simp only [Bool.false_eq_true, if_false]
        refine Or.inl ⟨?_, hcb, hst⟩
        rw [← hrel.1, hc]
        show wrapInt32 (t.available_cost + 1) = 1
        rw [hav]; decide
      resumed := fun _ _ h => h
      finish := by
        intro _ s h
        obtain ⟨marks, hm⟩ := finishTail_eq s
        rw [hm]
        exact ⟨h.quiet, h.succeed, h.throttle⟩ }
    fuel
  exact ⟨key.1 0, key.2.1 0, key.2.2.2.1 0⟩

theorem Serial.serial_step {s s' : AsyncTaskSchedulerImpl} {e : SchedulerEvent}
    (h : Serial false s) (hcalm : calmEvent e = true) (hunit : unitCost e = true)
    (hs : s.step e = some s') : Serial false s' := by
  cases e with
  | AddTask task =>
    have hsucc : TaskSucceeds task := by simpa [calmEvent] using hcalm
    have hcost : 1 ≤ task.cost := by simpa [unitCost] using hunit
    obtain ⟨_, r, hr, hres⟩ := step_AddTask_cases hs
    have hq' : ∀ x ∈ s.queue ++ [task], TaskSucceeds x ∧ 1 ≤ x.cost := by
      intro x hx
      rcases List.mem_append.mp hx with hx | hx
      · exact h.succeed x hx
      · simp only [List.mem_singleton] at hx; exact hx ▸ ⟨hsucc, hcost⟩
    have key : Serial false r.1 := by
      rcases AddTask_cases hr with ⟨_, rfl⟩ | ⟨_, hga, rfl⟩ | ⟨_, _, _, _, rfl⟩ |
        ⟨_, _, _, t, t', f, ht, hacq, rfl⟩ | ⟨_, _, hq, t, t', r', ht, hacq, hsub, rfl⟩ |
        ⟨_, _, hnone, _⟩
      · exact h
      · rw [h.quiet] at hga; simp at hga
      · exact ⟨h.quiet, hq', h.throttle⟩
      · obtain ⟨t₀, ht₀, hmax, hmode⟩ := h.throttle
        rw [ht] at ht₀
        cases ht₀
        obtain ⟨hav, hmx⟩ := TryAcquire_denied hacq
        exact ⟨h.quiet, hq', t', rfl, by rw [hmx]; exact hmax, by rw [hav]; exact hmode⟩
      · obtain ⟨t₀, ht₀, hmax, _⟩ := h.throttle
        have htt : t₀ = t := by rw [ht] at ht₀; exact (Option.some.inj ht₀).symm
        subst htt
        have hamt : min task.cost t₀.Capacity = 1 := by
          simp only [ThrottleImpl.Capacity, hmax]
          omega
        rw [hamt] at hacq
        obtain ⟨h1, h2, h3, h4⟩ := h.idle_of_granted ht hacq
        refine (Serial.serial_frames _).2.1 _ _ r' hsub ⟨⟨h.quiet, h.succeed, t', rfl, h1, ?_⟩,
          hsucc, hcost⟩
        simp only [if_true]; exact ⟨h2, h3, h4⟩
      · obtain ⟨t, ht, _⟩ := h.throttle
        rw [hnone] at ht
        simp at ht
    rcases hres with ⟨_, rfl⟩ | ⟨_, rfl⟩
    · exact ⟨key.quiet, key.succeed, key.throttle⟩
    · exact key
  | TaskFinished id st =>
    have hst : st = .OK := by simpa [calmEvent] using hcalm
    obtain ⟨cb, r, hmem, hid, hfin, rfl⟩ := step_TaskFinished_cases hs
    obtain ⟨t, ht, hmax, hmode⟩ := h.throttle
    simp only [Bool.false_eq_true, if_false] at hmode
    rcases hmode with ⟨_, hcb, _⟩ | ⟨hav, id', hcb, hstarted⟩
    · rw [hcb] at hmem; simp at hmem
    · rw [hcb] at hmem
      simp only [List.mem_singleton] at hmem
      subst hmem
      have hid' : id' = id := hid
      subst hid'
      refine (Serial.serial_frames _).2.2 _ _ _ _ hfin ⟨hst, rfl, h.quiet, h.succeed, t, ht, hmax, ?_⟩
      simp only [if_true]
      refine ⟨hav, ?_, hstarted⟩
      show s.task_callbacks.erase (id', 1) = []
      rw [hcb]; simp
  | MakeSubScheduler => simp [calmEvent] at hcalm
  | ChildFinished _ _ => simp [calmEvent] at hcalm
  | End _ => simp [calmEvent] at hcalm
  | GlobalAbort => simp [calmEvent] at hcalm

theorem run_invariant (Q : AsyncTaskSchedulerImpl → Prop) (ok : SchedulerEvent → Bool)
    (hstep : ∀ s s' e, Q s → ok e = true → s.step e = some s' → Q s') :
    ∀ (es : List SchedulerEvent) (s s' : AsyncTaskSchedulerImpl), Q s →
      (∀ e ∈ es, ok e = true) → s.run es = some s' → Q s' := by
  intro es
  induction es with
  | nil =>
    intro s s' h _ hr
    simp only [AsyncTaskSchedulerImpl.run, Option.some.injEq] at hr
    exact hr ▸ h
  | cons e es ih =>
    intro s s' h hok hr
    simp only [AsyncTaskSchedulerImpl.run] at hr
    cases hs : s.step e with
    | none => simp [hs] at hr
    | some s₁ =>
      simp only [hs] at hr
      exact ih s₁ s' (hstep s s₁ e h (hok e (by simp)) hs)
        (fun e' he' => hok e' (by simp [he'])) hr

/-- C2, as amended. A node with a throttle of capacity `C` and the default queue, in
a run in which tasks that succeed are added and task futures resolve with OK: the
accepted tasks are the started tasks followed by the queued tasks, so tasks start in
the order in which `AddTask` accepted them. When `C = 1` and every task costs at least
one, at most one task is running, and the started tasks are the completed tasks
followed by the running one: a task starts only after all tasks accepted before it
completed, and tasks complete in the order of submission. -/
theorem tasks_start_in_submission_order (C : Int) (has_finish_callback : Bool)
    (events : List SchedulerEvent) (s : AsyncTaskSchedulerImpl)
    (hcalm : ∀ e ∈ events, calmEvent e = true)
    (hrun : (AsyncTaskSchedulerImpl.make none (some (MakeThrottle C))
      has_finish_callback).run events = some s) :
    s.accepted = s.started ++ s.queue.map (·.id) ∧
    (C = 1 → (∀ e ∈ events, unitCost e = true) →
      s.task_callbacks.length ≤ 1 ∧
      s.started = s.completed ++ s.task_callbacks.map (·.1)) := by
  constructor
  · have := run_invariant (fun s => FifoAt s.accepted s.accepted s) calmEvent
      (fun _ _ _ h hc hs => FifoAt.fifo_step h hc hs) events _ s
      ⟨rfl, by simp [AsyncTaskSchedulerImpl.make], by simp [AsyncTaskSchedulerImpl.make],
        rfl, rfl⟩ hcalm hrun
    exact this.order.symm
  · intro hC hunit
    subst hC
    have := run_invariant (fun s => Serial false s)
      (fun e => calmEvent e && unitCost e)
      (fun _ _ _ h hc hs => by
        simp only [Bool.and_eq_true] at hc
        exact Serial.serial_step h hc.1 hc.2 hs) events _ s
      ⟨rfl, by simp [AsyncTaskSchedulerImpl.make],
        MakeThrottle 1, rfl, rfl, by simp [AsyncTaskSchedulerImpl.make, MakeThrottle]⟩
      (fun e he => by simp [hcalm e he, hunit e he]) hrun
    obtain ⟨t, _, _, hmode⟩ := this.throttle
    simp only [Bool.false_eq_true, if_false] at hmode
    rcases hmode with ⟨_, hcb, hst⟩ | ⟨_, id, hcb, hst⟩
    · simp [hcb, hst]
    · simp [hcb, hst]


/-- Witness for C2: capacity one; task 0 (cost 1) starts, task 1 (cost 3) and task 2
(cost 1, finishing at once) are queued, task 0 completes. -/
theorem tasks_start_in_submission_order_witness :
    ([0, 1, 2] : List Nat) = [0, 1] ++ [2] ∧
    ((1 : Int) = 1 → (∀ e ∈ ([.AddTask ⟨0, 1, .pending⟩, .AddTask ⟨1, 3, .pending⟩,
        .AddTask ⟨2, 1, .finished .OK⟩, .TaskFinished 0 .OK] : List SchedulerEvent),
        unitCost e = true) →
      [((1 : Nat), (1 : Int))].length ≤ 1 ∧ ([0, 1] : List Nat) = [0] ++ [1]) :=
  tasks_start_in_submission_order 1 false
    [.AddTask ⟨0, 1, .pending⟩, .AddTask ⟨1, 3, .pending⟩,
      .AddTask ⟨2, 1, .finished .OK⟩, .TaskFinished 0 .OK]
    { queue := [⟨2, 1, .finished .OK⟩]
      throttle := some { max_concurrent_cost := 1, available_cost := 0, backoff := some 1,
                         next_future := 2 }
      has_finish_callback := false
      running_tasks := 1
      state := .kRunning
      maybe_error := .OK
      sub_schedulers := 0
      global_abort := false
      finished_marks := []
      accepted := [0, 1, 2]
      started := [0, 1]
      completed := [0]
      aborts := []
      task_callbacks := [(1, 1)]
      backoff_callbacks := [1] }
    (by decide) (by decide!)

/-- Counterexample to C2 as stated: under a throttle of capacity one, two tasks of
cost zero run at the same time, and the second completes before the first. -/
theorem zero_cost_tasks_overlap :
    ¬ ∀ (events : List SchedulerEvent) (s : AsyncTaskSchedulerImpl),
      (∀ e ∈ events, calmEvent e = true) →
      (AsyncTaskSchedulerImpl.make none (some (MakeThrottle 1)) false).run events = some s →
      s.task_callbacks.length ≤ 1 ∧ s.started = s.completed ++ s.task_callbacks.map (·.1) := by
  intro h
  have h₁ := h [.AddTask ⟨0, 0, .pending⟩, .AddTask ⟨1, 0, .pending⟩]
    { queue := []
      throttle := some { max_concurrent_cost := 1, available_cost := 1, backoff := none,
                         next_future := 0 }
      has_finish_callback := false
      running_tasks := 2
      state := .kRunning
      maybe_error := .OK
      sub_schedulers := 0
      global_abort := false
      finished_marks := []
      accepted := [0, 1]
      started := [0, 1]
      completed := []
      aborts := []
      task_callbacks := [(0, 0), (1, 0)]
      backoff_callbacks := [] }
    (by decide) (by decide!)
  exact absurd h₁.1 (by decide)

/-- C3, the case the code misses: in a tree with a root and two children, a task of
the first child whose future resolves with an error aborts that child but leaves the
tree-wide flag unset, and a task added afterwards to the second child is accepted and
started. -/
theorem sibling_starts_task_after_task_failure :
    ((SchedulerTree.Make none).run
      [.MakeSubScheduler 0 (some (MakeThrottle 1)), .MakeSubScheduler 0 (some (MakeThrottle 1)),
        .node 1 (.AddTask ⟨0, 1, .pending⟩),
        .node 1 (.TaskFinished 0 (.Failure "write failed")),
        .node 2 (.AddTask ⟨1, 1, .pending⟩)]).map
      (fun t => (t.global_abort, t.nodes.map (·.state), t.nodes.map (·.accepted),
        t.nodes.map (·.started)))
      = some (false, [.kRunning, .kAborted, .kRunning], [[], [0], [1]], [[], [0], [1]]) := by
  decide!

/-- Witness for C4: two tasks are started on a root, `End` is called, the second
task fails, then the first fails. -/
theorem completion_signal_marked_once_witness :
    [Status.Failure "write failed"].length ≤ 1 ∧
    ∀ st ∈ [Status.Failure "write failed"],
      State.kEnded = .kEnded ∧ (0 : Int) = 0 ∧ ([] : List (Nat × Int)) = [] ∧
      (0 : Nat) = 0 ∧ ([] : List Task) = [] ∧
      st = firstError [Status.Failure "write failed", Status.Failure "late"] :=
  completion_signal_marked_once none
    [.AddTask ⟨0, 1, .pending⟩, .AddTask ⟨1, 1, .pending⟩, .End false,
      .TaskFinished 1 (.Failure "write failed"), .TaskFinished 0 (.Failure "late")]
    { queue := []
      throttle := none
      has_finish_callback := false
      running_tasks := 0
      state := .kEnded
      maybe_error := .Failure "write failed"
      sub_schedulers := 0
      global_abort := false
      finished_marks := [.Failure "write failed"]
      accepted := [0, 1]
      started := [0, 1]
      completed := [1, 0]
      aborts := [.Failure "write failed", .Failure "late"]
      task_callbacks := []
      backoff_callbacks := [] }
    (by decide) (by decide!)

/-- Witness for C5: a task fails on a running node, then a second abort arrives. -/
theorem first_error_wins_witness :
    (Status.ok (.Failure "write failed") = false →
      (AsyncTaskSchedulerImpl.AbortUnlocked
        { queue := []
          throttle := none
          has_finish_callback := false
          running_tasks := 0
          state := .kAborted
          maybe_error := .Failure "write failed"
          sub_schedulers := 0
          global_abort := false
          finished_marks := []
          accepted := [0]
          started := [0]
          completed := [0]
          aborts := [.Failure "write failed"]
          task_callbacks := []
          backoff_callbacks := [] }
        (.Cancelled "Another scheduler aborted")).maybe_error = .Failure "write failed") ∧
    (State.kAborted = .kEnded → Status.ok (.Failure "write failed") = true →
      (AsyncTaskSchedulerImpl.AbortUnlocked
        { queue := []
          throttle := none
          has_finish_callback := false
          running_tasks := 0
          state := .kAborted
          maybe_error := .Failure "write failed"
          sub_schedulers := 0
          global_abort := false
          finished_marks := []
          accepted := [0]
          started := [0]
          completed := [0]
          aborts := [.Failure "write failed"]
          task_callbacks := []
          backoff_callbacks := [] }
        (.Cancelled "Another scheduler aborted")).maybe_error
        = .Cancelled "Another scheduler aborted") :=
  first_error_wins none none false
    [.AddTask ⟨0, 1, .pending⟩, .TaskFinished 0 (.Failure "write failed")]
    { queue := []
      throttle := none
      has_finish_callback := false
      running_tasks := 0
      state := .kAborted
      maybe_error := .Failure "write failed"
      sub_schedulers := 0
      global_abort := false
      finished_marks := []
      accepted := [0]
      started := [0]
      completed := [0]
      aborts := [.Failure "write failed"]
      task_callbacks := []
      backoff_callbacks := [] }
    (by decide!) (.Cancelled "Another scheduler aborted")

end AsyncTaskSchedulerImpl
end Arrow

namespace Arrow

/-! ## Further properties of `ThrottleImpl` -/

theorem ThrottleImpl.signalsAfter_backoff (s : ThrottleImpl × List Nat) (c : ThrottleCall)
    (h : s.2 = s.1.backoff.toList) :
    (ThrottleImpl.signalsAfter s c).2 = (ThrottleImpl.signalsAfter s c).1.backoff.toList := by
  obtain ⟨t, pending⟩ := s
  simp only at h
  subst h
  cases c with
  | try_acquire amt =>
    simp only [ThrottleImpl.signalsAfter, ThrottleImpl.TryAcquire]
    cases hb : t.backoff with
    | some f => simp [hb]
    | none =>
      by_cases hle : amt ≤ t.available_cost
      · simp [hle, hb]
      · simp [hle]
  | release amt =>
    simp only [ThrottleImpl.signalsAfter, ThrottleImpl.Release]
    cases hb : t.backoff with
    | some f => simp
    | none => simp

theorem ThrottleImpl.signals_backoff (calls : List ThrottleCall) :
    ∀ s : ThrottleImpl × List Nat, s.2 = s.1.backoff.toList →
      (ThrottleImpl.signals s calls).2 = (ThrottleImpl.signals s calls).1.backoff.toList := by
  induction calls with
  | nil => intro s h; exact h
  | cons c cs ih =>
    intro s h
    exact ih _ (ThrottleImpl.signalsAfter_backoff s c h)

/-- C20. For every throttle state and cost `c`: with a pending signal, `TryAcquire`
returns that signal and changes nothing, whatever `c`; without one and with
`c ≤ available_cost` it grants and the new `available_cost` is the old one minus `c`
(as an `int`, so exactly when the difference is representable); without one and with
`c > available_cost` it makes a new signal, stores and returns it and leaves
`available_cost` unchanged. After every sequence of calls on a new throttle the
signals made and not yet marked finished are the stored one, if any: at most one. -/
theorem try_acquire_keeps_one_pending_signal (t : ThrottleImpl) (c : Int) :
    (∀ f, t.backoff = some f → t.TryAcquire c = (t, some f)) ∧
    (t.backoff = none → c ≤ t.available_cost →
      t.TryAcquire c = ({ t with available_cost := wrapInt32 (t.available_cost - c) }, none) ∧
      (-(2 ^ 31) ≤ t.available_cost - c → t.available_cost - c < 2 ^ 31 →
        (t.TryAcquire c).1.available_cost = t.available_cost - c)) ∧
    (t.backoff = none → t.available_cost < c →
      t.TryAcquire c
        = ({ t with backoff := some t.next_future, next_future := t.next_future + 1 },
            some t.next_future)) ∧
    (∀ (C : Int) (calls : List ThrottleCall),
      (ThrottleImpl.signals (MakeThrottle C, []) calls).2
        = (ThrottleImpl.signals (MakeThrottle C, []) calls).1.backoff.toList ∧
      (ThrottleImpl.signals (MakeThrottle C, []) calls).2.length ≤ 1) := by
  refine ⟨?_, ?_, ?_, ?_⟩
  · intro f hb
    simp only [ThrottleImpl.TryAcquire, hb]
  · intro hb hle
    have h : t.TryAcquire c
        = ({ t with available_cost := wrapInt32 (t.available_cost - c) }, none) := by
      simp only [ThrottleImpl.TryAcquire, hb, hle, if_true]
    refine ⟨h, fun h₁ h₂ => ?_⟩
    rw [h]
    exact wrapInt32_eq_self h₁ h₂
  · intro hb hlt
    simp only [ThrottleImpl.TryAcquire, hb, not_le.mpr hlt, if_false]
  · intro C calls
    have h := ThrottleImpl.signals_backoff calls (MakeThrottle C, []) rfl
    refine ⟨h, ?_⟩
    rw [h]
    cases (ThrottleImpl.signals (MakeThrottle C, []) calls).1.backoff <;> simp

namespace AsyncTaskSchedulerImpl

/-! ## Further properties of the scheduler node -/

theorem AddTask_total (s : AsyncTaskSchedulerImpl) (task : Task) :
    ∃ r, s.AddTask s.fuelFor task = some r := by
  unfold AsyncTaskSchedulerImpl.AddTask
  by_cases hst : s.state = .kAborted
  · exact ⟨_, by rw [if_pos hst]⟩
  · rw [if_neg hst]
    by_cases hga : s.global_abort = true
    · exact ⟨_, by rw [if_pos hga]⟩
    · rw [if_neg hga]
      have hfuel : ∃ n, s.fuelFor = n + 3 := ⟨s.fuelFor - 3, by unfold fuelFor; omega⟩
      obtain ⟨n, hn⟩ := hfuel
      cases ht : s.throttle with
      | none =>
        obtain ⟨r, hr, _⟩ := SubmitTaskUnlocked_quiet n s task (by simp [ht])
        exact ⟨(r.1, true), by simp only [hn, hr, Option.map_some']⟩
      | some t =>
        dsimp only
        by_cases hqb : (!s.queue.isEmpty) = true
        · exact ⟨_, by rw [if_pos hqb]⟩
        · rw [if_neg hqb]
          rcases hacq : t.TryAcquire (min task.cost t.Capacity) with ⟨t', _ | f⟩
          · have hb : t'.backoff = none := by
              obtain ⟨hb, _, rfl⟩ := TryAcquire_granted hacq
              exact hb
            obtain ⟨r, hr, _⟩ := SubmitTaskUnlocked_quiet n { s with throttle := some t' }
              task (by intro t₁ ht₁; simp only [Option.some.injEq] at ht₁; exact ht₁ ▸ hb)
            exact ⟨(r.1, true), by simp only [hn, hr, Option.map_some']⟩
          · exact ⟨_, rfl⟩

/-- C16, as amended. For every node, so in particular for every node that is not
ended, and every task, `AddTask` returns; it returns false exactly when the node is
aborted or the tree-wide flag is set. On an aborted node nothing changes. With the
flag set on a node that is not aborted, `AbortUnlocked` is called with a `Cancelled`
status, the queue is empty afterwards and the task is not started (the started tasks,
the pending task futures and the running count are unchanged); a running node is then
aborted and records the `Cancelled` status. -/
theorem add_task_rejected_when_aborted_or_cancelled (s : AsyncTaskSchedulerImpl) (task : Task) :
    ∃ r, s.AddTask s.fuelFor task = some r ∧
      (r.2 = false ↔ s.state = .kAborted ∨ s.global_abort = true) ∧
      (s.state = .kAborted → r.1 = s) ∧
      (s.state ≠ .kAborted → s.global_abort = true →
        r.1.aborts = s.aborts ++ [.Cancelled "Another scheduler aborted"] ∧
        r.1.queue = [] ∧ r.1.started = s.started ∧
        r.1.task_callbacks = s.task_callbacks ∧ r.1.running_tasks = s.running_tasks) ∧
      (s.state = .kRunning → s.global_abort = true →
        r.1.state = .kAborted ∧
        r.1.maybe_error = .Cancelled "Another scheduler aborted" ∧
        r.1.finished_marks = s.finished_marks) := by
  obtain ⟨r, hr⟩ := AddTask_total s task
  refine ⟨r, hr, ?_, ?_, ?_, ?_⟩
  · rcases AddTask_cases hr with ⟨h, rfl⟩ | ⟨_, h, rfl⟩ | ⟨h1, h2, _, _, rfl⟩ |
      ⟨h1, h2, _, t, t', f, _, _, rfl⟩ | ⟨h1, h2, _, t, t', r', _, _, hsub, rfl⟩ |
      ⟨h1, h2, _, r', hsub, rfl⟩
    · simp [h]
    · simp [h]
    all_goals simp [h1, h2]
  · intro hab
    rcases AddTask_cases hr with ⟨_, rfl⟩ | ⟨h, _⟩ | ⟨h, _⟩ | ⟨h, _⟩ | ⟨h, _⟩ | ⟨h, _⟩
    · rfl
    all_goals exact absurd hab h
  · intro hnab hga
    rcases AddTask_cases hr with ⟨h, _⟩ | ⟨_, _, rfl⟩ | ⟨_, h, _⟩ | ⟨_, h, _⟩ | ⟨_, h, _⟩ |
      ⟨_, h, _⟩
    · exact absurd h hnab
    · unfold AbortUnlocked
      cases hst : s.state with
      | kAborted => exact absurd hst hnab
      | kRunning => simp [MarkFinished]
      | kEnded =>
        simp only [MarkFinished]
        split <;> exact ⟨rfl, rfl, rfl, rfl, rfl⟩
    all_goals rw [hga] at h; exact absurd h (by decide)
  · intro hrun hga
    rcases AddTask_cases hr with ⟨h, _⟩ | ⟨_, _, rfl⟩ | ⟨_, h, _⟩ | ⟨_, h, _⟩ | ⟨_, h, _⟩ |
      ⟨_, h, _⟩
    · rw [hrun] at h; exact absurd h (by decide)
    · simp only [AbortUnlocked, hrun, MarkFinished]
      simp
    all_goals rw [hga] at h; exact absurd h (by decide)

/-- Counterexample to C16 as stated: a task is added to a root, `End` is called while
it runs, and a second task is added to the ended node: `AddTask` returns true and the
second task is started. -/
theorem add_task_accepted_on_ended_node :
    ((make none none false).run [.AddTask ⟨0, 1, .pending⟩, .End false]).bind
      (fun s => (s.AddTask s.fuelFor ⟨1, 1, .pending⟩).map
        fun r => (s.state, s.global_abort, r.2, r.1.started, r.1.queue))
      = some (.kEnded, false, true, [0, 1], []) := by
  decide!

theorem step_ended {s s' : AsyncTaskSchedulerImpl} {e : SchedulerEvent}
    (hs : s.step e = some s') (h : s.state = .kEnded) : s'.state = .kEnded := by
  by_cases hne : ∀ fd, e ≠ .End fd
  · refine step_preserve (fun s => s.state = .kEnded) ?_ ?_ hne hs h
    · intro s s' h1 _ h; rw [h1]; exact h
    · intro s st h
      rw [AbortUnlocked_state, h]
      rfl
  · push_neg at hne
    obtain ⟨fd, rfl⟩ := hne
    simp only [AsyncTaskSchedulerImpl.step] at hs
    rcases End_cases hs with ⟨_, _, rfl⟩ | ⟨_, rfl⟩ <;> rfl

theorem step_aborted {s s' : AsyncTaskSchedulerImpl} {e : SchedulerEvent}
    (hne : ∀ fd, e ≠ .End fd) (hs : s.step e = some s') (h : s.state = .kAborted) :
    s'.state = .kAborted := by
  refine step_preserve (fun s => s.state = .kAborted) ?_ ?_ hne hs h
  · intro s s' h1 _ h; rw [h1]; exact h
  · intro s st h
    rw [AbortUnlocked_state, h]
    rfl

/-- C19, as amended. For every node and every event (a task added, a task future
resolving, a child created or finalized, the flag being set, `End` called by the owner
or, with `from_destructor`, by the release of the handle): an ended node stays ended,
an aborted node stays aborted under every event but `End`, and `End` leaves every node
ended; so the state is unchanged, or moves from running to aborted, or moves to ended
through `End`. `AbortUnlocked` moves a running node to aborted and changes no other
state. The destructor of a running node aborts it, ends it and returns; the destructor
of an ended node returns with the node as it is; the destructor of an aborted node does
not return (it calls `End` while it owns the mutex of the node), so no destructor
returns a node that is not ended. -/
theorem state_moves_forward (s : AsyncTaskSchedulerImpl) :
    (∀ (e : SchedulerEvent) (s' : AsyncTaskSchedulerImpl), s.step e = some s' →
      (s.state = .kEnded → s'.state = .kEnded) ∧
      (s.state = .kAborted → (∀ fd, e ≠ .End fd) → s'.state = .kAborted) ∧
      ((∃ fd, e = .End fd) → s'.state = .kEnded) ∧
      (s'.state = s.state ∨ (s.state = .kRunning ∧ s'.state = .kAborted) ∨
        (s.state ≠ .kEnded ∧ s'.state = .kEnded ∧ ∃ fd, e = .End fd))) ∧
    (∀ st, (s.AbortUnlocked st).state
      = if s.state = .kRunning then .kAborted else s.state) ∧
    (∀ s', s.Destructor = some s' → s'.state = .kEnded) ∧
    (s.state = .kRunning → ∃ s', s.Destructor = some s' ∧ s'.state = .kEnded) ∧
    (s.state = .kEnded → s.Destructor = some s) ∧
    (s.state = .kAborted → s.Destructor = none) := by
  refine ⟨?_, AbortUnlocked_state s, ?_, ?_, ?_, ?_⟩
  · intro e s' hs
    have hend : (∃ fd, e = .End fd) → s'.state = .kEnded := by
      rintro ⟨fd, rfl⟩
      simp only [AsyncTaskSchedulerImpl.step] at hs
      rcases End_cases hs with ⟨_, _, rfl⟩ | ⟨_, rfl⟩ <;> rfl
    refine ⟨step_ended hs, fun h hne => step_aborted hne hs h, hend, ?_⟩
    by_cases hne : ∀ fd, e ≠ .End fd
    · cases hst : s.state with
      | kRunning =>
        cases hst' : s'.state with
        | kRunning => exact Or.inl rfl
        | kAborted => exact Or.inr (Or.inl ⟨rfl, rfl⟩)
        | kEnded => exact absurd hst' (step_not_ended hne hs (by rw [hst]; decide))
      | kAborted => exact Or.inl (step_aborted hne hs hst)
      | kEnded => exact Or.inl (step_ended hs hst)
    · push_neg at hne
      by_cases hst : s.state = .kEnded
      · exact Or.inl (by rw [step_ended hs hst, hst])
      · exact Or.inr (Or.inr ⟨hst, hend hne, hne⟩)
  · intro s' h
    unfold Destructor at h
    dsimp only at h
    generalize (if s.state = .kRunning then
        (s.AbortUnlocked (.UnknownError "AsyncTaskScheduler abandoned before completion"),
          false)
      else (s, true)) = r at h
    by_cases hne : r.1.state ≠ .kEnded
    · rw [if_pos hne] at h
      cases hlk : r.2 with
      | true =>
        rw [hlk, if_pos rfl] at h
        exact absurd h (by simp)
      | false =>
        rw [hlk, if_neg (by simp)] at h
        rcases End_cases h with ⟨_, _, rfl⟩ | ⟨_, rfl⟩ <;> rfl
    · rw [if_neg hne] at h
      simp only [Option.some.injEq] at h
      subst h
      exact not_not.mp hne
  · intro hrun
    have hab : (s.AbortUnlocked
        (.UnknownError "AsyncTaskScheduler abandoned before completion")).state ≠ .kEnded := by
      rw [AbortUnlocked_state, if_pos hrun]
      decide
    have hd : s.Destructor = (s.AbortUnlocked
        (.UnknownError "AsyncTaskScheduler abandoned before completion")).End true := by
      unfold Destructor
      dsimp only
      rw [if_pos hrun]
      dsimp only
      rw [if_pos hab, if_neg (by simp)]
    have htotal : ∀ a : AsyncTaskSchedulerImpl, a.End true ≠ none := by
      intro a he
      unfold End at he
      dsimp only at he
      simp only [Bool.not_true, Bool.false_and, Bool.false_eq_true, if_false] at he
      split at he <;> exact absurd he (by simp)
    cases he : (s.AbortUnlocked
        (.UnknownError "AsyncTaskScheduler abandoned before completion")).End true with
    | none => exact absurd he (htotal _)
    | some s' =>
      refine ⟨s', hd.trans he, ?_⟩
      rcases End_cases he with ⟨_, _, rfl⟩ | ⟨_, rfl⟩ <;> rfl
  · intro hend
    unfold Destructor
    simp [hend]
  · intro hab
    unfold Destructor
    simp [hab]

/-- Counterexample to C19 as stated: the start function of a task fails on a root,
which aborts the node; `End` then leaves it ended. -/
theorem aborted_node_becomes_ended :
    (((make none none false).run [.AddTask ⟨0, 1, .failed (.Failure "open failed")⟩]).map
        fun s => s.state) = some .kAborted ∧
    (((make none none false).run
        [.AddTask ⟨0, 1, .failed (.Failure "open failed")⟩, .End false]).map
        fun s => s.state) = some .kEnded := by
  decide!

theorem AbortUnlocked_has_finish_callback (s : AsyncTaskSchedulerImpl) (st : Status) :
    (s.AbortUnlocked st).has_finish_callback = s.has_finish_callback := by
  unfold AbortUnlocked
  cases hs : s.state <;> simp [hs, MarkFinished]
  all_goals split <;> rfl

theorem frames_has_finish_callback (b : Bool) (fuel : Nat) :
    (∀ s s', ContinueTasksUnlocked fuel s = some s' → s.has_finish_callback = b →
      s'.has_finish_callback = b) ∧
    (∀ s task r, SubmitTaskUnlocked fuel s task = some r → s.has_finish_callback = b →
      r.1.has_finish_callback = b) ∧
    (∀ s st c r, OnTaskFinished fuel s st c = some r → s.has_finish_callback = b →
      r.1.has_finish_callback = b) := by
  have hab := AbortUnlocked_has_finish_callback
  have key := FrameSpec.sound
    { I := fun _ s => s.has_finish_callback = b
      Sp := fun _ s _ => s.has_finish_callback = b
      D := fun _ s _ => s.has_finish_callback = b
      F := fun _ s _ _ => s.has_finish_callback = b
      G := fun _ s => s.has_finish_callback = b
      continue_backoff := fun _ _ _ _ _ _ _ h _ _ _ => h
      continue_granted := fun _ _ _ _ _ _ h _ _ _ => h
      submit := fun _ _ _ h => h
      start_failed := fun _ _ _ st h _ => (hab _ st).trans h
      start_pending := fun _ _ _ h _ => h
      start_finished := fun _ _ _ _ h _ => h
      finished_error := fun _ _ st _ h _ => (hab _ st).trans h
      finished_cancelled := fun _ _ _ _ h _ _ => (hab _ _).trans h
      release_none := fun _ _ _ _ h _ _ _ => h
      release_quiet := fun _ _ _ _ _ _ h _ _ _ _ => h
      release_signal := fun _ _ _ _ _ _ _ h _ _ _ _ => h
      resumed := fun _ _ h => h
      finish := fun _ s h => by
        unfold finishTail
        dsimp only
        split <;> exact h }
    fuel
  exact ⟨key.1 0, key.2.1 0, key.2.2.2.1 0⟩

theorem step_has_finish_callback {s s' : AsyncTaskSchedulerImpl} {e : SchedulerEvent}
    (hs : s.step e = some s') : s'.has_finish_callback = s.has_finish_callback := by
  cases e with
  | AddTask task =>
    obtain ⟨_, r, hr, hres⟩ := step_AddTask_cases hs
    have key : r.1.has_finish_callback = s.has_finish_callback := by
      rcases AddTask_cases hr with ⟨_, rfl⟩ | ⟨_, _, rfl⟩ | ⟨_, _, _, _, rfl⟩ |
        ⟨_, _, _, t, t', f, _, _, rfl⟩ | ⟨_, _, _, t, t', r', _, _, hsub, rfl⟩ |
        ⟨_, _, _, r', hsub, rfl⟩
      · rfl
      · exact AbortUnlocked_has_finish_callback _ _
      · rfl
      · rfl
      · exact (frames_has_finish_callback _ _).2.1 _ _ r' hsub rfl
      · exact (frames_has_finish_callback _ _).2.1 _ _ r' hsub rfl
    rcases hres with ⟨_, rfl⟩ | ⟨_, rfl⟩
    · exact key
    · exact key
  | TaskFinished id st =>
    obtain ⟨cb, r, _, _, hfin, rfl⟩ := step_TaskFinished_cases hs
    exact (frames_has_finish_callback _ _).2.2 _ _ _ _ hfin rfl
  | MakeSubScheduler =>
    simp only [AsyncTaskSchedulerImpl.step, Option.some.injEq] at hs
    subst hs
    unfold AsyncTaskSchedulerImpl.MakeSubScheduler
    split <;> rfl
  | ChildFinished st finish_st =>
    simp only [AsyncTaskSchedulerImpl.step] at hs
    split at hs
    · simp only [Option.some.injEq] at hs
      subst hs
      unfold AsyncTaskSchedulerImpl.Finalizer
      dsimp only
      split
      · exact AbortUnlocked_has_finish_callback _ _
      · split
        · exact AbortUnlocked_has_finish_callback _ _
        · split <;> rfl
    · simp at hs
  | End fd =>
    simp only [AsyncTaskSchedulerImpl.step] at hs
    rcases End_cases hs with ⟨_, _, rfl⟩ | ⟨_, rfl⟩ <;> rfl
  | GlobalAbort =>
    simp only [AsyncTaskSchedulerImpl.step, Option.some.injEq] at hs
    subst hs
    rfl

theorem run_has_finish_callback (es : List SchedulerEvent) :
    ∀ {s s' : AsyncTaskSchedulerImpl}, s.run es = some s' →
      s'.has_finish_callback = s.has_finish_callback := by
  induction es with
  | nil =>
    intro s s' hr
    simp only [AsyncTaskSchedulerImpl.run, Option.some.injEq] at hr
    rw [hr]
  | cons e es ih =>
    intro s s' hr
    simp only [AsyncTaskSchedulerImpl.run] at hr
    cases hstep : s.step e with
    | none => simp [hstep] at hr
    | some s₁ =>
      simp only [hstep] at hr
      rw [ih hr, step_has_finish_callback hstep]

theorem run_not_ended (es : List SchedulerEvent) :
    ∀ {s s' : AsyncTaskSchedulerImpl}, s.run es = some s' → s'.state ≠ .kEnded →
      endedOnce es = true ∧ s.state ≠ .kEnded := by
  induction es with
  | nil =>
    intro s s' hr hne
    simp only [AsyncTaskSchedulerImpl.run, Option.some.injEq] at hr
    exact ⟨rfl, hr ▸ hne⟩
  | cons e es ih =>
    intro s s' hr hne
    simp only [AsyncTaskSchedulerImpl.run] at hr
    cases hstep : s.step e with
    | none => simp [hstep] at hr
    | some s₁ =>
      simp only [hstep] at hr
      obtain ⟨h1, h2⟩ := ih hr hne
      refine ⟨?_, fun hc => h2 (step_ended hstep hc)⟩
      cases e with
      | End fd =>
        simp only [AsyncTaskSchedulerImpl.step] at hstep
        rcases End_cases hstep with ⟨_, _, rfl⟩ | ⟨_, rfl⟩ <;> exact absurd rfl h2
      | AddTask task => simpa [endedOnce] using h1
      | TaskFinished id st => simpa [endedOnce] using h1
      | MakeSubScheduler => simpa [endedOnce] using h1
      | ChildFinished st fst => simpa [endedOnce] using h1
      | GlobalAbort => simpa [endedOnce] using h1

theorem AbortUnlocked_fired (s : AsyncTaskSchedulerImpl) (st : Status)
    (h : s.state = .kEnded) : Fired (s.AbortUnlocked st) := by
  unfold AbortUnlocked
  simp only [h]
  split
  · exact ⟨rfl, fun _ _ => by simp [MarkFinished]⟩
  · rename_i hc
    refine ⟨rfl, fun h0 _ => ?_⟩
    exact absurd ⟨h0, trivial⟩ hc

theorem finishTail_fired (s : AsyncTaskSchedulerImpl) (h : s.state = .kEnded) :
    Fired (finishTail s).1 := by
  unfold finishTail
  dsimp only
  split
  · exact ⟨h, fun _ _ => by simp [MarkFinished]⟩
  · rename_i hff
    refine ⟨h, fun h0 hq => ?_⟩
    exfalso
    apply hff
    simp only [IsFullyFinished, h, beq_self_eq_true, Bool.true_and, Bool.and_eq_true,
      List.isEmpty_iff, beq_iff_eq]
    exact ⟨hq, h0⟩

theorem OnTaskFinished_fired {fuel : Nat} {s : AsyncTaskSchedulerImpl} {st : Status} {c : Int}
    {r : AsyncTaskSchedulerImpl × Bool} (h : OnTaskFinished fuel s st c = some r)
    (hE : s.state = .kEnded) : Fired r.1 := by
  have hQ := frames_preserve (fun s => s.state = .kEnded)
    (fun s s' h1 _ h => h1.trans h)
    (fun s st h => by
      have h' : s.state = .kEnded := h
      show (s.AbortUnlocked st).state = .kEnded
      rw [AbortUnlocked_state, h']
      rfl)
  cases fuel with
  | zero => simp [OnTaskFinished] at h
  | succ fuel =>
    rw [OnTaskFinished] at h
    cases hok : st.ok with
    | false =>
      simp only [hok, Bool.not_false, if_true, Option.some.injEq] at h
      subst h
      exact AbortUnlocked_fired _ _ hE
    | true =>
      simp only [hok, Bool.not_true, Bool.false_eq_true, if_false] at h
      by_cases hga : s.global_abort = true
      · rw [if_pos hga] at h
        simp only [Option.some.injEq] at h
        subst h
        exact AbortUnlocked_fired _ _ hE
      · rw [if_neg hga] at h
        have hrel : ∀ s₁, (match s.throttle with
            | none => some s
            | some t =>
              match t.Release c with
              | (t', none) => some { s with throttle := some t' }
              | (t', some f) =>
                RunCallbacks fuel (s.backoff_callbacks.filter (· == f))
                  { s with throttle := some t'
                           backoff_callbacks := s.backoff_callbacks.filter (· != f) })
            = some s₁ → s₁.state = .kEnded := by
          intro s₁ hrel
          cases ht : s.throttle with
          | none =>
            rw [ht] at hrel
            simp only [Option.some.injEq] at hrel
            exact hrel ▸ hE
          | some t =>
            rcases hr : t.Release c with ⟨t', _ | f⟩
            · simp only [ht, hr, Option.some.injEq] at hrel
              exact hrel ▸ hE
            · simp only [ht, hr] at hrel
              exact (hQ fuel).2.2.2.2 _ _ _ hrel hE
        split at h
        · simp at h
        · rename_i s₁ hs₁
          have hfin := finishTail_fired s₁ (hrel s₁ hs₁)
          simp only [finishTail] at hfin
          split at h
          · rename_i hff
            simp only [Option.some.injEq] at h
            simp only [hff, if_true] at hfin
            exact h ▸ hfin
          · rename_i hff
            simp only [Option.some.injEq] at h
            simp only [hff, if_false] at hfin
            exact h ▸ hfin

theorem step_fired {s s' : AsyncTaskSchedulerImpl} {e : SchedulerEvent} (h : Fired s)
    (he : allowedAfterEnd e = true) (hs : s.step e = some s') :
    Fired s' ∧ (s.finished_marks = [] → s'.finished_marks ≠ [] →
      (∃ id st, e = .TaskFinished id st) ∨ (∃ st finish_st, e = .ChildFinished st finish_st)) := by
  cases e with
  | AddTask task => simp [allowedAfterEnd] at he
  | End fd => simp [allowedAfterEnd] at he
  | TaskFinished id st =>
    obtain ⟨cb, r, _, _, hfin, rfl⟩ := step_TaskFinished_cases hs
    exact ⟨OnTaskFinished_fired hfin h.1, fun _ _ => Or.inl ⟨_, _, rfl⟩⟩
  | MakeSubScheduler =>
    simp only [AsyncTaskSchedulerImpl.step, Option.some.injEq] at hs
    subst hs
    have hst : s.state ≠ .kRunning := by rw [h.1]; decide
    simp only [AsyncTaskSchedulerImpl.MakeSubScheduler, hst, ne_eq, not_false_eq_true, if_true]
    exact ⟨h, fun h1 h2 => absurd h1 h2⟩
  | ChildFinished st finish_st =>
    refine ⟨?_, fun _ _ => Or.inr ⟨_, _, rfl⟩⟩
    simp only [AsyncTaskSchedulerImpl.step] at hs
    split at hs
    · simp only [Option.some.injEq] at hs
      subst hs
      unfold AsyncTaskSchedulerImpl.Finalizer
      dsimp only
      split
      · exact AbortUnlocked_fired _ _ h.1
      · split
        · exact AbortUnlocked_fired _ _ h.1
        · split
          · exact ⟨h.1, fun _ _ => by simp [MarkFinished]⟩
          · rename_i hff
            refine ⟨h.1, fun h0 hq => ?_⟩
            exfalso
            apply hff
            simp only [IsFullyFinished, h.1, beq_self_eq_true, Bool.true_and, Bool.and_eq_true,
              List.isEmpty_iff, beq_iff_eq]
            exact ⟨hq, h0⟩
    · simp at hs
  | GlobalAbort =>
    simp only [AsyncTaskSchedulerImpl.step, Option.some.injEq] at hs
    subst hs
    exact ⟨h, fun h1 h2 => absurd h1 h2⟩

theorem run_fired (es : List SchedulerEvent) :
    ∀ {s s' : AsyncTaskSchedulerImpl}, Fired s → es.all allowedAfterEnd = true →
      s.run es = some s' → Fired s' := by
  induction es with
  | nil =>
    intro s s' h _ hr
    simp only [AsyncTaskSchedulerImpl.run, Option.some.injEq] at hr
    exact hr ▸ h
  | cons e es ih =>
    intro s s' h hall hr
    simp only [List.all_cons, Bool.and_eq_true] at hall
    simp only [AsyncTaskSchedulerImpl.run] at hr
    cases hstep : s.step e with
    | none => simp [hstep] at hr
    | some s₁ =>
      simp only [hstep] at hr
      exact ih (step_fired h hall.1 hstep).1 hall.2 hr

/-- C17. For a root node that a sequence of events leaves running: `End` returns and
the node is ended. If nothing runs and the queue is empty, the completion signal is
marked during the call, with the recorded status, which is OK. Otherwise it is not
marked during the call; and in every state reached afterwards (task futures resolving,
children finalized, the flag being set) the signal is marked if and only if nothing
runs and the queue is empty, it is marked once, with the recorded status, and the
event that marks it is a task future resolving or a child being finalized. -/
theorem end_fires_completion_signal (throttle : Option ThrottleImpl)
    (events : List SchedulerEvent) (s : AsyncTaskSchedulerImpl)
    (hrun : (make none throttle false).run events = some s) (hstate : s.state = .kRunning) :
    ∃ s₁, s.End false = some s₁ ∧ s₁.state = .kEnded ∧
      (s.running_tasks = 0 ∧ s.queue = [] →
        s₁.finished_marks = [s.maybe_error] ∧ s.maybe_error = .OK) ∧
      (¬(s.running_tasks = 0 ∧ s.queue = []) → s₁.finished_marks = []) ∧
      ∀ (later : List SchedulerEvent) (s₂ : AsyncTaskSchedulerImpl),
        later.all allowedAfterEnd = true → s₁.run later = some s₂ →
        s₂.state = .kEnded ∧
        (s₂.finished_marks ≠ [] ↔ s₂.running_tasks = 0 ∧ s₂.queue = []) ∧
        (s₂.finished_marks = [] ∨ s₂.finished_marks = [firstError s₂.aborts]) ∧
        ∀ (e : SchedulerEvent) (s₃ : AsyncTaskSchedulerImpl), allowedAfterEnd e = true →
          s₂.step e = some s₃ → s₂.finished_marks = [] → s₃.finished_marks ≠ [] →
          (∃ id st, e = .TaskFinished id st) ∨
            (∃ st finish_st, e = .ChildFinished st finish_st) := by
  have hne : s.state ≠ .kEnded := by rw [hstate]; decide
  obtain ⟨hproto, _⟩ := run_not_ended events hrun hne
  have hsound : Sound 0 s := Sound.run events (Sound.make none throttle false)
    (by
      rw [if_neg (show ¬ (make none throttle false).state = .kEnded by simp [make])]
      exact hproto) hrun
  have hroot : s.has_finish_callback = false := run_has_finish_callback events hrun
  have hmarks : s.finished_marks = [] := by
    by_contra hm
    exact hne (hsound.marked hm).1
  have herr : s.maybe_error = .OK := by
    rw [hsound.recorded hmarks, hsound.running_clean hstate]
    rfl
  have hend : ∃ s₁, s.End false = some s₁ := by
    unfold AsyncTaskSchedulerImpl.End
    simp only [hroot, Bool.and_false, Bool.false_eq_true, if_false]
    split <;> exact ⟨_, rfl⟩
  obtain ⟨s₁, hs₁⟩ := hend
  have hstep : s.step (.End false) = some s₁ := hs₁
  have hsound₁ : Sound 0 s₁ := Sound.sound_step hsound (fun h => absurd h hne) hstep
  have hfired₁ : Fired s₁ := by
    rcases End_cases hs₁ with ⟨_, _, rfl⟩ | ⟨hc, rfl⟩
    · exact ⟨rfl, fun _ _ => by simp⟩
    · exact ⟨rfl, fun h0 hq => absurd ⟨h0, hq⟩ hc⟩
  refine ⟨s₁, hs₁, hfired₁.1, ?_, ?_, ?_⟩
  · rintro ⟨h0, hq⟩
    rcases End_cases hs₁ with ⟨_, _, rfl⟩ | ⟨hc, rfl⟩
    · exact ⟨by simp [hmarks], herr⟩
    · exact absurd ⟨h0, hq⟩ hc
  · intro hc
    rcases End_cases hs₁ with ⟨h0, hq, rfl⟩ | ⟨_, rfl⟩
    · exact absurd ⟨h0, hq⟩ hc
    · exact hmarks
  · intro later s₂ hall hlater
    have hfired₂ := run_fired later hfired₁ hall hlater
    have hsound₂ : Sound 0 s₂ := Sound.run later hsound₁
      (by rw [if_pos hfired₁.1]; exact hall) hlater
    refine ⟨hfired₂.1, ⟨fun hm => ?_, fun hc => hfired₂.2 hc.1 hc.2⟩, ?_, ?_⟩
    · obtain ⟨_, h0, hq, _⟩ := hsound₂.marked hm
      exact ⟨h0, hq⟩
    · by_cases hm : s₂.finished_marks = []
      · exact Or.inl hm
      · exact Or.inr (hsound₂.marked hm).2.2.2
    · intro e s₃ he hs₃
      exact (step_fired hfired₂ he hs₃).2

/-- Witness for C17: a root on which one task is running when `End` is called. -/
theorem end_fires_completion_signal_witness :
    ∃ s : AsyncTaskSchedulerImpl,
      (make none none false).run [.AddTask ⟨0, 1, .pending⟩] = some s ∧
      s.state = .kRunning ∧
      ∃ s₁, s.End false = some s₁ ∧ s₁.state = .kEnded ∧ s₁.finished_marks = [] :=
  have hrun : (make none none false).run [.AddTask ⟨0, 1, .pending⟩] = some
    { queue := []
      throttle := none
      has_finish_callback := false
      running_tasks := 1
      state := .kRunning
      maybe_error := .OK
      sub_schedulers := 0
      global_abort := false
      finished_marks := []
      accepted := [0]
      started := [0]
      completed := []
      aborts := []
      task_callbacks := [(0, 1)]
      backoff_callbacks := [] } := by decide!
  ⟨_, hrun, rfl,
    (end_fires_completion_signal none _ _ hrun rfl).elim fun s₁ h =>
      ⟨s₁, h.1, h.2.1, h.2.2.2.1 (by decide)⟩⟩

theorem AbortUnlocked_ghost (s : AsyncTaskSchedulerImpl) (st : Status) :
    (s.AbortUnlocked st).aborts = s.aborts ++ [st] ∧
    (s.AbortUnlocked st).running_tasks = s.running_tasks ∧
    (s.AbortUnlocked st).sub_schedulers = s.sub_schedulers ∧
    (s.AbortUnlocked st).finish_callback_calls = s.finish_callback_calls := by
  unfold AbortUnlocked
  cases hs : s.state <;> simp [hs, MarkFinished]
  all_goals split <;> exact ⟨rfl, rfl, rfl, rfl⟩

/-- C18. For a node reached by a sequence of events in which `End` is called at most
once and no task is added after it: (1) on a running node `MakeSubScheduler` registers
a child and adds one to `running_tasks_`; (2) while a child is registered the running
count is positive and the completion signal of the node is not marked; (3) the
`Finalizer` of a child whose completion signal fired with `st` invokes the finish
callback once, with `st`, takes one from `running_tasks_`, removes the child, and
calls `AbortUnlocked` exactly when `st` or the result of the callback is an error,
with `st` when `st` is an error and with the result of the callback otherwise; a
running parent is then aborted with that status. -/
theorem sub_scheduler_counted_until_finalized (parent_abort : Option Bool)
    (throttle : Option ThrottleImpl) (has_finish_callback : Bool)
    (events : List SchedulerEvent) (s : AsyncTaskSchedulerImpl)
    (hproto : endedOnce events = true)
    (hrun : (make parent_abort throttle has_finish_callback).run events = some s) :
    (s.state = .kRunning →
      s.MakeSubScheduler = ({ s with running_tasks := s.running_tasks + 1,
                                     sub_schedulers := s.sub_schedulers + 1 }, true)) ∧
    (0 < s.sub_schedulers → 0 < s.running_tasks ∧ s.finished_marks = []) ∧
    (∀ st finish_st : Status,
      (s.Finalizer st finish_st).finish_callback_calls = s.finish_callback_calls ++ [st] ∧
      (s.Finalizer st finish_st).running_tasks = s.running_tasks - 1 ∧
      (s.Finalizer st finish_st).sub_schedulers = s.sub_schedulers - 1 ∧
      (s.Finalizer st finish_st).aborts
        = s.aborts ++
          (if st.ok then (if finish_st.ok then [] else [finish_st]) else [st]) ∧
      (s.state = .kRunning → (st.ok = false ∨ finish_st.ok = false) →
        (s.Finalizer st finish_st).state = .kAborted ∧
        (s.Finalizer st finish_st).maybe_error = (if st.ok then finish_st else st)) ∧
      (st.ok = true → finish_st.ok = true →
        (s.Finalizer st finish_st).state = s.state ∧
        (s.Finalizer st finish_st).maybe_error = s.maybe_error)) := by
  have hsound : Sound 0 s := Sound.run events (Sound.make parent_abort throttle has_finish_callback)
    (by
      rw [if_neg (show ¬ (make parent_abort throttle has_finish_callback).state = .kEnded by
        simp [make])]
      exact hproto) hrun
  refine ⟨?_, ?_, ?_⟩
  · intro hst
    simp [AsyncTaskSchedulerImpl.MakeSubScheduler, hst]
  · intro hpos
    refine ⟨?_, hsound.marked_idle (by omega)⟩
    have := hsound.count
    omega
  · intro st finish_st
    unfold AsyncTaskSchedulerImpl.Finalizer
    dsimp only
    cases hok : st.ok with
    | false =>
      simp only [Bool.not_false, if_true, Bool.false_eq_true, if_false]
      obtain ⟨a1, a2, a3, a4⟩ := AbortUnlocked_ghost
        { s with sub_schedulers := s.sub_schedulers - 1, running_tasks := s.running_tasks - 1,
                 finish_callback_calls := s.finish_callback_calls ++ [st] } st
      refine ⟨a4, a2, a3, a1, ?_, fun h => absurd h (by decide)⟩
      intro hst _
      rw [AbortUnlocked_state, AbortUnlocked_maybe_error]
      simp only [hst, if_true]
      exact ⟨trivial, trivial⟩
    | true =>
      simp only [Bool.not_true, Bool.false_eq_true, if_false, if_true]
      cases hok2 : finish_st.ok with
      | false =>
        simp only [Bool.not_false, if_true, Bool.false_eq_true, if_false]
        obtain ⟨a1, a2, a3, a4⟩ := AbortUnlocked_ghost
          { s with sub_schedulers := s.sub_schedulers - 1,
                   running_tasks := s.running_tasks - 1,
                   finish_callback_calls := s.finish_callback_calls ++ [st] } finish_st
        refine ⟨a4, a2, a3, a1, ?_, fun _ h => absurd h (by decide)⟩
        intro hst _
        rw [AbortUnlocked_state, AbortUnlocked_maybe_error]
        simp only [hst, if_true]
        exact ⟨trivial, trivial⟩
      | true =>
        simp only [Bool.not_true, Bool.false_eq_true, if_false, if_true, List.append_nil]
        split
        · exact ⟨rfl, rfl, rfl, rfl, fun _ h => by simp at h, fun _ _ => ⟨rfl, rfl⟩⟩
        · exact ⟨rfl, rfl, rfl, rfl, fun _ h => by simp at h, fun _ _ => ⟨rfl, rfl⟩⟩

/-- Witness for C18: a root with one registered child, which fails. -/
theorem sub_scheduler_counted_until_finalized_witness :
    endedOnce [.MakeSubScheduler] = true ∧
    ∃ s : AsyncTaskSchedulerImpl,
      (make none none false).run [.MakeSubScheduler] = some s ∧
      (0 < s.sub_schedulers → 0 < s.running_tasks ∧ s.finished_marks = []) ∧
      (s.Finalizer (.Failure "write failed") .OK).finish_callback_calls
        = [.Failure "write failed"] ∧
      (s.Finalizer (.Failure "write failed") .OK).running_tasks = 0 ∧
      (s.Finalizer (.Failure "write failed") .OK).aborts = [.Failure "write failed"] :=
  have hrun : (make none none false).run [.MakeSubScheduler] = some
    { queue := []
      throttle := none
      has_finish_callback := false
      running_tasks := 1
      state := .kRunning
      maybe_error := .OK
      sub_schedulers := 1
      global_abort := false
      finished_marks := []
      accepted := []
      started := []
      completed := []
      aborts := []
      task_callbacks := []
      backoff_callbacks := [] } := by decide!
  ⟨by decide, _, hrun,
    (sub_scheduler_counted_until_finalized none none false _ _ (by decide) hrun).2.1,
    by decide!, by decide!, by decide!⟩

end AsyncTaskSchedulerImpl

end Arrow

namespace Arrow

namespace AsyncTaskSchedulerImpl

/-! ## Aborts, the running counter and the clamped cost -/

theorem AbortUnlocked_fields (s : AsyncTaskSchedulerImpl) (st : Status) :
    (s.AbortUnlocked st).running_tasks = s.running_tasks ∧
    (s.AbortUnlocked st).task_callbacks = s.task_callbacks ∧
    (s.AbortUnlocked st).sub_schedulers = s.sub_schedulers ∧
    (s.AbortUnlocked st).started = s.started ∧
    (s.AbortUnlocked st).accepted = s.accepted ∧
    (s.AbortUnlocked st).throttle = s.throttle ∧
    (s.AbortUnlocked st).global_abort = s.global_abort ∧
    (s.AbortUnlocked st).aborts = s.aborts ++ [st] ∧
    ((s.AbortUnlocked st).queue = [] ∨
      (s.state = .kAborted ∧ (s.AbortUnlocked st).queue = s.queue)) := by
  unfold AbortUnlocked
  cases hs : s.state <;> dsimp only <;> split <;> simp [MarkFinished]

/-- What `AbortUnlocked` does to the completion signal. -/
theorem AbortUnlocked_marks (s : AsyncTaskSchedulerImpl) (st : Status) :
    (s.running_tasks = 0 ∧ s.state = .kEnded →
      (s.AbortUnlocked st).finished_marks
        = s.finished_marks ++ [(s.AbortUnlocked st).maybe_error]) ∧
    (¬ (s.running_tasks = 0 ∧ s.state = .kEnded) →
      (s.AbortUnlocked st).finished_marks = s.finished_marks) := by
  unfold AbortUnlocked
  cases hs : s.state <;> dsimp only <;> split <;> simp_all [MarkFinished]

/-- C27, amended. `AbortUnlocked` fires the completion signal exactly when, after the
abort has been applied, `running_tasks = 0` and the node is ended; the signal then
carries the recorded error. On a node that is running or aborted the signal does not
fire during the abort, also when nothing is running: the abort of a running node with
`running_tasks = 0` leaves the signal pending, and the `End` that follows fires it
with the error of that abort. -/
theorem abort_fires_signal_only_when_ended (s : AsyncTaskSchedulerImpl) (st : Status) :
    ((s.AbortUnlocked st).running_tasks = 0 ∧ (s.AbortUnlocked st).state = .kEnded →
      (s.AbortUnlocked st).finished_marks
        = s.finished_marks ++ [(s.AbortUnlocked st).maybe_error]) ∧
    ((s.AbortUnlocked st).state ≠ .kEnded →
      (s.AbortUnlocked st).finished_marks = s.finished_marks) ∧
    ((s.AbortUnlocked st).running_tasks ≠ 0 →
      (s.AbortUnlocked st).finished_marks = s.finished_marks) ∧
    (s.state = .kRunning → s.running_tasks = 0 →
      (s.AbortUnlocked st).state = .kAborted ∧
      (s.AbortUnlocked st).finished_marks = s.finished_marks ∧
      ∃ s', (s.AbortUnlocked st).End true = some s' ∧
        s'.finished_marks = s.finished_marks ++ [st]) := by
  obtain ⟨hrun, _, _, _, _, _, _, _, _⟩ := AbortUnlocked_fields s st
  obtain ⟨hm, hn⟩ := AbortUnlocked_marks s st
  have hstate := AbortUnlocked_state s st
  refine ⟨?_, ?_, ?_, ?_⟩
  · intro h
    apply hm
    rw [hrun] at h
    refine ⟨h.1, ?_⟩
    have h2 := h.2
    rw [hstate] at h2
    split at h2
    · exact absurd h2 (by decide)
    · exact h2
  · intro h
    apply hn
    intro h'
    apply h
    rw [hstate, if_neg (by rw [h'.2]; decide)]
    exact h'.2
  · intro h
    apply hn
    intro h'
    rw [hrun] at h
    exact h h'.1
  · intro hs h0
    have hst : (s.AbortUnlocked st).state = .kAborted := by
      rw [hstate, if_pos hs]
    have hmarks : (s.AbortUnlocked st).finished_marks = s.finished_marks :=
      hn (by rw [hs]; simp)
    refine ⟨hst, hmarks, ?_⟩
    have hq : (s.AbortUnlocked st).queue = [] := by
      unfold AbortUnlocked
      simp only [hs]
      split <;> rfl
    have he : (s.AbortUnlocked st).maybe_error = st := by
      unfold AbortUnlocked
      simp only [hs]
      split <;> rfl
    unfold AsyncTaskSchedulerImpl.End
    simp only [Bool.not_true, Bool.false_and, Bool.false_eq_true, if_false]
    rw [if_pos ⟨by rw [hrun]; exact h0, by rw [hq]; rfl⟩]
    exact ⟨_, rfl, by simp only [MarkFinished, hmarks, he]⟩

/-- Counterexample to C27 as stated: on a fresh root a task fails to start; the abort
leaves `running_tasks = 0` on a node that is now aborted, and the completion signal
has not fired. -/
theorem abort_of_running_node_fires_nothing :
    (make none none false).run [.AddTask ⟨0, 1, .failed (.Failure "e")⟩] = some
      { queue := []
        throttle := none
        has_finish_callback := false
        running_tasks := 0
        state := .kAborted
        maybe_error := .Failure "e"
        sub_schedulers := 0
        global_abort := true
        finished_marks := []
        accepted := [0]
        started := [0]
        completed := []
        aborts := [.Failure "e"]
        task_callbacks := []
        backoff_callbacks := [] } := by
  decide!

theorem TaskFinished_cases (s : AsyncTaskSchedulerImpl) (t : ThrottleImpl) (cb : Nat × Int)
    (st : Status) (n : Nat) (hn : s.fuelFor = n + 1) (ht : s.throttle = some t)
    (hcb : s.task_callbacks.find? (·.1 == cb.1) = some cb) :
    ∃ s', s.step (.TaskFinished cb.1 st) = some s' ∧
      (st.ok = false →
        s'.throttle = some t ∧ s'.running_tasks = s.running_tasks - 1 ∧
        s'.aborts = s.aborts ++ [st]) ∧
      (st.ok = true → s.global_abort = true →
        s'.throttle = some t ∧ s'.running_tasks = s.running_tasks - 1 ∧
        s'.aborts = s.aborts ++ [.Cancelled "Another scheduler aborted"]) ∧
      (st.ok = true → s.global_abort = false → t.backoff = none →
        s'.throttle = some { t with available_cost := wrapInt32 (t.available_cost + cb.2) } ∧
        s'.running_tasks = s.running_tasks - 1 ∧ s'.aborts = s.aborts) ∧
      (st.ok = true → s.global_abort = false → ∀ f, t.backoff = some f →
        ∃ s₁,
          RunCallbacks n (s.backoff_callbacks.filter (· == f))
            { s with task_callbacks := s.task_callbacks.erase cb
                     completed := s.completed ++ [cb.1]
                     throttle := some
                       { t with available_cost := wrapInt32 (t.available_cost + cb.2),
                                backoff := none }
                     backoff_callbacks := s.backoff_callbacks.filter (· != f) } = some s₁ ∧
          s' = (finishTail s₁).1 ∧ s'.running_tasks = s₁.running_tasks - 1) := by
  simp only [AsyncTaskSchedulerImpl.step, hcb, hn]
  by_cases hok : st.ok = true
  · by_cases hga : s.global_abort = true
    · rw [@OnTaskFinished_cancelled n
        { s with task_callbacks := s.task_callbacks.erase cb
                 completed := s.completed ++ [cb.1] }
        st cb.2 hok hga]
      refine ⟨_, rfl, ?_, ?_, ?_, ?_⟩
      · intro h; rw [hok] at h; exact absurd h (by decide)
      · intro _ _
        obtain ⟨h1, _, _, _, _, h6, _, h8, _⟩ := AbortUnlocked_fields
          { s with task_callbacks := s.task_callbacks.erase cb
                   completed := s.completed ++ [cb.1]
                   running_tasks := s.running_tasks - 1 }
          (.Cancelled "Another scheduler aborted")
        exact ⟨h6.trans ht, h1, h8⟩
      · intro _ h; rw [hga] at h; exact absurd h (by decide)
      · intro _ h; rw [hga] at h; exact absurd h (by decide)
    · have hga' : s.global_abort = false := by simpa using hga
      cases hb : t.backoff with
      | none =>
        rw [@OnTaskFinished_eq_finishTail n
          { s with task_callbacks := s.task_callbacks.erase cb
                   completed := s.completed ++ [cb.1] }
          { s with task_callbacks := s.task_callbacks.erase cb
                   completed := s.completed ++ [cb.1]
                   throttle := some (t.Release cb.2).1 }
          st cb.2 hok hga' (by simp only [ht, ThrottleImpl.Release, hb])]
        refine ⟨_, rfl, ?_, ?_, ?_, ?_⟩
        · intro h; rw [hok] at h; exact absurd h (by decide)
        · intro _ h; exact absurd h hga
        · intro _ _ _
          obtain ⟨marks, hm⟩ := finishTail_eq
            { s with task_callbacks := s.task_callbacks.erase cb
                     completed := s.completed ++ [cb.1]
                     throttle := some (t.Release cb.2).1 }
          refine ⟨?_, ?_, ?_⟩
          · show (finishTail _).1.throttle = _
            rw [hm]
            show some (t.Release cb.2).1 = _
            simp only [ThrottleImpl.Release, hb, Option.some.injEq]
          · show (finishTail _).1.running_tasks = _
            rw [hm]
          · show (finishTail _).1.aborts = _
            rw [hm]
        · intro _ _ f hf; simp at hf
      | some f =>
        have hlen := List.length_filter_le (· == f) s.backoff_callbacks
        obtain ⟨s₁, h₁, _, _⟩ := RunCallbacks_total n
          (s.backoff_callbacks.filter (· == f))
          { s with task_callbacks := s.task_callbacks.erase cb
                   completed := s.completed ++ [cb.1]
                   throttle := some
                     { t with available_cost := wrapInt32 (t.available_cost + cb.2),
                              backoff := none }
                   backoff_callbacks := s.backoff_callbacks.filter (· != f) }
          rfl (by unfold fuelFor at hn; simp only; omega)
        rw [@OnTaskFinished_eq_finishTail n
          { s with task_callbacks := s.task_callbacks.erase cb
                   completed := s.completed ++ [cb.1] }
          s₁ st cb.2 hok hga'
          (by simp only [ht, ThrottleImpl.Release, hb]; exact h₁)]
        refine ⟨_, rfl, ?_, ?_, ?_, ?_⟩
        · intro h; rw [hok] at h; exact absurd h (by decide)
        · intro _ h; exact absurd h hga
        · intro _ _ h; simp at h
        · intro _ _ f' hf'
          simp only [Option.some.injEq] at hf'
          subst hf'
          refine ⟨s₁, h₁, rfl, ?_⟩
          obtain ⟨marks, hm⟩ := finishTail_eq s₁
          show (finishTail s₁).1.running_tasks = _
          rw [hm]
  · have hok' : st.ok = false := by simpa using hok
    rw [@OnTaskFinished_error n
      { s with task_callbacks := s.task_callbacks.erase cb
               completed := s.completed ++ [cb.1] }
      st cb.2 hok']
    refine ⟨_, rfl, ?_, ?_, ?_, ?_⟩
    · intro _
      obtain ⟨h1, _, _, _, _, h6, _, h8, _⟩ := AbortUnlocked_fields
        { s with task_callbacks := s.task_callbacks.erase cb
                 completed := s.completed ++ [cb.1]
                 running_tasks := s.running_tasks - 1 } st
      exact ⟨h6.trans ht, h1, h8⟩
    · intro h; exact absurd h hok
    · intro h; exact absurd h hok
    · intro h; exact absurd h hok

/-- C25, amended. On a node with a throttle, when the future of a started task
resolves (`cb` is the callback registered for it, holding the cost charged for the
task), the event yields a next state and `running_tasks` is decremented by exactly
one. The cost is released to the throttle only when the status is OK and the shared
flag is not set: `available_cost` then grows by the cost (when a backoff future is
pending, the callbacks registered on it run from the released throttle before the
decrement). When the status is an error, or the flag is set, the node is aborted and
the throttle is left as it was. -/
theorem task_completion_releases_cost_on_success (s : AsyncTaskSchedulerImpl)
    (t : ThrottleImpl) (cb : Nat × Int) (st : Status) (ht : s.throttle = some t)
    (hcb : s.task_callbacks.find? (·.1 == cb.1) = some cb) :
    ∃ s', s.step (.TaskFinished cb.1 st) = some s' ∧
      (st.ok = false →
        s'.throttle = some t ∧ s'.running_tasks = s.running_tasks - 1 ∧
        s'.aborts = s.aborts ++ [st]) ∧
      (st.ok = true → s.global_abort = true →
        s'.throttle = some t ∧ s'.running_tasks = s.running_tasks - 1 ∧
        s'.aborts = s.aborts ++ [.Cancelled "Another scheduler aborted"]) ∧
      (st.ok = true → s.global_abort = false → t.backoff = none →
        s'.throttle = some { t with available_cost := wrapInt32 (t.available_cost + cb.2) } ∧
        s'.running_tasks = s.running_tasks - 1 ∧ s'.aborts = s.aborts) ∧
      (st.ok = true → s.global_abort = false → ∀ f, t.backoff = some f →
        ∃ s₁,
          RunCallbacks (s.fuelFor - 1) (s.backoff_callbacks.filter (· == f))
            { s with task_callbacks := s.task_callbacks.erase cb
                     completed := s.completed ++ [cb.1]
                     throttle := some
                       { t with available_cost := wrapInt32 (t.available_cost + cb.2),
                                backoff := none }
                     backoff_callbacks := s.backoff_callbacks.filter (· != f) } = some s₁ ∧
          s' = (finishTail s₁).1 ∧ s'.running_tasks = s₁.running_tasks - 1) :=
  TaskFinished_cases s t cb st (s.fuelFor - 1) (by unfold fuelFor; omega) ht hcb

/-- Counterexample to C25 as stated: a task of cost 1 is admitted through a throttle
of capacity 1 and its future resolves with an error; the cost is not released
(`available_cost` stays 0). -/
theorem failed_task_keeps_its_cost :
    (make none (some (MakeThrottle 1)) false).run
        [.AddTask ⟨0, 1, .pending⟩, .TaskFinished 0 (.Failure "e")] = some
      { queue := []
        throttle := some
          { max_concurrent_cost := 1, available_cost := 0, backoff := none, next_future := 0 }
        has_finish_callback := false
        running_tasks := 0
        state := .kAborted
        maybe_error := .Failure "e"
        sub_schedulers := 0
        global_abort := false
        finished_marks := []
        accepted := [0]
        started := [0]
        completed := [0]
        aborts := [.Failure "e"]
        task_callbacks := []
        backoff_callbacks := [] } := by
  decide!

/-- Witness for C25: a task of cost 1, admitted through a throttle of capacity 1,
resolves with OK. -/
theorem task_completion_releases_cost_on_success_witness :
    ∃ s',
      AsyncTaskSchedulerImpl.step
        { queue := []
          throttle := some
            { max_concurrent_cost := 1, available_cost := 0, backoff := none, next_future := 0 }
          has_finish_callback := false
          running_tasks := 1
          state := .kRunning
          maybe_error := .OK
          sub_schedulers := 0
          global_abort := false
          finished_marks := []
          accepted := [0]
          started := [0]
          completed := []
          aborts := []
          task_callbacks := [(0, 1)]
          backoff_callbacks := [] }
        (.TaskFinished 0 .OK) = some s' ∧
      s'.throttle = some
        { max_concurrent_cost := 1, available_cost := wrapInt32 (0 + 1), backoff := none,
          next_future := 0 } ∧
      s'.running_tasks = 1 - 1 :=
  (task_completion_releases_cost_on_success
      { queue := []
        throttle := some
          { max_concurrent_cost := 1, available_cost := 0, backoff := none, next_future := 0 }
        has_finish_callback := false
        running_tasks := 1
        state := .kRunning
        maybe_error := .OK
        sub_schedulers := 0
        global_abort := false
        finished_marks := []
        accepted := [0]
        started := [0]
        completed := []
        aborts := []
        task_callbacks := [(0, 1)]
        backoff_callbacks := [] }
      { max_concurrent_cost := 1, available_cost := 0, backoff := none, next_future := 0 }
      (0, 1) .OK rfl rfl).elim fun s' h =>
    ⟨s', h.1, (h.2.2.2.1 rfl rfl rfl).1, (h.2.2.2.1 rfl rfl rfl).2.1⟩

/-! ### The running counter -/

theorem Counts.counts_abort {k : Nat} {s : AsyncTaskSchedulerImpl} (st : Status) (h : Counts k s) :
    Counts k (s.AbortUnlocked st) := by
  obtain ⟨h1, h2, h3, _⟩ := AbortUnlocked_fields s st
  unfold Counts at h ⊢
  rw [h1, h2, h3]
  exact h

theorem Counts.counts_finishTail {k : Nat} {s : AsyncTaskSchedulerImpl} (h : Counts (k + 1) s) :
    Counts k (finishTail s).1 := by
  obtain ⟨marks, hm⟩ := finishTail_eq s
  rw [hm]
  unfold Counts at h ⊢
  dsimp only
  rw [h]
  push_cast
  omega

theorem Counts.counts_frames (fuel : Nat) :
    (∀ k s s', ContinueTasksUnlocked fuel s = some s' → Counts (k + 1) s → Counts (k + 1) s') ∧
    (∀ k s task r, SubmitTaskUnlocked fuel s task = some r → Counts k s → Counts k r.1) ∧
    (∀ k s task r, DoSubmitTask fuel s task = some r → Counts (k + 1) s → Counts k r.1) ∧
    (∀ k s st c r, OnTaskFinished fuel s st c = some r → Counts (k + 1) s → Counts k r.1) ∧
    (∀ k cs s s', RunCallbacks fuel cs s = some s' → Counts (k + 1) s → Counts (k + 1) s') :=
  FrameSpec.sound
    { I := fun k s => Counts k s
      Sp := fun k s _ => Counts k s
      D := fun k s _ => Counts k s
      F := fun k s _ _ => Counts k s
      G := fun k s => Counts k s
      continue_backoff := fun _ _ _ _ _ _ _ h _ _ _ => h
      continue_granted := fun _ _ _ _ _ _ h _ _ _ => h
      submit := fun k s _ h => by
        have h' : s.running_tasks = s.task_callbacks.length + s.sub_schedulers + k := h
        show s.running_tasks + 1 = s.task_callbacks.length + s.sub_schedulers + ((k + 1 : Nat) : Int)
        rw [h']
        push_cast
        omega
      start_failed := fun k s _ st h _ => by
        apply Counts.counts_abort
        have h' : s.running_tasks = s.task_callbacks.length + s.sub_schedulers + ((k + 1 : Nat) : Int) := h
        show s.running_tasks - 1 = s.task_callbacks.length + s.sub_schedulers + k
        rw [h']
        push_cast
        omega
      start_pending := fun k s task h _ => by
        have h' : s.running_tasks = s.task_callbacks.length + s.sub_schedulers + ((k + 1 : Nat) : Int) := h
        show s.running_tasks
          = ((s.task_callbacks ++ [(task.id, s.latchedCost task)]).length : Int)
            + s.sub_schedulers + k
        rw [h', List.length_append, List.length_singleton]
        push_cast
        omega
      start_finished := fun _ _ _ _ h _ => h
      finished_error := fun k s st _ h _ => by
        apply Counts.counts_abort
        have h' : s.running_tasks = s.task_callbacks.length + s.sub_schedulers + ((k + 1 : Nat) : Int) := h
        show s.running_tasks - 1 = s.task_callbacks.length + s.sub_schedulers + k
        rw [h']
        push_cast
        omega
      finished_cancelled := fun k s _ _ h _ _ => by
        apply Counts.counts_abort
        have h' : s.running_tasks = s.task_callbacks.length + s.sub_schedulers + ((k + 1 : Nat) : Int) := h
        show s.running_tasks - 1 = s.task_callbacks.length + s.sub_schedulers + k
        rw [h']
        push_cast
        omega
      release_none := fun _ _ _ _ h _ _ _ => h
      release_quiet := fun _ _ _ _ _ _ h _ _ _ _ => h
      release_signal := fun _ _ _ _ _ _ _ h _ _ _ _ => h
      resumed := fun _ _ h => h
      finish := fun _ _ h => Counts.counts_finishTail h }
    fuel

theorem Counts.counts_step {s s' : AsyncTaskSchedulerImpl} {e : SchedulerEvent} (h : Counts 0 s)
    (hs : s.step e = some s') : Counts 0 s' := by
  cases e with
  | AddTask task =>
    obtain ⟨_, r, hr, hres⟩ := step_AddTask_cases hs
    have key : Counts 0 r.1 := by
      rcases AddTask_cases hr with ⟨_, rfl⟩ | ⟨_, _, rfl⟩ | ⟨_, _, _, _, rfl⟩ |
        ⟨_, _, _, t, t', f, _, _, rfl⟩ | ⟨_, _, _, t, t', r', _, _, hsub, rfl⟩ |
        ⟨_, _, _, r', hsub, rfl⟩
      · exact h
      · exact Counts.counts_abort _ h
      · exact h
      · exact h
      · exact (Counts.counts_frames _).2.1 0 _ _ r' hsub h
      · exact (Counts.counts_frames _).2.1 0 _ _ r' hsub h
    rcases hres with ⟨_, rfl⟩ | ⟨_, rfl⟩
    · exact key
    · exact key
  | TaskFinished id st =>
    obtain ⟨cb, r, hmem, _, hfin, rfl⟩ := step_TaskFinished_cases hs
    refine (Counts.counts_frames _).2.2.2.1 0 _ _ _ _ hfin ?_
    have h' : s.running_tasks = s.task_callbacks.length + s.sub_schedulers + ((0 : Nat) : Int) := h
    show s.running_tasks
      = ((s.task_callbacks.erase cb).length : Int) + s.sub_schedulers + ((0 + 1 : Nat) : Int)
    have hlen := List.length_erase_of_mem hmem
    have hpos : 0 < s.task_callbacks.length := List.length_pos_of_mem hmem
    rw [h', hlen]
    push_cast
    omega
  | MakeSubScheduler =>
    simp only [AsyncTaskSchedulerImpl.step, Option.some.injEq] at hs
    subst hs
    unfold AsyncTaskSchedulerImpl.MakeSubScheduler
    split
    · exact h
    · have h' : s.running_tasks = s.task_callbacks.length + s.sub_schedulers + ((0 : Nat) : Int) := h
      show s.running_tasks + 1
        = (s.task_callbacks.length : Int) + ((s.sub_schedulers + 1 : Nat) : Int) + ((0 : Nat) : Int)
      rw [h']
      push_cast
      omega
  | ChildFinished st finish_st =>
    simp only [AsyncTaskSchedulerImpl.step] at hs
    split at hs
    · rename_i hpos
      simp only [Option.some.injEq] at hs
      subst hs
      have h₀ : Counts 0 { s with sub_schedulers := s.sub_schedulers - 1,
                                  running_tasks := s.running_tasks - 1,
                                  finish_callback_calls := s.finish_callback_calls ++ [st] } := by
        have h' : s.running_tasks
            = s.task_callbacks.length + s.sub_schedulers + ((0 : Nat) : Int) := h
        show s.running_tasks - 1
          = (s.task_callbacks.length : Int) + ((s.sub_schedulers - 1 : Nat) : Int)
            + ((0 : Nat) : Int)
        rw [h']
        push_cast
        omega
      unfold AsyncTaskSchedulerImpl.Finalizer
      dsimp only
      split
      · exact Counts.counts_abort _ h₀
      · split
        · exact Counts.counts_abort _ h₀
        · split
          · exact h₀
          · exact h₀
    · simp at hs
  | End fd =>
    rcases End_cases hs with ⟨_, _, rfl⟩ | ⟨_, rfl⟩
    · exact h
    · exact h
  | GlobalAbort =>
    simp only [AsyncTaskSchedulerImpl.step, Option.some.injEq] at hs
    subst hs
    exact h

theorem Counts.counts_run (es : List SchedulerEvent) :
    ∀ {s s' : AsyncTaskSchedulerImpl}, Counts 0 s → s.run es = some s' → Counts 0 s' := by
  induction es with
  | nil =>
    intro s s' h hr
    simp only [AsyncTaskSchedulerImpl.run, Option.some.injEq] at hr
    exact hr ▸ h
  | cons e es ih =>
    intro s s' h hr
    simp only [AsyncTaskSchedulerImpl.run] at hr
    cases hstep : s.step e with
    | none => simp [hstep] at hr
    | some s₁ =>
      simp only [hstep] at hr
      exact ih (Counts.counts_step h hstep) hr

/-- C28. On every node, root or child, with or without a throttle, after every
sequence of events (tasks added, task futures resolving, children created and
finalized, the shared flag being set, `End`), `running_tasks` is the number of started
tasks whose future is still pending plus the number of children not yet finalized; in
particular it is not negative. (The counter is an `int`; the model does not bound the
number of pending tasks by `2 ^ 31`.) -/
theorem running_count_is_pending_tasks_plus_children (parent_abort : Option Bool)
    (throttle : Option ThrottleImpl) (has_finish_callback : Bool)
    (events : List SchedulerEvent) (s : AsyncTaskSchedulerImpl)
    (h : (make parent_abort throttle has_finish_callback).run events = some s) :
    s.running_tasks = s.task_callbacks.length + s.sub_schedulers ∧ 0 ≤ s.running_tasks := by
  have h0 : Counts 0 (make parent_abort throttle has_finish_callback) := by
    unfold Counts AsyncTaskSchedulerImpl.make
    simp
  have hc : s.running_tasks = s.task_callbacks.length + s.sub_schedulers + ((0 : Nat) : Int) :=
    Counts.counts_run events h0 h
  constructor
  · rw [hc]
    push_cast
    omega
  · rw [hc]
    push_cast
    omega

/-- Witness for C28: a root on which one task is pending and one child was created. -/
theorem running_count_is_pending_tasks_plus_children_witness :
    ∃ s : AsyncTaskSchedulerImpl,
      (make none none false).run [.AddTask ⟨0, 1, .pending⟩, .MakeSubScheduler] = some s ∧
      s.running_tasks = 2 ∧
      s.running_tasks = s.task_callbacks.length + s.sub_schedulers :=
  have hrun : (make none none false).run [.AddTask ⟨0, 1, .pending⟩, .MakeSubScheduler] = some
    { queue := []
      throttle := none
      has_finish_callback := false
      running_tasks := 2
      state := .kRunning
      maybe_error := .OK
      sub_schedulers := 1
      global_abort := false
      finished_marks := []
      accepted := [0]
      started := [0]
      completed := []
      aborts := []
      task_callbacks := [(0, 1)]
      backoff_callbacks := [] } := by decide!
  ⟨_, hrun, rfl,
    (running_count_is_pending_tasks_plus_children none none false _ _ hrun).1⟩

/-! ### After an abort -/

theorem run_protocol (Q : AsyncTaskSchedulerImpl → Prop)
    (hstep : ∀ s s' e, Q s → (s.state = .kEnded → allowedAfterEnd e = true) →
      s.step e = some s' → Q s') (es : List SchedulerEvent) :
    ∀ {s s' : AsyncTaskSchedulerImpl}, Q s →
      (if s.state = .kEnded then es.all allowedAfterEnd = true else endedOnce es = true) →
      s.run es = some s' → Q s' := by
  induction es with
  | nil =>
    intro s s' h _ hr
    simp only [AsyncTaskSchedulerImpl.run, Option.some.injEq] at hr
    exact hr ▸ h
  | cons e es ih =>
    intro s s' h hp hr
    simp only [AsyncTaskSchedulerImpl.run] at hr
    cases hs : s.step e with
    | none => simp [hs] at hr
    | some s₁ =>
      simp only [hs] at hr
      by_cases hst : s.state = .kEnded
      · rw [if_pos hst] at hp
        simp only [List.all_cons, Bool.and_eq_true] at hp
        refine ih (hstep s s₁ e h (fun _ => hp.1) hs) ?_ hr
        split
        · exact hp.2
        · exact endedOnce_of_all es hp.2
      · rw [if_neg hst] at hp
        have h₁ := hstep s s₁ e h (fun he => absurd he hst) hs
        refine ih h₁ ?_ hr
        cases e with
        | End fd =>
          simp only [endedOnce] at hp
          split
          · exact hp
          · exact endedOnce_of_all es hp
        | AddTask task =>
          rw [if_neg (step_not_ended (by intro fd; simp) hs hst)]
          simpa [endedOnce] using hp
        | TaskFinished id st =>
          rw [if_neg (step_not_ended (by intro fd; simp) hs hst)]
          simpa [endedOnce] using hp
        | MakeSubScheduler =>
          rw [if_neg (step_not_ended (by intro fd; simp) hs hst)]
          simpa [endedOnce] using hp
        | ChildFinished st fst =>
          rw [if_neg (step_not_ended (by intro fd; simp) hs hst)]
          simpa [endedOnce] using hp
        | GlobalAbort =>
          rw [if_neg (step_not_ended (by intro fd; simp) hs hst)]
          simpa [endedOnce] using hp

theorem Halted.halted_abort {S A : List Nat} {s : AsyncTaskSchedulerImpl} (st : Status)
    (h : Halted S A s) : Halted S A (s.AbortUnlocked st) := by
  obtain ⟨_, _, _, h4, h5, _, _, _, h9⟩ := AbortUnlocked_fields s st
  obtain ⟨hs, hq, hS, hA⟩ := h
  refine ⟨?_, ?_, h4.trans hS, h5.trans hA⟩
  · rw [AbortUnlocked_state, if_neg hs]
    exact hs
  · rcases h9 with h9 | ⟨_, h9⟩
    · exact h9
    · exact h9.trans hq

theorem Halted.halted_frames (S A : List Nat) (fuel : Nat) :
    (∀ s s', ContinueTasksUnlocked fuel s = some s' → Halted S A s → Halted S A s') ∧
    (∀ s st c r, OnTaskFinished fuel s st c = some r → Halted S A s → Halted S A r.1) ∧
    (∀ cs s s', RunCallbacks fuel cs s = some s' → Halted S A s → Halted S A s') := by
  have key := FrameSpec.sound
    { I := fun _ s => Halted S A s
      Sp := fun _ _ _ => False
      D := fun _ _ _ => False
      F := fun _ s _ _ => Halted S A s
      G := fun _ s => Halted S A s
      continue_backoff := fun _ s _ _ _ _ _ h hq _ _ => by
        have hq' : s.queue = [] := h.2.1
        rw [hq'] at hq
        exact absurd hq (by simp)
      continue_granted := fun _ s _ _ _ _ h hq _ _ => by
        have hq' : s.queue = [] := h.2.1
        rw [hq'] at hq
        exact absurd hq (by simp)
      submit := fun _ _ _ h => h
      start_failed := fun _ _ _ _ h _ => False.elim h
      start_pending := fun _ _ _ h _ => False.elim h
      start_finished := fun _ _ _ _ h _ => False.elim h
      finished_error := fun _ _ st _ h _ => Halted.halted_abort st h
      finished_cancelled := fun _ _ _ _ h _ _ => Halted.halted_abort _ h
      release_none := fun _ _ _ _ h _ _ _ => h
      release_quiet := fun _ _ _ _ _ _ h _ _ _ _ => h
      release_signal := fun _ _ _ _ _ _ _ h _ _ _ _ => h
      resumed := fun _ _ h => h
      finish := fun _ s h => by
        obtain ⟨marks, hm⟩ := finishTail_eq s
        rw [hm]
        exact h }
    fuel
  exact ⟨key.1 0, key.2.2.2.1 0, key.2.2.2.2 0⟩

theorem Halted.halted_step {S A : List Nat} {s s' : AsyncTaskSchedulerImpl} {e : SchedulerEvent}
    (h : Halted S A s) (hp : s.state = .kEnded → allowedAfterEnd e = true)
    (hs : s.step e = some s') : Halted S A s' := by
  cases e with
  | AddTask task =>
    have hst : s.state = .kAborted := by
      have h1 : s.state ≠ .kRunning := h.1
      have h2 : s.state ≠ .kEnded := fun he => by simpa [allowedAfterEnd] using hp he
      cases hs' : s.state with
      | kRunning => exact absurd hs' h1
      | kAborted => rfl
      | kEnded => exact absurd hs' h2
    obtain ⟨_, r, hr, hres⟩ := step_AddTask_cases hs
    unfold AsyncTaskSchedulerImpl.AddTask at hr
    rw [if_pos hst] at hr
    simp only [Option.some.injEq] at hr
    subst hr
    rcases hres with ⟨h1, _⟩ | ⟨_, rfl⟩
    · exact absurd h1 (by simp)
    · exact h
  | TaskFinished id st =>
    obtain ⟨cb, r, _, _, hfin, rfl⟩ := step_TaskFinished_cases hs
    exact (Halted.halted_frames S A _).2.1 _ _ _ _ hfin h
  | MakeSubScheduler =>
    simp only [AsyncTaskSchedulerImpl.step, Option.some.injEq] at hs
    subst hs
    unfold AsyncTaskSchedulerImpl.MakeSubScheduler
    rw [if_pos h.1]
    exact h
  | ChildFinished st finish_st =>
    simp only [AsyncTaskSchedulerImpl.step] at hs
    split at hs
    · simp only [Option.some.injEq] at hs
      subst hs
      have h₀ : Halted S A { s with sub_schedulers := s.sub_schedulers - 1,
                                    running_tasks := s.running_tasks - 1,
                                    finish_callback_calls := s.finish_callback_calls ++ [st] } :=
        h
      unfold AsyncTaskSchedulerImpl.Finalizer
      dsimp only
      split
      · exact Halted.halted_abort _ h₀
      · split
        · exact Halted.halted_abort _ h₀
        · split
          · exact h₀
          · exact h₀
    · simp at hs
  | End fd =>
    obtain ⟨_, hq, hS, hA⟩ := h
    rcases End_cases hs with ⟨_, _, rfl⟩ | ⟨_, rfl⟩
    · exact ⟨by simp, hq, hS, hA⟩
    · exact ⟨by simp, hq, hS, hA⟩
  | GlobalAbort =>
    simp only [AsyncTaskSchedulerImpl.step, Option.some.injEq] at hs
    subst hs
    exact h

/-- C26. An abort of a running node with error `e` records `e`, moves the node to
aborted and empties the queue, whatever was queued. From then on, in every sequence of
events in which no task is added after `End` (adding a task to an ended node violates
the assertion of `AddTask`): the queue stays empty, no further task is started (a
capacity signal, which calls `ContinueTasksUnlocked`, finds the queue empty and changes
nothing), no task is accepted, and as long as the node is aborted every `AddTask`
returns false and leaves the node as it is. -/
theorem abort_discards_queued_tasks (s : AsyncTaskSchedulerImpl) (e : Status)
    (hrunning : s.state = .kRunning) :
    (s.AbortUnlocked e).maybe_error = e ∧
    (s.AbortUnlocked e).state = .kAborted ∧
    (s.AbortUnlocked e).queue = [] ∧
    (s.AbortUnlocked e).started = s.started ∧
    ∀ events s', endedOnce events = true → (s.AbortUnlocked e).run events = some s' →
      s'.queue = [] ∧ s'.started = s.started ∧ s'.accepted = s.accepted ∧
      s'.state ≠ .kRunning ∧
      (∀ fuel, ContinueTasksUnlocked (fuel + 1) s' = some s') ∧
      (s'.state = .kAborted → ∀ fuel task, s'.AddTask fuel task = some (s', false)) := by
  obtain ⟨_, _, _, h4, h5, _, _, _, _⟩ := AbortUnlocked_fields s e
  have hst : (s.AbortUnlocked e).state = .kAborted := by
    rw [AbortUnlocked_state, if_pos hrunning]
  have hq : (s.AbortUnlocked e).queue = [] := by
    unfold AbortUnlocked
    simp only [hrunning]
    split <;> rfl
  have he : (s.AbortUnlocked e).maybe_error = e := by
    unfold AbortUnlocked
    simp only [hrunning]
    split <;> rfl
  refine ⟨he, hst, hq, h4, ?_⟩
  intro events s' hev hr
  have h0 : Halted s.started s.accepted (s.AbortUnlocked e) :=
    ⟨by rw [hst]; decide, hq, h4, h5⟩
  have h1 : Halted s.started s.accepted s' :=
    run_protocol (Halted s.started s.accepted)
      (fun _ _ _ h hp hs => Halted.halted_step h hp hs) events h0
      (by rw [if_neg (by rw [hst]; decide)]; exact hev) hr
  obtain ⟨h1s, h1q, h1S, h1A⟩ := h1
  refine ⟨h1q, h1S, h1A, h1s, ?_, ?_⟩
  · intro fuel
    rw [ContinueTasksUnlocked, h1q]
  · intro hab fuel task
    unfold AsyncTaskSchedulerImpl.AddTask
    rw [if_pos hab]

/-! ### The cost charged and released -/

theorem Clamped.clamped_abort {C : Int} {T : List Task} {s : AsyncTaskSchedulerImpl} (st : Status)
    (h : Clamped C T s) : Clamped C T (s.AbortUnlocked st) := by
  obtain ⟨_, h2, _, _, _, h6, _, _, h9⟩ := AbortUnlocked_fields s st
  obtain ⟨ht, hcb, hq⟩ := h
  refine ⟨?_, ?_, ?_⟩
  · rw [h6]; exact ht
  · rw [h2]; exact hcb
  · rcases h9 with h9 | ⟨_, h9⟩
    · rw [h9]; intro task hmem; simp at hmem
    · rw [h9]; exact hq

theorem Clamped.clamped_mono {C : Int} {T T' : List Task} {s : AsyncTaskSchedulerImpl}
    (hsub : ∀ task ∈ T, task ∈ T') (h : Clamped C T s) : Clamped C T' s := by
  obtain ⟨ht, hcb, hq⟩ := h
  refine ⟨ht, ?_, fun task hmem => hsub task (hq task hmem)⟩
  intro cb hmem
  obtain ⟨task, h1, h2⟩ := hcb cb hmem
  exact ⟨task, hsub task h1, h2⟩

theorem Clamped.clamped_capacity {C : Int} {T : List Task} {s : AsyncTaskSchedulerImpl}
    {t : ThrottleImpl} (h : Clamped C T s) (ht : s.throttle = some t) : t.Capacity = C := by
  obtain ⟨⟨t₀, h1, h2⟩, _, _⟩ := h
  rw [ht] at h1
  simp only [Option.some.injEq] at h1
  rw [h1]
  exact h2

theorem Clamped.clamped_throttle {C : Int} {T : List Task} {s s' : AsyncTaskSchedulerImpl}
    {t' : ThrottleImpl} (h : Clamped C T s) (ht : s'.throttle = some t')
    (hC : t'.Capacity = C) (hcb : s'.task_callbacks = s.task_callbacks)
    (hq : ∀ task ∈ s'.queue, task ∈ s.queue) : Clamped C T s' := by
  refine ⟨⟨t', ht, hC⟩, ?_, fun task hmem => h.2.2 task (hq task hmem)⟩
  rw [hcb]
  exact h.2.1

theorem Clamped.clamped_frames (C : Int) (T : List Task) (fuel : Nat) :
    (∀ s s', ContinueTasksUnlocked fuel s = some s' → Clamped C T s → Clamped C T s') ∧
    (∀ s task r, SubmitTaskUnlocked fuel s task = some r → Clamped C T s ∧ task ∈ T →
      Clamped C T r.1) ∧
    (∀ s st c r, OnTaskFinished fuel s st c = some r → Clamped C T s → Clamped C T r.1) := by
  have key := FrameSpec.sound
    { I := fun _ s => Clamped C T s
      Sp := fun _ s task => Clamped C T s ∧ task ∈ T
      D := fun _ s task => Clamped C T s ∧ task ∈ T
      F := fun _ s _ _ => Clamped C T s
      G := fun _ s => Clamped C T s
      continue_backoff := fun _ s _ _ t t' f h _ ht hacq => by
        have hC := Clamped.clamped_capacity h ht
        exact Clamped.clamped_throttle h rfl
          (by unfold ThrottleImpl.Capacity at hC ⊢; rw [(TryAcquire_denied hacq).2]; exact hC)
          rfl (fun _ hm => hm)
      continue_granted := fun _ s next rest t t' h hq ht hacq => by
        have hC := Clamped.clamped_capacity h ht
        obtain ⟨_, _, rfl⟩ := TryAcquire_granted hacq
        refine ⟨Clamped.clamped_throttle h rfl hC rfl ?_, ?_⟩
        · intro task hm
          have hm' : task ∈ rest := hm
          rw [hq]
          exact List.mem_cons_of_mem _ hm'
        · exact h.2.2 next (by rw [hq]; exact List.mem_cons_self _ _)
      submit := fun _ _ _ h => h
      start_failed := fun _ _ _ st h _ => Clamped.clamped_abort st h.1
      start_pending := fun _ s task h _ => by
        obtain ⟨⟨⟨t, ht, hC⟩, hcb, hq⟩, hT⟩ := h
        refine ⟨⟨t, ht, hC⟩, ?_, hq⟩
        intro cb hmem
        have hmem' : cb ∈ s.task_callbacks ++ [(task.id, s.latchedCost task)] := hmem
        rcases List.mem_append.mp hmem' with hm | hm
        · exact hcb cb hm
        · simp only [List.mem_singleton] at hm
          subst hm
          refine ⟨task, hT, rfl, ?_⟩
          show s.latchedCost task = _
          unfold latchedCost
          rw [ht]
          show min task.cost t.Capacity = _
          rw [hC]
      start_finished := fun _ _ _ _ h _ => h.1
      finished_error := fun _ _ st _ h _ => Clamped.clamped_abort st h
      finished_cancelled := fun _ _ _ _ h _ _ => Clamped.clamped_abort _ h
      release_none := fun _ _ _ _ h _ _ _ => h
      release_quiet := fun _ s _ c t t' h _ _ ht hrel => by
        have hC := Clamped.clamped_capacity h ht
        have ht' : t' = (t.Release c).1 := by rw [hrel]
        exact Clamped.clamped_throttle h rfl (by rw [ht']; exact hC) rfl (fun _ hm => hm)
      release_signal := fun _ s _ c t t' f h _ _ ht hrel => by
        have hC := Clamped.clamped_capacity h ht
        have ht' : t' = (t.Release c).1 := by rw [hrel]
        exact Clamped.clamped_throttle h rfl (by rw [ht']; exact hC) rfl (fun _ hm => hm)
      resumed := fun _ _ h => h
      finish := fun _ s h => by
        obtain ⟨marks, hm⟩ := finishTail_eq s
        rw [hm]
        exact h }
    fuel
  exact ⟨key.1 0, key.2.1 0, key.2.2.2.1 0⟩

theorem Clamped.clamped_step {C : Int} {T : List Task} {s s' : AsyncTaskSchedulerImpl}
    {e : SchedulerEvent} (h : Clamped C T s) (hs : s.step e = some s') :
    Clamped C (T ++ addedTasks [e]) s' := by
  cases e with
  | AddTask task =>
    have hT : task ∈ T ++ addedTasks [.AddTask task] := by simp [addedTasks]
    have h' : Clamped C (T ++ addedTasks [.AddTask task]) s :=
      Clamped.clamped_mono (fun _ hm => List.mem_append_left _ hm) h
    obtain ⟨_, r, hr, hres⟩ := step_AddTask_cases hs
    have key : Clamped C (T ++ addedTasks [.AddTask task]) r.1 := by
      rcases AddTask_cases hr with ⟨_, rfl⟩ | ⟨_, _, rfl⟩ | ⟨_, _, _, _, rfl⟩ |
        ⟨_, _, _, t, t', f, ht, hacq, rfl⟩ | ⟨_, _, _, t, t', r', ht, hacq, hsub, rfl⟩ |
        ⟨_, _, _, r', hsub, rfl⟩
      · exact h'
      · exact Clamped.clamped_abort _ h'
      · refine ⟨h'.1, h'.2.1, ?_⟩
        intro x hx
        have hx' : x ∈ s.queue ++ [task] := hx
        rcases List.mem_append.mp hx' with hm | hm
        · exact h'.2.2 x hm
        · simp only [List.mem_singleton] at hm
          rw [hm]; exact hT
      · have hC := Clamped.clamped_capacity h' ht
        refine ⟨⟨t', rfl, ?_⟩, h'.2.1, ?_⟩
        · unfold ThrottleImpl.Capacity at hC ⊢
          rw [(TryAcquire_denied hacq).2]; exact hC
        · intro x hx
          have hx' : x ∈ s.queue ++ [task] := hx
          rcases List.mem_append.mp hx' with hm | hm
          · exact h'.2.2 x hm
          · simp only [List.mem_singleton] at hm
            rw [hm]; exact hT
      · have hC := Clamped.clamped_capacity h' ht
        obtain ⟨_, _, rfl⟩ := TryAcquire_granted hacq
        exact (Clamped.clamped_frames C _ _).2.1 _ _ r' hsub
          ⟨Clamped.clamped_throttle h' rfl hC rfl (fun _ hm => hm), hT⟩
      · exact (Clamped.clamped_frames C _ _).2.1 _ _ r' hsub ⟨h', hT⟩
    rcases hres with ⟨_, rfl⟩ | ⟨_, rfl⟩
    · exact key
    · exact key
  | TaskFinished id st =>
    obtain ⟨cb, r, _, _, hfin, rfl⟩ := step_TaskFinished_cases hs
    simp only [addedTasks, List.append_nil]
    refine (Clamped.clamped_frames C T _).2.2 _ _ _ _ hfin ⟨h.1, ?_, h.2.2⟩
    intro x hx
    exact h.2.1 x (List.mem_of_mem_erase hx)
  | MakeSubScheduler =>
    simp only [AsyncTaskSchedulerImpl.step, Option.some.injEq] at hs
    subst hs
    simp only [addedTasks, List.append_nil]
    unfold AsyncTaskSchedulerImpl.MakeSubScheduler
    split
    · exact h
    · exact h
  | ChildFinished st finish_st =>
    simp only [AsyncTaskSchedulerImpl.step] at hs
    simp only [addedTasks, List.append_nil]
    split at hs
    · simp only [Option.some.injEq] at hs
      subst hs
      have h₀ : Clamped C T { s with sub_schedulers := s.sub_schedulers - 1,
                                     running_tasks := s.running_tasks - 1,
                                     finish_callback_calls := s.finish_callback_calls ++ [st] } :=
        h
      unfold AsyncTaskSchedulerImpl.Finalizer
      dsimp only
      split
      · exact Clamped.clamped_abort _ h₀
      · split
        · exact Clamped.clamped_abort _ h₀
        · split
          · exact h₀
          · exact h₀
    · simp at hs
  | End fd =>
    simp only [addedTasks, List.append_nil]
    rcases End_cases hs with ⟨_, _, rfl⟩ | ⟨_, rfl⟩
    · exact h
    · exact h
  | GlobalAbort =>
    simp only [AsyncTaskSchedulerImpl.step, Option.some.injEq] at hs
    subst hs
    simp only [addedTasks, List.append_nil]
    exact h

theorem addedTasks_cons (e : SchedulerEvent) (es : List SchedulerEvent) :
    addedTasks (e :: es) = addedTasks [e] ++ addedTasks es := by
  cases e <;> simp [addedTasks]

theorem Clamped.clamped_run {C : Int} (es : List SchedulerEvent) :
    ∀ {T : List Task} {s s' : AsyncTaskSchedulerImpl}, Clamped C T s →
      s.run es = some s' → Clamped C (T ++ addedTasks es) s' := by
  induction es with
  | nil =>
    intro T s s' h hr
    simp only [AsyncTaskSchedulerImpl.run, Option.some.injEq] at hr
    simp only [addedTasks, List.append_nil]
    exact hr ▸ h
  | cons e es ih =>
    intro T s s' h hr
    simp only [AsyncTaskSchedulerImpl.run] at hr
    cases hstep : s.step e with
    | none => simp [hstep] at hr
    | some s₁ =>
      simp only [hstep] at hr
      have := ih (Clamped.clamped_step h hstep) hr
      rw [addedTasks_cons, ← List.append_assoc]
      exact this

theorem AddTask_admits (s : AsyncTaskSchedulerImpl) (t : ThrottleImpl) (task : Task)
    (fuel : Nat) (hst : s.state ≠ .kAborted) (hga : s.global_abort = false)
    (ht : s.throttle = some t) (hq : s.queue = []) (hb : t.backoff = none)
    (hp : task.submit = .pending) (hfit : min task.cost t.Capacity ≤ t.available_cost) :
    s.AddTask (fuel + 2) task = some
      ({ s with
          throttle := some
            { t with available_cost := wrapInt32 (t.available_cost - min task.cost t.Capacity) }
          running_tasks := s.running_tasks + 1
          started := s.started ++ [task.id]
          task_callbacks := s.task_callbacks ++ [(task.id, min task.cost t.Capacity)] },
        true) := by
  unfold AsyncTaskSchedulerImpl.AddTask
  rw [if_neg hst, if_neg (by simp [hga])]
  simp only [ht, hq, List.isEmpty_nil, Bool.not_true, Bool.false_eq_true, if_false,
    ThrottleImpl.TryAcquire, hb, hfit, if_true, SubmitTaskUnlocked, DoSubmitTask, hp,
    Option.map_some']
  rfl

theorem ContinueTasksUnlocked_admits (s : AsyncTaskSchedulerImpl) (t : ThrottleImpl)
    (next : Task) (rest : List Task) (fuel : Nat) (ht : s.throttle = some t)
    (hq : s.queue = next :: rest) (hb : t.backoff = none) (hp : next.submit = .pending)
    (hfit : min next.cost t.Capacity ≤ t.available_cost) :
    ContinueTasksUnlocked (fuel + 3) s = ContinueTasksUnlocked (fuel + 2)
      { s with
          throttle := some
            { t with available_cost := wrapInt32 (t.available_cost - min next.cost t.Capacity) }
          queue := rest
          running_tasks := s.running_tasks + 1
          started := s.started ++ [next.id]
          task_callbacks := s.task_callbacks ++ [(next.id, min next.cost t.Capacity)] } := by
  rw [ContinueTasksUnlocked]
  simp only [ht, hq, ThrottleImpl.TryAcquire, hb, hfit, if_true, SubmitTaskUnlocked,
    DoSubmitTask, hp]
  rfl

theorem wrapInt32_zero : wrapInt32 0 = 0 := by
  unfold wrapInt32
  norm_num

theorem oversized_task_round_trip (s : AsyncTaskSchedulerImpl) (t : ThrottleImpl) (task : Task)
    (hlo : -(2 ^ 31) ≤ t.Capacity) (hhi : t.Capacity < 2 ^ 31)
    (ht : s.throttle = some t) (hst : s.state ≠ .kAborted) (hga : s.global_abort = false)
    (hq : s.queue = []) (hb : t.backoff = none) (hfull : t.available_cost = t.Capacity)
    (hp : task.submit = .pending) (hbig : t.Capacity < task.cost)
    (hfresh : ∀ cb ∈ s.task_callbacks, cb.1 ≠ task.id) :
    ∃ s₁ s₂, s.step (.AddTask task) = some s₁ ∧
      s₁.throttle = some { t with available_cost := 0 } ∧
      s₁.started = s.started ++ [task.id] ∧
      s₁.task_callbacks = s.task_callbacks ++ [(task.id, t.Capacity)] ∧
      s₁.step (.TaskFinished task.id .OK) = some s₂ ∧
      s₂.throttle = some t := by
  have hmin : min task.cost t.Capacity = t.Capacity := min_eq_right (le_of_lt hbig)
  have hf : s.fuelFor = (s.fuelFor - 2) + 2 := by unfold fuelFor; omega
  have hadd := AddTask_admits s t task (s.fuelFor - 2) hst hga ht hq hb hp
    (by rw [hmin, hfull])
  rw [← hf, hmin, hfull, sub_self, wrapInt32_zero] at hadd
  have hwf : task.wellFormed = true := by
    unfold Task.wellFormed
    rw [hp]
  have hstep₁ : s.step (.AddTask task) = some
      { s with
          throttle := some { t with available_cost := 0 }
          running_tasks := s.running_tasks + 1
          started := s.started ++ [task.id]
          task_callbacks := s.task_callbacks ++ [(task.id, t.Capacity)]
          accepted := s.accepted ++ [task.id] } := by
    simp only [AsyncTaskSchedulerImpl.step, hwf, if_true, hadd]
  have hfind : (s.task_callbacks ++ [(task.id, t.Capacity)]).find?
      (·.1 == (task.id, t.Capacity).1) = some (task.id, t.Capacity) := by
    have hnone : s.task_callbacks.find? (·.1 == task.id) = none := by
      rw [List.find?_eq_none]
      intro cb hmem
      simpa using hfresh cb hmem
    rw [List.find?_append, hnone]
    simp
  obtain ⟨s₂, hs₂, _, _, h3, _⟩ := TaskFinished_cases
    { s with
        throttle := some { t with available_cost := 0 }
        running_tasks := s.running_tasks + 1
        started := s.started ++ [task.id]
        task_callbacks := s.task_callbacks ++ [(task.id, t.Capacity)]
        accepted := s.accepted ++ [task.id] }
    { t with available_cost := 0 } (task.id, t.Capacity) .OK (s.fuelFor - 1)
    (by unfold fuelFor; simp only; omega) rfl hfind
  refine ⟨_, s₂, hstep₁, rfl, rfl, rfl, hs₂, ?_⟩
  rw [(h3 rfl hga hb).1]
  have hw : wrapInt32 (0 + t.Capacity) = t.available_cost := by
    rw [zero_add, wrapInt32_eq_self hlo hhi, hfull]
  simp only [hw]

/-- C21. On a node with a throttle of capacity `C` (an `int`), after every sequence of
events: the throttle still has capacity `C`, every queued task was passed to `AddTask`,
and the cost captured for every pending task, which is the cost released when its
future resolves with OK, is `min cost C` for a task passed to `AddTask`. The cost
charged at admission is the same: `AddTask` on an empty queue, and
`ContinueTasksUnlocked` for the head of the queue, acquire `min cost C` and record it.
A task that costs more than `C`, added to a node that is idle (empty queue, the whole
capacity available, no pending backoff future), is started at once, leaves
`available_cost = 0`, and when its future resolves with OK the throttle is again as it
was, with the whole capacity available. -/
theorem admitted_cost_is_clamped_to_capacity (C : Int) (hlo : -(2 ^ 31) ≤ C)
    (hhi : C < 2 ^ 31) (has_finish_callback : Bool) (events : List SchedulerEvent)
    (s : AsyncTaskSchedulerImpl)
    (hrun : (make none (some (MakeThrottle C)) has_finish_callback).run events = some s) :
    Clamped C (addedTasks events) s ∧
    (∀ t task, s.throttle = some t → s.state ≠ .kAborted → s.global_abort = false →
      s.queue = [] → t.backoff = none → task.submit = .pending →
      min task.cost C ≤ t.available_cost →
      s.AddTask s.fuelFor task = some
        ({ s with
            throttle := some
              { t with available_cost := wrapInt32 (t.available_cost - min task.cost C) }
            running_tasks := s.running_tasks + 1
            started := s.started ++ [task.id]
            task_callbacks := s.task_callbacks ++ [(task.id, min task.cost C)] },
          true)) ∧
    (∀ t next rest fuel, s.throttle = some t → s.queue = next :: rest → t.backoff = none →
      next.submit = .pending → min next.cost C ≤ t.available_cost →
      ContinueTasksUnlocked (fuel + 3) s = ContinueTasksUnlocked (fuel + 2)
        { s with
            throttle := some
              { t with available_cost := wrapInt32 (t.available_cost - min next.cost C) }
            queue := rest
            running_tasks := s.running_tasks + 1
            started := s.started ++ [next.id]
            task_callbacks := s.task_callbacks ++ [(next.id, min next.cost C)] }) ∧
    (∀ t cb, s.throttle = some t → s.task_callbacks.find? (·.1 == cb.1) = some cb →
      s.global_abort = false → t.backoff = none →
      ∃ s', s.step (.TaskFinished cb.1 .OK) = some s' ∧
        s'.throttle = some { t with available_cost := wrapInt32 (t.available_cost + cb.2) }) ∧
    (∀ t task, s.throttle = some t → s.state ≠ .kAborted → s.global_abort = false →
      s.queue = [] → t.backoff = none → t.available_cost = C → task.submit = .pending →
      C < task.cost → (∀ cb ∈ s.task_callbacks, cb.1 ≠ task.id) →
      ∃ s₁ s₂, s.step (.AddTask task) = some s₁ ∧
        s₁.throttle = some { t with available_cost := 0 } ∧
        s₁.started = s.started ++ [task.id] ∧
        s₁.task_callbacks = s.task_callbacks ++ [(task.id, C)] ∧
        s₁.step (.TaskFinished task.id .OK) = some s₂ ∧
        s₂.throttle = some t) := by
  have h0 : Clamped C [] (make none (some (MakeThrottle C)) has_finish_callback) := by
    refine ⟨⟨MakeThrottle C, rfl, rfl⟩, ?_, ?_⟩
    · intro cb hmem
      simp [AsyncTaskSchedulerImpl.make] at hmem
    · intro task hmem
      simp [AsyncTaskSchedulerImpl.make] at hmem
  have hcl : Clamped C (addedTasks events) s := by
    have := Clamped.clamped_run events h0 hrun
    simpa using this
  refine ⟨hcl, ?_, ?_, ?_, ?_⟩
  · intro t task ht hst hga hq hb hp hfit
    have hC := Clamped.clamped_capacity hcl ht
    subst hC
    have hf : s.fuelFor = (s.fuelFor - 2) + 2 := by unfold fuelFor; omega
    rw [hf]
    exact AddTask_admits s t task _ hst hga ht hq hb hp hfit
  · intro t next rest fuel ht hq hb hp hfit
    have hC := Clamped.clamped_capacity hcl ht
    subst hC
    exact ContinueTasksUnlocked_admits s t next rest fuel ht hq hb hp hfit
  · intro t cb ht hcb hga hb
    obtain ⟨s', hs', _, _, h3, _⟩ := TaskFinished_cases s t cb .OK (s.fuelFor - 1)
      (by unfold fuelFor; omega) ht hcb
    exact ⟨s', hs', (h3 rfl hga hb).1⟩
  · intro t task ht hst hga hq hb hfull hp hbig hfresh
    have hC := Clamped.clamped_capacity hcl ht
    subst hC
    exact oversized_task_round_trip s t task hlo hhi ht hst hga hq hb hfull hp hbig hfresh

/-- Witness for C21: a task of cost 5 on a fresh node with a throttle of capacity 2. -/
theorem admitted_cost_is_clamped_to_capacity_witness :
    -(2 ^ 31) ≤ (2 : Int) ∧ (2 : Int) < 2 ^ 31 ∧
    (make none (some (MakeThrottle 2)) false).run [] =
      some (make none (some (MakeThrottle 2)) false) ∧
    ∃ s₁ s₂,
      (make none (some (MakeThrottle 2)) false).step (.AddTask ⟨0, 5, .pending⟩) = some s₁ ∧
      s₁.throttle = some { MakeThrottle 2 with available_cost := 0 } ∧
      s₁.started = [] ++ [0] ∧
      s₁.task_callbacks = [] ++ [(0, 2)] ∧
      s₁.step (.TaskFinished 0 .OK) = some s₂ ∧
      s₂.throttle = some (MakeThrottle 2) :=
  ⟨by norm_num, by norm_num, rfl,
    (admitted_cost_is_clamped_to_capacity 2 (by norm_num) (by norm_num) false [] _ rfl).2.2.2.2
      (MakeThrottle 2) ⟨0, 5, .pending⟩ rfl (by decide) rfl rfl rfl rfl rfl (by decide)
      (fun cb h => absurd h (List.not_mem_nil cb))⟩

/-- Witness for C26: a running node with one task started and two tasks queued behind a
throttle of capacity 1 is aborted. -/
theorem abort_discards_queued_tasks_witness :
    ∃ s : AsyncTaskSchedulerImpl,
      (make none (some (MakeThrottle 1)) false).run
        [.AddTask ⟨0, 1, .pending⟩, .AddTask ⟨1, 1, .pending⟩, .AddTask ⟨2, 1, .pending⟩]
        = some s ∧
      s.state = .kRunning ∧
      s.queue = [⟨1, 1, .pending⟩, ⟨2, 1, .pending⟩] ∧
      (s.AbortUnlocked (.Failure "e")).maybe_error = .Failure "e" ∧
      (s.AbortUnlocked (.Failure "e")).state = .kAborted ∧
      (s.AbortUnlocked (.Failure "e")).queue = [] :=
  have hrun : (make none (some (MakeThrottle 1)) false).run
      [.AddTask ⟨0, 1, .pending⟩, .AddTask ⟨1, 1, .pending⟩, .AddTask ⟨2, 1, .pending⟩] = some
    { queue := [⟨1, 1, .pending⟩, ⟨2, 1, .pending⟩]
      throttle := some
        { max_concurrent_cost := 1, available_cost := 0, backoff := some 0, next_future := 1 }
      has_finish_callback := false
      running_tasks := 1
      state := .kRunning
      maybe_error := .OK
      sub_schedulers := 0
      global_abort := false
      finished_marks := []
      accepted := [0, 1, 2]
      started := [0]
      completed := []
      aborts := []
      task_callbacks := [(0, 1)]
      backoff_callbacks := [0] } := by decide!
  ⟨_, hrun, rfl, rfl,
    (abort_discards_queued_tasks _ (.Failure "e") rfl).1,
    (abort_discards_queued_tasks _ (.Failure "e") rfl).2.1,
    (abort_discards_queued_tasks _ (.Failure "e") rfl).2.2.1⟩

end AsyncTaskSchedulerImpl

end Arrow

namespace Arrow

namespace AsyncTaskSchedulerImpl

/-! ## Sub-schedulers of a parent that is not running -/

theorem addTasks_rejects (f : AlreadyFailedScheduler) :
    ∀ tasks : List Task,
      (f.addTasks tasks).1 = f ∧ (f.addTasks tasks).2 = tasks.map fun _ => false := by
  intro tasks
  induction tasks with
  | nil => exact ⟨rfl, rfl⟩
  | cons task tasks ih =>
    unfold AlreadyFailedScheduler.addTasks
    dsimp only [AlreadyFailedScheduler.AddTask]
    exact ⟨ih.1, by rw [ih.2]; rfl⟩

/-- C39. On a parent that is aborted, `MakeSubScheduler` leaves the parent as it is
(`running_tasks` and the list of children included) and returns an
`AlreadyFailedScheduler` holding the error recorded by the parent. Every `AddTask` on
that scheduler returns false and starts nothing; its own `MakeSubScheduler` returns an
`AlreadyFailedScheduler` with the same error; the finish callback has not been invoked
before the destructor runs, and the destructor invokes it once, with that error. When
the parent was reached from a new node by events that add no task after `End`, the
error is the first status passed to `AbortUnlocked` and is not OK. -/
theorem failed_sub_scheduler_rejects_tasks (s : AsyncTaskSchedulerImpl)
    (h : s.state = .kAborted) :
    s.MakeSubScheduler = (s, false) ∧
    ∃ f, s.MakeSubSchedulerFailed = some f ∧
      f.failure_reason = s.maybe_error ∧ f.finish_callback_calls = [] ∧
      (∀ task, f.AddTask task = (f, false)) ∧
      (∀ tasks, (f.addTasks tasks).1 = f ∧ (f.addTasks tasks).2 = tasks.map fun _ => false) ∧
      (∀ tasks, (f.addTasks tasks).1.started = []) ∧
      f.MakeSubScheduler = AlreadyFailedScheduler.Make s.maybe_error ∧
      f.MakeSubScheduler.MakeSubScheduler = AlreadyFailedScheduler.Make s.maybe_error ∧
      (∀ tasks, (f.addTasks tasks).1.Destructor.finish_callback_calls = [s.maybe_error]) ∧
      (∀ parent_abort throttle has_finish_callback events, endedOnce events = true →
        (make parent_abort throttle has_finish_callback).run events = some s →
        s.maybe_error = firstError s.aborts ∧ s.maybe_error.ok = false) := by
  have hne : s.state ≠ .kRunning := by rw [h]; decide
  refine ⟨?_, AlreadyFailedScheduler.Make s.maybe_error, ?_, rfl, rfl, fun _ => rfl,
    addTasks_rejects _, ?_, rfl, rfl, ?_, ?_⟩
  · unfold AsyncTaskSchedulerImpl.MakeSubScheduler
    rw [if_pos hne]
  · unfold AsyncTaskSchedulerImpl.MakeSubSchedulerFailed
    rw [if_pos hne]
  · intro tasks
    rw [(addTasks_rejects _ tasks).1]
    rfl
  · intro tasks
    rw [(addTasks_rejects _ tasks).1]
    rfl
  · intro parent_abort throttle hfc events hev hrun
    have hsound : Sound 0 s :=
      Sound.run events (Sound.make parent_abort throttle hfc)
        (by rw [if_neg (by simp [AsyncTaskSchedulerImpl.make])]; exact hev) hrun
    have hmarks : s.finished_marks = [] := by
      by_contra hm
      have := (hsound.marked hm).1
      rw [h] at this
      exact absurd this (by decide)
    have herr := hsound.recorded hmarks
    refine ⟨herr, ?_⟩
    have hab := hsound.aborted_error h
    rw [herr]
    cases ha : s.aborts with
    | nil => exact absurd ha hab
    | cons st rest =>
      have := hsound.errors st (by rw [ha]; exact List.mem_cons_self _ _)
      simpa [firstError] using this

/-- Witness for C39: a root that a task failing to start has aborted. -/
theorem failed_sub_scheduler_rejects_tasks_witness :
    ∃ s : AsyncTaskSchedulerImpl,
      (make none none false).run [.AddTask ⟨0, 1, .failed (.Failure "e")⟩] = some s ∧
      s.state = .kAborted ∧
      s.MakeSubScheduler = (s, false) ∧
      s.MakeSubSchedulerFailed = some (AlreadyFailedScheduler.Make (.Failure "e")) ∧
      (AlreadyFailedScheduler.Make (.Failure "e")).Destructor.finish_callback_calls
        = [.Failure "e"] :=
  have hrun : (make none none false).run [.AddTask ⟨0, 1, .failed (.Failure "e")⟩] = some
    { queue := []
      throttle := none
      has_finish_callback := false
      running_tasks := 0
      state := .kAborted
      maybe_error := .Failure "e"
      sub_schedulers := 0
      global_abort := true
      finished_marks := []
      accepted := [0]
      started := [0]
      completed := []
      aborts := [.Failure "e"]
      task_callbacks := []
      backoff_callbacks := [] } := by decide!
  ⟨_, hrun, rfl, (failed_sub_scheduler_rejects_tasks _ rfl).1, rfl, rfl⟩

end AsyncTaskSchedulerImpl

end Arrow

namespace Arrow
namespace Dataset

/-! ## Properties of the file queue -/

namespace DatasetWriterFileQueue

theorem PopStagedBatchLoop_flatten (G : Nat) :
    ∀ (staged : List RecordBatch) (n : Nat) (acc : List RecordBatch),
      (PopStagedBatchLoop G staged n acc).1.flatten ++
          (PopStagedBatchLoop G staged n acc).2.flatten
        = acc.flatten ++ staged.flatten := by
  intro staged
  induction staged with
  | nil => intro n acc; simp [PopStagedBatchLoop]
  | cons next rest ih =>
    intro n acc
    rw [PopStagedBatchLoop]
    split
    · split
      · simp
      · rw [ih]; simp
    · simp only [List.flatten_append, List.flatten_cons, List.flatten_nil, List.append_nil,
        List.append_assoc]
      rw [← List.append_assoc (List.take _ next), List.take_append_drop]

theorem PopStagedBatchLoop_length (G : Nat) :
    ∀ (staged : List RecordBatch) (n : Nat) (acc : List RecordBatch),
      n ≤ G → acc.flatten.length = n →
      (PopStagedBatchLoop G staged n acc).1.flatten.length = min (n + staged.flatten.length) G := by
  intro staged
  induction staged with
  | nil => intro n acc hn hacc; simp [PopStagedBatchLoop, hacc]; omega
  | cons next rest ih =>
    intro n acc hn hacc
    rw [PopStagedBatchLoop]
    split
    · rename_i hfit
      split
      · rename_i heq
        simp only [List.flatten_append, List.flatten_cons, List.flatten_nil, List.append_nil,
          List.length_append, hacc]
        omega
      · rw [ih _ _ hfit (by simp [hacc])]
        simp only [List.flatten_cons, List.length_append]
        omega
    · rename_i hfit
      simp only [List.flatten_append, List.flatten_cons, List.flatten_nil, List.append_nil,
        List.length_append, hacc, List.length_take]
      omega

theorem loopFuel_cons (b : RecordBatch) (bs : List RecordBatch) :
    loopFuel (b :: bs) = loopFuel bs + b.length + 1 := by
  simp [loopFuel]; omega

theorem PopStagedBatchLoop_fuel (G : Nat) :
    ∀ (staged : List RecordBatch) (n : Nat) (acc : List RecordBatch),
      n < G → staged ≠ [] →
      loopFuel (PopStagedBatchLoop G staged n acc).2 < loopFuel staged := by
  intro staged
  induction staged with
  | nil => intro n acc _ h; exact absurd rfl h
  | cons next rest ih =>
    intro n acc hn _
    rw [PopStagedBatchLoop, loopFuel_cons]
    split
    · rename_i hfit
      split
      · show loopFuel rest < _
        omega
      · rename_i hne
        cases rest with
        | nil => simp [PopStagedBatchLoop, loopFuel]
        | cons r rs =>
          have := ih (n + next.length) (acc ++ [next]) (by omega) (by simp)
          omega
    · rename_i hfit
      simp only [loopFuel_cons, List.length_drop]
      omega

/-- Invariant of the staged-row counter of a file queue. -/
theorem PopAndDeliver_spec (options : FileSystemDatasetWriteOptions)
    (q : DatasetWriterFileQueue) :
    ∃ g : RecordBatch,
      (q.PopAndDeliverStagedBatch options).1.scheduled = q.scheduled ++ [g] ∧
      (q.PopAndDeliverStagedBatch options).2 = g.length ∧
      g ++ (q.PopAndDeliverStagedBatch options).1.staged_batches.flatten
        = q.staged_batches.flatten ∧
      g.length = min q.staged_batches.flatten.length options.max_rows_per_group ∧
      (q.PopAndDeliverStagedBatch options).1.rows_currently_staged
        = subU64 q.rows_currently_staged g.length ∧
      (q.PopAndDeliverStagedBatch options).1.filename = q.filename ∧
      (q.PopAndDeliverStagedBatch options).1.finished = q.finished ∧
      (1 ≤ options.max_rows_per_group → q.staged_batches ≠ [] →
        loopFuel (q.PopAndDeliverStagedBatch options).1.staged_batches
          < loopFuel q.staged_batches) := by
  refine ⟨(PopStagedBatchLoop options.max_rows_per_group q.staged_batches 0 []).1.flatten,
    rfl, rfl, ?_, ?_, rfl, rfl, rfl, ?_⟩
  · have := PopStagedBatchLoop_flatten options.max_rows_per_group q.staged_batches 0 []
    simpa [PopAndDeliverStagedBatch, PopStagedBatch] using this
  · have := PopStagedBatchLoop_length options.max_rows_per_group q.staged_batches 0 []
      (Nat.zero_le _) rfl
    simpa using this
  · intro hG hne
    exact PopStagedBatchLoop_fuel options.max_rows_per_group q.staged_batches 0 [] hG hne

theorem subU64_mod {total k : Nat} (h : k ≤ total) :
    subU64 (total % 2 ^ 64) k = (total - k) % 2 ^ 64 := by
  unfold subU64
  omega

theorem addU64_mod (total k : Nat) : addU64 (total % 2 ^ 64) k = (total + k) % 2 ^ 64 := by
  unfold addU64
  omega

/-- What the loops of `Push` and `Finish` do to a queue: groups `gs` are moved, in
order, from the front of the staged rows to the scheduled groups. -/
theorem PushLoop_spec (options : FileSystemDatasetWriteOptions) (ws : DatasetWriterState) :
    ∀ (fuel : Nat) (q : DatasetWriterFileQueue) (d : Nat)
      (r : DatasetWriterFileQueue × Nat),
      PushLoop options ws fuel q d = some r →
      ∃ gs : List RecordBatch,
        r.1.scheduled = q.scheduled ++ gs ∧
        gs.flatten ++ r.1.staged_batches.flatten = q.staged_batches.flatten ∧
        (∀ g ∈ gs, g.length ≤ options.max_rows_per_group) ∧
        r.1.filename = q.filename ∧ r.1.finished = q.finished ∧
        (q.Counted → r.1.Counted ∧
          (ws.StagingFull = false → options.min_rows_per_group ≤ options.max_rows_per_group →
            ∀ g ∈ gs, options.min_rows_per_group ≤ g.length)) := by
  intro fuel
  induction fuel with
  | zero => intro q d r h; simp [PushLoop] at h
  | succ fuel ih =>
    intro q d r h
    rw [PushLoop] at h
    split at h
    · rename_i hcond
      obtain ⟨g, hsched, _, hflat, hlen, hrcs, hfn, hfin, _⟩ := PopAndDeliver_spec options q
      obtain ⟨gs, h1, h2, h3, h4, h5, h6⟩ := ih _ _ _ h
      refine ⟨g :: gs, ?_, ?_, ?_, ?_, ?_, ?_⟩
      · rw [h1, hsched]; simp
      · rw [← hflat, ← h2]; simp
      · intro x hx
        rcases List.mem_cons.mp hx with rfl | hx
        · rw [hlen]; exact Nat.min_le_right _ _
        · exact h3 x hx
      · rw [h4, hfn]
      · rw [h5, hfin]
      · intro hc
        have hle : g.length ≤ q.staged_batches.flatten.length := by
          rw [hlen]; exact Nat.min_le_left _ _
        have hc₁ : (q.PopAndDeliverStagedBatch options).1.Counted := by
          unfold Counted
          rw [hrcs, hc, subU64_mod hle, ← hflat]
          simp
        obtain ⟨hc₂, hmin⟩ := h6 hc₁
        refine ⟨hc₂, ?_⟩
        intro hfull hMG x hx
        rcases List.mem_cons.mp hx with rfl | hx
        · simp only [hfull, Bool.false_or, Bool.and_eq_true, decide_eq_true_eq] at hcond
          have hge := hcond.2
          rw [hc] at hge
          have : q.staged_batches.flatten.length % 2 ^ 64 ≤ q.staged_batches.flatten.length :=
            Nat.mod_le _ _
          rw [hlen]
          omega
        · exact hmin hfull hMG x hx
    · simp only [Option.some.injEq] at h
      subst h
      exact ⟨[], by simp, by simp, by simp, rfl, rfl, fun hc => ⟨hc, by simp⟩⟩

theorem PushLoop_total (options : FileSystemDatasetWriteOptions) (ws : DatasetWriterState)
    (hG : 1 ≤ options.max_rows_per_group) :
    ∀ (fuel : Nat) (q : DatasetWriterFileQueue) (d : Nat),
      loopFuel q.staged_batches ≤ fuel → ∃ r, PushLoop options ws fuel q d = some r := by
  intro fuel
  induction fuel with
  | zero => intro q d h; simp [loopFuel] at h
  | succ fuel ih =>
    intro q d h
    rw [PushLoop]
    split
    · rename_i hcond
      have hne : q.staged_batches ≠ [] := by
        intro he; simp [he] at hcond
      obtain ⟨g, _, _, _, _, _, _, _, hfuel⟩ := PopAndDeliver_spec options q
      exact ih _ _ (by have := hfuel hG hne; omega)
    · exact ⟨_, rfl⟩

theorem FinishLoop_spec (options : FileSystemDatasetWriteOptions) :
    ∀ (fuel : Nat) (q r : DatasetWriterFileQueue),
      FinishLoop options fuel q = some r →
      ∃ gs : List RecordBatch,
        r.scheduled = q.scheduled ++ gs ∧ gs.flatten = q.staged_batches.flatten ∧
        (∀ g ∈ gs, g.length ≤ options.max_rows_per_group) ∧
        r.staged_batches = [] ∧ r.filename = q.filename ∧ r.finished = q.finished ∧
        (q.Counted → r.rows_currently_staged = 0) := by
  intro fuel
  induction fuel with
  | zero => intro q r h; simp [FinishLoop] at h
  | succ fuel ih =>
    intro q r h
    rw [FinishLoop] at h
    split at h
    · obtain ⟨g, hsched, _, hflat, hlen, hrcs, hfn, hfin, _⟩ := PopAndDeliver_spec options q
      obtain ⟨gs, h1, h2, h3, h4, h5, h6, h7⟩ := ih _ _ h
      refine ⟨g :: gs, ?_, ?_, ?_, h4, ?_, ?_, ?_⟩
      · rw [h1, hsched]; simp
      · rw [← hflat, ← h2]; simp
      · intro x hx
        rcases List.mem_cons.mp hx with rfl | hx
        · rw [hlen]; exact Nat.min_le_right _ _
        · exact h3 x hx
      · rw [h5, hfn]
      · rw [h6, hfin]
      · intro hc
        have hle : g.length ≤ q.staged_batches.flatten.length := by
          rw [hlen]; exact Nat.min_le_left _ _
        apply h7
        unfold Counted
        rw [hrcs, hc, subU64_mod hle, ← hflat]
        simp
    · rename_i hcond
      simp only [Option.some.injEq] at h
      subst h
      have he : q.staged_batches = [] := by
        cases hq : q.staged_batches with
        | nil => rfl
        | cons b bs => simp [hq] at hcond
      refine ⟨[], by simp, by simp [he], by simp, he, rfl, rfl, ?_⟩
      intro hc
      rw [hc, he]; rfl

theorem FinishLoop_total (options : FileSystemDatasetWriteOptions)
    (hG : 1 ≤ options.max_rows_per_group) :
    ∀ (fuel : Nat) (q : DatasetWriterFileQueue),
      loopFuel q.staged_batches ≤ fuel → ∃ r, FinishLoop options fuel q = some r := by
  intro fuel
  induction fuel with
  | zero => intro q h; simp [loopFuel] at h
  | succ fuel ih =>
    intro q h
    rw [FinishLoop]
    split
    · rename_i hcond
      have hne : q.staged_batches ≠ [] := by
        intro he; simp [he] at hcond
      obtain ⟨g, _, _, _, _, _, _, _, hfuel⟩ := PopAndDeliver_spec options q
      exact ih _ (by have := hfuel hG hne; omega)
    · exact ⟨_, rfl⟩

/-- Effect of `Push`. -/
theorem Push_spec {options : FileSystemDatasetWriteOptions} {ws ws' : DatasetWriterState}
    {q q' : DatasetWriterFileQueue} {batch : RecordBatch}
    (h : q.Push options ws batch = some (q', ws')) :
    ∃ gs : List RecordBatch,
      q'.scheduled = q.scheduled ++ gs ∧
      gs.flatten ++ q'.staged_batches.flatten = q.staged_batches.flatten ++ batch ∧
      (∀ g ∈ gs, g.length ≤ options.max_rows_per_group) ∧
      q'.filename = q.filename ∧ q'.finished = q.finished ∧
      (q.Counted → q'.Counted ∧
        (ws.StagingFull = false → options.min_rows_per_group ≤ options.max_rows_per_group →
          ∀ g ∈ gs, options.min_rows_per_group ≤ g.length)) ∧
      ws'.rows_in_flight_throttle = ws.rows_in_flight_throttle ∧
      ws'.open_files_throttle = ws.open_files_throttle ∧
      ws'.max_rows_staged = ws.max_rows_staged := by
  unfold Push at h
  dsimp only at h
  split at h
  · simp at h
  · rename_i q₁ d₁ hloop
    simp only [Option.some.injEq, Prod.mk.injEq] at h
    obtain ⟨rfl, rfl⟩ := h
    obtain ⟨gs, h1, h2, h3, h4, h5, h6⟩ := PushLoop_spec options ws _ _ _ _ hloop
    refine ⟨gs, h1, ?_, h3, h4, h5, ?_, rfl, rfl, rfl⟩
    · rw [h2]; simp
    · intro hc
      apply h6
      unfold Counted at hc ⊢
      show addU64 q.rows_currently_staged batch.length
        = (q.staged_batches ++ [batch]).flatten.length % 2 ^ 64
      rw [hc, addU64_mod]
      simp

theorem Push_total (options : FileSystemDatasetWriteOptions) (ws : DatasetWriterState)
    (q : DatasetWriterFileQueue) (batch : RecordBatch)
    (hG : 1 ≤ options.max_rows_per_group) : ∃ r, q.Push options ws batch = some r := by
  unfold Push
  dsimp only
  obtain ⟨r, hr⟩ := PushLoop_total options ws hG (loopFuel (q.staged_batches ++ [batch]))
    { q with rows_currently_staged := addU64 q.rows_currently_staged batch.length
             staged_batches := q.staged_batches ++ [batch] } batch.length (le_refl _)
  rw [hr]
  exact ⟨_, rfl⟩

/-- Effect of `Finish`. -/
theorem Finish_spec {options : FileSystemDatasetWriteOptions} {ws ws' : DatasetWriterState}
    {q q' : DatasetWriterFileQueue} (h : q.Finish options ws = some (q', ws')) :
    ∃ gs : List RecordBatch,
      q'.scheduled = q.scheduled ++ gs ∧ gs.flatten = q.staged_batches.flatten ∧
      (∀ g ∈ gs, g.length ≤ options.max_rows_per_group) ∧
      q'.staged_batches = [] ∧ q'.filename = q.filename ∧ q'.finished = true ∧
      (q.Counted → q'.rows_currently_staged = 0) ∧
      ws'.rows_in_flight_throttle = ws.rows_in_flight_throttle ∧
      ws'.open_files_throttle = ws.open_files_throttle ∧
      ws'.max_rows_staged = ws.max_rows_staged := by
  unfold Finish at h
  dsimp only at h
  split at h
  · simp at h
  · rename_i q₁ hloop
    simp only [Option.some.injEq, Prod.mk.injEq] at h
    obtain ⟨rfl, rfl⟩ := h
    obtain ⟨gs, h1, h2, h3, h4, h5, _, h7⟩ := FinishLoop_spec options _ _ _ hloop
    exact ⟨gs, h1, h2, h3, h4, h5, rfl, h7, rfl, rfl, rfl⟩

theorem Finish_total (options : FileSystemDatasetWriteOptions) (ws : DatasetWriterState)
    (q : DatasetWriterFileQueue) (hG : 1 ≤ options.max_rows_per_group) :
    ∃ r, q.Finish options ws = some r := by
  unfold Finish
  dsimp only
  obtain ⟨r, hr⟩ := FinishLoop_total options hG (loopFuel q.staged_batches) q (le_refl _)
  rw [hr]
  exact ⟨_, rfl⟩

theorem Counted_Start (filename : String) : (Start filename).Counted := by
  simp [Counted, Start]

theorem call_Counted {options : FileSystemDatasetWriteOptions}
    {s s' : DatasetWriterFileQueue × DatasetWriterState} {c : FileQueueCall}
    (h : call options s c = some s') (hc : s.1.Counted) : s'.1.Counted := by
  cases c with
  | Push batch =>
    simp only [call] at h
    split at h
    · simp at h
    · obtain ⟨q', ws'⟩ := s'
      obtain ⟨gs, _, _, _, _, _, h6, _⟩ := Push_spec h
      exact (h6 hc).1
  | Finish =>
    simp only [call] at h
    split at h
    · simp at h
    · obtain ⟨q', ws'⟩ := s'
      obtain ⟨gs, _, _, _, h4, _, _, h7, _⟩ := Finish_spec h
      show q'.rows_currently_staged = q'.staged_batches.flatten.length % 2 ^ 64
      rw [h7 hc, h4]; rfl
  | OtherQueues n =>
    simp only [call, Option.some.injEq] at h
    subst h
    exact hc

/-- A call on a file queue that `Finish` has not closed always returns, the maximum
group size being at least one. -/
theorem call_total (options : FileSystemDatasetWriteOptions)
    (hG : 1 ≤ options.max_rows_per_group) (s : DatasetWriterFileQueue × DatasetWriterState)
    (hopen : s.1.finished = false) (c : FileQueueCall) : ∃ s', call options s c = some s' := by
  cases c with
  | Push batch =>
    simp only [call, hopen, Bool.false_eq_true, if_false]
    exact Push_total options s.2 s.1 batch hG
  | Finish =>
    simp only [call, hopen, Bool.false_eq_true, if_false]
    exact Finish_total options s.2 s.1 hG
  | OtherQueues n => exact ⟨_, rfl⟩

theorem call_scheduled {options : FileSystemDatasetWriteOptions}
    {s s' : DatasetWriterFileQueue × DatasetWriterState} {c : FileQueueCall}
    (h : call options s c = some s') :
    ∃ gs : List RecordBatch, s'.1.scheduled = s.1.scheduled ++ gs ∧
      (∀ g ∈ gs, g.length ≤ options.max_rows_per_group) ∧
      gs.flatten ++ s'.1.staged_batches.flatten
        = s.1.staged_batches.flatten ++ (pushed [c]).flatten ∧
      (c = .Finish → s'.1.staged_batches = [] ∧ (s.1.Counted → s'.1.rows_currently_staged = 0)) ∧
      (s.1.Counted → s.2.StagingFull = false →
        options.min_rows_per_group ≤ options.max_rows_per_group →
        (∃ batch, c = .Push batch) → ∀ g ∈ gs, options.min_rows_per_group ≤ g.length) := by
  cases c with
  | Push batch =>
    simp only [call] at h
    split at h
    · simp at h
    · obtain ⟨q', ws'⟩ := s'
      obtain ⟨gs, h1, h2, h3, _, _, h6, _⟩ := Push_spec h
      refine ⟨gs, h1, h3, ?_, ?_, ?_⟩
      · simpa [pushed] using h2
      · intro hc; cases hc
      · intro hc hfull hMG _
        exact (h6 hc).2 hfull hMG
  | Finish =>
    simp only [call] at h
    split at h
    · simp at h
    · obtain ⟨q', ws'⟩ := s'
      obtain ⟨gs, h1, h2, h3, h4, _, _, h7, _⟩ := Finish_spec h
      refine ⟨gs, h1, h3, ?_, fun _ => ⟨h4, h7⟩, ?_⟩
      · simp [pushed, h2, h4]
      · intro _ _ _ hp
        obtain ⟨b, hb⟩ := hp
        cases hb
  | OtherQueues n =>
    simp only [call, Option.some.injEq] at h
    subst h
    refine ⟨[], by simp, by simp, by simp [pushed], ?_, by simp⟩
    intro hc; cases hc

theorem pushed_cons (c : FileQueueCall) (cs : List FileQueueCall) :
    pushed (c :: cs) = pushed [c] ++ pushed cs := by
  cases c <;> simp [pushed]

theorem run_scheduled (options : FileSystemDatasetWriteOptions) :
    ∀ (calls : List FileQueueCall) (s s' : DatasetWriterFileQueue × DatasetWriterState),
      run options s calls = some s' →
      (∀ g ∈ s.1.scheduled, g.length ≤ options.max_rows_per_group) →
      (∀ g ∈ s'.1.scheduled, g.length ≤ options.max_rows_per_group) ∧
      (s'.1.scheduled ++ s'.1.staged_batches).flatten
        = (s.1.scheduled ++ s.1.staged_batches).flatten ++ (pushed calls).flatten ∧
      (s.1.Counted → s'.1.Counted) := by
  intro calls
  induction calls with
  | nil =>
    intro s s' h hs
    simp only [run, Option.some.injEq] at h
    subst h
    exact ⟨hs, by simp [pushed], id⟩
  | cons c cs ih =>
    intro s s' h hs
    simp only [run] at h
    cases hc : call options s c with
    | none => simp [hc] at h
    | some s₁ =>
      simp only [hc] at h
      obtain ⟨gs, h1, h2, h3, _, _⟩ := call_scheduled hc
      have hs₁ : ∀ g ∈ s₁.1.scheduled, g.length ≤ options.max_rows_per_group := by
        intro g hg
        rw [h1] at hg
        rcases List.mem_append.mp hg with hg | hg
        · exact hs g hg
        · exact h2 g hg
      obtain ⟨i1, i2, i3⟩ := ih s₁ s' h hs₁
      refine ⟨i1, ?_, fun hcn => i3 (call_Counted hc hcn)⟩
      rw [i2, pushed_cons, h1]
      simp only [List.flatten_append, List.append_assoc]
      rw [← List.append_assoc gs.flatten, h3]
      simp

theorem run_append (options : FileSystemDatasetWriteOptions) :
    ∀ (xs ys : List FileQueueCall) (s : DatasetWriterFileQueue × DatasetWriterState),
      run options s (xs ++ ys) = (run options s xs).bind fun s' => run options s' ys := by
  intro xs
  induction xs with
  | nil => intro ys s; simp [run]
  | cons x xs ih =>
    intro ys s
    simp only [List.cons_append, run]
    cases call options s x with
    | none => simp
    | some s₁ => simp [ih]

theorem call_open {options : FileSystemDatasetWriteOptions}
    {s s' : DatasetWriterFileQueue × DatasetWriterState} {c : FileQueueCall}
    (hc : c ≠ .Finish) (hopen : s.1.finished = false) (h : call options s c = some s') :
    s'.1.finished = false := by
  cases c with
  | Push batch =>
    simp only [call, hopen, Bool.false_eq_true, if_false] at h
    obtain ⟨_, _, _, _, _, h5, _⟩ := Push_spec h
    rw [h5, hopen]
  | Finish => exact absurd rfl hc
  | OtherQueues n =>
    simp only [call, Option.some.injEq] at h
    subst h
    exact hopen

/-- A sequence of calls without `Finish` on a file queue that is not finished always
returns, the maximum group size being at least one, and leaves the queue not
finished. -/
theorem run_total (options : FileSystemDatasetWriteOptions)
    (hG : 1 ≤ options.max_rows_per_group) :
    ∀ (calls : List FileQueueCall) (s : DatasetWriterFileQueue × DatasetWriterState),
      s.1.finished = false → (∀ c ∈ calls, c ≠ .Finish) →
      ∃ s', run options s calls = some s' ∧ s'.1.finished = false := by
  intro calls
  induction calls with
  | nil => intro s hopen _; exact ⟨s, rfl, hopen⟩
  | cons c cs ih =>
    intro s hopen hcalls
    obtain ⟨s₁, h₁⟩ := call_total options hG s hopen c
    have hopen₁ := call_open (hcalls c (List.mem_cons_self _ _)) hopen h₁
    obtain ⟨s', h', hfin⟩ := ih s₁ hopen₁ fun c' hc' => hcalls c' (List.mem_cons_of_mem _ hc')
    refine ⟨s', ?_, hfin⟩
    simp only [run, h₁]
    exact h'

/-- C6. For a file queue after `Start` with `max_rows_per_group ≥ 1`, whatever the
state shared with the other queues, and every sequence of `Push` and `Finish` calls
(and of changes of the shared counter by other queues): every group scheduled for
writing has at most `max_rows_per_group` rows; and every sequence of `Push` calls
followed by `Finish` returns. -/
theorem scheduled_groups_within_maximum (options : FileSystemDatasetWriteOptions)
    (hG : 1 ≤ options.max_rows_per_group)
    (ws : DatasetWriterState) (filename : String) (calls : List FileQueueCall) :
    (∀ s, run options (Start filename, ws) calls = some s →
      ∀ g ∈ s.1.scheduled, g.length ≤ options.max_rows_per_group) ∧
    ((∀ c ∈ calls, c ≠ .Finish) →
      ∃ s, run options (Start filename, ws) (calls ++ [.Finish]) = some s) := by
  refine ⟨fun s hrun => (run_scheduled options calls _ s hrun (by simp [Start])).1, ?_⟩
  intro hcalls
  obtain ⟨s₁, h₁, hopen⟩ := run_total options hG calls (Start filename, ws) rfl hcalls
  obtain ⟨s₂, h₂⟩ := call_total options hG s₁ hopen .Finish
  refine ⟨s₂, ?_⟩
  rw [run_append, h₁]
  simp only [Option.some_bind, run, h₂]

/-- Witness for C6: maximum group size 10, three rows pushed, nine rows pushed,
`Finish`. -/
theorem scheduled_groups_within_maximum_witness :
    (1 : Nat) ≤ 10 ∧
    Eq
      (run
        { base_dir := "out", basename_template := "part-{i}.arrow",
          has_file_write_options := true, has_filesystem := true, max_open_files := 0,
          max_rows_per_file := 100, min_rows_per_group := 5, max_rows_per_group := 10,
          existing_data_behavior := .kOverwriteOrIgnore, create_dir := true }
        (Start "f", DatasetWriterState.make 100 0 25)
        [.Push [1, 2, 3], .Push [4, 5, 6, 7, 8, 9, 10, 11, 12], .Finish])
        (some
          ({ staged_batches := [], rows_currently_staged := 0, filename := "f",
             scheduled := [[1, 2, 3, 4, 5, 6, 7, 8, 9, 10], [11, 12]], finished := true },
           { rows_in_flight_throttle := Throttle.make 100,
             open_files_throttle := Throttle.make 0,
             staged_rows_count := 0, max_rows_staged := 25 })) ∧
    ∀ g ∈ [[1, 2, 3, 4, 5, 6, 7, 8, 9, 10], [11, 12]], g.length ≤ 10 :=
  have hrun : Eq
      (run
        { base_dir := "out", basename_template := "part-{i}.arrow",
          has_file_write_options := true, has_filesystem := true, max_open_files := 0,
          max_rows_per_file := 100, min_rows_per_group := 5, max_rows_per_group := 10,
          existing_data_behavior := .kOverwriteOrIgnore, create_dir := true }
        (Start "f", DatasetWriterState.make 100 0 25)
        [.Push [1, 2, 3], .Push [4, 5, 6, 7, 8, 9, 10, 11, 12], .Finish])
        (some
          ({ staged_batches := [], rows_currently_staged := 0, filename := "f",
             scheduled := [[1, 2, 3, 4, 5, 6, 7, 8, 9, 10], [11, 12]], finished := true },
           { rows_in_flight_throttle := Throttle.make 100,
             open_files_throttle := Throttle.make 0,
             staged_rows_count := 0, max_rows_staged := 25 })) := by decide!
  ⟨by decide, hrun,
    (scheduled_groups_within_maximum _ (by decide) _ _ _).1 _ hrun⟩

theorem pushLog_minimum (options : FileSystemDatasetWriteOptions)
    (hMG : options.min_rows_per_group ≤ options.max_rows_per_group) :
    ∀ (calls : List FileQueueCall) (s : DatasetWriterFileQueue × DatasetWriterState)
      (log : List (Bool × List RecordBatch)),
      s.1.Counted → pushLog options s calls = some log →
      ∀ entry ∈ log, entry.1 = false → ∀ g ∈ entry.2, options.min_rows_per_group ≤ g.length := by
  intro calls
  induction calls with
  | nil =>
    intro s log _ h
    simp only [pushLog, Option.some.injEq] at h
    subst h
    simp
  | cons c cs ih =>
    intro s log hc h
    simp only [pushLog] at h
    cases hcall : call options s c with
    | none => simp [hcall] at h
    | some s₁ =>
      simp only [hcall] at h
      cases hlog : pushLog options s₁ cs with
      | none => simp [hlog] at h
      | some log₁ =>
        simp only [hlog] at h
        have ih₁ := ih s₁ log₁ (call_Counted hcall hc) hlog
        obtain ⟨gs, h1, _, _, _, h5⟩ := call_scheduled hcall
        cases c with
        | Push batch =>
          simp only [Option.some.injEq] at h
          subst h
          intro entry he
          rcases List.mem_cons.mp he with rfl | he
          · intro hfull g hg
            simp only [h1, List.drop_left] at hg
            exact h5 hc hfull hMG ⟨batch, rfl⟩ g hg
          · exact ih₁ entry he
        | Finish =>
          simp only [Option.some.injEq] at h
          exact h ▸ ih₁
        | OtherQueues n =>
          simp only [Option.some.injEq] at h
          exact h ▸ ih₁

/-- C7, as amended. For a file queue after `Start` with
`min_rows_per_group ≤ max_rows_per_group` and every sequence of calls: every group
scheduled by a `Push` that was called while the writer-wide staging ceiling was not
reached has at least `min_rows_per_group` rows. -/
theorem pushed_groups_reach_minimum (options : FileSystemDatasetWriteOptions)
    (hMG : options.min_rows_per_group ≤ options.max_rows_per_group)
    (ws : DatasetWriterState) (filename : String) (calls : List FileQueueCall)
    (log : List (Bool × List RecordBatch))
    (hlog : pushLog options (Start filename, ws) calls = some log) :
    ∀ entry ∈ log, entry.1 = false →
      ∀ g ∈ entry.2, options.min_rows_per_group ≤ g.length :=
  pushLog_minimum options hMG calls _ log (Counted_Start filename) hlog

/-- Witness for C7 as amended: minimum 5, maximum 10, staging ceiling 25; three rows
are pushed and stay staged, nine more rows are pushed and a group of ten rows is
scheduled. -/
theorem pushed_groups_reach_minimum_witness :
    (5 : Nat) ≤ 10 ∧
    Eq
      (pushLog
        { base_dir := "out", basename_template := "part-{i}.arrow",
          has_file_write_options := true, has_filesystem := true, max_open_files := 0,
          max_rows_per_file := 100, min_rows_per_group := 5, max_rows_per_group := 10,
          existing_data_behavior := .kOverwriteOrIgnore, create_dir := true }
        (Start "f", DatasetWriterState.make 100 0 25)
        [.Push [1, 2, 3], .Push [4, 5, 6, 7, 8, 9, 10, 11, 12]])
      (some [(false, []), (false, [[1, 2, 3, 4, 5, 6, 7, 8, 9, 10]])]) ∧
    ∀ entry ∈ [(false, ([] : List RecordBatch)), (false, [[1, 2, 3, 4, 5, 6, 7, 8, 9, 10]])],
      entry.1 = false → ∀ g ∈ entry.2, 5 ≤ g.length :=
  have hlog : Eq
      (pushLog
        { base_dir := "out", basename_template := "part-{i}.arrow",
          has_file_write_options := true, has_filesystem := true, max_open_files := 0,
          max_rows_per_file := 100, min_rows_per_group := 5, max_rows_per_group := 10,
          existing_data_behavior := .kOverwriteOrIgnore, create_dir := true }
        (Start "f", DatasetWriterState.make 100 0 25)
        [.Push [1, 2, 3], .Push [4, 5, 6, 7, 8, 9, 10, 11, 12]])
      (some [(false, []), (false, [[1, 2, 3, 4, 5, 6, 7, 8, 9, 10]])]) := by decide!
  ⟨by decide, hlog, pushed_groups_reach_minimum _ (by decide) _ _ _ _ hlog⟩

/-- Counterexample to C7 as stated: minimum 6, maximum 10, staging ceiling 4. Four
rows are pushed and stay staged, which reaches the ceiling; the next `Push`, of one
row, schedules a group of five rows, fewer than the minimum. -/
theorem push_schedules_group_below_minimum :
    (6 : Nat) ≤ 10 ∧
    Eq
      ((run
        { base_dir := "out", basename_template := "part-{i}.arrow",
          has_file_write_options := true, has_filesystem := true, max_open_files := 0,
          max_rows_per_file := 100, min_rows_per_group := 6, max_rows_per_group := 10,
          existing_data_behavior := .kOverwriteOrIgnore, create_dir := true }
        (Start "f", DatasetWriterState.make 16 0 4) [.Push [1, 2, 3, 4]]).map
        fun s => (s.1.scheduled, s.2.StagingFull))
      (some ([], true)) ∧
    Eq
      ((run
        { base_dir := "out", basename_template := "part-{i}.arrow",
          has_file_write_options := true, has_filesystem := true, max_open_files := 0,
          max_rows_per_file := 100, min_rows_per_group := 6, max_rows_per_group := 10,
          existing_data_behavior := .kOverwriteOrIgnore, create_dir := true }
        (Start "f", DatasetWriterState.make 16 0 4) [.Push [1, 2, 3, 4], .Push [5]]).map
        fun s => s.1.scheduled)
      (some [[1, 2, 3, 4, 5]]) ∧
    ([1, 2, 3, 4, 5] : RecordBatch).length < 6 :=
  ⟨by decide, by decide!, by decide!, by decide⟩

/-- C8. For every sequence of `Push` calls on a file queue after `Start` with
`max_rows_per_group ≥ 1` (interleaved with changes of the shared counter by other
queues) followed by `Finish`: the calls return, the scheduled groups, concatenated
in scheduling order, are the pushed batches concatenated in order, no batch stays
staged and the staged-row counter of the queue is zero, whatever the minimum group
size. -/
theorem finish_delivers_all_rows (options : FileSystemDatasetWriteOptions)
    (hG : 1 ≤ options.max_rows_per_group)
    (ws : DatasetWriterState) (filename : String) (calls : List FileQueueCall)
    (hcalls : ∀ c ∈ calls, c ≠ .Finish) :
    ∃ s, run options (Start filename, ws) (calls ++ [.Finish]) = some s ∧
      s.1.scheduled.flatten = (pushed calls).flatten ∧ s.1.staged_batches = [] ∧
      s.1.rows_currently_staged = 0 := by
  obtain ⟨s₁, h₁, hopen⟩ := run_total options hG calls (Start filename, ws) rfl hcalls
  obtain ⟨s₂, h₂⟩ := call_total options hG s₁ hopen .Finish
  refine ⟨s₂, ?_, ?_⟩
  · rw [run_append, h₁]
    simp only [Option.some_bind, run, h₂]
  · obtain ⟨_, hflat, hcount⟩ := run_scheduled options calls _ s₁ h₁ (by simp [Start])
    obtain ⟨gs, g1, _, g3, g4, _⟩ := call_scheduled h₂
    obtain ⟨hempty, hzero⟩ := g4 rfl
    refine ⟨?_, hempty, hzero (hcount (Counted_Start filename))⟩
    have hstart : (Start filename).scheduled ++ (Start filename).staged_batches = [] := rfl
    rw [hstart] at hflat
    simp only [List.flatten_nil, List.nil_append, List.flatten_append] at hflat
    rw [g1, List.flatten_append, ← hflat]
    rw [hempty] at g3
    simp only [List.flatten_nil, List.append_nil, pushed] at g3
    rw [g3]

/-- Witness for C8: three rows and nine rows are pushed, then `Finish`. -/
theorem finish_delivers_all_rows_witness :
    (1 : Nat) ≤ 10 ∧
    (∀ c ∈ [FileQueueCall.Push [1, 2, 3], .Push [4, 5, 6, 7, 8, 9, 10, 11, 12]],
      c ≠ .Finish) ∧
    ∃ s,
      run
        { base_dir := "out", basename_template := "part-{i}.arrow",
          has_file_write_options := true, has_filesystem := true, max_open_files := 0,
          max_rows_per_file := 100, min_rows_per_group := 5, max_rows_per_group := 10,
          existing_data_behavior := .kOverwriteOrIgnore, create_dir := true }
        (Start "f", DatasetWriterState.make 100 0 25)
        ([.Push [1, 2, 3], .Push [4, 5, 6, 7, 8, 9, 10, 11, 12]] ++ [.Finish]) = some s ∧
      s.1.scheduled.flatten = [1, 2, 3, 4, 5, 6, 7, 8, 9, 10, 11, 12] ∧
      s.1.staged_batches = [] ∧ s.1.rows_currently_staged = 0 :=
  ⟨by decide, by decide,
    finish_delivers_all_rows _ (by decide) _ _
      [.Push [1, 2, 3], .Push [4, 5, 6, 7, 8, 9, 10, 11, 12]] (by decide)⟩

end DatasetWriterFileQueue

/-! ## Properties of the directory queue and of the writer -/

namespace DatasetWriterFileQueue

theorem rows_held_Push {options : FileSystemDatasetWriteOptions} {ws ws' : DatasetWriterState}
    {q q' : DatasetWriterFileQueue} {batch : RecordBatch}
    (h : q.Push options ws batch = some (q', ws')) :
    q'.rows_held = q.rows_held + batch.length ∧ q'.filename = q.filename := by
  obtain ⟨gs, h1, h2, _, h4, _⟩ := Push_spec h
  refine ⟨?_, h4⟩
  unfold rows_held
  rw [h1]
  have := congrArg List.length h2
  simp only [List.length_append] at this
  simp only [List.flatten_append, List.length_append]
  omega

theorem rows_held_Finish {options : FileSystemDatasetWriteOptions} {ws ws' : DatasetWriterState}
    {q q' : DatasetWriterFileQueue} (h : q.Finish options ws = some (q', ws')) :
    q'.rows_held = q.rows_held ∧ q'.filename = q.filename ∧ q'.staged_batches = [] := by
  obtain ⟨gs, h1, h2, _, h4, h5, _⟩ := Finish_spec h
  refine ⟨?_, h5, h4⟩
  unfold rows_held
  rw [h1, h4]
  have := congrArg List.length h2
  simp only [List.flatten_append, List.length_append, List.flatten_nil, List.length_nil]
  omega

end DatasetWriterFileQueue

namespace DatasetWriterDirectoryQueue

theorem subU64_of_le {a b : Nat} (hb : b ≤ a) (ha : a < 2 ^ 64) : subU64 a b = a - b := by
  unfold subU64
  omega

theorem addU64_of_lt {a b : Nat} (h : a + b < 2 ^ 64) : addU64 a b = a + b := by
  unfold addU64
  omega

/-- The chunk that `NextWritableChunk` returns under a per-file limit. -/
theorem NextWritableChunk_limited (options : FileSystemDatasetWriteOptions)
    (q : DatasetWriterDirectoryQueue) (batch : RecordBatch)
    (hF : 0 < options.max_rows_per_file) (hF64 : options.max_rows_per_file < 2 ^ 64)
    (hrw : q.rows_written ≤ options.max_rows_per_file) :
    (options.max_rows_per_file - q.rows_written < batch.length →
      q.NextWritableChunk options batch
        = (batch.take (options.max_rows_per_file - q.rows_written),
            some (batch.drop (options.max_rows_per_file - q.rows_written)),
            decide (q.rows_written = 0))) ∧
    (batch.length ≤ options.max_rows_per_file - q.rows_written →
      q.NextWritableChunk options batch = (batch, none, decide (q.rows_written = 0))) := by
  unfold NextWritableChunk
  simp only [hF, if_true, subU64_of_le hrw hF64]
  constructor
  · intro h; rw [if_pos h]
  · intro h; rw [if_neg (Nat.not_lt.mpr h)]

theorem NextWritableChunk_chunk_le (options : FileSystemDatasetWriteOptions)
    (q : DatasetWriterDirectoryQueue) (batch : RecordBatch)
    (hF : 0 < options.max_rows_per_file) (hF64 : options.max_rows_per_file < 2 ^ 64)
    (hrw : q.rows_written ≤ options.max_rows_per_file) :
    (q.NextWritableChunk options batch).1.length ≤ options.max_rows_per_file - q.rows_written := by
  obtain ⟨h1, h2⟩ := NextWritableChunk_limited options q batch hF hF64 hrw
  by_cases h : options.max_rows_per_file - q.rows_written < batch.length
  · rw [h1 h]
    simp only [List.length_take]
    omega
  · rw [h2 (by omega)]
    show batch.length ≤ _
    omega

/-- Effect of `StartWrite`. -/
theorem StartWrite_spec {options : FileSystemDatasetWriteOptions} {ws ws' : DatasetWriterState}
    {q q' : DatasetWriterDirectoryQueue} {batch : RecordBatch}
    (h : q.StartWrite options ws batch = some (q', ws')) :
    q'.rows_written = addU64 q.rows_written batch.length ∧
    q'.tasks = q.tasks ++ [WriteTask.mk q.current_filename batch.length] ∧
    (∃ file, q'.latest_open_file = some file ∧
      file.rows_held = (match q.latest_open_file with
        | some open_file => open_file.rows_held
        | none => 0) + batch.length ∧
      file.filename = (match q.latest_open_file with
        | some open_file => open_file.filename
        | none => q.current_filename)) ∧
    q'.closed_files = q.closed_files ∧ q'.file_counter = q.file_counter ∧
    q'.current_filename = q.current_filename ∧ q'.directory = q.directory ∧
    q'.prefix_ = q.prefix_ := by
  unfold StartWrite at h
  dsimp only at h
  split at h
  · simp at h
  · rename_i file ws₁ hpush
    simp only [Option.some.injEq, Prod.mk.injEq] at h
    obtain ⟨rfl, rfl⟩ := h
    obtain ⟨hheld, hname⟩ := DatasetWriterFileQueue.rows_held_Push hpush
    refine ⟨rfl, rfl, ⟨file, rfl, ?_, ?_⟩, rfl, rfl, rfl, rfl, rfl⟩
    · rw [hheld]
      cases q.latest_open_file <;> rfl
    · rw [hname]
      cases q.latest_open_file <;> rfl

/-- Effect of `FinishCurrentFile`. -/
theorem FinishCurrentFile_spec {options : FileSystemDatasetWriteOptions}
    {ws ws' : DatasetWriterState} {q q' : DatasetWriterDirectoryQueue} {st : Status}
    (h : q.FinishCurrentFile options ws = some (q', ws', st)) :
    q'.rows_written = 0 ∧ q'.latest_open_file = none ∧
    q'.file_counter = (q.file_counter + 1) % 2 ^ 32 ∧ q'.tasks = q.tasks ∧
    (match q.latest_open_file with
      | some open_file => ∃ file, q'.closed_files = q.closed_files ++ [file] ∧
          file.rows_held = open_file.rows_held ∧ file.filename = open_file.filename ∧
          file.staged_batches = []
      | none => q'.closed_files = q.closed_files) ∧
    (match formatFilename options q.directory q.prefix_ q.file_counter with
      | .ok name => st = .OK ∧ q'.current_filename = name
      | .error e => st = e ∧ q'.current_filename = q.current_filename) ∧
    q'.directory = q.directory ∧ q'.prefix_ = q.prefix_ := by
  unfold FinishCurrentFile at h
  cases hopen : q.latest_open_file with
  | none =>
    simp only [hopen, GetNextFilename] at h
    cases hname : formatFilename options q.directory q.prefix_ q.file_counter with
    | ok name =>
      simp only [hname, Option.some.injEq, Prod.mk.injEq] at h
      obtain ⟨rfl, rfl, rfl⟩ := h
      exact ⟨rfl, rfl, rfl, rfl, rfl, ⟨rfl, rfl⟩, rfl, rfl⟩
    | error e =>
      simp only [hname, Option.some.injEq, Prod.mk.injEq] at h
      obtain ⟨rfl, rfl, rfl⟩ := h
      exact ⟨rfl, rfl, rfl, rfl, rfl, ⟨rfl, rfl⟩, rfl, rfl⟩
  | some open_file =>
    simp only [hopen] at h
    cases hfin : open_file.Finish options ws with
    | none => simp [hfin] at h
    | some r =>
      obtain ⟨file, ws₁⟩ := r
      obtain ⟨hheld, hfn, hst⟩ := DatasetWriterFileQueue.rows_held_Finish hfin
      simp only [hfin, GetNextFilename] at h
      cases hname : formatFilename options q.directory q.prefix_ q.file_counter with
      | ok name =>
        simp only [hname, Option.some.injEq, Prod.mk.injEq] at h
        obtain ⟨rfl, rfl, rfl⟩ := h
        exact ⟨rfl, rfl, rfl, rfl, ⟨file, rfl, hheld, hfn, hst⟩, ⟨rfl, rfl⟩, rfl, rfl⟩
      | error e =>
        simp only [hname, Option.some.injEq, Prod.mk.injEq] at h
        obtain ⟨rfl, rfl, rfl⟩ := h
        exact ⟨rfl, rfl, rfl, rfl, ⟨file, rfl, hheld, hfn, hst⟩, ⟨rfl, rfl⟩, rfl, rfl⟩

theorem WithinLimit_StartWrite {options : FileSystemDatasetWriteOptions}
    {ws ws' : DatasetWriterState} {q q' : DatasetWriterDirectoryQueue} {batch : RecordBatch}
    (hF64 : options.max_rows_per_file < 2 ^ 64)
    (hq : q.WithinLimit options.max_rows_per_file)
    (hfit : batch.length ≤ options.max_rows_per_file - q.rows_written)
    (h : q.StartWrite options ws batch = some (q', ws')) :
    q'.WithinLimit options.max_rows_per_file ∧ q'.rows_written = q.rows_written + batch.length := by
  obtain ⟨h1, _, ⟨file, h3, h4, _⟩, h5, _⟩ := StartWrite_spec h
  have hrw := hq.written
  have hadd : q'.rows_written = q.rows_written + batch.length := by
    rw [h1, addU64_of_lt (by omega)]
  refine ⟨⟨by omega, ?_, by rw [h5]; exact hq.closed⟩, hadd⟩
  rw [h3]
  show file.rows_held = q'.rows_written
  rw [h4, hadd]
  have := hq.open_file
  cases hopen : q.latest_open_file with
  | none => simp only [hopen] at this ⊢; omega
  | some f => simp only [hopen] at this ⊢; omega

theorem WithinLimit_FinishCurrentFile {options : FileSystemDatasetWriteOptions}
    {ws ws' : DatasetWriterState} {q q' : DatasetWriterDirectoryQueue} {st : Status}
    (hq : q.WithinLimit options.max_rows_per_file)
    (h : q.FinishCurrentFile options ws = some (q', ws', st)) :
    q'.WithinLimit options.max_rows_per_file := by
  obtain ⟨h1, h2, _, _, h5, _⟩ := FinishCurrentFile_spec h
  refine ⟨by omega, by rw [h2]; exact h1, ?_⟩
  have hopenf := hq.open_file
  cases hopen : q.latest_open_file with
  | none =>
    simp only [hopen] at h5
    rw [h5]; exact hq.closed
  | some f =>
    simp only [hopen] at h5 hopenf
    obtain ⟨file, hc, hheld, _⟩ := h5
    intro x hx
    rw [hc] at hx
    rcases List.mem_append.mp hx with hx | hx
    · exact hq.closed x hx
    · simp only [List.mem_singleton] at hx
      subst hx
      rw [hheld, hopenf]
      exact hq.written

theorem WithinLimit_Finish {options : FileSystemDatasetWriteOptions}
    {ws ws' : DatasetWriterState} {q q' : DatasetWriterDirectoryQueue}
    (hq : q.WithinLimit options.max_rows_per_file)
    (h : q.Finish options ws = some (q', ws')) :
    q'.WithinLimit options.max_rows_per_file := by
  unfold Finish at h
  have hopenf := hq.open_file
  cases hopen : q.latest_open_file with
  | none =>
    simp only [hopen, Option.some.injEq, Prod.mk.injEq] at h
    obtain ⟨rfl, rfl⟩ := h
    exact hq
  | some f =>
    simp only [hopen] at h hopenf
    cases hfin : f.Finish options ws with
    | none => simp [hfin] at h
    | some r =>
      obtain ⟨file, ws₁⟩ := r
      obtain ⟨hheld, _, _⟩ := DatasetWriterFileQueue.rows_held_Finish hfin
      simp only [hfin, Option.some.injEq, Prod.mk.injEq] at h
      obtain ⟨rfl, rfl⟩ := h
      exact ⟨hq.written, by show file.rows_held = q.rows_written; rw [hheld, hopenf], hq.closed⟩

theorem WithinLimit_Make {options : FileSystemDatasetWriteOptions} {directory prefix_ : String}
    {q : DatasetWriterDirectoryQueue} (h : Make options directory prefix_ = .ok q) :
    q.WithinLimit options.max_rows_per_file := by
  unfold Make at h
  simp only [GetNextFilename] at h
  split at h
  · rename_i q₁ name hm
    simp only [Prod.mk.injEq] at hm
    obtain ⟨rfl, _⟩ := hm
    simp only [Except.ok.injEq] at h
    subst h
    exact ⟨Nat.zero_le _, rfl, by simp⟩
  · simp at h

theorem StartWrite_total (options : FileSystemDatasetWriteOptions) (ws : DatasetWriterState)
    (q : DatasetWriterDirectoryQueue) (batch : RecordBatch)
    (hG : 1 ≤ options.max_rows_per_group) : ∃ r, q.StartWrite options ws batch = some r := by
  unfold StartWrite
  dsimp only
  obtain ⟨r, hr⟩ := DatasetWriterFileQueue.Push_total options ws
    (match q.latest_open_file with
      | some file => file
      | none => OpenFileQueue q.current_filename) batch hG
  rw [hr]
  exact ⟨_, rfl⟩

theorem FinishCurrentFile_total (options : FileSystemDatasetWriteOptions)
    (ws : DatasetWriterState) (q : DatasetWriterDirectoryQueue)
    (hG : 1 ≤ options.max_rows_per_group) : ∃ r, q.FinishCurrentFile options ws = some r := by
  unfold FinishCurrentFile
  cases hopen : q.latest_open_file with
  | none =>
    dsimp only
    split <;> exact ⟨_, rfl⟩
  | some file =>
    obtain ⟨r, hr⟩ := DatasetWriterFileQueue.Finish_total options ws file hG
    simp only [hr]
    split <;> exact ⟨_, rfl⟩

theorem StartWrite_state {options : FileSystemDatasetWriteOptions} {ws ws' : DatasetWriterState}
    {q q' : DatasetWriterDirectoryQueue} {batch : RecordBatch}
    (h : q.StartWrite options ws batch = some (q', ws')) :
    ws'.rows_in_flight_throttle = ws.rows_in_flight_throttle ∧
    ws'.open_files_throttle = ws.open_files_throttle := by
  unfold StartWrite at h
  dsimp only at h
  split at h
  · simp at h
  · rename_i file ws₁ hpush
    simp only [Option.some.injEq, Prod.mk.injEq] at h
    obtain ⟨_, rfl⟩ := h
    obtain ⟨gs, _, _, _, _, _, _, h7, h8, _⟩ := DatasetWriterFileQueue.Push_spec hpush
    exact ⟨h7, h8⟩

theorem FinishCurrentFile_state {options : FileSystemDatasetWriteOptions}
    {ws ws' : DatasetWriterState} {q q' : DatasetWriterDirectoryQueue} {st : Status}
    (h : q.FinishCurrentFile options ws = some (q', ws', st)) :
    ws'.rows_in_flight_throttle = ws.rows_in_flight_throttle ∧
    ws'.open_files_throttle = ws.open_files_throttle := by
  unfold FinishCurrentFile at h
  cases hopen : q.latest_open_file with
  | none =>
    simp only [hopen] at h
    split at h
    · simp only [Option.some.injEq, Prod.mk.injEq] at h
      obtain ⟨_, rfl, _⟩ := h
      exact ⟨rfl, rfl⟩
    · simp only [Option.some.injEq, Prod.mk.injEq] at h
      obtain ⟨_, rfl, _⟩ := h
      exact ⟨rfl, rfl⟩
  | some file =>
    simp only [hopen] at h
    cases hfin : file.Finish options ws with
    | none => simp [hfin] at h
    | some r =>
      obtain ⟨file₁, ws₁⟩ := r
      obtain ⟨gs, _, _, _, _, _, _, _, h8, h9, _⟩ := DatasetWriterFileQueue.Finish_spec hfin
      simp only [hfin] at h
      split at h
      · simp only [Option.some.injEq, Prod.mk.injEq] at h
        obtain ⟨_, rfl, _⟩ := h
        exact ⟨h8, h9⟩
      · simp only [Option.some.injEq, Prod.mk.injEq] at h
        obtain ⟨_, rfl, _⟩ := h
        exact ⟨h8, h9⟩

end DatasetWriterDirectoryQueue

namespace DatasetWriterImpl

theorem mem_of_lookup {key : String} {q : DatasetWriterDirectoryQueue} :
    ∀ {l : List (String × DatasetWriterDirectoryQueue)}, l.lookup key = some q → (key, q) ∈ l := by
  intro l
  induction l with
  | nil => intro h; simp [List.lookup] at h
  | cons kq rest ih =>
    intro h
    obtain ⟨k, q₀⟩ := kq
    simp only [List.lookup] at h
    split at h
    · rename_i heq
      simp only [Option.some.injEq] at h
      subst h
      have : key = k := by simpa using heq
      subst this
      simp
    · exact List.mem_cons_of_mem _ (ih h)

theorem WithinLimit_setQueue {options : FileSystemDatasetWriteOptions} {w : DatasetWriterImpl}
    {ws : DatasetWriterState} {key : String} {q : DatasetWriterDirectoryQueue}
    (hw : w.WithinLimit options) (hq : q.WithinLimit options.max_rows_per_file) :
    (setQueue { w with writer_state := ws } key q).WithinLimit options := by
  refine ⟨hw.1, ?_⟩
  intro kq hkq
  simp only [setQueue, List.mem_map] at hkq
  obtain ⟨kq₀, hmem, rfl⟩ := hkq
  split
  · exact hq
  · exact hw.2 kq₀ hmem

theorem WithinLimit_state {options : FileSystemDatasetWriteOptions} {w : DatasetWriterImpl}
    (ws : DatasetWriterState) (hw : w.WithinLimit options) :
    DatasetWriterImpl.WithinLimit options { w with writer_state := ws } :=
  ⟨hw.1, hw.2⟩

theorem WithinLimit_CloseLargestFile {options : FileSystemDatasetWriteOptions}
    {w w' : DatasetWriterImpl} {st : Status} (hw : w.WithinLimit options)
    (h : w.CloseLargestFile = some (some (w', st))) : w'.WithinLimit options := by
  unfold CloseLargestFile at h
  split at h
  · simp at h
  · rename_i key _
    split at h
    · simp at h
    · rename_i q hlook
      have hq := hw.2 _ (mem_of_lookup hlook)
      split at h
      · simp at h
      · rename_i q₁ ws₁ st₁ hfin
        simp only [Option.some.injEq, Prod.mk.injEq] at h
        obtain ⟨rfl, rfl⟩ := h
        rw [hw.1] at hfin
        exact WithinLimit_setQueue hw
          (DatasetWriterDirectoryQueue.WithinLimit_FinishCurrentFile hq hfin)

theorem WithinLimit_WriteLoop {options : FileSystemDatasetWriteOptions}
    (hF : 0 < options.max_rows_per_file) (hF64 : options.max_rows_per_file < 2 ^ 64)
    (key : String) :
    ∀ (fuel : Nat) (w : DatasetWriterImpl) (batch : RecordBatch)
      (r : DatasetWriterImpl × WriteOutcome),
      w.WithinLimit options → WriteLoop key fuel w batch = some r → r.1.WithinLimit options := by
  intro fuel
  induction fuel with
  | zero => intro w batch r _ h; simp [WriteLoop] at h
  | succ fuel ih =>
    intro w batch r hw h
    rw [WriteLoop] at h
    split at h
    · simp only [Option.some.injEq] at h
      exact h ▸ hw
    · rename_i dir_queue hlook
      have hq := hw.2 _ (mem_of_lookup hlook)
      have hopt := hw.1
      have hchunk := DatasetWriterDirectoryQueue.NextWritableChunk_chunk_le options
        dir_queue batch hF hF64 hq.written
      rw [← hopt] at hchunk
      dsimp only at h
      generalize w.writer_state.rows_in_flight_throttle.Acquire
        (dir_queue.NextWritableChunk w.write_options batch).1.length = rows at h
      generalize (if (dir_queue.NextWritableChunk w.write_options batch).2.2 = true then
          w.writer_state.open_files_throttle.Acquire 1
        else (w.writer_state.open_files_throttle, true)) = files at h
      by_cases hrows : (!rows.2) = true
      · rw [if_pos hrows] at h
        simp only [Option.some.injEq] at h
        subst h
        exact WithinLimit_state _ hw
      · rw [if_neg hrows] at h
        by_cases hfiles : (!files.2) = true
        · rw [if_pos hfiles] at h
          split at h
          · simp at h
          · simp only [Option.some.injEq] at h
            subst h
            exact WithinLimit_state _ (WithinLimit_state _ hw)
          · rename_i w₁ st hclose
            have hw₁ := WithinLimit_CloseLargestFile
              (WithinLimit_state _ (WithinLimit_state _ hw)) hclose
            split at h
            · simp only [Option.some.injEq] at h
              exact h ▸ hw₁
            · simp only [Option.some.injEq] at h
              exact h ▸ hw₁
        · rw [if_neg hfiles] at h
          split at h
          · simp at h
          · rename_i dq₁ ws₁ hstart
            rw [hopt] at hstart hchunk
            obtain ⟨hq₁, _⟩ :=
              DatasetWriterDirectoryQueue.WithinLimit_StartWrite hF64 hq hchunk hstart
            have hw₁ : (setQueue { w with writer_state := ws₁ } key dq₁).WithinLimit options :=
              WithinLimit_setQueue hw hq₁
            split at h
            · simp only [Option.some.injEq] at h
              exact h ▸ hw₁
            · split at h
              · simp at h
              · rename_i dq₂ ws₂ st hfin
                have hq₂ : dq₂.WithinLimit options.max_rows_per_file := by
                  simp only [setQueue] at hfin
                  rw [hopt] at hfin
                  exact DatasetWriterDirectoryQueue.WithinLimit_FinishCurrentFile hq₁ hfin
                have hw₂ : (setQueue { setQueue { w with writer_state := ws₁ } key dq₁ with
                    writer_state := ws₂ } key dq₂).WithinLimit options :=
                  WithinLimit_setQueue hw₁ hq₂
                split at h
                · exact ih _ _ _ hw₂ h
                · simp only [Option.some.injEq] at h
                  exact h ▸ hw₂

theorem WithinLimit_DoWriteRecordBatch {options : FileSystemDatasetWriteOptions}
    (hF : 0 < options.max_rows_per_file) (hF64 : options.max_rows_per_file < 2 ^ 64)
    {w : DatasetWriterImpl} {batch : RecordBatch} {directory prefix_ : String}
    {r : DatasetWriterImpl × WriteOutcome} (hw : w.WithinLimit options)
    (h : w.DoWriteRecordBatch batch directory prefix_ = some r) : r.1.WithinLimit options := by
  unfold DoWriteRecordBatch at h
  dsimp only at h
  split at h
  · simp only [Option.some.injEq] at h
    exact h ▸ hw
  · rename_i w₁ hcreated
    refine WithinLimit_WriteLoop hF hF64 _ _ _ _ _ ?_ h
    split at hcreated
    · simp only [Except.ok.injEq] at hcreated
      exact hcreated ▸ hw
    · split at hcreated
      · rename_i q hmake
        simp only [Except.ok.injEq] at hcreated
        subst hcreated
        refine ⟨hw.1, ?_⟩
        intro kq hkq
        rcases List.mem_append.mp hkq with hkq | hkq
        · exact hw.2 kq hkq
        · simp only [List.mem_singleton] at hkq
          subst hkq
          rw [hw.1] at hmake
          exact DatasetWriterDirectoryQueue.WithinLimit_Make hmake
      · simp at hcreated

theorem WithinLimit_FinishQueues {options : FileSystemDatasetWriteOptions} :
    ∀ (qs qs' : List (String × DatasetWriterDirectoryQueue)) (ws ws' : DatasetWriterState),
      (∀ kq ∈ qs, kq.2.WithinLimit options.max_rows_per_file) →
      FinishQueues options qs ws = some (qs', ws') →
      ∀ kq ∈ qs', kq.2.WithinLimit options.max_rows_per_file := by
  intro qs
  induction qs with
  | nil =>
    intro qs' ws ws' _ h
    simp only [FinishQueues, Option.some.injEq, Prod.mk.injEq] at h
    obtain ⟨rfl, _⟩ := h
    simp
  | cons kq rest ih =>
    intro qs' ws ws' hqs h
    simp only [FinishQueues] at h
    split at h
    · simp at h
    · rename_i q₁ ws₁ hfin
      split at h
      · simp at h
      · rename_i rest₁ ws₂ hrest
        simp only [Option.some.injEq, Prod.mk.injEq] at h
        obtain ⟨rfl, _⟩ := h
        intro x hx
        rcases List.mem_cons.mp hx with rfl | hx
        · exact DatasetWriterDirectoryQueue.WithinLimit_Finish (hqs kq (by simp)) hfin
        · exact ih _ _ _ (fun y hy => hqs y (List.mem_cons_of_mem _ hy)) hrest x hx

theorem WithinLimit_step {options : FileSystemDatasetWriteOptions}
    (hF : 0 < options.max_rows_per_file) (hF64 : options.max_rows_per_file < 2 ^ 64)
    {w w' : DatasetWriterImpl} {e : WriterEvent} (hw : w.WithinLimit options)
    (h : w.step e = some w') : w'.WithinLimit options := by
  cases e with
  | WriteRecordBatch batch directory prefix_ =>
    simp only [step] at h
    split at h
    · simp at h
    · rename_i w₁ out _ hwrite
      simp only [Option.some.injEq] at h
      subst h
      unfold WriteRecordBatch at hwrite
      split at hwrite
      · simp only [Option.some.injEq, Prod.mk.injEq] at hwrite
        exact hwrite.1 ▸ hw
      · split at hwrite
        · exact WithinLimit_DoWriteRecordBatch hF hF64 hw hwrite
        · exact WithinLimit_DoWriteRecordBatch hF hF64 hw hwrite
    · simp at h
  | DoWriteRecordBatch batch directory prefix_ =>
    simp only [step] at h
    split at h
    · simp at h
    · split at h
      · simp at h
      · rename_i w₁ out _ hwrite
        simp only [Option.some.injEq] at h
        subst h
        exact WithinLimit_DoWriteRecordBatch hF hF64 hw hwrite
      · simp at h
  | ReleaseRows rows =>
    simp only [step, Option.some.injEq] at h
    exact h ▸ WithinLimit_state _ hw
  | ReleaseFile =>
    simp only [step, Option.some.injEq] at h
    exact h ▸ WithinLimit_state _ hw
  | Finish =>
    simp only [step, Finish] at h
    split at h
    · simp at h
    · rename_i qs ws hfin
      simp only [Option.some.injEq] at h
      subst h
      rw [hw.1] at hfin
      exact ⟨hw.1, WithinLimit_FinishQueues _ _ _ _ hw.2 hfin⟩

theorem WithinLimit_run {options : FileSystemDatasetWriteOptions}
    (hF : 0 < options.max_rows_per_file) (hF64 : options.max_rows_per_file < 2 ^ 64) :
    ∀ (events : List WriterEvent) (w w' : DatasetWriterImpl), w.WithinLimit options →
      w.run events = some w' → w'.WithinLimit options := by
  intro events
  induction events with
  | nil =>
    intro w w' hw h
    simp only [run, Option.some.injEq] at h
    exact h ▸ hw
  | cons e es ih =>
    intro w w' hw h
    simp only [run] at h
    cases hs : w.step e with
    | none => simp [hs] at h
    | some w₁ =>
      simp only [hs] at h
      exact ih w₁ w' (WithinLimit_step hF hF64 hw hs) h

theorem Acquire_unthrottled {t : Throttle} (h : t.Unthrottled = true) (values : Nat) :
    t.Acquire values = (t, true) := by
  simp [Throttle.Acquire, h]

theorem lookup_setQueue {key : String} {q q' : DatasetWriterDirectoryQueue} :
    ∀ {l : List (String × DatasetWriterDirectoryQueue)}, l.lookup key = some q →
      (l.map fun kq => if kq.1 = key then (kq.1, q') else kq).lookup key = some q' := by
  intro l
  induction l with
  | nil => intro h; simp [List.lookup] at h
  | cons kq rest ih =>
    intro h
    obtain ⟨k, q₀⟩ := kq
    by_cases hk : k = key
    · subst hk
      rw [List.map_cons, if_pos rfl]
      simp [List.lookup]
    · have hne : (key == k) = false := by
        simp only [beq_eq_false_iff_ne, ne_eq]
        exact fun hc => hk hc.symm
      rw [List.map_cons, if_neg hk]
      simp only [List.lookup, hne] at h ⊢
      exact ih h

theorem map_set_twice (l : List (String × DatasetWriterDirectoryQueue)) (key : String)
    (a b : DatasetWriterDirectoryQueue) :
    (l.map fun kq => if kq.1 = key then (kq.1, a) else kq).map
        (fun kq => if kq.1 = key then (kq.1, b) else kq)
      = l.map fun kq => if kq.1 = key then (kq.1, b) else kq := by
  rw [List.map_map]
  apply List.map_congr_left
  intro kq _
  simp only [Function.comp]
  by_cases hk : kq.1 = key <;> simp [hk]

theorem lookup_append_fresh {key : String} {q : DatasetWriterDirectoryQueue} :
    ∀ {l : List (String × DatasetWriterDirectoryQueue)}, l.lookup key = none →
      (l ++ [(key, q)]).lookup key = some q := by
  intro l
  induction l with
  | nil => intro _; simp [List.lookup]
  | cons kq rest ih =>
    intro h
    obtain ⟨k, q₀⟩ := kq
    simp only [List.lookup] at h
    cases hk : key == k with
    | true => simp [hk] at h
    | false =>
      rw [hk] at h
      simp only [List.cons_append, List.lookup, hk]
      exact ih h

/-- One iteration of the loop of `DoWriteRecordBatch` for a batch that does not fit
into the current file, both throttles granting the request: the file receives the
rows that still fit, is finished, the next file name is generated, and the loop goes
on with the remaining rows. -/
theorem WriteLoop_rotate {options : FileSystemDatasetWriteOptions}
    (hG : 1 ≤ options.max_rows_per_group) (hF : 0 < options.max_rows_per_file)
    (hF64 : options.max_rows_per_file < 2 ^ 64) (key : String) (fuel : Nat)
    {w : DatasetWriterImpl} {batch : RecordBatch} {dq : DatasetWriterDirectoryQueue}
    {name : String} (hopt : w.write_options = options)
    (hlook : w.directory_queues.lookup key = some dq)
    (hdq : dq.WithinLimit options.max_rows_per_file)
    (hbig : options.max_rows_per_file - dq.rows_written < batch.length)
    (hname : DatasetWriterDirectoryQueue.formatFilename options dq.directory dq.prefix_
      dq.file_counter = .ok name)
    (hrows : (w.writer_state.rows_in_flight_throttle.Acquire
      (options.max_rows_per_file - dq.rows_written)).2 = true)
    (hfiles : dq.rows_written = 0 → (w.writer_state.open_files_throttle.Acquire 1).2 = true) :
    ∃ (w₁ : DatasetWriterImpl) (dq₁ : DatasetWriterDirectoryQueue)
      (file : DatasetWriterFileQueue),
      WriteLoop key (fuel + 1) w batch
        = WriteLoop key fuel w₁ (batch.drop (options.max_rows_per_file - dq.rows_written)) ∧
      w₁.write_options = options ∧
      w₁.writer_state.rows_in_flight_throttle
        = (w.writer_state.rows_in_flight_throttle.Acquire
            (options.max_rows_per_file - dq.rows_written)).1 ∧
      w₁.writer_state.open_files_throttle
        = (if dq.rows_written = 0 then (w.writer_state.open_files_throttle.Acquire 1).1
            else w.writer_state.open_files_throttle) ∧
      w₁.directory_queues.lookup key = some dq₁ ∧
      dq₁.WithinLimit options.max_rows_per_file ∧
      dq₁.rows_written = 0 ∧ dq₁.latest_open_file = none ∧
      dq₁.file_counter = (dq.file_counter + 1) % 2 ^ 32 ∧ dq₁.current_filename = name ∧
      dq₁.directory = dq.directory ∧ dq₁.prefix_ = dq.prefix_ ∧
      dq₁.tasks = dq.tasks ++
        [WriteTask.mk dq.current_filename (options.max_rows_per_file - dq.rows_written)] ∧
      dq₁.closed_files = dq.closed_files ++ [file] ∧
      file.rows_held = options.max_rows_per_file ∧
      file.filename = (match dq.latest_open_file with
        | some open_file => open_file.filename
        | none => dq.current_filename) := by
  have hchunk := (DatasetWriterDirectoryQueue.NextWritableChunk_limited options dq batch hF hF64
    hdq.written).1 hbig
  have htake : (batch.take (options.max_rows_per_file - dq.rows_written)).length
      = options.max_rows_per_file - dq.rows_written := by
    rw [List.length_take]; omega
  have hfiles' : (if decide (dq.rows_written = 0) = true then
        w.writer_state.open_files_throttle.Acquire 1
      else (w.writer_state.open_files_throttle, true)).2 = true := by
    split
    · rename_i h0
      exact hfiles (of_decide_eq_true h0)
    · rfl
  have hfiles₁ : (if decide (dq.rows_written = 0) = true then
        w.writer_state.open_files_throttle.Acquire 1
      else (w.writer_state.open_files_throttle, true)).1
      = (if dq.rows_written = 0 then (w.writer_state.open_files_throttle.Acquire 1).1
          else w.writer_state.open_files_throttle) := by
    by_cases h0 : dq.rows_written = 0 <;> simp [h0]
  generalize hrg : w.writer_state.rows_in_flight_throttle.Acquire
    (options.max_rows_per_file - dq.rows_written) = rows at hrows
  generalize hfg : (if decide (dq.rows_written = 0) = true then
        w.writer_state.open_files_throttle.Acquire 1
      else (w.writer_state.open_files_throttle, true)) = files at hfiles' hfiles₁
  obtain ⟨⟨dq₀, ws₀⟩, hstart⟩ := DatasetWriterDirectoryQueue.StartWrite_total options
    { w.writer_state with rows_in_flight_throttle := rows.1, open_files_throttle := files.1 }
    dq (batch.take (options.max_rows_per_file - dq.rows_written)) hG
  obtain ⟨⟨dq₁, ws₁, st⟩, hfin⟩ :=
    DatasetWriterDirectoryQueue.FinishCurrentFile_total options ws₀ dq₀ hG
  obtain ⟨hlim₀, hrw₀⟩ := DatasetWriterDirectoryQueue.WithinLimit_StartWrite hF64 hdq
    (by rw [htake]) hstart
  have hlim₁ := DatasetWriterDirectoryQueue.WithinLimit_FinishCurrentFile hlim₀ hfin
  obtain ⟨s1, s2, ⟨file₀, s3, s4, s5⟩, s6, s7, s8, s9, s10⟩ :=
    DatasetWriterDirectoryQueue.StartWrite_spec hstart
  obtain ⟨f1, f2, f3, f4, f5, f6, f7, f8⟩ :=
    DatasetWriterDirectoryQueue.FinishCurrentFile_spec hfin
  obtain ⟨t1, t2⟩ := DatasetWriterDirectoryQueue.StartWrite_state hstart
  obtain ⟨u1, u2⟩ := DatasetWriterDirectoryQueue.FinishCurrentFile_state hfin
  rw [s9, s10, s7, hname] at f6
  obtain ⟨rfl, f6⟩ := f6
  rw [s3] at f5
  obtain ⟨file, c1, c2, c3, _⟩ := f5
  have hheld : file.rows_held = options.max_rows_per_file := by
    rw [c2, s4, htake]
    have hopen := hdq.open_file
    have := hdq.written
    cases ho : dq.latest_open_file with
    | none => simp only [ho] at hopen ⊢; omega
    | some f => simp only [ho] at hopen ⊢; omega
  refine ⟨setQueue { w with writer_state := ws₁ } key dq₁, dq₁, file, ?_, hopt,
    by show ws₁.rows_in_flight_throttle = _; rw [u1, t1],
    by show ws₁.open_files_throttle = _; rw [u2, t2]; exact hfiles₁,
    lookup_setQueue hlook, hlim₁,
    f1, f2, by rw [f3, s7], f6, by rw [f7, s9], by rw [f8, s10], by rw [f4, s2, htake],
    by rw [c1, s6], hheld, by rw [c3, s5]⟩
  rw [WriteLoop, hlook]
  dsimp only
  rw [hopt, hchunk]
  dsimp only
  rw [htake, hrg, hfg, hrows, hfiles']
  simp only [Bool.not_true, Bool.false_eq_true, if_false]
  rw [hstart]
  simp only [setQueue]
  rw [hfin]
  simp only [Status.ok, if_true, map_set_twice]

/-- The last iteration of the loop of `DoWriteRecordBatch`, for a batch that fits
into the current file, both throttles granting the request. -/
theorem WriteLoop_last {options : FileSystemDatasetWriteOptions}
    (hG : 1 ≤ options.max_rows_per_group) (hF : 0 < options.max_rows_per_file)
    (hF64 : options.max_rows_per_file < 2 ^ 64) (key : String) (fuel : Nat)
    {w : DatasetWriterImpl} {batch : RecordBatch} {dq : DatasetWriterDirectoryQueue}
    (hopt : w.write_options = options)
    (hlook : w.directory_queues.lookup key = some dq)
    (hdq : dq.WithinLimit options.max_rows_per_file)
    (hfit : batch.length ≤ options.max_rows_per_file - dq.rows_written)
    (hrows : (w.writer_state.rows_in_flight_throttle.Acquire batch.length).2 = true)
    (hfiles : dq.rows_written = 0 → (w.writer_state.open_files_throttle.Acquire 1).2 = true) :
    ∃ (w₁ : DatasetWriterImpl) (dq₁ : DatasetWriterDirectoryQueue)
      (file : DatasetWriterFileQueue),
      WriteLoop key (fuel + 1) w batch = some (w₁, .finished .OK) ∧
      w₁.directory_queues.lookup key = some dq₁ ∧
      dq₁.WithinLimit options.max_rows_per_file ∧
      dq₁.rows_written = dq.rows_written + batch.length ∧
      dq₁.latest_open_file = some file ∧
      file.rows_held = dq.rows_written + batch.length ∧
      file.filename = (match dq.latest_open_file with
        | some open_file => open_file.filename
        | none => dq.current_filename) ∧
      dq₁.file_counter = dq.file_counter ∧
      dq₁.tasks = dq.tasks ++ [WriteTask.mk dq.current_filename batch.length] ∧
      dq₁.closed_files = dq.closed_files := by
  have hchunk := (DatasetWriterDirectoryQueue.NextWritableChunk_limited options dq batch hF hF64
    hdq.written).2 hfit
  have hfiles' : (if decide (dq.rows_written = 0) = true then
        w.writer_state.open_files_throttle.Acquire 1
      else (w.writer_state.open_files_throttle, true)).2 = true := by
    split
    · rename_i h0
      exact hfiles (of_decide_eq_true h0)
    · rfl
  generalize hrg : w.writer_state.rows_in_flight_throttle.Acquire batch.length = rows at hrows
  generalize hfg : (if decide (dq.rows_written = 0) = true then
        w.writer_state.open_files_throttle.Acquire 1
      else (w.writer_state.open_files_throttle, true)) = files at hfiles'
  obtain ⟨⟨dq₁, ws₁⟩, hstart⟩ := DatasetWriterDirectoryQueue.StartWrite_total options
    { w.writer_state with rows_in_flight_throttle := rows.1, open_files_throttle := files.1 }
    dq batch hG
  obtain ⟨_, s2, ⟨file, s3, s4, s5⟩, s6, s7, _⟩ :=
    DatasetWriterDirectoryQueue.StartWrite_spec hstart
  obtain ⟨hlim, hrw⟩ := DatasetWriterDirectoryQueue.WithinLimit_StartWrite hF64 hdq hfit hstart
  have hheld : file.rows_held = dq.rows_written + batch.length := by
    rw [s4]
    have hopen := hdq.open_file
    cases ho : dq.latest_open_file with
    | none => simp only [ho] at hopen ⊢; omega
    | some f => simp only [ho] at hopen ⊢; omega
  refine ⟨setQueue { w with writer_state := ws₁ } key dq₁, dq₁, file, ?_,
    lookup_setQueue hlook, hlim, hrw, s3, hheld, s5, s7, s2, s6⟩
  rw [WriteLoop, hlook]
  dsimp only
  rw [hopt, hchunk]
  dsimp only
  rw [hrg, hfg, hrows, hfiles']
  simp only [Bool.not_true, Bool.false_eq_true, if_false]
  rw [hstart]

theorem Unthrottled_granted {w : DatasetWriterImpl} (h : w.Unthrottled) (rows : Nat) :
    (w.writer_state.rows_in_flight_throttle.Acquire rows).2 = true ∧
    (w.writer_state.open_files_throttle.Acquire 1).2 = true ∧
    (w.writer_state.rows_in_flight_throttle.Acquire rows).1
      = w.writer_state.rows_in_flight_throttle ∧
    (w.writer_state.open_files_throttle.Acquire 1).1 = w.writer_state.open_files_throttle := by
  rw [Acquire_unthrottled h.1, Acquire_unthrottled h.2]
  exact ⟨rfl, rfl, rfl, rfl⟩

theorem WithinLimit_make (options : FileSystemDatasetWriteOptions) (max_rows_queued : Nat) :
    (make options max_rows_queued).WithinLimit options :=
  ⟨rfl, by simp [make]⟩

/-- C9. For a writer with per-file row limit `0 < max_rows_per_file` (a `uint64_t`)
and `max_rows_per_group ≥ 1`: (1) after every sequence of events on a new writer,
every directory queue has `rows_written ≤ max_rows_per_file`, its open file holds
`rows_written` rows and no closed file holds more than `max_rows_per_file` rows;
(2) on a queue within the limit, `StartWrite` of the chunk that `NextWritableChunk`
returns and `FinishCurrentFile` return and keep the queue within the limit; (3) when
the batch does not fit and the throttles grant the requests, one iteration of the
loop of `DoWriteRecordBatch` hands the `max_rows_per_file - rows_written` rows that
still fit to the current file, which then holds `max_rows_per_file` rows and is
closed, resets `rows_written`, generates the next file name, and goes on with the
remaining rows. -/
theorem file_rows_within_limit (options : FileSystemDatasetWriteOptions)
    (hG : 1 ≤ options.max_rows_per_group) (hF : 0 < options.max_rows_per_file)
    (hF64 : options.max_rows_per_file < 2 ^ 64) :
    (∀ (max_rows_queued : Nat) (events : List WriterEvent) (w : DatasetWriterImpl),
      (make options max_rows_queued).run events = some w →
      ∀ kq ∈ w.directory_queues, kq.2.WithinLimit options.max_rows_per_file) ∧
    (∀ (dq : DatasetWriterDirectoryQueue) (ws : DatasetWriterState) (batch : RecordBatch),
      dq.WithinLimit options.max_rows_per_file →
      ∃ dq₁ ws₁ dq₂ ws₂ st,
        dq.StartWrite options ws (dq.NextWritableChunk options batch).1 = some (dq₁, ws₁) ∧
        dq₁.WithinLimit options.max_rows_per_file ∧
        dq₁.rows_written = dq.rows_written + (dq.NextWritableChunk options batch).1.length ∧
        dq₁.FinishCurrentFile options ws₁ = some (dq₂, ws₂, st) ∧
        dq₂.WithinLimit options.max_rows_per_file ∧ dq₂.rows_written = 0) ∧
    (∀ (key : String) (fuel : Nat) (w : DatasetWriterImpl) (batch : RecordBatch)
      (dq : DatasetWriterDirectoryQueue) (name : String),
      w.write_options = options → w.directory_queues.lookup key = some dq →
      dq.WithinLimit options.max_rows_per_file →
      options.max_rows_per_file - dq.rows_written < batch.length →
      DatasetWriterDirectoryQueue.formatFilename options dq.directory dq.prefix_
        dq.file_counter = .ok name →
      (w.writer_state.rows_in_flight_throttle.Acquire
        (options.max_rows_per_file - dq.rows_written)).2 = true →
      (dq.rows_written = 0 → (w.writer_state.open_files_throttle.Acquire 1).2 = true) →
      ∃ (w₁ : DatasetWriterImpl) (dq₁ : DatasetWriterDirectoryQueue)
        (file : DatasetWriterFileQueue),
        WriteLoop key (fuel + 1) w batch
          = WriteLoop key fuel w₁
              (batch.drop (options.max_rows_per_file - dq.rows_written)) ∧
        w₁.directory_queues.lookup key = some dq₁ ∧
        dq₁.rows_written = 0 ∧ dq₁.latest_open_file = none ∧
        dq₁.current_filename = name ∧
        dq₁.tasks = dq.tasks ++
          [WriteTask.mk dq.current_filename (options.max_rows_per_file - dq.rows_written)] ∧
        dq₁.closed_files = dq.closed_files ++ [file] ∧
        file.rows_held = options.max_rows_per_file) := by
  refine ⟨?_, ?_, ?_⟩
  · intro max_rows_queued events w hrun
    exact (WithinLimit_run hF hF64 events _ w (WithinLimit_make options max_rows_queued) hrun).2
  · intro dq ws batch hdq
    obtain ⟨⟨dq₁, ws₁⟩, hstart⟩ := DatasetWriterDirectoryQueue.StartWrite_total options ws dq
      (dq.NextWritableChunk options batch).1 hG
    obtain ⟨⟨dq₂, ws₂, st⟩, hfin⟩ :=
      DatasetWriterDirectoryQueue.FinishCurrentFile_total options ws₁ dq₁ hG
    obtain ⟨hlim₁, hrw₁⟩ := DatasetWriterDirectoryQueue.WithinLimit_StartWrite hF64 hdq
      (DatasetWriterDirectoryQueue.NextWritableChunk_chunk_le options dq batch hF hF64
        hdq.written) hstart
    exact ⟨dq₁, ws₁, dq₂, ws₂, st, hstart, hlim₁, hrw₁, hfin,
      DatasetWriterDirectoryQueue.WithinLimit_FinishCurrentFile hlim₁ hfin,
      (DatasetWriterDirectoryQueue.FinishCurrentFile_spec hfin).1⟩
  · intro key fuel w batch dq name hopt hlook hdq hbig hname hrows hfiles
    obtain ⟨w₁, dq₁, file, h1, _, _, _, h5, _, h7, h8, _, h10, _, _, h13, h14, h15, _⟩ :=
      WriteLoop_rotate hG hF hF64 key fuel hopt hlook hdq hbig hname hrows hfiles
    exact ⟨w₁, dq₁, file, h1, h5, h7, h8, h10, h13, h14, h15⟩

/-- C10. With `max_rows_per_file = 100`, throttles that deny no request, and file
names `n0`, `n1`, `n2` generated from the counters 0, 1 and 2: `DoWriteRecordBatch`
of a batch of 250 rows for a destination without a directory queue returns a
finished future and leaves a queue whose write tasks are 100 rows for `n0`, 100 rows
for `n1` and 50 rows for `n2`, in this order; the files `n0` and `n1` are closed
holding 100 rows each, the open file `n2` holds 50 rows, and the counter is at 3. -/
theorem write_250_rows_into_three_files (options : FileSystemDatasetWriteOptions)
    (hG : 1 ≤ options.max_rows_per_group) (hF : options.max_rows_per_file = 100)
    (w : DatasetWriterImpl) (hopt : w.write_options = options) (hthr : w.Unthrottled)
    (batch : RecordBatch) (hlen : batch.length = 250) (directory prefix_ : String)
    (hfresh : w.directory_queues.lookup (directory ++ prefix_) = none)
    (n0 n1 n2 : String)
    (h0 : DatasetWriterDirectoryQueue.formatFilename options directory prefix_ 0 = .ok n0)
    (h1 : DatasetWriterDirectoryQueue.formatFilename options directory prefix_ 1 = .ok n1)
    (h2 : DatasetWriterDirectoryQueue.formatFilename options directory prefix_ 2 = .ok n2) :
    ∃ (w₃ : DatasetWriterImpl) (dq : DatasetWriterDirectoryQueue)
      (file₀ file₁ file₂ : DatasetWriterFileQueue),
      w.DoWriteRecordBatch batch directory prefix_ = some (w₃, .finished .OK) ∧
      w₃.directory_queues.lookup (directory ++ prefix_) = some dq ∧
      dq.tasks = [WriteTask.mk n0 100, WriteTask.mk n1 100, WriteTask.mk n2 50] ∧
      dq.closed_files = [file₀, file₁] ∧ dq.latest_open_file = some file₂ ∧
      file₀.filename = n0 ∧ file₀.rows_held = 100 ∧
      file₁.filename = n1 ∧ file₁.rows_held = 100 ∧
      file₂.filename = n2 ∧ file₂.rows_held = 50 ∧
      dq.file_counter = 3 := by
  have hF0 : 0 < options.max_rows_per_file := by omega
  have hF64 : options.max_rows_per_file < 2 ^ 64 := by rw [hF]; norm_num
  have hmake : DatasetWriterDirectoryQueue.Make options directory prefix_
      = .ok { directory := directory
              prefix_ := prefix_
              init_future := !(directory.data.isEmpty || !options.create_dir)
              current_filename := n0
              latest_open_file := none
              rows_written := 0
              file_counter := 1
              tasks := []
              closed_files := [] } := by
    simp only [DatasetWriterDirectoryQueue.Make, DatasetWriterDirectoryQueue.GetNextFilename, h0]
    rfl
  generalize hq0 : ({ directory := directory
                      prefix_ := prefix_
                      init_future := !(directory.data.isEmpty || !options.create_dir)
                      current_filename := n0
                      latest_open_file := none
                      rows_written := 0
                      file_counter := 1
                      tasks := []
                      closed_files := [] } : DatasetWriterDirectoryQueue) = q0 at hmake
  have e0 : q0.directory = directory ∧ q0.prefix_ = prefix_ ∧ q0.current_filename = n0 ∧
      q0.latest_open_file = none ∧ q0.rows_written = 0 ∧ q0.file_counter = 1 ∧ q0.tasks = [] ∧
      q0.closed_files = [] := by
    subst hq0
    exact ⟨rfl, rfl, rfl, rfl, rfl, rfl, rfl, rfl⟩
  obtain ⟨d0, p0, c0, o0, r0, k0, t0, cl0⟩ := e0
  have hlim0 : q0.WithinLimit options.max_rows_per_file :=
    ⟨by omega, by rw [o0]; exact r0, by rw [cl0]; simp⟩
  have hdo : w.DoWriteRecordBatch batch directory prefix_
      = WriteLoop (directory ++ prefix_) (499 + 1 + 1 + 1)
          { w with directory_queues := w.directory_queues ++ [(directory ++ prefix_, q0)] }
          batch := by
    simp only [DoWriteRecordBatch, hfresh, hopt, hmake, hlen]
  generalize hw0 : ({ w with directory_queues :=
      w.directory_queues ++ [(directory ++ prefix_, q0)] } : DatasetWriterImpl) = w0 at hdo
  have hopt0 : w0.write_options = options := by subst hw0; exact hopt
  have hthr0 : w0.Unthrottled := by subst hw0; exact hthr
  have hlook0 : w0.directory_queues.lookup (directory ++ prefix_) = some q0 := by
    subst hw0; exact lookup_append_fresh hfresh
  -- first file
  obtain ⟨w₁, dq₁, file₀, hl1, hopt1, hr1, hf1, hlook1, hlim1, r1, o1, k1, c1, d1, p1, t1, cl1,
      held0, fn0⟩ :=
    WriteLoop_rotate hG hF0 hF64 (directory ++ prefix_) (499 + 1 + 1) hopt0 hlook0 hlim0
      (by rw [hF, r0, hlen]; norm_num) (by rw [d0, p0, k0]; exact h1)
      (Unthrottled_granted hthr0 _).1 (fun _ => (Unthrottled_granted hthr0 0).2.1)
  have hthr1 : w₁.Unthrottled := by
    refine ⟨?_, ?_⟩
    · rw [hr1, (Unthrottled_granted hthr0 _).2.2.1]; exact hthr0.1
    · rw [hf1, if_pos r0, (Unthrottled_granted hthr0 0).2.2.2]; exact hthr0.2
  -- second file
  have hbig2 : options.max_rows_per_file - dq₁.rows_written
      < (batch.drop (options.max_rows_per_file - q0.rows_written)).length := by
    rw [List.length_drop, hlen, hF, r0, r1]
    norm_num
  obtain ⟨w₂, dq₂, file₁, hl2, hopt2, hr2, hf2, hlook2, hlim2, r2, o2, k2, c2, d2, p2, t2, cl2,
      held1, fn1⟩ :=
    WriteLoop_rotate hG hF0 hF64 (directory ++ prefix_) (499 + 1) hopt1 hlook1 hlim1 hbig2
      (by rw [d1, p1, k1, d0, p0, k0]; exact h2)
      (Unthrottled_granted hthr1 _).1 (fun _ => (Unthrottled_granted hthr1 0).2.1)
  have hthr2 : w₂.Unthrottled := by
    refine ⟨?_, ?_⟩
    · rw [hr2, (Unthrottled_granted hthr1 _).2.2.1]; exact hthr1.1
    · rw [hf2, if_pos r1, (Unthrottled_granted hthr1 0).2.2.2]; exact hthr1.2
  -- third file
  have hlen3 : ((batch.drop (options.max_rows_per_file - q0.rows_written)).drop
      (options.max_rows_per_file - dq₁.rows_written)).length = 50 := by
    rw [List.length_drop, List.length_drop, hlen, hF, r0, r1]
  obtain ⟨w₃, dq₃, file₂, hl3, hlook3, _, r3, o3, held2, fn2, k3, t3, cl3⟩ :=
    WriteLoop_last hG hF0 hF64 (directory ++ prefix_) 499 hopt2 hlook2 hlim2
      (by rw [hlen3, hF, r2]; norm_num)
      (Unthrottled_granted hthr2 _).1 (fun _ => (Unthrottled_granted hthr2 0).2.1)
  refine ⟨w₃, dq₃, file₀, file₁, file₂, ?_, hlook3, ?_, ?_, o3, ?_, ?_, ?_, ?_, ?_, ?_, ?_⟩
  · rw [hdo, hl1, hl2, hl3]
  · rw [t3, t2, t1, t0, c0, c1, c2, hlen3, hF, r0, r1]
    rfl
  · rw [cl3, cl2, cl1, cl0]
    rfl
  · rw [fn0, o0, c0]
  · rw [held0, hF]
  · rw [fn1, o1, c1]
  · rw [held1, hF]
  · rw [fn2, o2, c2]
  · rw [held2, r2, hlen3]
  · rw [k3, k2, k1, k0]
    norm_num

/-- Witness for C9: per-file limit 3, a batch of seven rows is written. -/
theorem file_rows_within_limit_witness :
    (1 : Nat) ≤ 2 ∧ (0 : Nat) < 3 ∧ (3 : Nat) < 2 ^ 64 ∧
    Eq
      ((make
        { base_dir := "out", basename_template := "part-{i}.arrow",
          has_file_write_options := true, has_filesystem := true, max_open_files := 0,
          max_rows_per_file := 3, min_rows_per_group := 1, max_rows_per_group := 2,
          existing_data_behavior := .kOverwriteOrIgnore, create_dir := true }
        0).run [.WriteRecordBatch [1, 2, 3, 4, 5, 6, 7] "" ""])
      (some (
        { write_options :=
              { base_dir := "out", basename_template := "part-{i}.arrow",
                has_file_write_options := true, has_filesystem := true, max_open_files := 0,
                max_rows_per_file := 3, min_rows_per_group := 1, max_rows_per_group := 2,
                existing_data_behavior := .kOverwriteOrIgnore, create_dir := true }
          writer_state := DatasetWriterState.make 0 0 0
          directory_queues :=
            [("out",
              { directory := "out"
                prefix_ := ""
                init_future := true
                current_filename := "out/part-2.arrow"
                latest_open_file := some
                  { staged_batches := [], rows_currently_staged := 0,
                    filename := "out/part-2.arrow", scheduled := [[7]], finished := false }
                rows_written := 1
                file_counter := 3
                tasks := [WriteTask.mk "out/part-0.arrow" 3, WriteTask.mk "out/part-1.arrow" 3,
                  WriteTask.mk "out/part-2.arrow" 1]
                closed_files :=
                  [{ staged_batches := [], rows_currently_staged := 0,
                     filename := "out/part-0.arrow", scheduled := [[1, 2], [3]], finished := true },
                   { staged_batches := [], rows_currently_staged := 0,
                     filename := "out/part-1.arrow", scheduled := [[4, 5], [6]],
                     finished := true }] })] } : DatasetWriterImpl)) ∧
    ∀ kq ∈ DatasetWriterImpl.directory_queues (
        { write_options :=
              { base_dir := "out", basename_template := "part-{i}.arrow",
                has_file_write_options := true, has_filesystem := true, max_open_files := 0,
                max_rows_per_file := 3, min_rows_per_group := 1, max_rows_per_group := 2,
                existing_data_behavior := .kOverwriteOrIgnore, create_dir := true }
          writer_state := DatasetWriterState.make 0 0 0
          directory_queues :=
            [("out",
              { directory := "out"
                prefix_ := ""
                init_future := true
                current_filename := "out/part-2.arrow"
                latest_open_file := some
                  { staged_batches := [], rows_currently_staged := 0,
                    filename := "out/part-2.arrow", scheduled := [[7]], finished := false }
                rows_written := 1
                file_counter := 3
                tasks := [WriteTask.mk "out/part-0.arrow" 3, WriteTask.mk "out/part-1.arrow" 3,
                  WriteTask.mk "out/part-2.arrow" 1]
                closed_files :=
                  [{ staged_batches := [], rows_currently_staged := 0,
                     filename := "out/part-0.arrow", scheduled := [[1, 2], [3]], finished := true },
                   { staged_batches := [], rows_currently_staged := 0,
                     filename := "out/part-1.arrow", scheduled := [[4, 5], [6]],
                     finished := true }] })] }),
      kq.2.WithinLimit 3 :=
  have hrun : Eq
      ((make
        { base_dir := "out", basename_template := "part-{i}.arrow",
          has_file_write_options := true, has_filesystem := true, max_open_files := 0,
          max_rows_per_file := 3, min_rows_per_group := 1, max_rows_per_group := 2,
          existing_data_behavior := .kOverwriteOrIgnore, create_dir := true }
        0).run [.WriteRecordBatch [1, 2, 3, 4, 5, 6, 7] "" ""])
      (some (
        { write_options :=
              { base_dir := "out", basename_template := "part-{i}.arrow",
                has_file_write_options := true, has_filesystem := true, max_open_files := 0,
                max_rows_per_file := 3, min_rows_per_group := 1, max_rows_per_group := 2,
                existing_data_behavior := .kOverwriteOrIgnore, create_dir := true }
          writer_state := DatasetWriterState.make 0 0 0
          directory_queues :=
            [("out",
              { directory := "out"
                prefix_ := ""
                init_future := true
                current_filename := "out/part-2.arrow"
                latest_open_file := some
                  { staged_batches := [], rows_currently_staged := 0,
                    filename := "out/part-2.arrow", scheduled := [[7]], finished := false }
                rows_written := 1
                file_counter := 3
                tasks := [WriteTask.mk "out/part-0.arrow" 3, WriteTask.mk "out/part-1.arrow" 3,
                  WriteTask.mk "out/part-2.arrow" 1]
                closed_files :=
                  [{ staged_batches := [], rows_currently_staged := 0,
                     filename := "out/part-0.arrow", scheduled := [[1, 2], [3]], finished := true },
                   { staged_batches := [], rows_currently_staged := 0,
                     filename := "out/part-1.arrow", scheduled := [[4, 5], [6]],
                     finished := true }] })] } : DatasetWriterImpl)) := by decide!
  ⟨by decide, by decide, by norm_num, hrun,
    (file_rows_within_limit
      { base_dir := "out", basename_template := "part-{i}.arrow",
        has_file_write_options := true, has_filesystem := true, max_open_files := 0,
        max_rows_per_file := 3, min_rows_per_group := 1, max_rows_per_group := 2,
        existing_data_behavior := .kOverwriteOrIgnore, create_dir := true }
      (by decide) (by decide) (by norm_num)).1 0 _ _ hrun⟩

/-- Witness for C10: a new writer without throttles, basename template
`part-{i}.arrow`, 250 rows written to the base directory `out`. -/
theorem write_250_rows_into_three_files_witness :
    (1 : Nat) ≤ 64 ∧ (List.range 250).length = 250 ∧
    ∃ (w₃ : DatasetWriterImpl) (dq : DatasetWriterDirectoryQueue)
      (file₀ file₁ file₂ : DatasetWriterFileQueue),
      DoWriteRecordBatch
        (make
          { base_dir := "out", basename_template := "part-{i}.arrow",
            has_file_write_options := true, has_filesystem := true, max_open_files := 0,
            max_rows_per_file := 100, min_rows_per_group := 16, max_rows_per_group := 64,
            existing_data_behavior := .kOverwriteOrIgnore, create_dir := true }
          0) (List.range 250) "out" "" = some (w₃, .finished .OK) ∧
      w₃.directory_queues.lookup ("out" ++ "") = some dq ∧
      dq.tasks = [WriteTask.mk "out/part-0.arrow" 100, WriteTask.mk "out/part-1.arrow" 100,
        WriteTask.mk "out/part-2.arrow" 50] ∧
      dq.closed_files = [file₀, file₁] ∧ dq.latest_open_file = some file₂ ∧
      file₀.filename = "out/part-0.arrow" ∧ file₀.rows_held = 100 ∧
      file₁.filename = "out/part-1.arrow" ∧ file₁.rows_held = 100 ∧
      file₂.filename = "out/part-2.arrow" ∧ file₂.rows_held = 50 ∧
      dq.file_counter = 3 :=
  ⟨by decide, List.length_range 250,
    write_250_rows_into_three_files
      { base_dir := "out", basename_template := "part-{i}.arrow",
        has_file_write_options := true, has_filesystem := true, max_open_files := 0,
        max_rows_per_file := 100, min_rows_per_group := 16, max_rows_per_group := 64,
        existing_data_behavior := .kOverwriteOrIgnore, create_dir := true }
      (by decide) rfl
      (make
        { base_dir := "out", basename_template := "part-{i}.arrow",
          has_file_write_options := true, has_filesystem := true, max_open_files := 0,
          max_rows_per_file := 100, min_rows_per_group := 16, max_rows_per_group := 64,
          existing_data_behavior := .kOverwriteOrIgnore, create_dir := true }
        0) rfl ⟨rfl, rfl⟩ (List.range 250) (List.length_range 250) "out" "" rfl
      "out/part-0.arrow" "out/part-1.arrow" "out/part-2.arrow" (by rfl) (by rfl) (by rfl)⟩

end DatasetWriterImpl

end Dataset
end Arrow

namespace Arrow
namespace Dataset

/-! ## The example of the file queue -/

namespace DatasetWriterFileQueue

theorem Push_three_staged (options : FileSystemDatasetWriteOptions)
    (hM : options.min_rows_per_group = 5) (ws : DatasetWriterState) (c : Nat)
    (hc : ws.staged_rows_count = c) (hceil : c + 3 < ws.max_rows_staged)
    (h64 : ws.max_rows_staged < 2 ^ 64)
    (filename : String) (done : List RecordBatch) (b : RecordBatch) (hb : b.length = 3) :
    Push options ws { staged_batches := [], rows_currently_staged := 0, filename := filename,
                      scheduled := done, finished := false } b
      = some ({ staged_batches := [b], rows_currently_staged := 3, filename := filename,
                scheduled := done, finished := false },
              { ws with staged_rows_count := c + 3 }) := by
  have hfull : ¬ ws.max_rows_staged ≤ c := by omega
  have e : addU64 c 3 = c + 3 := by
    unfold addU64
    norm_num at h64 ⊢
    omega
  have e0 : addU64 0 3 = 3 := rfl
  simp [Push, PushLoop, loopFuel, DatasetWriterState.StagingFull, hM, hc, hfull, hb, e, e0]

theorem Push_three_more (options : FileSystemDatasetWriteOptions)
    (hG : options.max_rows_per_group = 10) (hM : options.min_rows_per_group = 5)
    (ws : DatasetWriterState) (c : Nat) (hc : ws.staged_rows_count = c + 3)
    (hceil : c + 3 < ws.max_rows_staged) (h64 : ws.max_rows_staged < 2 ^ 64)
    (filename : String) (done : List RecordBatch) (a b : RecordBatch) (ha : a.length = 3)
    (hb : b.length = 3) :
    Push options ws { staged_batches := [a], rows_currently_staged := 3, filename := filename,
                      scheduled := done, finished := false } b
      = some ({ staged_batches := [], rows_currently_staged := 0, filename := filename,
                scheduled := done ++ [a ++ b], finished := false },
              { ws with staged_rows_count := c }) := by
  have hfull : ¬ ws.max_rows_staged ≤ c + 3 := by omega
  have e1 : addU64 3 3 = 6 := by rfl
  have e2 : subU64 6 6 = 0 := by rfl
  have e3 : addU64 (c + 3) (subU64 3 6) = c := by
    unfold addU64 subU64
    norm_num at h64 ⊢
    omega
  have hpop : PopStagedBatchLoop 10 [a, b] 0 [] = ([a, b], []) := by
    simp [PopStagedBatchLoop, ha, hb]
  unfold Push
  simp only [hb, e1, List.singleton_append, loopFuel, List.map_cons, List.map_nil, ha]
  simp only [PushLoop, List.isEmpty_cons, Bool.not_false, hM, Bool.true_and, Bool.or_eq_true,
    decide_eq_true_eq, PopAndDeliverStagedBatch, PopStagedBatch, hG, hpop]
  simp [hb, ha, e2, e3, hc, PushLoop]

theorem Finish_nothing_staged (options : FileSystemDatasetWriteOptions)
    (ws : DatasetWriterState) (h64 : ws.staged_rows_count < 2 ^ 64)
    (filename : String) (done : List RecordBatch) :
    Finish options ws { staged_batches := [], rows_currently_staged := 0, filename := filename,
                        scheduled := done, finished := false }
      = some ({ staged_batches := [], rows_currently_staged := 0, filename := filename,
                scheduled := done, finished := true }, ws) := by
  have e : subU64 ws.staged_rows_count 0 = ws.staged_rows_count := by
    unfold subU64
    norm_num at h64 ⊢
    omega
  simp [Finish, FinishLoop, loopFuel, e]

/-- C11, as amended. With `max_rows_per_group = 10`, `min_rows_per_group = 5` and the
staging ceiling not reached (the shared count plus three staged rows stays below
`max_rows_staged`, a `uint64_t`): `Push` of four batches of three rows each on a file
queue after `Start` schedules nothing at the first and the third call and one group at
the second and the fourth call, made of the two batches staged, which are six rows;
nothing stays staged, and `Finish` schedules nothing more. -/
theorem four_pushes_of_three_rows (options : FileSystemDatasetWriteOptions)
    (hG : options.max_rows_per_group = 10) (hM : options.min_rows_per_group = 5)
    (ws : DatasetWriterState) (hceil : ws.staged_rows_count + 3 < ws.max_rows_staged)
    (h64 : ws.max_rows_staged < 2 ^ 64) (filename : String) (b₁ b₂ b₃ b₄ : RecordBatch)
    (h₁ : b₁.length = 3) (h₂ : b₂.length = 3) (h₃ : b₃.length = 3) (h₄ : b₄.length = 3) :
    (run options (Start filename, ws) [.Push b₁]).map
      (fun s => (s.1.scheduled, s.1.staged_batches)) = some ([], [b₁]) ∧
    (run options (Start filename, ws) [.Push b₁, .Push b₂]).map
      (fun s => (s.1.scheduled, s.1.staged_batches)) = some ([b₁ ++ b₂], []) ∧
    (run options (Start filename, ws) [.Push b₁, .Push b₂, .Push b₃]).map
      (fun s => (s.1.scheduled, s.1.staged_batches)) = some ([b₁ ++ b₂], [b₃]) ∧
    (run options (Start filename, ws) [.Push b₁, .Push b₂, .Push b₃, .Push b₄]).map
      (fun s => (s.1.scheduled, s.1.staged_batches)) = some ([b₁ ++ b₂, b₃ ++ b₄], []) ∧
    (run options (Start filename, ws) [.Push b₁, .Push b₂, .Push b₃, .Push b₄, .Finish]).map
      (fun s => (s.1.scheduled, s.1.staged_batches)) = some ([b₁ ++ b₂, b₃ ++ b₄], []) ∧
    (b₁ ++ b₂).length = 6 ∧ (b₃ ++ b₄).length = 6 := by
  have p1 := Push_three_staged options hM ws ws.staged_rows_count rfl hceil h64 filename [] b₁ h₁
  have p2 := Push_three_more options hG hM { ws with staged_rows_count := ws.staged_rows_count + 3 }
    ws.staged_rows_count rfl hceil h64 filename [] b₁ b₂ h₁ h₂
  have p3 := Push_three_staged options hM { ws with staged_rows_count := ws.staged_rows_count }
    ws.staged_rows_count rfl hceil h64 filename ([] ++ [b₁ ++ b₂]) b₃ h₃
  have p4 := Push_three_more options hG hM { ws with staged_rows_count := ws.staged_rows_count + 3 }
    ws.staged_rows_count rfl hceil h64 filename ([] ++ [b₁ ++ b₂]) b₃ b₄ h₃ h₄
  have p5 := Finish_nothing_staged options { ws with staged_rows_count := ws.staged_rows_count }
    (by show ws.staged_rows_count < 2 ^ 64; omega) filename ([] ++ [b₁ ++ b₂] ++ [b₃ ++ b₄])
  refine ⟨?_, ?_, ?_, ?_, ?_, by simp [h₁, h₂], by simp [h₃, h₄]⟩
  · simp only [run, call, Start, Bool.false_eq_true, if_false, p1]
    rfl
  · simp only [run, call, Start, Bool.false_eq_true, if_false, p1, p2]
    rfl
  · simp only [run, call, Start, Bool.false_eq_true, if_false, p1, p2, p3]
    rfl
  · simp only [run, call, Start, Bool.false_eq_true, if_false, p1, p2, p3, p4]
    rfl
  · simp only [run, call, Start, Bool.false_eq_true, if_false, p1, p2, p3, p4, p5]
    rfl

/-- Witness for C11 as amended: staging ceiling 25, rows 1 to 12. -/
theorem four_pushes_of_three_rows_witness :
    (10 : Nat) = 10 ∧ (5 : Nat) = 5 ∧ (0 : Nat) + 3 < 25 ∧
    Eq
      ((run
        { base_dir := "out", basename_template := "part-{i}.arrow",
          has_file_write_options := true, has_filesystem := true, max_open_files := 0,
          max_rows_per_file := 100, min_rows_per_group := 5, max_rows_per_group := 10,
          existing_data_behavior := .kOverwriteOrIgnore, create_dir := true }
        (Start "f", DatasetWriterState.make 100 0 25)
        [.Push [1, 2, 3], .Push [4, 5, 6], .Push [7, 8, 9], .Push [10, 11, 12]]).map
        fun s => (s.1.scheduled, s.1.staged_batches))
      (some ([[1, 2, 3] ++ [4, 5, 6], [7, 8, 9] ++ [10, 11, 12]], [])) :=
  ⟨rfl, rfl, by decide,
    (four_pushes_of_three_rows
        { base_dir := "out", basename_template := "part-{i}.arrow",
          has_file_write_options := true, has_filesystem := true, max_open_files := 0,
          max_rows_per_file := 100, min_rows_per_group := 5, max_rows_per_group := 10,
          existing_data_behavior := .kOverwriteOrIgnore, create_dir := true }
      rfl rfl (DatasetWriterState.make 100 0 25) (by decide) (by norm_num [DatasetWriterState.make])
      "f" [1, 2, 3] [4, 5, 6] [7, 8, 9] [10, 11, 12] rfl rfl rfl rfl).2.2.2.1⟩

/-- Counterexample to C11 as stated: with maximum 10, minimum 5 and staging ceiling 25,
the second `Push` of three rows already schedules a group, of six rows; after the
fourth `Push` two groups of six rows are scheduled and nothing is staged, and `Finish`
schedules no group. -/
theorem second_push_schedules_six_rows :
    Eq
      ((run
        { base_dir := "out", basename_template := "part-{i}.arrow",
          has_file_write_options := true, has_filesystem := true, max_open_files := 0,
          max_rows_per_file := 100, min_rows_per_group := 5, max_rows_per_group := 10,
          existing_data_behavior := .kOverwriteOrIgnore, create_dir := true }
        (Start "f", DatasetWriterState.make 100 0 25)
        [.Push [1, 2, 3], .Push [4, 5, 6]]).map
        fun s => (s.1.scheduled, s.1.staged_batches))
      (some ([[1, 2, 3, 4, 5, 6]], [])) ∧
    Eq
      ((run
        { base_dir := "out", basename_template := "part-{i}.arrow",
          has_file_write_options := true, has_filesystem := true, max_open_files := 0,
          max_rows_per_file := 100, min_rows_per_group := 5, max_rows_per_group := 10,
          existing_data_behavior := .kOverwriteOrIgnore, create_dir := true }
        (Start "f", DatasetWriterState.make 100 0 25)
        [.Push [1, 2, 3], .Push [4, 5, 6], .Push [7, 8, 9], .Push [10, 11, 12]]).map
        fun s => (s.1.scheduled, s.1.staged_batches))
      (some ([[1, 2, 3, 4, 5, 6], [7, 8, 9, 10, 11, 12]], [])) ∧
    Eq
      ((run
        { base_dir := "out", basename_template := "part-{i}.arrow",
          has_file_write_options := true, has_filesystem := true, max_open_files := 0,
          max_rows_per_file := 100, min_rows_per_group := 5, max_rows_per_group := 10,
          existing_data_behavior := .kOverwriteOrIgnore, create_dir := true }
        (Start "f", DatasetWriterState.make 100 0 25)
        [.Push [1, 2, 3], .Push [4, 5, 6], .Push [7, 8, 9], .Push [10, 11, 12], .Finish]).map
        fun s => (s.1.scheduled, s.1.staged_batches))
      (some ([[1, 2, 3, 4, 5, 6], [7, 8, 9, 10, 11, 12]], [])) :=
  ⟨by decide!, by decide!, by decide!⟩

end DatasetWriterFileQueue

/-! ## Validation of the options -/

theorem findSub_none_iff (pat : List Char) (hpat : pat ≠ []) :
    ∀ (s : List Char) (i : Nat), findSub pat s i = none ↔ occurrences pat s = 0 := by
  intro s
  induction s with
  | nil => intro i; simp [findSub, occurrences, hpat]
  | cons c cs ih =>
    intro i
    by_cases hp : pat.isPrefixOf (c :: cs) = true
    · simp [findSub, occurrences, hp]
    · simp only [findSub, occurrences, hp, Bool.false_eq_true, if_false, Nat.zero_add]
      exact ih (i + 1)

theorem findSub_some (pat : List Char) (hpat : pat ≠ []) :
    ∀ (s : List Char) (i j : Nat), findSub pat s i = some j →
      i ≤ j ∧ pat.isPrefixOf (s.drop (j - i)) = true ∧
      occurrences pat s = 1 + occurrences pat (s.drop (j - i + 1)) := by
  intro s
  induction s with
  | nil => intro i j h; simp [findSub, hpat] at h
  | cons c cs ih =>
    intro i j h
    by_cases hp : pat.isPrefixOf (c :: cs) = true
    · simp only [findSub, hp, if_true, Option.some.injEq] at h
      subst h
      simp [occurrences, hp]
    · simp only [findSub, hp, Bool.false_eq_true, if_false] at h
      obtain ⟨h1, h2, h3⟩ := ih (i + 1) j h
      have e : j - i = (j - (i + 1)) + 1 := by omega
      refine ⟨by omega, ?_, ?_⟩
      · rw [e, List.drop_succ_cons]
        exact h2
      · simp only [occurrences, hp, Bool.false_eq_true, if_false, Nat.zero_add]
        rw [h3, e, List.drop_succ_cons]

theorem ValidateBasenameTemplate_cases (t : String) :
    ValidateBasenameTemplate t = .OK ∨ ∃ msg, ValidateBasenameTemplate t = .Invalid msg := by
  unfold ValidateBasenameTemplate
  split
  · exact Or.inr ⟨_, rfl⟩
  · split
    · exact Or.inr ⟨_, rfl⟩
    · split
      · exact Or.inr ⟨_, rfl⟩
      · exact Or.inl rfl

theorem ValidateBasenameTemplate_iff (t : String) :
    ValidateBasenameTemplate t = .OK ↔
      kSep ∉ t.data ∧ occurrences kIntegerToken.data t.data = 1 := by
  have hpat : kIntegerToken.data ≠ [] := by decide
  unfold ValidateBasenameTemplate
  by_cases hsep : kSep ∈ t.data
  · rw [if_pos hsep]
    constructor
    · intro h; exact absurd h (by simp)
    · intro h; exact absurd hsep h.1
  · rw [if_neg hsep]
    cases h1 : findSub kIntegerToken.data t.data 0 with
    | none =>
      have h0 := (findSub_none_iff _ hpat t.data 0).mp h1
      dsimp only
      constructor
      · intro h; exact absurd h (by simp)
      · intro h
        rw [h0] at h
        exact absurd h.2 (by decide)
    | some token_start =>
      obtain ⟨_, _, hocc⟩ := findSub_some _ hpat t.data 0 token_start h1
      rw [Nat.sub_zero] at hocc
      dsimp only
      cases h2 : findSub kIntegerToken.data (t.data.drop (token_start + 1))
          (token_start + 1) with
      | none =>
        have h0 := (findSub_none_iff _ hpat _ _).mp h2
        rw [h0] at hocc
        dsimp only
        exact ⟨fun _ => ⟨hsep, hocc⟩, fun _ => rfl⟩
      | some next_token_start =>
        have hne : occurrences kIntegerToken.data (t.data.drop (token_start + 1)) ≠ 0 := by
          intro hc
          rw [(findSub_none_iff _ hpat _ (token_start + 1)).mpr hc] at h2
          exact absurd h2 (by simp)
        dsimp only
        constructor
        · intro h; exact absurd h (by simp)
        · intro h
          have h3 := h.2
          omega

/-- C13. For every string `t`: `ValidateBasenameTemplate t` is OK if and only if `t`
contains no `/` and the placeholder occurs at exactly one position of `t`; every other
result is an `Invalid` status, so a template with a path separator, without the
placeholder, or with the placeholder at more than one position gives `Invalid`. -/
theorem template_valid_iff_one_placeholder (t : String) :
    (ValidateBasenameTemplate t = .OK ↔
      '/' ∉ t.data ∧ occurrences "{i}".data t.data = 1) ∧
    (ValidateBasenameTemplate t = .OK ∨ ∃ msg, ValidateBasenameTemplate t = .Invalid msg) ∧
    ('/' ∈ t.data → ∃ msg, ValidateBasenameTemplate t = .Invalid msg) ∧
    (occurrences "{i}".data t.data = 0 → ∃ msg, ValidateBasenameTemplate t = .Invalid msg) ∧
    (1 < occurrences "{i}".data t.data → ∃ msg, ValidateBasenameTemplate t = .Invalid msg) := by
  have hiff : ValidateBasenameTemplate t = .OK ↔
      '/' ∉ t.data ∧ occurrences "{i}".data t.data = 1 := ValidateBasenameTemplate_iff t
  have hcases := ValidateBasenameTemplate_cases t
  have hbad : ¬ ('/' ∉ t.data ∧ occurrences "{i}".data t.data = 1) →
      ∃ msg, ValidateBasenameTemplate t = .Invalid msg := by
    intro hn
    rcases hcases with h | h
    · exact absurd (hiff.mp h) hn
    · exact h
  refine ⟨hiff, hcases, fun h => hbad fun hc => hc.1 h, fun h => hbad fun hc => ?_,
    fun h => hbad fun hc => ?_⟩
  · rw [h] at hc; exact absurd hc.2 (by decide)
  · omega

/-- C14. For every file system, every option set with
`min_rows_per_group > max_rows_per_group` and every `max_rows_queued`:
`ValidateOptions` returns an `Invalid` status and `DatasetWriter::Make` returns that
status instead of a writer. -/
theorem make_rejects_min_above_max (filesystem : FileSystem)
    (options : FileSystemDatasetWriteOptions) (max_rows_queued : Nat)
    (h : options.max_rows_per_group < options.min_rows_per_group) :
    ∃ msg, ValidateOptions options = .Invalid msg ∧
      DatasetWriter.Make filesystem options max_rows_queued = .error (.Invalid msg) := by
  have hv : ∃ msg, ValidateOptions options = .Invalid msg := by
    unfold ValidateOptions
    rcases ValidateBasenameTemplate_cases options.basename_template with ht | ⟨msg, ht⟩
    · rw [ht]
      rw [if_neg (by decide)]
      by_cases h1 : (!options.has_file_write_options) = true
      · rw [if_pos h1]; exact ⟨_, rfl⟩
      · rw [if_neg h1]
        by_cases h2 : (!options.has_filesystem) = true
        · rw [if_pos h2]; exact ⟨_, rfl⟩
        · rw [if_neg h2]
          by_cases h3 : options.max_rows_per_group ≤ 0
          · rw [if_pos h3]; exact ⟨_, rfl⟩
          · rw [if_neg h3, if_pos h]
            exact ⟨_, rfl⟩
    · rw [ht]
      rw [if_pos (show (!(Status.Invalid msg).ok) = true from rfl)]
      exact ⟨msg, rfl⟩
  obtain ⟨msg, hmsg⟩ := hv
  refine ⟨msg, hmsg, ?_⟩
  unfold DatasetWriter.Make
  rw [hmsg]
  rw [if_pos (show (!(Status.Invalid msg).ok) = true from rfl)]

/-- Witness for C14: minimum 10, maximum 5, on a file system without entries. -/
theorem make_rejects_min_above_max_witness :
    (5 : Nat) < 10 ∧
    ∃ msg, Eq
      (ValidateOptions
        { base_dir := "out", basename_template := "part-{i}.arrow",
          has_file_write_options := true, has_filesystem := true, max_open_files := 0,
          max_rows_per_file := 100, min_rows_per_group := 10, max_rows_per_group := 5,
          existing_data_behavior := .kOverwriteOrIgnore, create_dir := true })
      (.Invalid msg) ∧
      Eq
        (DatasetWriter.Make (fun _ => .ok [])
        { base_dir := "out", basename_template := "part-{i}.arrow",
          has_file_write_options := true, has_filesystem := true, max_open_files := 0,
          max_rows_per_file := 100, min_rows_per_group := 10, max_rows_per_group := 5,
          existing_data_behavior := .kOverwriteOrIgnore, create_dir := true }
          0)
        (.error (.Invalid msg)) :=
  ⟨by decide,
    make_rejects_min_above_max (fun _ => .ok [])
        { base_dir := "out", basename_template := "part-{i}.arrow",
          has_file_write_options := true, has_filesystem := true, max_open_files := 0,
          max_rows_per_file := 100, min_rows_per_group := 10, max_rows_per_group := 5,
          existing_data_behavior := .kOverwriteOrIgnore, create_dir := true }
      0 (by decide)⟩

theorem EnsureDestinationValid_cases (filesystem : FileSystem)
    (options : FileSystemDatasetWriteOptions) :
    (options.existing_data_behavior = .kError ∧
      (∃ files, filesystem { base_dir := options.base_dir, recursive := true } = .ok files ∧
        0 < files.length) ∧
      ∃ msg, EnsureDestinationValid filesystem options = .Invalid msg) ∨
    (¬(options.existing_data_behavior = .kError ∧
      ∃ files, filesystem { base_dir := options.base_dir, recursive := true } = .ok files ∧
        0 < files.length) ∧
      EnsureDestinationValid filesystem options = .OK) := by
  unfold EnsureDestinationValid
  by_cases hb : options.existing_data_behavior = .kError
  · rw [if_pos hb]
    cases hl : filesystem { base_dir := options.base_dir, recursive := true } with
    | error e =>
      refine Or.inr ⟨?_, rfl⟩
      rintro ⟨_, files, h, _⟩
      exact absurd h (by simp)
    | ok files =>
      dsimp only
      by_cases hf : files.length > 0
      · rw [if_pos hf]
        exact Or.inl ⟨hb, ⟨files, rfl, hf⟩, _, rfl⟩
      · rw [if_neg hf]
        refine Or.inr ⟨?_, rfl⟩
        rintro ⟨_, files', h, hpos⟩
        simp only [Except.ok.injEq] at h
        subst h
        exact hf hpos
  · rw [if_neg hb]
    exact Or.inr ⟨fun h => hb h.1, rfl⟩

/-- C15. For every file system and option set: `EnsureDestinationValid` returns OK or
an `Invalid` status, and it returns an `Invalid` status if and only if
`existing_data_behavior` is `kError` and `GetFileInfo` of the recursive selector of
`base_dir` succeeds with at least one entry; it returns OK under every other policy,
when the listing is empty, and when the listing fails. -/
theorem destination_invalid_iff_not_empty (filesystem : FileSystem)
    (options : FileSystemDatasetWriteOptions) :
    (EnsureDestinationValid filesystem options = .OK ∨
      ∃ msg, EnsureDestinationValid filesystem options = .Invalid msg) ∧
    ((∃ msg, EnsureDestinationValid filesystem options = .Invalid msg) ↔
      options.existing_data_behavior = .kError ∧
      ∃ files, filesystem { base_dir := options.base_dir, recursive := true } = .ok files ∧
        0 < files.length) ∧
    (options.existing_data_behavior ≠ .kError →
      EnsureDestinationValid filesystem options = .OK) ∧
    (filesystem { base_dir := options.base_dir, recursive := true } = .ok [] →
      EnsureDestinationValid filesystem options = .OK) ∧
    (∀ e, filesystem { base_dir := options.base_dir, recursive := true } = .error e →
      EnsureDestinationValid filesystem options = .OK) := by
  have hok : ¬(options.existing_data_behavior = .kError ∧
      ∃ files, filesystem { base_dir := options.base_dir, recursive := true } = .ok files ∧
        0 < files.length) → EnsureDestinationValid filesystem options = .OK := by
    intro hn
    rcases EnsureDestinationValid_cases filesystem options with ⟨h1, h2, _⟩ | ⟨_, h⟩
    · exact absurd ⟨h1, h2⟩ hn
    · exact h
  refine ⟨?_, ⟨?_, ?_⟩, ?_, ?_, ?_⟩
  · rcases EnsureDestinationValid_cases filesystem options with ⟨_, _, h⟩ | ⟨_, h⟩
    · exact Or.inr h
    · exact Or.inl h
  · rintro ⟨msg, hmsg⟩
    by_contra hn
    rw [hok hn] at hmsg
    exact absurd hmsg (by simp)
  · intro hc
    rcases EnsureDestinationValid_cases filesystem options with ⟨_, _, h⟩ | ⟨hn, _⟩
    · exact h
    · exact absurd hc hn
  · intro hb
    exact hok fun hc => hb hc.1
  · intro hl
    refine hok ?_
    rintro ⟨_, files, h, hpos⟩
    rw [hl] at h
    simp only [Except.ok.injEq] at h
    subst h
    simp at hpos
  · intro e hl
    refine hok ?_
    rintro ⟨_, files, h, _⟩
    rw [hl] at h
    exact absurd h (by simp)

/-! ## File names -/

theorem digitChar_value : ∀ k, k < 10 →
    (Nat.digitChar k).toNat - 48 = k ∧ Nat.digitChar k ≠ '/' := by
  decide

theorem toDigitsCore_value : ∀ (fuel n : Nat) (ds : List Char), n < fuel →
    ∃ pre, Nat.toDigitsCore 10 fuel n ds = pre ++ ds ∧ decimalValue pre = n ∧ pre ≠ [] ∧
      ∀ c ∈ pre, c ≠ '/' := by
  intro fuel
  induction fuel with
  | zero => intro n ds h; exact absurd h (Nat.not_lt_zero n)
  | succ fuel ih =>
    intro n ds h
    unfold Nat.toDigitsCore
    dsimp only
    obtain ⟨hval, hsep⟩ := digitChar_value (n % 10) (Nat.mod_lt n (by decide))
    by_cases h0 : n / 10 = 0
    · rw [if_pos h0]
      refine ⟨[Nat.digitChar (n % 10)], rfl, ?_, by simp, ?_⟩
      · show 10 * 0 + ((Nat.digitChar (n % 10)).toNat - 48) = n
        rw [hval]
        omega
      · intro c hc
        simp only [List.mem_singleton] at hc
        rw [hc]
        exact hsep
    · rw [if_neg h0]
      obtain ⟨pre, h1, h2, _, h4⟩ := ih (n / 10) (Nat.digitChar (n % 10) :: ds) (by omega)
      refine ⟨pre ++ [Nat.digitChar (n % 10)], ?_, ?_, by simp, ?_⟩
      · rw [h1]; simp
      · unfold decimalValue at h2 ⊢
        rw [List.foldl_append, h2]
        show 10 * (n / 10) + ((Nat.digitChar (n % 10)).toNat - 48) = n
        rw [hval]
        omega
      · intro c hc
        rcases List.mem_append.mp hc with hc | hc
        · exact h4 c hc
        · simp only [List.mem_singleton] at hc
          rw [hc]
          exact hsep

theorem repr_value (n : Nat) :
    decimalValue (Nat.repr n).data = n ∧ (Nat.repr n).data ≠ [] ∧
    ∀ c ∈ (Nat.repr n).data, c ≠ '/' := by
  obtain ⟨pre, h1, h2, h3, h4⟩ := toDigitsCore_value (n + 1) n [] (Nat.lt_succ_self n)
  have hdata : (Nat.repr n).data = pre := by
    show Nat.toDigitsCore 10 (n + 1) n [] = pre
    rw [h1, List.append_nil]
  rw [hdata]
  exact ⟨h2, h3, h4⟩

theorem dropWhile_digits_inj (A B post : List Char) (hA : A ≠ []) (hA' : ∀ c ∈ A, c ≠ '/')
    (hB : B ≠ []) (hB' : ∀ c ∈ B, c ≠ '/') :
    ∀ X : List Char,
      (X ++ (A ++ post)).dropWhile (· == '/') = (X ++ (B ++ post)).dropWhile (· == '/') →
      A = B := by
  intro X
  induction X with
  | nil =>
    intro h
    obtain ⟨a, A', rfl⟩ := List.exists_cons_of_ne_nil hA
    obtain ⟨b, B', rfl⟩ := List.exists_cons_of_ne_nil hB
    have ha : ¬ ((a == '/') = true) := by
      simpa using hA' a (List.mem_cons_self _ _)
    have hb : ¬ ((b == '/') = true) := by
      simpa using hB' b (List.mem_cons_self _ _)
    simp only [List.nil_append, List.cons_append, List.dropWhile_cons, ha, hb,
      Bool.false_eq_true, if_false] at h
    have h' : (a :: A') ++ post = (b :: B') ++ post := h
    exact List.append_cancel_right h'
  | cons x X ih =>
    intro h
    by_cases hx : (x == '/') = true
    · simp only [List.cons_append, List.dropWhile_cons, hx, if_true] at h
      exact ih h
    · simp only [List.cons_append, List.dropWhile_cons, hx, Bool.false_eq_true, if_false,
        List.cons.injEq, true_and] at h
      have h' : X ++ (A ++ post) = X ++ (B ++ post) := h
      exact List.append_cancel_right (List.append_cancel_left h')

theorem ConcatAbstractPath_counter_inj (dir pfx : String) (pre post : List Char) (a b : Nat)
    (h : ConcatAbstractPath dir (pfx ++ String.mk (pre ++ (Nat.repr a).data ++ post))
      = ConcatAbstractPath dir (pfx ++ String.mk (pre ++ (Nat.repr b).data ++ post))) :
    a = b := by
  obtain ⟨va, na, sa⟩ := repr_value a
  obtain ⟨vb, nb, sb⟩ := repr_value b
  have key : (Nat.repr a).data = (Nat.repr b).data := by
    unfold ConcatAbstractPath at h
    by_cases hd : dir.data = []
    · rw [if_pos hd, if_pos hd] at h
      have h' := congrArg String.data h
      simp only [String.data_append, List.append_assoc] at h'
      exact List.append_cancel_right (List.append_cancel_left (List.append_cancel_left h'))
    · rw [if_neg hd, if_neg hd] at h
      have h' := congrArg String.data h
      simp only [String.data_append, List.append_assoc] at h'
      have h'' := List.append_cancel_left h'
      rw [← List.append_assoc pfx.data, ← List.append_assoc pfx.data] at h''
      exact dropWhile_digits_inj _ _ post na sa nb sb (pfx.data ++ pre) h''
  rw [← va, ← vb, key]

theorem formatFilename_valid (options : FileSystemDatasetWriteOptions)
    (hvalid : ValidateBasenameTemplate options.basename_template = .OK) :
    ∃ pre post : List Char,
      options.basename_template.data = pre ++ "{i}".data ++ post ∧
      ∀ (directory prefix_ : String) (counter : Nat),
        DatasetWriterDirectoryQueue.formatFilename options directory prefix_ counter
          = .ok (ConcatAbstractPath directory
              (prefix_ ++ String.mk (pre ++ (Nat.repr counter).data ++ post))) := by
  have hpat : kIntegerToken.data ≠ [] := by decide
  obtain ⟨_, hocc⟩ := (ValidateBasenameTemplate_iff _).mp hvalid
  cases hfind : findSub kIntegerToken.data options.basename_template.data 0 with
  | none =>
    rw [(findSub_none_iff _ hpat _ 0).mp hfind] at hocc
    exact absurd hocc (by decide)
  | some i =>
    obtain ⟨_, hpre, _⟩ := findSub_some _ hpat _ 0 i hfind
    rw [Nat.sub_zero, List.isPrefixOf_iff_prefix, List.prefix_iff_eq_append] at hpre
    refine ⟨options.basename_template.data.take i,
      options.basename_template.data.drop (i + kIntegerToken.data.length), ?_, ?_⟩
    · have h1 := (List.take_append_drop i options.basename_template.data).symm
      rw [← hpre, List.drop_drop] at h1
      rw [List.append_assoc]
      exact h1
    · intro directory prefix_ counter
      unfold DatasetWriterDirectoryQueue.formatFilename Replace
      rw [hfind]
      rfl

theorem GetNextFilenames_eq (options : FileSystemDatasetWriteOptions) :
    ∀ (n : Nat) (q : DatasetWriterDirectoryQueue), q.file_counter < 2 ^ 32 →
      GetNextFilenames options n q
        = (List.range n).map fun k =>
            DatasetWriterDirectoryQueue.formatFilename options q.directory q.prefix_
              ((q.file_counter + k) % 2 ^ 32) := by
  intro n
  induction n with
  | zero => intro q _; rfl
  | succ n ih =>
    intro q hq
    have hlt : (q.file_counter + 1) % 2 ^ 32 < 2 ^ 32 := Nat.mod_lt _ (by norm_num)
    rw [GetNextFilenames, List.range_succ_eq_map, List.map_cons, List.map_map]
    have hrest := ih (q.GetNextFilename options).1 hlt
    rw [hrest]
    congr 1
    · show DatasetWriterDirectoryQueue.formatFilename options q.directory q.prefix_ q.file_counter
        = _
      rw [Nat.add_zero, Nat.mod_eq_of_lt hq]
    · apply List.map_congr_left
      intro k _
      show DatasetWriterDirectoryQueue.formatFilename options q.directory q.prefix_
          (((q.file_counter + 1) % 2 ^ 32 + k) % 2 ^ 32)
        = DatasetWriterDirectoryQueue.formatFilename options q.directory q.prefix_
          ((q.file_counter + (k + 1)) % 2 ^ 32)
      congr 1
      norm_num
      omega

/-- C12. For every basename template that `ValidateBasenameTemplate` accepts, the
template is `pre ++ "{i}" ++ post` with the placeholder at exactly one position, and for
every directory queue whose counter is at zero, as the constructor leaves it, and every
`n ≤ 2 ^ 32`: the first `n` calls of `GetNextFilename` all succeed, call `k + 1` returns
the path made of the directory and the prefix followed by `pre`, the decimal digits of
`k` and `post`, and the `n` file names are pairwise different. -/
theorem next_filenames_distinct (options : FileSystemDatasetWriteOptions)
    (hvalid : ValidateBasenameTemplate options.basename_template = .OK) :
    ∃ pre post : List Char,
      options.basename_template.data = pre ++ "{i}".data ++ post ∧
      occurrences "{i}".data options.basename_template.data = 1 ∧
      ∀ (q : DatasetWriterDirectoryQueue) (n : Nat), q.file_counter = 0 → n ≤ 2 ^ 32 →
        GetNextFilenames options n q
          = (List.range n).map (fun k => Except.ok (ConcatAbstractPath q.directory
              (q.prefix_ ++ String.mk (pre ++ (Nat.repr k).data ++ post)))) ∧
        (GetNextFilenames options n q).Nodup := by
  obtain ⟨pre, post, htemplate, hname⟩ := formatFilename_valid options hvalid
  refine ⟨pre, post, htemplate, ((ValidateBasenameTemplate_iff _).mp hvalid).2, ?_⟩
  intro q n hq hn
  have heq : GetNextFilenames options n q
      = (List.range n).map (fun k => Except.ok (ConcatAbstractPath q.directory
          (q.prefix_ ++ String.mk (pre ++ (Nat.repr k).data ++ post)))) := by
    rw [GetNextFilenames_eq options n q (by rw [hq]; norm_num)]
    apply List.map_congr_left
    intro k hk
    rw [hq, Nat.zero_add, Nat.mod_eq_of_lt (by have := List.mem_range.mp hk; omega)]
    exact hname _ _ _
  refine ⟨heq, ?_⟩
  rw [heq]
  refine List.Nodup.map_on ?_ (List.nodup_range n)
  intro a _ b _ hab
  exact ConcatAbstractPath_counter_inj _ _ _ _ a b (Except.ok.inj hab)

/-- Witness for C12: the template `part-{i}.arrow`, directory `out`, three calls. -/
theorem next_filenames_distinct_witness :
    ValidateBasenameTemplate "part-{i}.arrow" = .OK ∧
    ∃ pre post : List Char,
      "part-{i}.arrow".data = pre ++ "{i}".data ++ post ∧
      occurrences "{i}".data "part-{i}.arrow".data = 1 ∧
      ∀ (q : DatasetWriterDirectoryQueue) (n : Nat), q.file_counter = 0 → n ≤ 2 ^ 32 →
        Eq
          (GetNextFilenames
            { base_dir := "out", basename_template := "part-{i}.arrow",
              has_file_write_options := true, has_filesystem := true, max_open_files := 0,
              max_rows_per_file := 100, min_rows_per_group := 5, max_rows_per_group := 10,
              existing_data_behavior := .kOverwriteOrIgnore, create_dir := true }
            n q)
          ((List.range n).map (fun k => Except.ok (ConcatAbstractPath q.directory
            (q.prefix_ ++ String.mk (pre ++ (Nat.repr k).data ++ post))))) ∧
        (GetNextFilenames
            { base_dir := "out", basename_template := "part-{i}.arrow",
              has_file_write_options := true, has_filesystem := true, max_open_files := 0,
              max_rows_per_file := 100, min_rows_per_group := 5, max_rows_per_group := 10,
              existing_data_behavior := .kOverwriteOrIgnore, create_dir := true }
          n q).Nodup :=
  ⟨by rfl,
    next_filenames_distinct
            { base_dir := "out", basename_template := "part-{i}.arrow",
              has_file_write_options := true, has_filesystem := true, max_open_files := 0,
              max_rows_per_file := 100, min_rows_per_group := 5, max_rows_per_group := 10,
              existing_data_behavior := .kOverwriteOrIgnore, create_dir := true }
      (by rfl)⟩

end Dataset
end Arrow

namespace Arrow
namespace Dataset

/-! ## Zero-row writes, chunking, the writer throttle and the staged buffer -/

namespace DatasetWriterImpl

/-- C23. A write of a batch without rows returns a future that is already finished
(with an OK status) and leaves the writer as it was: the map of directory queues, both
throttles, every filename counter and the count of staged rows are those of before. -/
theorem write_of_zero_rows_changes_nothing (w : DatasetWriterImpl) (batch : RecordBatch)
    (directory prefix_ : String) (h : batch.length = 0) :
    w.WriteRecordBatch batch directory prefix_ = some (w, .finished .OK) ∧
    ∀ w' out, w.WriteRecordBatch batch directory prefix_ = some (w', out) →
      w'.directory_queues = w.directory_queues ∧
      w'.writer_state.rows_in_flight_throttle = w.writer_state.rows_in_flight_throttle ∧
      w'.writer_state.open_files_throttle = w.writer_state.open_files_throttle ∧
      w'.writer_state.staged_rows_count = w.writer_state.staged_rows_count ∧
      out = .finished .OK := by
  have h0 : w.WriteRecordBatch batch directory prefix_ = some (w, .finished .OK) := by
    unfold WriteRecordBatch
    rw [if_pos h]
  refine ⟨h0, ?_⟩
  intro w' out h1
  rw [h0] at h1
  injection h1 with h1
  injection h1 with h1 h2
  subst h1
  subst h2
  exact ⟨rfl, rfl, rfl, rfl, rfl⟩

/-- Witness for C23: an empty batch written to a fresh writer. -/
theorem write_of_zero_rows_changes_nothing_witness :
    ([] : RecordBatch).length = 0 ∧
    Eq
      ((make
        { base_dir := "out", basename_template := "part-{i}.arrow",
          has_file_write_options := true, has_filesystem := true, max_open_files := 0,
          max_rows_per_file := 3, min_rows_per_group := 1, max_rows_per_group := 2,
          existing_data_behavior := .kOverwriteOrIgnore, create_dir := true }
        0).WriteRecordBatch [] "a" "")
      (some (make
        { base_dir := "out", basename_template := "part-{i}.arrow",
          has_file_write_options := true, has_filesystem := true, max_open_files := 0,
          max_rows_per_file := 3, min_rows_per_group := 1, max_rows_per_group := 2,
          existing_data_behavior := .kOverwriteOrIgnore, create_dir := true }
        0, .finished .OK)) :=
  ⟨rfl, (write_of_zero_rows_changes_nothing _ [] "a" "" rfl).1⟩

end DatasetWriterImpl

namespace DatasetWriterDirectoryQueue

/-- C24. `NextWritableChunk` (a `const` method: the queue is an argument and is not
returned) splits a batch of fewer than `2 ^ 63` rows at the room left in the current
file. Chunk and remainder together are the batch, in order. Without a limit
(`max_rows_per_file = 0`) the chunk is the whole batch and there is no remainder. With
a limit `F` and `rows_written ≤ F`, the chunk is the first `min n (F - rows_written)`
rows, and there is a remainder, the rows after the first `F - rows_written`, exactly
when `F - rows_written < n`. The flag `will_open_file` is true exactly when
`rows_written = 0`. -/
theorem next_writable_chunk_splits_at_room (options : FileSystemDatasetWriteOptions)
    (q : DatasetWriterDirectoryQueue) (batch : RecordBatch)
    (hn : batch.length < 2 ^ 63) (hF64 : options.max_rows_per_file < 2 ^ 64)
    (hrw : options.max_rows_per_file = 0 ∨ q.rows_written ≤ options.max_rows_per_file) :
    (q.NextWritableChunk options batch).1 ++ ((q.NextWritableChunk options batch).2.1).getD []
      = batch ∧
    ((q.NextWritableChunk options batch).2.2 = true ↔ q.rows_written = 0) ∧
    (options.max_rows_per_file = 0 →
      (q.NextWritableChunk options batch).1 = batch ∧
      (q.NextWritableChunk options batch).2.1 = none) ∧
    (0 < options.max_rows_per_file →
      (q.NextWritableChunk options batch).1
        = batch.take (min batch.length (options.max_rows_per_file - q.rows_written)) ∧
      (((q.NextWritableChunk options batch).2.1).isSome = true ↔
        options.max_rows_per_file - q.rows_written < batch.length) ∧
      ∀ remainder, (q.NextWritableChunk options batch).2.1 = some remainder →
        remainder = batch.drop (options.max_rows_per_file - q.rows_written) ∧
        remainder.length = batch.length - (options.max_rows_per_file - q.rows_written)) := by
  by_cases hF : 0 < options.max_rows_per_file
  · have hrw' : q.rows_written ≤ options.max_rows_per_file := by
      rcases hrw with h | h
      · omega
      · exact h
    obtain ⟨h1, h2⟩ := NextWritableChunk_limited options q batch hF hF64 hrw'
    by_cases h : options.max_rows_per_file - q.rows_written < batch.length
    · rw [h1 h]
      refine ⟨?_, ?_, ?_, ?_⟩
      · simp
      · simp
      · intro h0; omega
      · intro _
        refine ⟨?_, ?_, ?_⟩
        · rw [Nat.min_eq_right (Nat.le_of_lt h)]
        · simp [h]
        · intro remainder hr
          simp only [Option.some.injEq] at hr
          subst hr
          simp
    · rw [h2 (by omega)]
      refine ⟨?_, ?_, ?_, ?_⟩
      · simp
      · simp
      · intro _; exact ⟨rfl, rfl⟩
      · intro _
        refine ⟨?_, ?_, ?_⟩
        · rw [Nat.min_eq_left (by omega), List.take_length]
        · simp [h]
        · intro remainder hr
          simp at hr
  · have hF0 : options.max_rows_per_file = 0 := by omega
    have h0 : q.NextWritableChunk options batch = (batch, none, decide (q.rows_written = 0)) := by
      unfold NextWritableChunk
      have hlt : ¬ (2 ^ 64 - 1 < batch.length) := by
        have : (2 : Nat) ^ 63 ≤ 2 ^ 64 - 1 := by norm_num
        omega
      simp only [hF0, Nat.lt_irrefl, if_false]
      rw [if_neg hlt]
    rw [h0]
    refine ⟨?_, ?_, ?_, ?_⟩
    · simp
    · simp
    · intro _; exact ⟨rfl, rfl⟩
    · intro h; omega

/-- Witness for C24: four rows offered to a file of limit 3 that holds one row. -/
theorem next_writable_chunk_splits_at_room_witness :
    ([1, 2, 3, 4] : RecordBatch).length < 2 ^ 63 ∧ (3 : Nat) < 2 ^ 64 ∧
    ((3 : Nat) = 0 ∨ (1 : Nat) ≤ 3) ∧
    Eq
      (NextWritableChunk
        { base_dir := "out", basename_template := "part-{i}.arrow",
          has_file_write_options := true, has_filesystem := true, max_open_files := 0,
          max_rows_per_file := 3, min_rows_per_group := 1, max_rows_per_group := 2,
          existing_data_behavior := .kOverwriteOrIgnore, create_dir := true }
        { directory := "out", prefix_ := "", init_future := false,
          current_filename := "out/part-0.arrow", latest_open_file := none, rows_written := 1,
          file_counter := 1, tasks := [], closed_files := [] }
        [1, 2, 3, 4]).1
      (List.take (min 4 (3 - 1)) [1, 2, 3, 4]) :=
  ⟨by decide, by decide, Or.inr (by decide),
    ((next_writable_chunk_splits_at_room
        { base_dir := "out", basename_template := "part-{i}.arrow",
          has_file_write_options := true, has_filesystem := true, max_open_files := 0,
          max_rows_per_file := 3, min_rows_per_group := 1, max_rows_per_group := 2,
          existing_data_behavior := .kOverwriteOrIgnore, create_dir := true }
        { directory := "out", prefix_ := "", init_future := false,
          current_filename := "out/part-0.arrow", latest_open_file := none, rows_written := 1,
          file_counter := 1, tasks := [], closed_files := [] }
        [1, 2, 3, 4] (by decide) (by decide) (Or.inr (by decide))).2.2.2 (by decide)).1⟩

end DatasetWriterDirectoryQueue

namespace WriterThrottleLedger

theorem Acquire_cases (t : Throttle) (v : Nat) (hmax : 0 < t.max_value)
    (hcur : t.current_value ≤ t.max_value) (hv : v + t.max_value < 2 ^ 64) :
    (v + t.current_value ≤ t.max_value →
      t.Acquire v
        = ({ t with current_value := t.current_value + v }, t.backpressure_finished)) ∧
    (t.max_value < v + t.current_value →
      t.Acquire v = ({ t with in_waiting := v, backpressure_finished := false }, false)) := by
  have hu : t.Unthrottled = false := by
    unfold Throttle.Unthrottled
    simp only [decide_eq_false_iff_not]
    omega
  have h1 : addU64 v t.current_value = v + t.current_value := by
    unfold addU64
    exact Nat.mod_eq_of_lt (by omega)
  have h2 : addU64 t.current_value v = t.current_value + v := by
    unfold addU64
    exact Nat.mod_eq_of_lt (by omega)
  unfold Throttle.Acquire
  simp only [hu, Bool.false_eq_true, if_false, h1, h2]
  constructor
  · intro h
    rw [if_neg (by omega)]
  · intro h
    rw [if_pos (by omega)]

theorem Release_cases (t : Throttle) (v : Nat) (hmax : 0 < t.max_value)
    (hv : v ≤ t.current_value) (hcur : t.current_value ≤ t.max_value)
    (hw : t.in_waiting + t.max_value < 2 ^ 64) :
    (0 < t.in_waiting ∧ t.in_waiting + (t.current_value - v) ≤ t.max_value →
      t.Release v
        = { t with current_value := t.current_value - v, in_waiting := 0,
                   backpressure_finished := true }) ∧
    (¬ (0 < t.in_waiting ∧ t.in_waiting + (t.current_value - v) ≤ t.max_value) →
      t.Release v = { t with current_value := t.current_value - v }) := by
  have hu : t.Unthrottled = false := by
    unfold Throttle.Unthrottled
    simp only [decide_eq_false_iff_not]
    omega
  have h1 : subU64 t.current_value v = t.current_value - v :=
    DatasetWriterDirectoryQueue.subU64_of_le hv (by omega)
  have h2 : addU64 t.in_waiting (t.current_value - v) = t.in_waiting + (t.current_value - v) := by
    unfold addU64
    exact Nat.mod_eq_of_lt (by omega)
  unfold Throttle.Release
  simp only [hu, Bool.false_eq_true, if_false, h1, h2, gt_iff_lt]
  constructor
  · intro h
    rw [if_pos h]
  · intro h
    rw [if_neg h]

theorem writer_balanced_start (max : Nat) (h : max < 2 ^ 64) : (start max).Balanced max := by
  refine ⟨rfl, rfl, Nat.zero_le _, ?_⟩
  show 0 + max < 2 ^ 64
  omega

theorem writer_balanced_call {max : Nat} (hmax : 0 < max) {l l' : WriterThrottleLedger}
    {c : WriterThrottleCall} (hb : l.Balanced max) (h : l.call c = some l') :
    l'.Balanced max := by
  obtain ⟨hm, hsum, hle, hw⟩ := hb
  cases c with
  | acquire v =>
    simp only [call] at h
    by_cases hv : v + l.throttle.max_value < 2 ^ 64
    · rw [if_pos hv] at h
      injection h with h
      obtain ⟨ha, hd⟩ := Acquire_cases l.throttle v (by omega) (by omega) hv
      have h1 : addU64 v l.throttle.current_value = v + l.throttle.current_value := by
        unfold addU64
        exact Nat.mod_eq_of_lt (by omega)
      rw [h1] at h
      by_cases hfit : v + l.throttle.current_value ≤ l.throttle.max_value
      · rw [ha hfit, if_neg (by omega)] at h
        subst h
        refine ⟨hm, ?_, ?_, hw⟩
        · show l.throttle.current_value + v = (v :: l.reserved).sum
          rw [List.sum_cons, hsum]
          omega
        · show l.throttle.current_value + v ≤ max
          omega
      · rw [hd (by omega), if_pos (by omega)] at h
        subst h
        refine ⟨hm, hsum, hle, ?_⟩
        show v + max < 2 ^ 64
        omega
    · rw [if_neg hv] at h
      exact absurd h (by simp)
  | release v =>
    simp only [call] at h
    by_cases hv : v ∈ l.reserved
    · rw [if_pos hv] at h
      injection h with h
      have he : v + (l.reserved.erase v).sum = l.reserved.sum := List.sum_erase hv
      have hvle : v ≤ l.throttle.current_value := by omega
      obtain ⟨hc, hn⟩ := Release_cases l.throttle v (by omega) hvle (by omega) (by omega)
      by_cases hfit :
          0 < l.throttle.in_waiting ∧
            l.throttle.in_waiting + (l.throttle.current_value - v) ≤ l.throttle.max_value
      · rw [hc hfit] at h
        subst h
        refine ⟨hm, ?_, ?_, ?_⟩
        · show l.throttle.current_value - v = (l.reserved.erase v).sum
          omega
        · show l.throttle.current_value - v ≤ max
          omega
        · show 0 + max < 2 ^ 64
          omega
      · rw [hn hfit] at h
        subst h
        refine ⟨hm, ?_, ?_, hw⟩
        · show l.throttle.current_value - v = (l.reserved.erase v).sum
          omega
        · show l.throttle.current_value - v ≤ max
          omega
    · rw [if_neg hv] at h
      exact absurd h (by simp)

theorem writer_balanced_run {max : Nat} (hmax : 0 < max) :
    ∀ (calls : List WriterThrottleCall) (l l' : WriterThrottleLedger),
      l.Balanced max → l.run calls = some l' → l'.Balanced max := by
  intro calls
  induction calls with
  | nil =>
    intro l l' hb h
    simp only [run, Option.some.injEq] at h
    subst h
    exact hb
  | cons c cs ih =>
    intro l l' hb h
    simp only [run] at h
    cases hc : l.call c with
    | none => rw [hc] at h; exact absurd h (by simp)
    | some l₁ =>
      rw [hc] at h
      exact ih l₁ l' (writer_balanced_call hmax hb hc) h

/-- C22, as amended. On a writer throttle of limit `max` with `0 < max < 2 ^ 64`, after
every sequence of `Acquire` and `Release` calls in which every amount `v` acquired has
`v + max < 2 ^ 64` (the `uint64_t` sum `values + current_value_` does not wrap) and each
`Release` returns an amount that an earlier `Acquire` added and that was not released
yet, the reserved total
`current_value` is the sum of the amounts not yet released and is at most `max`. In
such a state `Acquire(v)` adds `v` exactly when `v + current_value ≤ max`, and otherwise
only records the waiter; `Release(v)` subtracts `v`, and finishes the backpressure
future (clearing the waiter) exactly when a waiter is recorded and
`in_waiting + current_value ≤ max` holds after the subtraction. -/
theorem writer_throttle_reserved_within_limit (max : Nat) (hmax : 0 < max)
    (hmax64 : max < 2 ^ 64) (calls : List WriterThrottleCall) (l : WriterThrottleLedger)
    (h : (start max).run calls = some l) :
    l.throttle.current_value ≤ max ∧
    l.throttle.current_value = l.reserved.sum ∧
    (∀ v, v + max < 2 ^ 64 →
      (v + l.throttle.current_value ≤ max →
        (l.throttle.Acquire v).1
          = { l.throttle with current_value := l.throttle.current_value + v }) ∧
      (max < v + l.throttle.current_value →
        (l.throttle.Acquire v).1
          = { l.throttle with in_waiting := v, backpressure_finished := false })) ∧
    (∀ v ∈ l.reserved,
      (0 < l.throttle.in_waiting ∧
          l.throttle.in_waiting + (l.throttle.current_value - v) ≤ max →
        l.throttle.Release v
          = { l.throttle with current_value := l.throttle.current_value - v, in_waiting := 0,
                              backpressure_finished := true }) ∧
      (¬ (0 < l.throttle.in_waiting ∧
          l.throttle.in_waiting + (l.throttle.current_value - v) ≤ max) →
        l.throttle.Release v
          = { l.throttle with current_value := l.throttle.current_value - v })) := by
  obtain ⟨hm, hsum, hle, hw⟩ := writer_balanced_run hmax calls _ l (writer_balanced_start max hmax64) h
  refine ⟨hle, hsum, ?_, ?_⟩
  · intro v hv
    obtain ⟨ha, hd⟩ := Acquire_cases l.throttle v (by omega) (by omega) (by omega)
    constructor
    · intro hfit
      rw [ha (by omega)]
    · intro hfit
      rw [hd (by omega)]
  · intro v hv
    have he : v + (l.reserved.erase v).sum = l.reserved.sum := List.sum_erase hv
    obtain ⟨hc, hn⟩ := Release_cases l.throttle v (by omega) (by omega) (by omega) (by omega)
    constructor
    · intro hfit
      exact hc (by rw [hm]; exact hfit)
    · intro hfit
      exact hn (by rw [hm]; exact hfit)

/-- Counterexample to C22 as stated: a throttle of limit 10 holds 5 and `Acquire` is
called with `2 ^ 64 - 3`. The `uint64_t` sum `values + current_value_` wraps to 2, which
is not above the limit, so the call adds the amount (`current_value_` wraps to 2) and
returns the finished future, although `v + current_value = 2 ^ 64 + 2` exceeds the
limit. -/
theorem acquire_wraps_past_limit :
    (Throttle.make 10).Acquire 5 =
      ({ max_value := 10, in_waiting := 0, current_value := 5, backpressure_finished := true },
        true) ∧
    ((Throttle.make 10).Acquire 5).1.Acquire 18446744073709551613 =
      ({ max_value := 10, in_waiting := 0, current_value := 2, backpressure_finished := true },
        true) ∧
    (18446744073709551613 : Nat) < 2 ^ 64 ∧
    (10 : Nat) < 18446744073709551613 + 5 := by
  decide

/-- Witness for C22: limit 10; six rows are reserved, six more are refused, the first
six are released. -/
theorem writer_throttle_reserved_within_limit_witness :
    (0 : Nat) < 10 ∧ (10 : Nat) < 2 ^ 64 ∧
    (start 10).run [.acquire 6, .acquire 6, .release 6]
      = some
        { throttle :=
            { max_value := 10, in_waiting := 0, current_value := 0,
              backpressure_finished := true }
          reserved := [] } ∧
    (0 : Nat) ≤ 10 :=
  have hrun : (start 10).run [.acquire 6, .acquire 6, .release 6]
      = some
        { throttle :=
            { max_value := 10, in_waiting := 0, current_value := 0,
              backpressure_finished := true }
          reserved := [] } := by decide
  ⟨by decide, by decide, hrun,
    (writer_throttle_reserved_within_limit 10 (by decide) (by decide) _ _ hrun).1⟩

end WriterThrottleLedger

namespace DatasetWriterFileQueue

theorem PopStagedBatchLoop_split (G : Nat) (next : RecordBatch) (rest : List RecordBatch) :
    ∀ (pre : List RecordBatch) (n : Nat) (acc : List RecordBatch),
      n + pre.flatten.length < G → G < n + pre.flatten.length + next.length →
      PopStagedBatchLoop G (pre ++ next :: rest) n acc
        = (acc ++ pre ++ [next.take (G - n - pre.flatten.length)],
            next.drop (G - n - pre.flatten.length) :: rest) := by
  intro pre
  induction pre with
  | nil =>
    intro n acc h1 h2
    simp only [List.flatten_nil, List.length_nil, Nat.add_zero] at h1 h2
    simp only [List.nil_append, List.flatten_nil, List.length_nil, Nat.sub_zero,
      List.append_nil]
    rw [PopStagedBatchLoop, if_neg (by omega)]
  | cons p ps ih =>
    intro n acc h1 h2
    simp only [List.flatten_cons, List.length_append] at h1 h2
    simp only [List.cons_append, List.flatten_cons, List.length_append]
    rw [PopStagedBatchLoop, if_pos (by omega), if_neg (by omega),
      ih (n + p.length) (acc ++ [p]) (by omega) (by omega)]
    have e : G - (n + p.length) - ps.flatten.length = G - n - (p.length + ps.flatten.length) := by
      omega
    rw [e]
    simp

theorem PopStagedBatchLoop_ne_nil (G : Nat) :
    ∀ (staged : List RecordBatch) (n : Nat) (acc : List RecordBatch),
      staged ≠ [] ∨ acc ≠ [] → (PopStagedBatchLoop G staged n acc).1 ≠ [] := by
  intro staged
  induction staged with
  | nil =>
    intro n acc h
    rcases h with h | h
    · exact absurd rfl h
    · simpa [PopStagedBatchLoop] using h
  | cons next rest ih =>
    intro n acc _
    rw [PopStagedBatchLoop]
    split
    · split
      · simp
      · exact ih _ _ (Or.inr (by simp))
    · simp

/-- C29. `PopStagedBatch` on a non-empty staged buffer holding `T` rows, with maximum
group size `G`: the loop collects at least one batch, the group returned is the first
`min T G` rows of the concatenation of the buffer (so it has exactly `min T G` rows),
and the buffer left behind concatenates to the remaining rows, in order. When the
boundary `G` falls strictly inside a batch, that batch is split and its remainder, which
is not empty, is the new front of the buffer, before the batches that followed it. -/
theorem pop_staged_batch_takes_first_rows (options : FileSystemDatasetWriteOptions)
    (q : DatasetWriterFileQueue) (hne : q.staged_batches ≠ []) :
    (PopStagedBatchLoop options.max_rows_per_group q.staged_batches 0 []).1 ≠ [] ∧
    (q.PopStagedBatch options).2
      = q.staged_batches.flatten.take
          (min q.staged_batches.flatten.length options.max_rows_per_group) ∧
    (q.PopStagedBatch options).2.length
      = min q.staged_batches.flatten.length options.max_rows_per_group ∧
    (q.PopStagedBatch options).1.staged_batches.flatten
      = q.staged_batches.flatten.drop
          (min q.staged_batches.flatten.length options.max_rows_per_group) ∧
    (∀ pre next rest, q.staged_batches = pre ++ next :: rest →
      pre.flatten.length < options.max_rows_per_group →
      options.max_rows_per_group < pre.flatten.length + next.length →
      (q.PopStagedBatch options).1.staged_batches
        = next.drop (options.max_rows_per_group - pre.flatten.length) :: rest ∧
      next.drop (options.max_rows_per_group - pre.flatten.length) ≠ []) := by
  have hcat := PopStagedBatchLoop_flatten options.max_rows_per_group q.staged_batches 0 []
  have hlen := PopStagedBatchLoop_length options.max_rows_per_group q.staged_batches 0 []
    (Nat.zero_le _) rfl
  simp only [List.flatten_nil, List.nil_append, Nat.zero_add] at hcat hlen
  have key : ∀ (a b l : List Nat) (k : Nat), a ++ b = l → a.length = k →
      a = l.take k ∧ b = l.drop k := by
    intro a b l k h1 h2
    subst h1
    subst h2
    exact ⟨(List.take_left' rfl).symm, (List.drop_left' rfl).symm⟩
  refine ⟨PopStagedBatchLoop_ne_nil _ _ _ _ (Or.inl hne), ?_, hlen, ?_, ?_⟩
  · exact (key _ _ _ _ hcat hlen).1
  · exact (key _ _ _ _ hcat hlen).2
  · intro pre next rest hq h1 h2
    have hs := PopStagedBatchLoop_split options.max_rows_per_group next rest pre 0 []
      (by omega) (by omega)
    rw [Nat.sub_zero] at hs
    constructor
    · show (PopStagedBatchLoop options.max_rows_per_group q.staged_batches 0 []).2 = _
      rw [hq, hs]
    · intro h0
      have := congrArg List.length h0
      simp only [List.length_drop, List.length_nil] at this
      omega

/-- Witness for C29: a buffer of batches of 2 and 3 rows and groups of at most 4 rows;
the second batch straddles the boundary. -/
theorem pop_staged_batch_takes_first_rows_witness :
    ([[1, 2], [3, 4, 5]] : List RecordBatch) ≠ [] ∧
    Eq
      (PopStagedBatch
        { base_dir := "out", basename_template := "part-{i}.arrow",
          has_file_write_options := true, has_filesystem := true, max_open_files := 0,
          max_rows_per_file := 0, min_rows_per_group := 1, max_rows_per_group := 4,
          existing_data_behavior := .kOverwriteOrIgnore, create_dir := true }
        { staged_batches := [[1, 2], [3, 4, 5]], rows_currently_staged := 5,
          filename := "out/part-0.arrow", scheduled := [], finished := false }).2
      (List.take (min 5 4) [1, 2, 3, 4, 5]) :=
  ⟨by decide,
    (pop_staged_batch_takes_first_rows
        { base_dir := "out", basename_template := "part-{i}.arrow",
          has_file_write_options := true, has_filesystem := true, max_open_files := 0,
          max_rows_per_file := 0, min_rows_per_group := 1, max_rows_per_group := 4,
          existing_data_behavior := .kOverwriteOrIgnore, create_dir := true }
        { staged_batches := [[1, 2], [3, 4, 5]], rows_currently_staged := 5,
          filename := "out/part-0.arrow", scheduled := [], finished := false }
        (by decide)).2.1⟩

theorem PushLoop_exit (options : FileSystemDatasetWriteOptions) (ws : DatasetWriterState) :
    ∀ (fuel : Nat) (q : DatasetWriterFileQueue) (d : Nat)
      (r : DatasetWriterFileQueue × Nat),
      PushLoop options ws fuel q d = some r →
      r.1.staged_batches = [] ∨
        (ws.StagingFull = false ∧ r.1.rows_currently_staged < options.min_rows_per_group) := by
  intro fuel
  induction fuel with
  | zero => intro q d r h; simp [PushLoop] at h
  | succ fuel ih =>
    intro q d r h
    rw [PushLoop] at h
    split at h
    · exact ih _ _ _ h
    · rename_i hcond
      simp only [Option.some.injEq] at h
      subst h
      show q.staged_batches = [] ∨ _
      cases hs : q.staged_batches with
      | nil => exact Or.inl rfl
      | cons b bs =>
        right
        simp only [hs, List.isEmpty_cons, Bool.not_false, Bool.true_and, Bool.or_eq_true,
          decide_eq_true_eq, not_or, ge_iff_le, not_le, Bool.not_eq_true] at hcond
        exact hcond

/-- C30. For every file queue, every batch and every maximum group size `G ≥ 1`, the
loop of `Push` ends and `Push` returns. On return: when `StagingFull` held (the staged
rows of the whole writer had reached the ceiling when `Push` was called) the staged
buffer is empty and every row that was staged, the pushed batch included, has been
scheduled, whatever the minimum `M`; otherwise the buffer is empty or the staged-row
counter of the queue is below `M`. -/
theorem push_loop_ends_below_minimum (options : FileSystemDatasetWriteOptions)
    (ws : DatasetWriterState) (q : DatasetWriterFileQueue) (batch : RecordBatch)
    (hG : 1 ≤ options.max_rows_per_group) :
    ∃ q' ws', q.Push options ws batch = some (q', ws') ∧
      (ws.StagingFull = true →
        q'.staged_batches = [] ∧
        ∃ gs, q'.scheduled = q.scheduled ++ gs ∧
          gs.flatten = q.staged_batches.flatten ++ batch) ∧
      (ws.StagingFull = false →
        q'.staged_batches = [] ∨ q'.rows_currently_staged < options.min_rows_per_group) := by
  obtain ⟨⟨q', ws'⟩, h⟩ := Push_total options ws q batch hG
  refine ⟨q', ws', h, ?_, ?_⟩
  · intro hfull
    have hex : q'.staged_batches = [] := by
      unfold Push at h
      dsimp only at h
      split at h
      · simp at h
      · rename_i q₁ d₁ hloop
        simp only [Option.some.injEq, Prod.mk.injEq] at h
        obtain ⟨rfl, _⟩ := h
        rcases PushLoop_exit options ws _ _ _ _ hloop with h1 | h1
        · exact h1
        · rw [hfull] at h1
          exact absurd h1.1 (by simp)
    refine ⟨hex, ?_⟩
    obtain ⟨gs, h1, h2, _⟩ := Push_spec h
    refine ⟨gs, h1, ?_⟩
    rw [hex] at h2
    simpa using h2
  · intro hfull
    unfold Push at h
    dsimp only at h
    split at h
    · simp at h
    · rename_i q₁ d₁ hloop
      simp only [Option.some.injEq, Prod.mk.injEq] at h
      obtain ⟨rfl, _⟩ := h
      rcases PushLoop_exit options ws _ _ _ _ hloop with h1 | h1
      · exact Or.inl h1
      · exact Or.inr h1.2

/-- Witness for C30: with the staging ceiling reached, a push of two rows onto a queue
holding one row schedules all three although the minimum is 10. -/
theorem push_loop_ends_below_minimum_witness :
    (1 : Nat) ≤ 4 ∧
    ∃ q' ws',
      Eq
        (Push
          { base_dir := "out", basename_template := "part-{i}.arrow",
            has_file_write_options := true, has_filesystem := true, max_open_files := 0,
            max_rows_per_file := 0, min_rows_per_group := 4, max_rows_per_group := 4,
            existing_data_behavior := .kOverwriteOrIgnore, create_dir := true }
          (DatasetWriterState.make 0 0 0)
          { staged_batches := [[1]], rows_currently_staged := 1,
            filename := "out/part-0.arrow", scheduled := [], finished := false }
          [2, 3])
        (some (q', ws')) ∧
      q'.staged_batches = [] :=
  (push_loop_ends_below_minimum
      { base_dir := "out", basename_template := "part-{i}.arrow",
        has_file_write_options := true, has_filesystem := true, max_open_files := 0,
        max_rows_per_file := 0, min_rows_per_group := 4, max_rows_per_group := 4,
        existing_data_behavior := .kOverwriteOrIgnore, create_dir := true }
      (DatasetWriterState.make 0 0 0)
      { staged_batches := [[1]], rows_currently_staged := 1,
        filename := "out/part-0.arrow", scheduled := [], finished := false }
      [2, 3] (by decide)).elim fun q' h =>
    h.elim fun ws' h => ⟨by decide, q', ws', h.1, (h.2.1 (by decide)).1⟩

end DatasetWriterFileQueue

end Dataset
end Arrow

namespace Arrow
namespace Dataset

/-! ## Validation of the row limits, and four executions of the writer -/

theorem ValidateOptions_iff (options : FileSystemDatasetWriteOptions) :
    ValidateOptions options = .OK ↔
      ValidateBasenameTemplate options.basename_template = .OK ∧
      options.has_file_write_options = true ∧ options.has_filesystem = true ∧
      1 ≤ options.max_rows_per_group ∧
      options.min_rows_per_group ≤ options.max_rows_per_group ∧
      (options.max_rows_per_file = 0 ∨
        options.max_rows_per_group ≤ options.max_rows_per_file) := by
  unfold ValidateOptions
  rcases ValidateBasenameTemplate_cases options.basename_template with ht | ⟨msg, ht⟩
  · rw [ht]
    rw [if_neg (show ¬ ((!Status.OK.ok) = true) by decide)]
    by_cases h1 : options.has_file_write_options = true
    · rw [if_neg (by simp [h1])]
      by_cases h2 : options.has_filesystem = true
      · rw [if_neg (by simp [h2])]
        by_cases h3 : options.max_rows_per_group ≤ 0
        · rw [if_pos h3]
          constructor
          · intro h; exact absurd h (by simp)
          · intro h; omega
        · rw [if_neg h3]
          by_cases h4 : options.max_rows_per_group < options.min_rows_per_group
          · rw [if_pos h4]
            constructor
            · intro h; exact absurd h (by simp)
            · intro h; omega
          · rw [if_neg h4]
            by_cases h5 : options.max_rows_per_file > 0 ∧
                options.max_rows_per_file < options.max_rows_per_group
            · rw [if_pos h5]
              constructor
              · intro h; exact absurd h (by simp)
              · intro h; omega
            · rw [if_neg h5]
              constructor
              · intro _
                refine ⟨rfl, h1, h2, by omega, by omega, ?_⟩
                by_cases h0 : options.max_rows_per_file = 0
                · exact Or.inl h0
                · right
                  by_contra hlt
                  exact h5 ⟨by omega, by omega⟩
              · intro _; rfl
      · rw [if_pos (by simpa using h2)]
        constructor
        · intro h; exact absurd h (by simp)
        · intro h; exact absurd h.2.2.1 h2
    · rw [if_pos (by simpa using h1)]
      constructor
      · intro h; exact absurd h (by simp)
      · intro h; exact absurd h.2.1 h1
  · rw [ht]
    rw [if_pos (show (!(Status.Invalid msg).ok) = true from rfl)]
    constructor
    · intro h; exact absurd h (by simp)
    · intro h; exact absurd h.1 (by simp)

theorem ValidateOptions_cases (options : FileSystemDatasetWriteOptions) :
    ValidateOptions options = .OK ∨ ∃ msg, ValidateOptions options = .Invalid msg := by
  unfold ValidateOptions
  rcases ValidateBasenameTemplate_cases options.basename_template with ht | ⟨msg, ht⟩
  · rw [ht]
    rw [if_neg (show ¬ ((!Status.OK.ok) = true) by decide)]
    split
    · exact Or.inr ⟨_, rfl⟩
    · split
      · exact Or.inr ⟨_, rfl⟩
      · split
        · exact Or.inr ⟨_, rfl⟩
        · split
          · exact Or.inr ⟨_, rfl⟩
          · split
            · exact Or.inr ⟨_, rfl⟩
            · exact Or.inl rfl
  · rw [ht]
    rw [if_pos (show (!(Status.Invalid msg).ok) = true from rfl)]
    exact Or.inr ⟨msg, rfl⟩

theorem ValidateOptions_ok_iff (options : FileSystemDatasetWriteOptions) :
    (ValidateOptions options).ok = true ↔ ValidateOptions options = .OK := by
  rcases ValidateOptions_cases options with h | ⟨msg, h⟩
  · rw [h]; exact ⟨fun _ => rfl, fun _ => rfl⟩
  · rw [h]
    constructor
    · intro h'; exact absurd h' Bool.false_ne_true
    · intro h'; exact absurd h' (by simp)

/-- C38. `ValidateOptions` does not succeed when `max_rows_per_group = 0`, nor when
`0 < max_rows_per_file < max_rows_per_group`. A writer that `DatasetWriter::Make`
constructed has `G ≥ 1`, `M ≤ G`, and `F = 0` or `G ≤ F` (with `G`, `M`, `F` the
maximum and minimum rows per group and the maximum rows per file). With a valid
template, file write options and a file system, these conditions suffice for
`ValidateOptions` to return OK. -/
theorem validate_options_row_limits (filesystem : FileSystem)
    (options : FileSystemDatasetWriteOptions) (max_rows_queued : Nat) :
    (options.max_rows_per_group = 0 → (ValidateOptions options).ok = false) ∧
    (0 < options.max_rows_per_file →
      options.max_rows_per_file < options.max_rows_per_group →
      (ValidateOptions options).ok = false) ∧
    (∀ w, DatasetWriter.Make filesystem options max_rows_queued = .ok w →
      w.write_options = options ∧
      1 ≤ options.max_rows_per_group ∧
      options.min_rows_per_group ≤ options.max_rows_per_group ∧
      (options.max_rows_per_file = 0 ∨
        options.max_rows_per_group ≤ options.max_rows_per_file)) ∧
    (ValidateBasenameTemplate options.basename_template = .OK →
      options.has_file_write_options = true → options.has_filesystem = true →
      1 ≤ options.max_rows_per_group →
      options.min_rows_per_group ≤ options.max_rows_per_group →
      (options.max_rows_per_file = 0 ∨
        options.max_rows_per_group ≤ options.max_rows_per_file) →
      ValidateOptions options = .OK) := by
  have hiff := ValidateOptions_iff options
  have hok := ValidateOptions_ok_iff options
  refine ⟨?_, ?_, ?_, ?_⟩
  · intro h0
    cases hv : (ValidateOptions options).ok with
    | false => rfl
    | true =>
      have := (hiff.mp (hok.mp hv)).2.2.2.1
      omega
  · intro h1 h2
    cases hv : (ValidateOptions options).ok with
    | false => rfl
    | true =>
      have := (hiff.mp (hok.mp hv)).2.2.2.2.2
      omega
  · intro w hw
    unfold DatasetWriter.Make at hw
    by_cases hv : (ValidateOptions options).ok = true
    · rw [if_neg (by simp [hv])] at hw
      have h := hiff.mp (hok.mp hv)
      refine ⟨?_, h.2.2.2.1, h.2.2.2.2.1, h.2.2.2.2.2⟩
      split at hw
      · exact absurd hw (by simp)
      · injection hw with hw
        rw [← hw]
        rfl
    · rw [if_pos (by simpa using hv)] at hw
      exact absurd hw (by simp)
  · intro h1 h2 h3 h4 h5 h6
    exact hiff.mpr ⟨h1, h2, h3, h4, h5, h6⟩

namespace Throttle

/-- C33, amended. On a writer throttle with a limit above 0 on which no request is
waiting (the backpressure future is finished), `Acquire(v)` returns a finished future
exactly when it reserved `v`, that is when the throttle afterwards is the one before
with `v` added to `current_value` (as a `uint64_t`); this is the case exactly when the
`uint64_t` sum `values + current_value_` is not above the limit. When it returns a
future that is not finished, `current_value` is unchanged and the request is recorded
as the waiter. On a throttle that holds at most its limit, the future returned is
finished exactly when `current_value` afterwards is the value before plus `v`. -/
theorem acquire_finished_iff_reserved (t : Throttle) (v : Nat) (hmax : 0 < t.max_value)
    (hwait : t.backpressure_finished = true) :
    ((t.Acquire v).2 = true ↔
      (t.Acquire v).1 = { t with current_value := addU64 t.current_value v }) ∧
    ((t.Acquire v).2 = true ↔ addU64 v t.current_value ≤ t.max_value) ∧
    ((t.Acquire v).2 = false →
      (t.Acquire v).1 = { t with in_waiting := v, backpressure_finished := false } ∧
      (t.Acquire v).1.current_value = t.current_value) ∧
    (t.current_value ≤ t.max_value → t.max_value < 2 ^ 64 → v < 2 ^ 64 →
      ((t.Acquire v).2 = true ↔
        (t.Acquire v).1.current_value = addU64 t.current_value v)) := by
  have hu : t.Unthrottled = false := by
    unfold Unthrottled
    simp only [decide_eq_false_iff_not]
    omega
  by_cases hfit : addU64 v t.current_value > t.max_value
  · have hacq : t.Acquire v
        = ({ t with in_waiting := v, backpressure_finished := false }, false) := by
      unfold Acquire
      rw [hu, if_neg (by simp), if_pos hfit]
    rw [hacq]
    refine ⟨⟨fun h => absurd h (by simp), fun h => ?_⟩,
      ⟨fun h => absurd h (by simp), fun h => absurd hfit (by omega)⟩,
      fun _ => ⟨rfl, rfl⟩, fun hcur hm hv => ⟨fun h => absurd h (by simp), fun h => ?_⟩⟩
    · have hb := congrArg Throttle.backpressure_finished h
      simp only at hb
      rw [hwait] at hb
      exact absurd hb (by simp)
    · exfalso
      simp only at h
      unfold addU64 at h hfit
      by_cases hv0 : v = 0
      · subst hv0
        rw [Nat.zero_add, Nat.mod_eq_of_lt (by omega)] at hfit
        omega
      · by_cases hlt : t.current_value + v < 2 ^ 64
        · rw [Nat.mod_eq_of_lt hlt] at h
          omega
        · have hsub : (t.current_value + v) % 2 ^ 64 = t.current_value + v - 2 ^ 64 := by
            rw [Nat.mod_eq_sub_mod (by omega), Nat.mod_eq_of_lt (by omega)]
          omega
  · have hacq : t.Acquire v
        = ({ t with current_value := addU64 t.current_value v }, true) := by
      unfold Acquire
      rw [hu, if_neg (by simp), if_neg hfit, hwait]
    rw [hacq]
    exact ⟨⟨fun _ => rfl, fun _ => rfl⟩, ⟨fun _ => by omega, fun _ => rfl⟩,
      fun h => absurd h (by simp), fun _ _ _ => ⟨fun _ => rfl, fun _ => rfl⟩⟩

/-- Witness for C33: a throttle of limit 10 that holds 8, with no request waiting;
`Acquire(5)` does not fit and returns a future that is not finished. -/
theorem acquire_finished_iff_reserved_witness :
    (0 : Nat) < 10 ∧
    ((({ max_value := 10, in_waiting := 0, current_value := 8,
          backpressure_finished := true } : Throttle).Acquire 5).2 = true ↔
      addU64 5 8 ≤ 10) ∧
    (({ max_value := 10, in_waiting := 0, current_value := 8,
          backpressure_finished := true } : Throttle).Acquire 1).2 = true :=
  ⟨by decide,
    (acquire_finished_iff_reserved
      { max_value := 10, in_waiting := 0, current_value := 8, backpressure_finished := true }
      5 (by decide) rfl).2.1,
    by decide⟩

/-- Counterexample to C33 as stated: a throttle of limit 10 holds 8, then refuses 5 (a
waiter is recorded and the backpressure future is pending); the next `Acquire(1)` fits,
adds 1 to `current_value` (now 9), and returns the pending future of the refused
call. -/
theorem acquire_reserves_and_returns_pending_future :
    ((make 10).Acquire 8).1 =
      { max_value := 10, in_waiting := 0, current_value := 8, backpressure_finished := true } ∧
    (((make 10).Acquire 8).1.Acquire 5).1 =
      { max_value := 10, in_waiting := 5, current_value := 8, backpressure_finished := false } ∧
    ((((make 10).Acquire 8).1.Acquire 5).1.Acquire 1) =
      ({ max_value := 10, in_waiting := 5, current_value := 9, backpressure_finished := false },
        false) := by
  decide

end Throttle

namespace DatasetWriterImpl

/-- C34, at the failing input. One file may be open, a file takes 3 rows, and a batch of
4 rows is written: the first 3 rows open the file, which is closed for the remainder
(the permit is released only when the file is torn down); the remaining row needs a new
file, the permit is refused, no directory queue has `rows_written > 0`, and
`CloseLargestFile` dereferences the null `largest`. -/
theorem close_largest_file_finds_no_queue :
    ((make
      { base_dir := "out", basename_template := "part-{i}.arrow",
        has_file_write_options := true, has_filesystem := true, max_open_files := 1,
        max_rows_per_file := 3, min_rows_per_group := 1, max_rows_per_group := 2,
        existing_data_behavior := .kOverwriteOrIgnore, create_dir := true }
      0).WriteRecordBatch [1, 2, 3, 4] "" "").map
        (fun r => (r.2, r.1.directory_queues.map (fun kq => kq.2.rows_written),
          r.1.writer_state.open_files_throttle, r.1.CloseLargestFile.map (·.isSome)))
      = some (.undefined, [0],
          { max_value := 1, in_waiting := 1, current_value := 1,
            backpressure_finished := false },
          some false) := by
  decide!

/-- C35, at the failing input. A file takes 3 rows; a batch of 3 rows fills the file and
a batch of one row follows: `NextWritableChunk` yields a chunk without rows, which
`StartWrite` records as a write of 0 rows to the full file and the file queue schedules,
before the row is written to the next file. -/
theorem zero_row_chunk_is_written :
    ((make
      { base_dir := "out", basename_template := "part-{i}.arrow",
        has_file_write_options := true, has_filesystem := true, max_open_files := 0,
        max_rows_per_file := 3, min_rows_per_group := 1, max_rows_per_group := 2,
        existing_data_behavior := .kOverwriteOrIgnore, create_dir := true }
      0).run [.WriteRecordBatch [1, 2, 3] "" "", .WriteRecordBatch [4] "" ""]).map
        (fun w => w.directory_queues.map
          (fun kq => (kq.2.tasks, kq.2.closed_files.map (·.scheduled))))
      = some [([⟨"out/part-0.arrow", 3⟩, ⟨"out/part-0.arrow", 0⟩, ⟨"out/part-1.arrow", 1⟩],
          [[[1, 2], [3], []]])] := by
  decide!

/-- C32, at the failing input. At most 100 rows in flight and one open file. Two rows
are written to directory `a`; one row for directory `b` is reserved on the
rows-in-flight throttle, the permit for its file is refused and the pass stops: 3 rows
are reserved, 2 were handed to a file queue. The resumed pass reserves the row again.
When all 3 rows that were handed to file queues have been written and released, 1 row
is still reserved. -/
theorem rows_stay_reserved_after_denied_permit :
    ((make
      { base_dir := "out", basename_template := "part-{i}.arrow",
        has_file_write_options := true, has_filesystem := true, max_open_files := 1,
        max_rows_per_file := 0, min_rows_per_group := 1, max_rows_per_group := 10,
        existing_data_behavior := .kOverwriteOrIgnore, create_dir := true }
      100).run [.WriteRecordBatch [1, 2] "a" "", .WriteRecordBatch [3] "b" ""]).map
        (fun w => (w.writer_state.rows_in_flight_throttle.current_value,
          w.directory_queues.map (fun kq => kq.2.tasks.map (·.num_rows))))
      = some (3, [[2], []]) ∧
    ((make
      { base_dir := "out", basename_template := "part-{i}.arrow",
        has_file_write_options := true, has_filesystem := true, max_open_files := 1,
        max_rows_per_file := 0, min_rows_per_group := 1, max_rows_per_group := 10,
        existing_data_behavior := .kOverwriteOrIgnore, create_dir := true }
      100).run [.WriteRecordBatch [1, 2] "a" "", .WriteRecordBatch [3] "b" "",
        .ReleaseRows 2, .ReleaseFile, .DoWriteRecordBatch [3] "out/b" "",
        .ReleaseRows 1]).map
        (fun w => (w.writer_state.rows_in_flight_throttle.current_value,
          w.directory_queues.map (fun kq => kq.2.tasks.map (·.num_rows))))
      = some (1, [[2], [1]]) := by
  constructor <;> decide!

end DatasetWriterImpl

/-! ## The staged-row counters of one write -/

namespace DatasetWriterFileQueue

theorem PushLoop_delta (options : FileSystemDatasetWriteOptions) (ws : DatasetWriterState) :
    ∀ (fuel : Nat) (q : DatasetWriterFileQueue) (d : Nat)
      (r : DatasetWriterFileQueue × Nat),
      PushLoop options ws fuel q d = some r →
      (r.1.rows_currently_staged + d) % 2 ^ 64 = (q.rows_currently_staged + r.2) % 2 ^ 64 := by
  intro fuel
  induction fuel with
  | zero => intro q d r h; simp [PushLoop] at h
  | succ fuel ih =>
    intro q d r h
    rw [PushLoop] at h
    split at h
    · obtain ⟨g, _, hpop, _, _, hrcs, _⟩ := PopAndDeliver_spec options q
      have h1 := ih _ _ _ h
      rw [hrcs, hpop] at h1
      unfold subU64 at h1
      omega
    · simp only [Option.some.injEq] at h
      subst h
      rfl

theorem Push_count {options : FileSystemDatasetWriteOptions} {ws ws' : DatasetWriterState}
    {q q' : DatasetWriterFileQueue} {batch : RecordBatch}
    (h : q.Push options ws batch = some (q', ws')) :
    (ws'.staged_rows_count + q.rows_currently_staged) % 2 ^ 64
      = (ws.staged_rows_count + q'.rows_currently_staged) % 2 ^ 64 ∧
    ws'.staged_rows_count < 2 ^ 64 := by
  unfold Push at h
  dsimp only at h
  split at h
  · simp at h
  · rename_i q₁ d₁ hloop
    simp only [Option.some.injEq, Prod.mk.injEq] at h
    obtain ⟨rfl, rfl⟩ := h
    have h1 := PushLoop_delta options ws _ _ _ _ hloop
    have h2 : (q₁.rows_currently_staged + batch.length) % 2 ^ 64
        = (addU64 q.rows_currently_staged batch.length + d₁) % 2 ^ 64 := h1
    show (addU64 ws.staged_rows_count d₁ + q.rows_currently_staged) % 2 ^ 64
        = (ws.staged_rows_count + q₁.rows_currently_staged) % 2 ^ 64 ∧
      addU64 ws.staged_rows_count d₁ < 2 ^ 64
    unfold addU64 at h2 ⊢
    omega

theorem Finish_count {options : FileSystemDatasetWriteOptions} {ws ws' : DatasetWriterState}
    {q q' : DatasetWriterFileQueue} (h : q.Finish options ws = some (q', ws')) :
    ws'.staged_rows_count = subU64 ws.staged_rows_count q.rows_currently_staged := by
  unfold Finish at h
  dsimp only at h
  split at h
  · simp at h
  · simp only [Option.some.injEq, Prod.mk.injEq] at h
    obtain ⟨_, rfl⟩ := h
    rfl

end DatasetWriterFileQueue

namespace FileQueues

theorem sum_map_set {α : Type} (f : α → Nat) :
    ∀ (l : List α) (i : Nat) (x y : α), l[i]? = some x →
      ((l.set i y).map f).sum + f x = (l.map f).sum + f y := by
  intro l
  induction l with
  | nil => intro i x y h; simp at h
  | cons a l ih =>
    intro i x y h
    cases i with
    | zero =>
      simp only [List.getElem?_cons_zero, Option.some.injEq] at h
      subst h
      simp only [List.set_cons_zero, List.map_cons, List.sum_cons]
      omega
    | succ i =>
      simp only [List.getElem?_cons_succ] at h
      have := ih i x y h
      simp only [List.set_cons_succ, List.map_cons, List.sum_cons]
      omega

theorem mem_set_cases {α : Type} {l : List α} {i : Nat} {y z : α} (h : z ∈ l.set i y) :
    z = y ∨ z ∈ l := by
  rcases List.mem_or_eq_of_mem_set h with h | h
  · exact Or.inr h
  · exact Or.inl h

theorem Consistent_call {options : FileSystemDatasetWriteOptions} {s s' : FileQueues}
    {c : FileQueuesCall} (hs : Consistent s) (h : call options s c = some s') :
    Consistent s' := by
  obtain ⟨hc, hsum⟩ := hs
  cases c with
  | Open filename =>
    simp only [call, Option.some.injEq] at h
    subst h
    refine ⟨?_, ?_⟩
    · intro q hq
      rcases List.mem_append.mp hq with hq | hq
      · exact hc q hq
      · simp only [List.mem_singleton] at hq
        rw [hq]
        exact DatasetWriterFileQueue.Counted_Start filename
    · show s.2.staged_rows_count = counters (s.1 ++ [DatasetWriterFileQueue.Start filename]) % 2 ^ 64
      rw [hsum]
      simp [counters, DatasetWriterFileQueue.Start]
  | Push i batch =>
    simp only [call] at h
    cases hi : s.1[i]? with
    | none => simp [hi] at h
    | some q =>
      simp only [hi] at h
      split at h
      · simp at h
      · cases hp : q.Push options s.2 batch with
        | none => simp [hp] at h
        | some r =>
          obtain ⟨q', ws'⟩ := r
          simp only [hp, Option.some.injEq] at h
          subst h
          have hq : q ∈ s.1 := List.getElem?_mem hi
          obtain ⟨gs, _, _, _, _, _, h6, _⟩ := DatasetWriterFileQueue.Push_spec hp
          obtain ⟨h1, h2⟩ := DatasetWriterFileQueue.Push_count hp
          have hset := sum_map_set (·.rows_currently_staged) s.1 i q q' hi
          simp only at hset
          refine ⟨?_, ?_⟩
          · intro z hz
            rcases mem_set_cases hz with rfl | hz
            · exact (h6 (hc q hq)).1
            · exact hc z hz
          · show ws'.staged_rows_count = counters (s.1.set i q') % 2 ^ 64
            unfold counters at hsum ⊢
            omega
  | Finish i =>
    simp only [call] at h
    cases hi : s.1[i]? with
    | none => simp [hi] at h
    | some q =>
      simp only [hi] at h
      split at h
      · simp at h
      · cases hp : q.Finish options s.2 with
        | none => simp [hp] at h
        | some r =>
          obtain ⟨q', ws'⟩ := r
          simp only [hp, Option.some.injEq] at h
          subst h
          have hq : q ∈ s.1 := List.getElem?_mem hi
          obtain ⟨gs, _, _, _, h4, _, _, h7, _⟩ := DatasetWriterFileQueue.Finish_spec hp
          have h1 := DatasetWriterFileQueue.Finish_count hp
          have h0 : q'.rows_currently_staged = 0 := h7 (hc q hq)
          have hset := sum_map_set (·.rows_currently_staged) s.1 i q q' hi
          have hqc : q.rows_currently_staged < 2 ^ 64 := by
            have := hc q hq
            unfold DatasetWriterFileQueue.Counted at this
            omega
          refine ⟨?_, ?_⟩
          · intro z hz
            rcases mem_set_cases hz with rfl | hz
            · show z.rows_currently_staged = z.staged_batches.flatten.length % 2 ^ 64
              rw [h0, h4]; rfl
            · exact hc z hz
          · show ws'.staged_rows_count = counters (s.1.set i q') % 2 ^ 64
            unfold counters at hsum ⊢
            rw [h1]
            unfold subU64
            simp only at hset
            omega

theorem Consistent_run {options : FileSystemDatasetWriteOptions} :
    ∀ (calls : List FileQueuesCall) (s s' : FileQueues), Consistent s →
      run options s calls = some s' → Consistent s' := by
  intro calls
  induction calls with
  | nil =>
    intro s s' hs h
    simp only [run, Option.some.injEq] at h
    exact h ▸ hs
  | cons c cs ih =>
    intro s s' hs h
    simp only [run] at h
    cases hc : call options s c with
    | none => simp [hc] at h
    | some s₁ =>
      simp only [hc] at h
      exact ih s₁ s' (Consistent_call hs hc) h

theorem counters_eq_staged :
    ∀ (qs : List DatasetWriterFileQueue), (∀ q ∈ qs, q.Counted) → staged qs < 2 ^ 64 →
      counters qs = staged qs ∧
      ∀ q ∈ qs, q.rows_currently_staged = q.staged_batches.flatten.length := by
  intro qs
  induction qs with
  | nil => intro _ _; exact ⟨rfl, by simp⟩
  | cons q qs ih =>
    intro hc hlt
    have hq : q.rows_currently_staged = q.staged_batches.flatten.length % 2 ^ 64 :=
      hc q (by simp)
    have hlt' : q.staged_batches.flatten.length + staged qs < 2 ^ 64 := by
      simpa [staged] using hlt
    obtain ⟨h1, h2⟩ := ih (fun z hz => hc z (List.mem_cons_of_mem _ hz)) (by omega)
    have hq' : q.rows_currently_staged = q.staged_batches.flatten.length := by
      rw [hq]; exact Nat.mod_eq_of_lt (by omega)
    refine ⟨?_, ?_⟩
    · show (q.rows_currently_staged :: qs.map (·.rows_currently_staged)).sum
        = (q.staged_batches.flatten.length :: qs.map (·.staged_batches.flatten.length)).sum
      simp only [List.sum_cons]
      unfold counters staged at h1
      omega
    · intro z hz
      rcases List.mem_cons.mp hz with rfl | hz
      · exact hq'
      · exact h2 z hz

/-- C36. For every sequence of calls on the file queues of one write (queues are opened,
batches are pushed, queues are finished) in which every call returns: the staged-row
counter of the write is the sum of the staged-row counters of the file queues, and the
counter of every file queue is the number of rows in its staged buffer, both as
`uint64_t` values (modulo `2 ^ 64`); they are equal as numbers when fewer than `2 ^ 64`
rows are staged. `Push` reaches this through `delta_staged`, which wraps when more rows
are delivered than were pushed. -/
theorem staged_row_counter_is_sum_of_queue_counters
    (options : FileSystemDatasetWriteOptions) (rows_in_flight max_open_files
      max_rows_staged : Nat) (calls : List FileQueuesCall) (s : FileQueues)
    (h : run options ([], DatasetWriterState.make rows_in_flight max_open_files
      max_rows_staged) calls = some s) :
    s.2.staged_rows_count = counters s.1 % 2 ^ 64 ∧
    (∀ q ∈ s.1, q.rows_currently_staged = q.staged_batches.flatten.length % 2 ^ 64) ∧
    (staged s.1 < 2 ^ 64 →
      s.2.staged_rows_count = counters s.1 ∧ counters s.1 = staged s.1 ∧
      ∀ q ∈ s.1, q.rows_currently_staged = q.staged_batches.flatten.length) := by
  have h0 : Consistent ([], DatasetWriterState.make rows_in_flight max_open_files
      max_rows_staged) := by
    refine ⟨by simp, ?_⟩
    simp [counters, DatasetWriterState.make]
  obtain ⟨hc, hsum⟩ := Consistent_run calls _ s h0 h
  refine ⟨hsum, hc, ?_⟩
  intro hlt
  obtain ⟨h1, h2⟩ := counters_eq_staged s.1 hc hlt
  refine ⟨?_, h1, h2⟩
  rw [hsum, h1]
  exact Nat.mod_eq_of_lt hlt

end FileQueues

/-! ## The directory queue of a destination -/

namespace DatasetWriterImpl

theorem lookup_setQueue_ne {key key' : String} {q' : DatasetWriterDirectoryQueue}
    (hne : key' ≠ key) :
    ∀ (l : List (String × DatasetWriterDirectoryQueue)),
      (l.map fun kq => if kq.1 = key then (kq.1, q') else kq).lookup key' = l.lookup key' := by
  intro l
  induction l with
  | nil => rfl
  | cons kq rest ih =>
    obtain ⟨k, q₀⟩ := kq
    by_cases hk : k = key
    · subst hk
      have hb : (key' == k) = false := by
        simp only [beq_eq_false_iff_ne, ne_eq]
        exact hne
      rw [List.map_cons, if_pos rfl]
      simp only [List.lookup, hb]
      exact ih
    · rw [List.map_cons, if_neg hk]
      cases hb : key' == k with
      | true => simp only [List.lookup, hb]
      | false =>
        simp only [List.lookup, hb]
        exact ih

theorem lookup_append_ne {key key' : String} {q : DatasetWriterDirectoryQueue}
    (hne : key' ≠ key) :
    ∀ (l : List (String × DatasetWriterDirectoryQueue)),
      (l ++ [(key, q)]).lookup key' = l.lookup key' := by
  intro l
  induction l with
  | nil =>
    have hb : (key' == key) = false := by
      simp only [beq_eq_false_iff_ne, ne_eq]
      exact hne
    simp [List.lookup, hb]
  | cons kq rest ih =>
    obtain ⟨k, q₀⟩ := kq
    cases hb : key' == k with
    | true => simp only [List.cons_append, List.lookup, hb]
    | false =>
      simp only [List.cons_append, List.lookup, hb]
      exact ih

theorem tasksUnder_setQueue {w : DatasetWriterImpl} {ws : DatasetWriterState} {k : String}
    {q q' : DatasetWriterDirectoryQueue} (hlook : w.directory_queues.lookup k = some q)
    (htasks : q'.tasks = q.tasks) (key : String) :
    (setQueue { w with writer_state := ws } k q').tasksUnder key = w.tasksUnder key := by
  unfold tasksUnder setQueue
  by_cases hk : key = k
  · subst hk
    simp only
    rw [lookup_setQueue hlook, hlook]
    simp only [Option.map_some', htasks]
  · simp only
    rw [lookup_setQueue_ne hk]

theorem tasksUnder_CloseLargestFile {w w' : DatasetWriterImpl} {st : Status}
    (h : w.CloseLargestFile = some (some (w', st))) (key : String) :
    w'.tasksUnder key = w.tasksUnder key := by
  unfold CloseLargestFile at h
  split at h
  · simp at h
  · rename_i k _
    split at h
    · simp at h
    · rename_i q hlook
      split at h
      · simp at h
      · rename_i q₁ ws₁ st₁ hfin
        simp only [Option.some.injEq, Prod.mk.injEq] at h
        obtain ⟨rfl, rfl⟩ := h
        obtain ⟨_, _, _, htasks, _⟩ := DatasetWriterDirectoryQueue.FinishCurrentFile_spec hfin
        exact tasksUnder_setQueue hlook htasks key

theorem tasksUnder_setQueue_ne (w : DatasetWriterImpl) (ws : DatasetWriterState)
    {key key' : String} (q : DatasetWriterDirectoryQueue) (hne : key' ≠ key) :
    (setQueue { w with writer_state := ws } key q).tasksUnder key' = w.tasksUnder key' := by
  unfold tasksUnder setQueue
  simp only
  rw [lookup_setQueue_ne hne]

theorem tasksUnder_WriteLoop (key key' : String) (hne : key' ≠ key) :
    ∀ (fuel : Nat) (w : DatasetWriterImpl) (batch : RecordBatch)
      (r : DatasetWriterImpl × WriteOutcome),
      WriteLoop key fuel w batch = some r → r.1.tasksUnder key' = w.tasksUnder key' := by
  intro fuel
  induction fuel with
  | zero => intro w batch r h; simp [WriteLoop] at h
  | succ fuel ih =>
    intro w batch r h
    rw [WriteLoop] at h
    split at h
    · simp only [Option.some.injEq] at h
      rw [← h]
    · rename_i dir_queue hlook
      dsimp only at h
      generalize w.writer_state.rows_in_flight_throttle.Acquire
        (dir_queue.NextWritableChunk w.write_options batch).1.length = rows at h
      generalize (if (dir_queue.NextWritableChunk w.write_options batch).2.2 = true then
          w.writer_state.open_files_throttle.Acquire 1
        else (w.writer_state.open_files_throttle, true)) = files at h
      by_cases hrows : (!rows.2) = true
      · rw [if_pos hrows] at h
        simp only [Option.some.injEq] at h
        subst h
        rfl
      · rw [if_neg hrows] at h
        by_cases hfiles : (!files.2) = true
        · rw [if_pos hfiles] at h
          split at h
          · simp at h
          · simp only [Option.some.injEq] at h
            subst h
            rfl
          · rename_i w₁ st hclose
            have hw₁ := tasksUnder_CloseLargestFile hclose key'
            split at h
            · simp only [Option.some.injEq] at h
              rw [← h]
              exact hw₁
            · simp only [Option.some.injEq] at h
              rw [← h]
              exact hw₁
        · rw [if_neg hfiles] at h
          split at h
          · simp at h
          · rename_i dq₁ ws₁ hstart
            have hw₁ : (setQueue { w with writer_state := ws₁ } key dq₁).tasksUnder key'
                = w.tasksUnder key' := tasksUnder_setQueue_ne w ws₁ dq₁ hne
            split at h
            · simp only [Option.some.injEq] at h
              rw [← h]
              exact hw₁
            · split at h
              · simp at h
              · rename_i dq₂ ws₂ st hfin
                have hw₂ : (setQueue { setQueue { w with writer_state := ws₁ } key dq₁ with
                    writer_state := ws₂ } key dq₂).tasksUnder key' = w.tasksUnder key' := by
                  rw [tasksUnder_setQueue_ne _ ws₂ dq₂ hne]
                  exact hw₁
                split at h
                · rw [ih _ _ _ h]
                  exact hw₂
                · simp only [Option.some.injEq] at h
                  rw [← h]
                  exact hw₂

theorem tasksUnder_DoWriteRecordBatch {w : DatasetWriterImpl} {batch : RecordBatch}
    {directory prefix_ : String} {r : DatasetWriterImpl × WriteOutcome}
    (h : w.DoWriteRecordBatch batch directory prefix_ = some r) (key : String)
    (hne : key ≠ directory ++ prefix_) : r.1.tasksUnder key = w.tasksUnder key := by
  unfold DoWriteRecordBatch at h
  dsimp only at h
  split at h
  · simp only [Option.some.injEq] at h
    rw [← h]
  · rename_i w₁ hcreated
    rw [tasksUnder_WriteLoop _ _ hne _ _ _ _ h]
    split at hcreated
    · simp only [Except.ok.injEq] at hcreated
      rw [← hcreated]
    · split at hcreated
      · rename_i q hmake
        simp only [Except.ok.injEq] at hcreated
        subst hcreated
        unfold tasksUnder
        simp only
        rw [lookup_append_ne hne]
      · simp at hcreated

/-- C37, amended. A directory queue is stored under the key `directory ++ prefix`, the
directory being the base directory, joined with the directory of the destination when
that is not empty. A call of `WriteRecordBatch`, and a resumed `DoWriteRecordBatch`,
add no write task to a directory queue stored under another key: rows written for one
destination are not placed in files of a destination with a different key. -/
theorem write_adds_tasks_only_under_its_key (w : DatasetWriterImpl) (batch : RecordBatch)
    (directory prefix_ key : String) (r : DatasetWriterImpl × WriteOutcome) :
    (w.WriteRecordBatch batch directory prefix_ = some r →
      key ≠ (if !directory.data.isEmpty then
          ConcatAbstractPath w.write_options.base_dir directory
        else w.write_options.base_dir) ++ prefix_ →
      r.1.tasksUnder key = w.tasksUnder key) ∧
    (w.DoWriteRecordBatch batch directory prefix_ = some r →
      key ≠ directory ++ prefix_ → r.1.tasksUnder key = w.tasksUnder key) := by
  refine ⟨?_, fun h hne => tasksUnder_DoWriteRecordBatch h key hne⟩
  intro h hne
  unfold WriteRecordBatch at h
  split at h
  · simp only [Option.some.injEq] at h
    rw [← h]
  · split at h
    · rename_i hd
      rw [if_pos hd] at hne
      exact tasksUnder_DoWriteRecordBatch h key hne
    · rename_i hd
      rw [if_neg hd] at hne
      exact tasksUnder_DoWriteRecordBatch h key hne

/-- Counterexample to C37 as stated: the destinations (`a`, `bc`) and (`ab`, `c`) differ
and have the same key `out/abc`; the second write is resolved to the directory queue of
the first, and its row is recorded for the file `out/a/bcpart-0.arrow`. -/
theorem two_destinations_share_a_queue :
    ((make
      { base_dir := "out", basename_template := "part-{i}.arrow",
        has_file_write_options := true, has_filesystem := true, max_open_files := 0,
        max_rows_per_file := 0, min_rows_per_group := 1, max_rows_per_group := 10,
        existing_data_behavior := .kOverwriteOrIgnore, create_dir := true }
      0).run [.WriteRecordBatch [1, 2] "a" "bc", .WriteRecordBatch [3] "ab" "c"]).map
        (fun w => w.directory_queues.map
          (fun kq => (kq.1, kq.2.directory, kq.2.prefix_, kq.2.tasks)))
      = some [("out/abc", "out/a", "bc",
          [⟨"out/a/bcpart-0.arrow", 2⟩, ⟨"out/a/bcpart-0.arrow", 1⟩])] := by
  decide!

end DatasetWriterImpl

/-! ## Closing the largest file -/

namespace DatasetWriterDirectoryQueue

theorem NextWritableChunk_flag (options : FileSystemDatasetWriteOptions)
    (q : DatasetWriterDirectoryQueue) (batch : RecordBatch) :
    (q.NextWritableChunk options batch).2.2 = decide (q.rows_written = 0) := by
  unfold NextWritableChunk
  dsimp only
  split <;> split <;> rfl

theorem FinishCurrentFile_closed {options : FileSystemDatasetWriteOptions}
    {ws ws' : DatasetWriterState} {q q' : DatasetWriterDirectoryQueue} {st : Status}
    {file : DatasetWriterFileQueue} (hopen : q.latest_open_file = some file)
    (h : q.FinishCurrentFile options ws = some (q', ws', st)) :
    ∃ file', file.Finish options ws = some (file', ws') ∧
      q'.closed_files = q.closed_files ++ [file'] := by
  unfold FinishCurrentFile at h
  simp only [hopen] at h
  cases hfin : file.Finish options ws with
  | none => simp [hfin] at h
  | some r =>
    obtain ⟨file₁, ws₁⟩ := r
    simp only [hfin, GetNextFilename] at h
    cases hname : formatFilename options q.directory q.prefix_ q.file_counter with
    | ok name =>
      simp only [hname, Option.some.injEq, Prod.mk.injEq] at h
      obtain ⟨rfl, rfl, _⟩ := h
      exact ⟨file₁, rfl, rfl⟩
    | error e =>
      simp only [hname, Option.some.injEq, Prod.mk.injEq] at h
      obtain ⟨rfl, rfl, _⟩ := h
      exact ⟨file₁, rfl, rfl⟩

end DatasetWriterDirectoryQueue

namespace DatasetWriterImpl

theorem largestQueue_spec :
    ∀ (l : List (String × DatasetWriterDirectoryQueue)) (best : Option String) (n : Nat),
      match largestQueue l best n with
      | none => best = none ∧ ∀ kq ∈ l, kq.2.rows_written ≤ n
      | some k =>
        (best = some k ∧ ∀ kq ∈ l, kq.2.rows_written ≤ n) ∨
        ∃ q, (k, q) ∈ l ∧ n < q.rows_written ∧ ∀ kq ∈ l, kq.2.rows_written ≤ q.rows_written := by
  intro l
  induction l with
  | nil =>
    intro best n
    unfold largestQueue
    cases best with
    | none => exact ⟨rfl, by simp⟩
    | some k => exact Or.inl ⟨rfl, by simp⟩
  | cons kq rest ih =>
    intro best n
    unfold largestQueue
    by_cases hgt : kq.2.rows_written > n
    · rw [if_pos hgt]
      have := ih (some kq.1) kq.2.rows_written
      cases hres : largestQueue rest (some kq.1) kq.2.rows_written with
      | none =>
        rw [hres] at this
        exact absurd this.1 (by simp)
      | some k =>
        rw [hres] at this
        dsimp only at this ⊢
        right
        rcases this with ⟨hk, hle⟩ | ⟨q, hmem, hlt, hle⟩
        · simp only [Option.some.injEq] at hk
          refine ⟨kq.2, ?_, hgt, ?_⟩
          · rw [← hk]; exact List.mem_cons_self _ _
          · intro x hx
            rcases List.mem_cons.mp hx with rfl | hx
            · exact le_refl _
            · exact hle x hx
        · refine ⟨q, List.mem_cons_of_mem _ hmem, by omega, ?_⟩
          intro x hx
          rcases List.mem_cons.mp hx with rfl | hx
          · omega
          · exact hle x hx
    · rw [if_neg hgt]
      have := ih best n
      cases hres : largestQueue rest best n with
      | none =>
        rw [hres] at this
        dsimp only at this ⊢
        refine ⟨this.1, ?_⟩
        intro x hx
        rcases List.mem_cons.mp hx with rfl | hx
        · omega
        · exact this.2 x hx
      | some k =>
        rw [hres] at this
        dsimp only at this ⊢
        rcases this with ⟨hk, hle⟩ | ⟨q, hmem, hlt, hle⟩
        · left
          refine ⟨hk, ?_⟩
          intro x hx
          rcases List.mem_cons.mp hx with rfl | hx
          · omega
          · exact hle x hx
        · right
          refine ⟨q, List.mem_cons_of_mem _ hmem, hlt, ?_⟩
          intro x hx
          rcases List.mem_cons.mp hx with rfl | hx
          · omega
          · exact hle x hx

theorem lookup_of_mem_nodup {key : String} {q : DatasetWriterDirectoryQueue} :
    ∀ {l : List (String × DatasetWriterDirectoryQueue)}, (l.map (·.1)).Nodup →
      (key, q) ∈ l → l.lookup key = some q := by
  intro l
  induction l with
  | nil => intro _ h; simp at h
  | cons kq rest ih =>
    intro hnd hmem
    obtain ⟨k, q₀⟩ := kq
    simp only [List.map_cons, List.nodup_cons, List.mem_map, not_exists, not_and] at hnd
    rcases List.mem_cons.mp hmem with heq | hmem
    · simp only [Prod.mk.injEq] at heq
      obtain ⟨rfl, rfl⟩ := heq
      simp [List.lookup]
    · have hne : (key == k) = false := by
        simp only [beq_eq_false_iff_ne, ne_eq]
        intro hk
        exact hnd.1 (key, q) hmem hk
      simp only [List.lookup, hne]
      exact ih hnd.2 hmem

/-- The closing of the largest file when `largest` is not null. A pass of
`DoWriteRecordBatch` on a writer with valid options, for a directory queue that has to
open a file (`rows_written = 0`): the rows-in-flight throttle grants
the chunk, `open_files_throttle.Acquire(1)` returns a future that is not finished, and
some directory queue has rows written to its current file. Then the pass calls
`CloseLargestFile`, which selects a directory queue `q` whose `rows_written` is positive
and is the maximum over all directory queues, and finishes its current file: the open
file queue of `q`, if any, is finished (nothing stays staged) and moved to the closed
files, `latest_open_file` is cleared, `rows_written` is 0, the file name is the one
generated from the counter, which advances, and no write task is added. Every other
directory queue is as before, and the pass returns a pending future that resumes with
the whole batch. -/
theorem denied_permit_closes_largest_file (w : DatasetWriterImpl) (key : String)
    (dir_queue : DatasetWriterDirectoryQueue) (batch : RecordBatch) (fuel : Nat)
    (hvalid : ValidateOptions w.write_options = .OK)
    (hkeys : (w.directory_queues.map (·.1)).Nodup)
    (hlook : w.directory_queues.lookup key = some dir_queue)
    (hnew : dir_queue.rows_written = 0)
    (hrows : (w.writer_state.rows_in_flight_throttle.Acquire
      (dir_queue.NextWritableChunk w.write_options batch).1.length).2 = true)
    (hfiles : (w.writer_state.open_files_throttle.Acquire 1).2 = false)
    (hsome : ∃ kq ∈ w.directory_queues, 0 < kq.2.rows_written) :
    ∃ k q q' ws' name,
      (k, q) ∈ w.directory_queues ∧ 0 < q.rows_written ∧
      (∀ kq ∈ w.directory_queues, kq.2.rows_written ≤ q.rows_written) ∧
      WriteLoop key (fuel + 1) w batch = some
        ({ w with
            writer_state := ws'
            directory_queues :=
              w.directory_queues.map fun kq => if kq.1 = k then (kq.1, q') else kq },
          .backpressure batch) ∧
      q'.latest_open_file = none ∧ q'.rows_written = 0 ∧
      DatasetWriterDirectoryQueue.formatFilename w.write_options q.directory q.prefix_
        q.file_counter = .ok name ∧
      q'.current_filename = name ∧ q'.file_counter = (q.file_counter + 1) % 2 ^ 32 ∧
      q'.tasks = q.tasks ∧ q'.directory = q.directory ∧ q'.prefix_ = q.prefix_ ∧
      (∀ file, q.latest_open_file = some file →
        ∃ file', q'.closed_files = q.closed_files ++ [file'] ∧ file'.finished = true ∧
          file'.staged_batches = [] ∧ file'.filename = file.filename ∧
          file'.scheduled.flatten = file.scheduled.flatten ++ file.staged_batches.flatten) ∧
      (q.latest_open_file = none → q'.closed_files = q.closed_files) ∧
      ws'.rows_in_flight_throttle =
        (w.writer_state.rows_in_flight_throttle.Acquire
          (dir_queue.NextWritableChunk w.write_options batch).1.length).1 ∧
      ws'.open_files_throttle = (w.writer_state.open_files_throttle.Acquire 1).1 := by
  obtain ⟨htemplate, _, _, hG, _, _⟩ := (ValidateOptions_iff _).mp hvalid
  obtain ⟨pre, post, _, hname⟩ := formatFilename_valid w.write_options htemplate
  -- the queue that the loop of `CloseLargestFile` selects
  have hl := largestQueue_spec w.directory_queues none 0
  cases hlq : largestQueue w.directory_queues none 0 with
  | none =>
    rw [hlq] at hl
    obtain ⟨kq, hmem, hpos⟩ := hsome
    have := hl.2 kq hmem
    omega
  | some k =>
    rw [hlq] at hl
    rcases hl with ⟨hk, _⟩ | ⟨q, hmem, hpos, hmax⟩
    · exact absurd hk (by simp)
    · have hlookk : w.directory_queues.lookup k = some q := lookup_of_mem_nodup hkeys hmem
      obtain ⟨⟨q', ws', st⟩, hfin⟩ := DatasetWriterDirectoryQueue.FinishCurrentFile_total
        w.write_options
        { w.writer_state with
          rows_in_flight_throttle :=
            (w.writer_state.rows_in_flight_throttle.Acquire
              (dir_queue.NextWritableChunk w.write_options batch).1.length).1
          open_files_throttle := (w.writer_state.open_files_throttle.Acquire 1).1 }
        q hG
      obtain ⟨h1, h2, h3, h4, h5, h6, h7, h8⟩ :=
        DatasetWriterDirectoryQueue.FinishCurrentFile_spec hfin
      obtain ⟨hs1, hs2⟩ := DatasetWriterDirectoryQueue.FinishCurrentFile_state hfin
      rw [hname] at h6
      obtain ⟨hst, hcur⟩ := h6
      subst hst
      refine ⟨k, q, q', ws', _, hmem, hpos, hmax, ?_, h2, h1, hname _ _ _, hcur, h3, h4, h7,
        h8, ?_, ?_, hs1, hs2⟩
      · rw [WriteLoop]
        simp only [hlook, DatasetWriterDirectoryQueue.NextWritableChunk_flag, hnew,
          decide_True, if_true, hrows, Bool.not_true, Bool.false_eq_true, if_false, hfiles,
          Bool.not_false, CloseLargestFile, hlq, hlookk, hfin, setQueue]
        rfl
      · intro file hopen
        obtain ⟨file', hfinish, hclosed⟩ :=
          DatasetWriterDirectoryQueue.FinishCurrentFile_closed hopen hfin
        obtain ⟨gs, g1, g2, _, g4, g5, g6, _⟩ := DatasetWriterFileQueue.Finish_spec hfinish
        refine ⟨file', hclosed, g6, g4, g5, ?_⟩
        rw [g1, List.flatten_append, g2]
      · intro hopen
        rw [hopen] at h5
        exact h5

/-- Example of the closing of the largest file: one row for the directory `out/b`, while
the only permit is held by the file of `out/a`, to which two rows were written. -/
theorem denied_permit_closes_largest_file_witness :
    ∃ k q w',
      (k, q) ∈ oneFileOpen.directory_queues ∧ 0 < q.rows_written ∧
      WriteLoop "out/b" 1 oneFileOpen [3] = some (w', .backpressure [3]) :=
  (denied_permit_closes_largest_file oneFileOpen "out/b"
      { directory := "out/b"
        prefix_ := ""
        init_future := true
        current_filename := "out/b/part-0.arrow"
        latest_open_file := none
        rows_written := 0
        file_counter := 1
        tasks := []
        closed_files := [] }
      [3] 0 (by decide!) (by decide!) (by decide!) rfl (by decide!) (by decide!)
      ⟨_, List.mem_cons_self _ _, by decide⟩).elim fun k h =>
    h.elim fun q h => h.elim fun _ h => h.elim fun _ h => h.elim fun _ h =>
      ⟨k, q, _, h.1, h.2.1, h.2.2.2.1⟩

/-- C31, at the failing input. One file may be open and a file takes 2 rows; a batch of
3 rows is written to the directory `a`. The first 2 rows fill the file `part-0`, whose
file queue is finished (the permit is released only when the file is torn down). The
third row has to open a new file and the permit is refused; every directory queue has
`rows_written = 0`, so the loop of `CloseLargestFile` selects no queue and the call
dereferences the null `largest`: the write does not return a pending future, and no
current file is closed by it (the only closed file is `part-0`, closed after it was
filled). -/
theorem denied_permit_with_no_rows_written :
    ((make
      { base_dir := "out", basename_template := "part-{i}.arrow",
        has_file_write_options := true, has_filesystem := true, max_open_files := 1,
        max_rows_per_file := 2, min_rows_per_group := 1, max_rows_per_group := 2,
        existing_data_behavior := .kOverwriteOrIgnore, create_dir := true }
      0).WriteRecordBatch [1, 2, 3] "a" "").map
        (fun r => (r.2,
          r.1.directory_queues.map (fun kq =>
            (kq.2.rows_written, kq.2.closed_files.map (·.filename))),
          (r.1.writer_state.open_files_throttle.Acquire 1).2,
          (largestQueue r.1.directory_queues none 0).isSome))
      = some (.undefined, [(0, ["out/a/part-0.arrow"])], false, false) := by
  decide!

/-- Witness for C37: a write to the destination (`a`, `b`) leaves the key `out/c`
alone. -/
theorem write_adds_tasks_only_under_its_key_witness :
    ∃ r,
      (make
        { base_dir := "out", basename_template := "part-{i}.arrow",
          has_file_write_options := true, has_filesystem := true, max_open_files := 0,
          max_rows_per_file := 0, min_rows_per_group := 1, max_rows_per_group := 10,
          existing_data_behavior := .kOverwriteOrIgnore, create_dir := true }
        0).WriteRecordBatch [1] "a" "b" = some r ∧
      r.1.tasksUnder "out/c" = none :=
  have h : ((make
      { base_dir := "out", basename_template := "part-{i}.arrow",
        has_file_write_options := true, has_filesystem := true, max_open_files := 0,
        max_rows_per_file := 0, min_rows_per_group := 1, max_rows_per_group := 10,
        existing_data_behavior := .kOverwriteOrIgnore, create_dir := true }
      0).WriteRecordBatch [1] "a" "b").isSome = true := by decide!
  ⟨_, (Option.some_get h).symm,
    (write_adds_tasks_only_under_its_key _ [1] "a" "b" "out/c" _).1
      (Option.some_get h).symm (by decide!)⟩

end DatasetWriterImpl

namespace FileQueues

/-- Witness for C36: with a minimum group of 5 rows, 3 rows are staged, and the push of
4 more rows delivers all 7, more than it pushed. -/
theorem staged_row_counter_is_sum_of_queue_counters_witness :
    run
      { base_dir := "out", basename_template := "part-{i}.arrow",
        has_file_write_options := true, has_filesystem := true, max_open_files := 0,
        max_rows_per_file := 0, min_rows_per_group := 5, max_rows_per_group := 10,
        existing_data_behavior := .kOverwriteOrIgnore, create_dir := true }
      ([], DatasetWriterState.make 0 0 100)
      [.Open "f", .Push 0 [1, 2, 3], .Push 0 [4, 5, 6, 7]]
      = some
        ([{ staged_batches := [], rows_currently_staged := 0, filename := "f",
            scheduled := [[1, 2, 3, 4, 5, 6, 7]], finished := false }],
          DatasetWriterState.make 0 0 100) ∧
    (0 : Nat) = 0 % 2 ^ 64 :=
  have hrun : run
      { base_dir := "out", basename_template := "part-{i}.arrow",
        has_file_write_options := true, has_filesystem := true, max_open_files := 0,
        max_rows_per_file := 0, min_rows_per_group := 5, max_rows_per_group := 10,
        existing_data_behavior := .kOverwriteOrIgnore, create_dir := true }
      ([], DatasetWriterState.make 0 0 100)
      [.Open "f", .Push 0 [1, 2, 3], .Push 0 [4, 5, 6, 7]]
      = some
        ([{ staged_batches := [], rows_currently_staged := 0, filename := "f",
            scheduled := [[1, 2, 3, 4, 5, 6, 7]], finished := false }],
          DatasetWriterState.make 0 0 100) := by decide!
  ⟨hrun, (staged_row_counter_is_sum_of_queue_counters _ 0 0 100 _ _ hrun).1⟩

end FileQueues

end Dataset
end Arrow
